import Mathlib

/-!
# NFB XDP driver: channel life cycle and page-pool ring controller

A shallow embedding of `drivers/kernel/drivers/nfb/xdp/channel.c` and
`drivers/kernel/drivers/nfb/xdp/ctrl_xdp_pp.c`.

Conventions of the embedding

* Pointers are natural numbers, `0` is `NULL`.  Error pointers follow the
  kernel encoding: a 64-bit pointer `p` is an error pointer when
  `p ≥ 2^64 - MAX_ERRNO`, and `PTR_ERR p = p - 2^64`.
* Calls into code that is not part of the embedded files (allocators, the
  hardware start routine, the scheduler, NAPI) are recorded as events in a
  log; their results are supplied by an environment record.
* `u32` arithmetic is written on `Nat` with explicit reduction modulo `2^32`,
  `u16` with reduction modulo `2^16`.
-/

namespace NfbXdp

/-! ## Bit operations on the status word -/

/-- The kernel macro `BIT(n)`. -/
def BIT (n : Nat) : Nat := 1 <<< n

/-- From `channel.h`: `#define NFB_STATUS_IS_XSK BIT(0)`. -/
def NFB_STATUS_IS_XSK : Nat := BIT 0

/-- From `channel.h`: `#define NFB_STATUS_IS_RUNNING BIT(1)`. -/
def NFB_STATUS_IS_RUNNING : Nat := BIT 1

/-- Kernel `test_bit(nr, addr)`: is bit number `nr` of the word set. -/
def test_bit (nr : Nat) (w : Nat) : Bool := w.testBit nr

/-- Kernel `set_bit(nr, addr)`: `*addr |= 1UL << nr`. -/
def set_bit (nr : Nat) (w : Nat) : Nat := w ||| (1 <<< nr)

/-- Kernel `clear_bit(nr, addr)`: `*addr &= ~(1UL << nr)`.  The complement is
written `w ^^^ (1 <<< nr)` under the conjunction with `w`, which is the same
word for every width. -/
def clear_bit (nr : Nat) (w : Nat) : Nat := w &&& (w ^^^ (1 <<< nr))

/-! ## Channel data model (`channel.h`) -/

/-- Kernel `MAX_ERRNO`. -/
def MAX_ERRNO : Nat := 4095

/-- Kernel `IS_ERR(ptr)` on a 64-bit pointer: the pointer value lies in the
last `MAX_ERRNO` addresses of the 64-bit address space. -/
def IS_ERR (p : Nat) : Bool := decide (2 ^ 64 - MAX_ERRNO ≤ p ∧ p < 2 ^ 64)

/-- Kernel `PTR_ERR(ptr)`: the pointer read as a signed 64-bit number. -/
def PTR_ERR (p : Nat) : Int := if p < 2 ^ 63 then (p : Int) else (p : Int) - 2 ^ 64

def EBUSY : Int := 16
def EINVAL : Int := 22
def ENOMEM : Int := 12

/-- Buffer-ownership mode of a queue controller routine (`_pp` or `_xsk`). -/
inductive Mode where
  | pp
  | xsk
  deriving DecidableEq, Repr

/-- Direction of a queue controller (`enum xdp_ctrl_type`). -/
inductive CtrlType where
  | NFB_XCTRL_RX
  | NFB_XCTRL_TX
  deriving DecidableEq, Repr

/-- Which NAPI context of a channel a call refers to. -/
inductive Napi where
  | rx_pp
  | rx_xsk
  | tx_xsk
  deriving DecidableEq, Repr

/-- Calls that leave `channel.c`, in the order they are made. -/
inductive Event where
  | alloc (m : Mode) (t : CtrlType) (ctrl : Nat)
  | xctrl_start (ctrl : Nat)
  | destroy (m : Mode) (ctrl : Nat)
  | kthread_create (t : CtrlType) (thread : Nat)
  | get_task_struct (thread : Nat)
  | put_task_struct (thread : Nat)
  | wake_up_process (thread : Nat)
  | kthread_stop (thread : Nat)
  | napi_enable (n : Napi)
  | napi_disable (n : Napi)
  | netif_tx_start_queue
  | netif_tx_stop_queue
  | set_bit (nr : Nat)
  | clear_bit (nr : Nat)
  deriving DecidableEq, Repr

/-- The record `struct nfb_xdp_queue`: controller pointer and thread pointer. -/
structure nfb_xdp_queue where
  ctrl : Nat
  thread : Nat
  deriving DecidableEq, Repr

/-- The record `struct nfb_xdp_channel` (fields read or written by
`channel.c`). -/
structure nfb_xdp_channel where
  status : Nat
  txq : nfb_xdp_queue
  rxq : nfb_xdp_queue
  deriving DecidableEq, Repr

/-- Channel together with the part of the kernel it acts on: the queue
controllers currently alive, the next address the controller allocator hands
out, and the log of outgoing calls. -/
structure World where
  channel : nfb_xdp_channel
  live : List Nat
  next : Nat
  log : List Event
  deriving DecidableEq, Repr

/-- Results of the outgoing calls of one `channel_start_*` call.
`rx_alloc`/`tx_alloc` tell whether `nfb_xctrl_alloc_*` succeeds,
`rx_start`/`tx_start` are the return values of `nfb_xctrl_start`, and
`rx_thread`/`tx_thread` are the pointers returned by
`kthread_create_on_node`. -/
structure StartEnv where
  rx_alloc : Bool
  tx_alloc : Bool
  rx_start : Int
  tx_start : Int
  rx_thread : Nat
  tx_thread : Nat
  deriving DecidableEq, Repr

def World.emit (w : World) (e : Event) : World := { w with log := w.log ++ [e] }

/-- A call of `nfb_xctrl_alloc_pp` / `nfb_xctrl_alloc_xsk`: on success a
controller at a fresh non-null address comes to life, on failure `NULL` is
returned and nothing is allocated. -/
def xctrl_alloc (m : Mode) (t : CtrlType) (ok : Bool) (w : World) : Nat × World :=
  if ok then
    (w.next + 1,
      { w with live := (w.next + 1) :: w.live, next := w.next + 1,
               log := w.log ++ [Event.alloc m t (w.next + 1)] })
  else (0, w)

/-- A call of `nfb_xctrl_destroy_pp` / `nfb_xctrl_destroy_xsk`: the controller
is torn down and its memory released. -/
def xctrl_destroy (m : Mode) (ctrl : Nat) (w : World) : World :=
  { w with live := w.live.erase ctrl, log := w.log ++ [Event.destroy m ctrl] }

/-- The function `channel_create_threads` of `channel.c`. -/
def channel_create_threads (env : StartEnv) (w0 : World) : Int × World :=
  -- channel->rxq.thread = kthread_create_on_node(nfb_xdp_rx_thread, ...)
  let w := { w0 with channel := { w0.channel with rxq := { w0.channel.rxq with thread := env.rx_thread } } }
  let w := w.emit (Event.kthread_create CtrlType.NFB_XCTRL_RX env.rx_thread)
  if IS_ERR w.channel.rxq.thread then
    -- ret = PTR_ERR(channel->rxq.thread); goto err_kthread_rx;
    (PTR_ERR w.channel.rxq.thread, w)
  else
    let w := w.emit (Event.get_task_struct w.channel.rxq.thread)
    let w :=
      if !test_bit NFB_STATUS_IS_XSK w.channel.status then w.emit (Event.napi_enable Napi.rx_pp)
      else w.emit (Event.napi_enable Napi.rx_xsk)
    let w := w.emit (Event.wake_up_process w.channel.rxq.thread)
    -- channel->txq.thread = kthread_create_on_node(nfb_xdp_tx_thread, ...)
    let w := { w with channel := { w.channel with txq := { w.channel.txq with thread := env.tx_thread } } }
    let w := w.emit (Event.kthread_create CtrlType.NFB_XCTRL_TX env.tx_thread)
    if IS_ERR w.channel.txq.thread then
      let ret := PTR_ERR w.channel.txq.thread
      -- err_kthread_tx: collect rx thread
      let w :=
        if w.channel.rxq.thread ≠ 0 then
          let w := w.emit (Event.kthread_stop w.channel.rxq.thread)
          let w := w.emit (Event.put_task_struct w.channel.rxq.thread)
          { w with channel := { w.channel with rxq := { w.channel.rxq with thread := 0 } } }
        else w
      (ret, w)
    else
      let w := w.emit (Event.get_task_struct w.channel.txq.thread)
      let w :=
        if !test_bit NFB_STATUS_IS_XSK w.channel.status then w
        else w.emit (Event.napi_enable Napi.tx_xsk)
      let w := w.emit Event.netif_tx_start_queue
      let w := w.emit (Event.wake_up_process w.channel.txq.thread)
      (0, w)

/-- Common body of `channel_start_pp` (`m = pp`) and `channel_start_xsk`
(`m = xsk`); the two C functions differ only in the allocation and destroy
routine they call.  The mutex calls are balanced on every path and are not
recorded. -/
def channel_start (m : Mode) (env : StartEnv) (w : World) : Int × World :=
  if test_bit NFB_STATUS_IS_RUNNING w.channel.status then
    -- ret = -EBUSY; goto err_channel_running;
    (-EBUSY, w)
  else
    -- rxq->ctrl = nfb_xctrl_alloc_*(..., NFB_XCTRL_RX)
    let (p, w) := xctrl_alloc m CtrlType.NFB_XCTRL_RX env.rx_alloc w
    let w := { w with channel := { w.channel with rxq := { w.channel.rxq with ctrl := p } } }
    if w.channel.rxq.ctrl = 0 then
      -- ret = -ENOMEM; goto err_alloc_rx;
      (-ENOMEM, w)
    else
      -- txq->ctrl = nfb_xctrl_alloc_*(..., NFB_XCTRL_TX)
      let (p, w) := xctrl_alloc m CtrlType.NFB_XCTRL_TX env.tx_alloc w
      let w := { w with channel := { w.channel with txq := { w.channel.txq with ctrl := p } } }
      if w.channel.txq.ctrl = 0 then
        -- ret = -ENOMEM; goto err_alloc_tx;
        (-ENOMEM, xctrl_destroy m w.channel.rxq.ctrl w)
      else
        let w := w.emit (Event.xctrl_start w.channel.rxq.ctrl)
        if env.rx_start ≠ 0 then
          -- goto err_start_rx;
          (env.rx_start, xctrl_destroy m w.channel.rxq.ctrl (xctrl_destroy m w.channel.txq.ctrl w))
        else
          let w := w.emit (Event.xctrl_start w.channel.txq.ctrl)
          if env.tx_start ≠ 0 then
            -- goto err_start_tx;
            (env.tx_start, xctrl_destroy m w.channel.rxq.ctrl (xctrl_destroy m w.channel.txq.ctrl w))
          else
            let (ret, w) := channel_create_threads env w
            if ret ≠ 0 then
              -- goto err_threads;
              (ret, xctrl_destroy m w.channel.rxq.ctrl (xctrl_destroy m w.channel.txq.ctrl w))
            else
              -- set_bit(NFB_STATUS_IS_RUNNING, &channel->status);
              let w := w.emit (Event.set_bit NFB_STATUS_IS_RUNNING)
              (ret, { w with channel := { w.channel with
                        status := set_bit NFB_STATUS_IS_RUNNING w.channel.status } })

/-- The function `channel_start_pp` of `channel.c`. -/
def channel_start_pp (env : StartEnv) (w : World) : Int × World :=
  channel_start Mode.pp env w

/-- The function `channel_start_xsk` of `channel.c`. -/
def channel_start_xsk (env : StartEnv) (w : World) : Int × World :=
  channel_start Mode.xsk env w

/-- The function `channel_stop` of `channel.c`.  The busy-wait loops on
`napi_disable_pending` have no effect on the channel and are not recorded. -/
def channel_stop (w : World) : Int × World :=
  if !test_bit NFB_STATUS_IS_RUNNING w.channel.status then
    -- ret = -EINVAL; goto err_channel_not_running;
    (-EINVAL, w)
  else
    -- collect rx thread
    let w :=
      if w.channel.rxq.thread ≠ 0 then
        let w := w.emit (Event.kthread_stop w.channel.rxq.thread)
        let w := w.emit (Event.put_task_struct w.channel.rxq.thread)
        { w with channel := { w.channel with rxq := { w.channel.rxq with thread := 0 } } }
      else w
    let w :=
      if !test_bit NFB_STATUS_IS_XSK w.channel.status then w.emit (Event.napi_disable Napi.rx_pp)
      else w.emit (Event.napi_disable Napi.rx_xsk)
    -- collect tx thread
    let w := w.emit Event.netif_tx_stop_queue
    let w :=
      if w.channel.txq.thread ≠ 0 then
        let w := w.emit (Event.kthread_stop w.channel.txq.thread)
        let w := w.emit (Event.put_task_struct w.channel.txq.thread)
        { w with channel := { w.channel with txq := { w.channel.txq with thread := 0 } } }
      else w
    let w :=
      if !test_bit NFB_STATUS_IS_XSK w.channel.status then w
      else w.emit (Event.napi_disable Napi.tx_xsk)
    let w :=
      if !test_bit NFB_STATUS_IS_XSK w.channel.status then
        xctrl_destroy Mode.pp w.channel.txq.ctrl (xctrl_destroy Mode.pp w.channel.rxq.ctrl w)
      else
        xctrl_destroy Mode.xsk w.channel.txq.ctrl (xctrl_destroy Mode.xsk w.channel.rxq.ctrl w)
    -- clear_bit(NFB_STATUS_IS_RUNNING, &channel->status);
    let w := w.emit (Event.clear_bit NFB_STATUS_IS_RUNNING)
    (0, { w with channel := { w.channel with
            status := clear_bit NFB_STATUS_IS_RUNNING w.channel.status } })

/-- Is the running flag of the channel set. -/
def World.running (w : World) : Bool := test_bit NFB_STATUS_IS_RUNNING w.channel.status

/-- Every step of a start attempt succeeds in this environment. -/
def StartEnv.all_ok (env : StartEnv) : Bool :=
  env.rx_alloc && env.tx_alloc && decide (env.rx_start = 0) && decide (env.tx_start = 0)
    && !IS_ERR env.rx_thread && !IS_ERR env.tx_thread

/-- Controllers allocated by the calls of an event list, in order. -/
def allocated : List Event → List Nat
  | [] => []
  | Event.alloc _ _ c :: es => c :: allocated es
  | _ :: es => allocated es

/-- Controllers destroyed by the calls of an event list, in order. -/
def destroyed : List Event → List Nat
  | [] => []
  | Event.destroy _ c :: es => c :: destroyed es
  | _ :: es => destroyed es

/-- The events a call appended to the log of the world it started from. -/
def new_events (before after : World) : List Event := after.log.drop before.log.length

/-- The channel owns a live RX and a live TX queue controller. -/
def World.owns_live (w : World) : Prop :=
  w.channel.rxq.ctrl ∈ w.live ∧ w.channel.txq.ctrl ∈ w.live ∧
    w.channel.rxq.ctrl ≠ w.channel.txq.ctrl

/-- One control-plane call on a channel. -/
inductive Call where
  | start_pp (env : StartEnv)
  | start_xsk (env : StartEnv)
  | stop

/-- Perform one control-plane call. -/
def Call.exec : Call → World → Int × World
  | Call.start_pp env, w => channel_start_pp env w
  | Call.start_xsk env, w => channel_start_xsk env w
  | Call.stop, w => channel_stop w

/-- Perform a sequence of control-plane calls, left to right. -/
def run : List Call → World → World
  | [], w => w
  | c :: cs, w => run cs (c.exec w).2

/-- Outcome of a failed start attempt from world `w`: a non-zero return value,
the running flag clear, the controllers allocated by the attempt pairwise
distinct, the controllers destroyed by the attempt exactly those allocated by
it (each once), and the set of controllers alive before the attempt
untouched. -/
def rolled_back (w : World) (r : Int × World) : Prop :=
  r.1 ≠ 0 ∧ r.2.running = false ∧
    (allocated (new_events w r.2)).Nodup ∧
    (destroyed (new_events w r.2)).Perm (allocated (new_events w r.2)) ∧
    r.2.live = w.live

/-- Ownership invariant of a channel: while the running flag is set exactly
the two controllers held in the queue records are alive and they are
distinct; while it is clear the channel keeps no controller alive. -/
def World.inv (w : World) : Prop :=
  (w.running = true →
      w.live = [w.channel.txq.ctrl, w.channel.rxq.ctrl] ∧
        w.channel.rxq.ctrl ≠ w.channel.txq.ctrl) ∧
    (w.running = false → w.live = [])

/-! ### Concrete worlds and environments used as test inputs -/

/-- A running channel that owns controllers `1` (RX) and `2` (TX). -/
def running_world : World :=
  { channel := { status := 4, txq := { ctrl := 2, thread := 11 }, rxq := { ctrl := 1, thread := 10 } },
    live := [2, 1], next := 2, log := [] }

/-- A freshly created, stopped channel. -/
def stopped_world : World :=
  { channel := { status := 0, txq := { ctrl := 0, thread := 0 }, rxq := { ctrl := 0, thread := 0 } },
    live := [], next := 0, log := [] }

/-- An environment in which every step of a start succeeds. -/
def ok_env : StartEnv :=
  { rx_alloc := true, tx_alloc := true, rx_start := 0, tx_start := 0, rx_thread := 20, tx_thread := 21 }

/-- An environment in which the TX thread cannot be created
(`ERR_PTR(-ENOMEM)`). -/
def tx_thread_fail_env : StartEnv :=
  { ok_env with tx_thread := 2 ^ 64 - 12 }

/-! ## Page-pool ring controller (`ctrl_xdp_pp.c`) -/

/-- Constants and macros used by `ctrl_xdp_pp.c` whose definitions live in
headers outside the embedded files.  `frame_len` stands for
`PAGE_SIZE - SKB_DATA_ALIGN(XDP_PACKET_HEADROOM + sizeof(struct skb_shared_info))`. -/
structure Params where
  NFB_XDP_CTRL_PACKET_BURST : Nat
  PAGE_SIZE : Nat
  XDP_PACKET_HEADROOM : Nat
  frame_len : Nat
  NDP_CTRL_DESC_UPPER_ADDR : Nat → Nat

/-- Subtraction of `u32` values. -/
def sub32 (a b : Nat) : Nat := (a % 2 ^ 32 + 2 ^ 32 - b % 2 ^ 32) % 2 ^ 32

/-- Addition of `u32` values. -/
def add32 (a b : Nat) : Nat := (a + b) % 2 ^ 32

/-- Conversion of a `u32` value to `int`. -/
def int_of_u32 (x : Nat) : Int := if x % 2 ^ 32 < 2 ^ 31 then ((x % 2 ^ 32 : Nat) : Int)
  else ((x % 2 ^ 32 : Nat) : Int) - 2 ^ 32

/-- A hardware descriptor, kept symbolic: type 0 carries the upper address
bits of the buffers that follow, type 2 describes one data buffer. -/
inductive nc_ndp_desc where
  | desc0 (phys : Nat)
  | desc2 (phys : Nat) (len : Nat) (meta : Nat) (next : Nat)
  deriving DecidableEq, Repr

/-- The descriptor built by `nc_ndp_rx_desc0(phys)`. -/
def nc_ndp_rx_desc0 (phys : Nat) : nc_ndp_desc := nc_ndp_desc.desc0 phys

/-- The descriptor built by `nc_ndp_rx_desc2(phys, len, next)`. -/
def nc_ndp_rx_desc2 (phys len next : Nat) : nc_ndp_desc := nc_ndp_desc.desc2 phys len 0 next

/-- A completion header written by the hardware (`struct nc_ndp_hdr`). -/
structure nc_ndp_hdr where
  frame_len : Nat
  deriving DecidableEq, Repr

/-- The fields of `struct xdp_buff` the driver touches. -/
structure xdp_buff where
  data : Nat
  data_end : Nat
  data_meta : Nat
  data_hard_start : Nat
  frame_sz : Nat
  deriving DecidableEq, Repr

/-- A page of the page pool: its kernel virtual address (`page_to_virt`) and
its DMA address (`page_pool_get_dma_addr`). -/
structure page where
  virt : Nat
  dma : Nat
  deriving DecidableEq, Repr

/-- The cursor block `struct nc_ndp_ctrl` (`ctrl->c`). -/
structure nc_ndp_ctrl where
  sdp : Nat
  hdp : Nat
  shp : Nat
  hhp : Nat
  mdp : Nat
  mhp : Nat
  last_upper_addr : Nat

/-- Tag of a TX buffer record (`ctrl->tx.buffers[i].type`).  The enumeration
is declared outside the embedded files; the page-pool code uses the two named
tags, all others are kept as `other`. -/
inductive xctrl_buff_type where
  | NFB_XCTRL_BUFF_DESC_TYPE0
  | NFB_XCTRL_BUFF_FRAME_PP
  | other (tag : Nat)
  deriving DecidableEq, Repr

/-- A TX buffer record (`struct xctrl_tx_buffer`): the tag and the frame
pointer, which is meaningful for frame tags only. -/
structure xctrl_tx_buffer where
  type : xctrl_buff_type
  frame : Nat
  deriving DecidableEq, Repr

/-- The record `struct xctrl`: cursor block, `rx.php`, the descriptor ring
`desc_buffer_virt`, the buffers `rx.pp.xdp_ring[i]` point to, the header ring
`rx.hdr_buffer_cpu`, the direction `type`, and for TX the reclaim cursor
`tx.fdp` and the buffer records `tx.buffers`. -/
structure xctrl where
  c : nc_ndp_ctrl
  php : Nat
  descs : Nat → nc_ndp_desc
  xdp_ring : Nat → xdp_buff
  hdrs : Nat → nc_ndp_hdr
  type : CtrlType := CtrlType.NFB_XCTRL_RX
  fdp : Nat := 0
  tx_buffers : Nat → xctrl_tx_buffer := fun _ => { type := xctrl_buff_type.other 0, frame := 0 }

/-- Modelled from the spec: `nc_ndp_ctrl_hdp_update` is defined outside the
embedded files; by section 4.1 it re-reads the hardware-maintained shadow
cursor, here the value `hw` the hardware last wrote. -/
def nc_ndp_ctrl_hdp_update (hw : Nat) (c : nc_ndp_ctrl) : nc_ndp_ctrl := { c with hdp := hw }

/-- Modelled from the spec: `nc_ndp_ctrl_hhp_update` is defined outside the
embedded files; by section 4.1 it re-reads the hardware-maintained shadow
header cursor, here the value `hw` the hardware last wrote. -/
def nc_ndp_ctrl_hhp_update (hw : Nat) (c : nc_ndp_ctrl) : nc_ndp_ctrl := { c with hhp := hw }

/-- Kernel `xdp_init_buff(xdp, frame_sz, rxq)`. -/
def xdp_init_buff (xdp : xdp_buff) (frame_sz : Nat) : xdp_buff := { xdp with frame_sz := frame_sz }

/-- Kernel `xdp_prepare_buff(xdp, hard_start, headroom, data_len, meta_valid)`. -/
def xdp_prepare_buff (xdp : xdp_buff) (hard_start headroom data_len : Nat) (meta_valid : Bool) :
    xdp_buff :=
  { xdp with
    data_hard_start := hard_start
    data := hard_start + headroom
    data_end := hard_start + headroom + data_len
    data_meta := if meta_valid then hard_start + headroom else hard_start + headroom + 1 }

/-- What one call of `nfb_xctrl_rx_fill_pp` meets outside the controller: the
value of the hardware descriptor cursor it reads, and the result of its
`n`-th call (counted from 0) of `page_pool_dev_alloc_pages`. -/
structure FillEnv where
  hdp : Nat
  alloc : Nat → Option page

/-- Effects of `nfb_xctrl_rx_fill_pp` on the page pool and on the rings, in
program order. -/
inductive FillEvent where
  | page_alloc (r : Option page)
  | page_put (pg : page)
  | desc_write (slot : Nat) (d : nc_ndp_desc)
  | buff_prepare (slot : Nat) (pg : page)
  deriving DecidableEq, Repr

/-- The local variables of `nfb_xctrl_rx_fill_pp` that change in its loop,
with the controller. -/
structure FillState where
  ctrl : xctrl
  last_upper_addr : Nat
  sdp : Nat
  php : Nat
  free_desc : Nat
  i : Nat

/-- The DMA address a page is given to the card with:
`page_pool_get_dma_addr(page) + XDP_PACKET_HEADROOM` in `dma_addr_t`. -/
def page_dma (P : Params) (pg : page) : Nat := (pg.dma + P.XDP_PACKET_HEADROOM) % 2 ^ 64

/-- Body of the `for` loop of `nfb_xctrl_rx_fill_pp` after a successful page
allocation (lines 144-165).  The Boolean is `false` when the body leaves the
loop with `break`. -/
def fill_body (P : Params) (pg : page) (s : FillState) : Bool × FillState × List FillEvent :=
  let dma := page_dma P pg
  let mdp := s.ctrl.c.mdp
  let mhp := s.ctrl.c.mhp
  if P.NDP_CTRL_DESC_UPPER_ADDR dma ≠ s.last_upper_addr then
    if s.free_desc = 0 then
      -- page_pool_put_full_page(pool, page, false); break;
      (false, s, [FillEvent.page_put pg])
    else
      let s1 : FillState :=
        { s with
          last_upper_addr := P.NDP_CTRL_DESC_UPPER_ADDR dma
          ctrl := { s.ctrl with
            c := { s.ctrl.c with last_upper_addr := P.NDP_CTRL_DESC_UPPER_ADDR dma }
            descs := Function.update s.ctrl.descs s.sdp (nc_ndp_rx_desc0 dma) }
          sdp := (add32 s.sdp 1) &&& mdp
          free_desc := s.free_desc - 1 }
      let e1 := FillEvent.desc_write s.sdp (nc_ndp_rx_desc0 dma)
      if s1.free_desc = 0 then
        (false, s1, [e1, FillEvent.page_put pg])
      else
        (true,
          { s1 with
            ctrl := { s1.ctrl with
              xdp_ring := Function.update s1.ctrl.xdp_ring s1.php
                (xdp_prepare_buff (xdp_init_buff (s1.ctrl.xdp_ring s1.php) P.PAGE_SIZE)
                  pg.virt P.XDP_PACKET_HEADROOM 0 false)
              descs := Function.update s1.ctrl.descs s1.sdp (nc_ndp_rx_desc2 dma P.frame_len 0) }
            sdp := (add32 s1.sdp 1) &&& mdp
            php := (add32 s1.php 1) &&& mhp
            free_desc := s1.free_desc - 1 },
          [e1, FillEvent.buff_prepare s1.php pg,
            FillEvent.desc_write s1.sdp (nc_ndp_rx_desc2 dma P.frame_len 0)])
  else
    if s.free_desc = 0 then
      (false, s, [FillEvent.page_put pg])
    else
      (true,
        { s with
          ctrl := { s.ctrl with
            xdp_ring := Function.update s.ctrl.xdp_ring s.php
              (xdp_prepare_buff (xdp_init_buff (s.ctrl.xdp_ring s.php) P.PAGE_SIZE)
                pg.virt P.XDP_PACKET_HEADROOM 0 false)
            descs := Function.update s.ctrl.descs s.sdp (nc_ndp_rx_desc2 dma P.frame_len 0) }
          sdp := (add32 s.sdp 1) &&& mdp
          php := (add32 s.php 1) &&& mhp
          free_desc := s.free_desc - 1 },
        [FillEvent.buff_prepare s.php pg,
          FillEvent.desc_write s.sdp (nc_ndp_rx_desc2 dma P.frame_len 0)])

/-- The `for (i = 0; i < batch_size; i++)` loop of `nfb_xctrl_rx_fill_pp`;
`n` is the number of iterations still allowed, `batch_size - i`. -/
def fill_loop (P : Params) (alloc : Nat → Option page) :
    Nat → FillState → FillState × List FillEvent
  | 0, s => (s, [])
  | n + 1, s =>
    match alloc s.i with
    | none =>
      -- allocation failed: break
      (s, [FillEvent.page_alloc none])
    | some pg =>
      match fill_body P pg s with
      | (false, s1, ev) => (s1, FillEvent.page_alloc (some pg) :: ev)
      | (true, s1, ev) =>
        let r := fill_loop P alloc n { s1 with i := s1.i + 1 }
        (r.1, FillEvent.page_alloc (some pg) :: (ev ++ r.2))

/-- Result of `nfb_xctrl_rx_fill_pp`: return value, controller afterwards, and
the effects of the call. -/
structure FillResult where
  ret : Int
  ctrl : xctrl
  trace : List FillEvent

/-- The function `nfb_xctrl_rx_fill_pp` of `ctrl_xdp_pp.c`. -/
def nfb_xctrl_rx_fill_pp (P : Params) (env : FillEnv) (ctrl : xctrl) : FillResult :=
  let batch_size := P.NFB_XDP_CTRL_PACKET_BURST
  let last_upper_addr := ctrl.c.last_upper_addr
  let mdp := ctrl.c.mdp
  let sdp := ctrl.c.sdp
  let mhp := ctrl.c.mhp
  let php := ctrl.php
  -- nc_ndp_ctrl_hdp_update(&ctrl->c);
  let ctrl := { ctrl with c := nc_ndp_ctrl_hdp_update env.hdp ctrl.c }
  let free_hdrs := (sub32 (sub32 ctrl.c.shp php) 1) &&& mhp
  let free_desc := (sub32 (sub32 ctrl.c.hdp sdp) 1) &&& mdp
  if free_hdrs < batch_size ∨ free_desc < batch_size then
    { ret := 0, ctrl := ctrl, trace := [] }
  else
    let r := fill_loop P env.alloc batch_size
      { ctrl := ctrl, last_upper_addr := last_upper_addr, sdp := sdp, php := php,
        free_desc := free_desc, i := 0 }
    { ret := int_of_u32 r.1.i
      ctrl := { r.1.ctrl with php := r.1.php, c := { r.1.ctrl.c with sdp := r.1.sdp } }
      trace := r.2 }

/-- Result of the receive step: number of buffers, the ring slots whose
buffers were stored into `buffs[0..nb_rx)`, and the controller afterwards. -/
structure RxResult where
  nb_rx : Nat
  buffs : List Nat
  ctrl : xctrl

/-- The `for (i = 0; i < nb_rx; ++i)` loop of `nfb_xctrl_rx_pp`; returns the
buffers handed out (as ring slots), the ring with `data_end` set, and `shp`. -/
def rx_loop (hdrs : Nat → nc_ndp_hdr) (mhp : Nat) :
    Nat → (Nat → xdp_buff) → Nat → List Nat × (Nat → xdp_buff) × Nat
  | 0, ring, shp => ([], ring, shp)
  | n + 1, ring, shp =>
    -- buffs[i] = ctrl->rx.pp.xdp_ring[shp];
    -- buffs[i]->data_end = buffs[i]->data + hdr->frame_len;
    let ring1 := Function.update ring shp
      { ring shp with data_end := (ring shp).data + (hdrs shp).frame_len }
    let r := rx_loop hdrs mhp n ring1 ((add32 shp 1) &&& mhp)
    (shp :: r.1, r.2.1, r.2.2)

/-- The part of `nfb_xctrl_rx_pp` after the refill loop (lines 267-288):
`hhp_hw` is the hardware header cursor read by `nc_ndp_ctrl_hhp_update`,
`nb_pkts` the `u16` argument.  The function `nfb_xctrl_rx_pp` itself is
`while (nfb_xctrl_rx_fill_pp(ctrl));` followed by this step; the refill calls
do not write `ctrl->c.shp`, so the local `shp` read on entry equals
`ctrl->c.shp` here. -/
def nfb_xctrl_rx_pp_drain (hhp_hw : Nat) (nb_pkts : Nat) (ctrl : xctrl) : RxResult :=
  let shp := ctrl.c.shp
  let mhp := ctrl.c.mhp
  -- nc_ndp_ctrl_hhp_update(&ctrl->c);
  let ctrl := { ctrl with c := nc_ndp_ctrl_hhp_update hhp_hw ctrl.c }
  -- nb_rx = (ctrl->c.hhp - shp) & mhp;   (u16)
  let nb_rx := ((sub32 ctrl.c.hhp shp) &&& mhp) % 2 ^ 16
  let nb_rx := if nb_pkts < nb_rx then nb_pkts else nb_rx
  let r := rx_loop ctrl.hdrs mhp nb_rx ctrl.xdp_ring shp
  { nb_rx := nb_rx
    buffs := r.1
    ctrl := { ctrl with xdp_ring := r.2.1, c := { ctrl.c with shp := r.2.2 } } }

/-! ### Reading the effects of a fill call -/

/-- Results of the `page_pool_dev_alloc_pages` calls, in order. -/
def alloc_results (tr : List FillEvent) : List (Option page) :=
  tr.filterMap fun e => match e with
    | FillEvent.page_alloc r => some r
    | _ => none

/-- Pages obtained from the page pool, in order. -/
def pages_obtained (tr : List FillEvent) : List page :=
  tr.filterMap fun e => match e with
    | FillEvent.page_alloc (some pg) => some pg
    | _ => none

/-- Pages given back with `page_pool_put_full_page`, in order. -/
def pages_returned (tr : List FillEvent) : List page :=
  tr.filterMap fun e => match e with
    | FillEvent.page_put pg => some pg
    | _ => none

/-- Pages attached to a ring slot (`xdp_prepare_buff`), in order. -/
def pages_attached (tr : List FillEvent) : List page :=
  tr.filterMap fun e => match e with
    | FillEvent.buff_prepare _ pg => some pg
    | _ => none

/-- Ring slots the pages were attached at, in order. -/
def attach_slots (tr : List FillEvent) : List Nat :=
  tr.filterMap fun e => match e with
    | FillEvent.buff_prepare slot _ => some slot
    | _ => none

/-- Descriptors written, in order. -/
def descs_written (tr : List FillEvent) : List nc_ndp_desc :=
  tr.filterMap fun e => match e with
    | FillEvent.desc_write _ d => some d
    | _ => none

/-- Descriptor slots written, in order. -/
def desc_slots (tr : List FillEvent) : List Nat :=
  tr.filterMap fun e => match e with
    | FillEvent.desc_write slot _ => some slot
    | _ => none

/-- Number of address-extension (type 0) descriptors in a list. -/
def ext_count (ds : List nc_ndp_desc) : Nat :=
  (ds.filter fun d => match d with
    | nc_ndp_desc.desc0 _ => true
    | _ => false).length

/-- The address carried by a descriptor. -/
def nc_ndp_desc.addr : nc_ndp_desc → Nat
  | nc_ndp_desc.desc0 phys => phys
  | nc_ndp_desc.desc2 phys _ _ _ => phys

/-! ### The descriptor stream the specification asks for -/

/-- Descriptor slots a buffer with DMA address `dma` needs when the cached
upper address is `cache`: one, or two when an address-extension descriptor
has to precede the data descriptor. -/
def slots_needed (P : Params) (cache dma : Nat) : Nat :=
  if P.NDP_CTRL_DESC_UPPER_ADDR dma = cache then 1 else 2

/-- The cached upper address after buffers with the given DMA addresses were
put on the ring. -/
def cache_after (P : Params) : Nat → List Nat → Nat
  | cache, [] => cache
  | _, dma :: rest => cache_after P (P.NDP_CTRL_DESC_UPPER_ADDR dma) rest

/-- Descriptor stream required for buffers with the given DMA addresses from
cached upper address `cache`: each buffer contributes its data descriptor,
preceded by an address-extension descriptor exactly when its upper address
bits differ from the cache at that moment, which then takes those bits. -/
def expected_descs (P : Params) : Nat → List Nat → List nc_ndp_desc
  | _, [] => []
  | cache, dma :: rest =>
    (if P.NDP_CTRL_DESC_UPPER_ADDR dma ≠ cache then [nc_ndp_rx_desc0 dma] else []) ++
      nc_ndp_rx_desc2 dma P.frame_len 0 ::
        expected_descs P (P.NDP_CTRL_DESC_UPPER_ADDR dma) rest

/-- Free descriptor slots `(hdp - sdp - 1) & mdp`, as computed by the driver. -/
def free_desc_slots (c : nc_ndp_ctrl) : Nat := (sub32 (sub32 c.hdp c.sdp) 1) &&& c.mdp

/-- Free header slots `(shp - php - 1) & mhp`, as computed by the driver. -/
def free_hdr_slots (ctrl : xctrl) : Nat := (sub32 (sub32 ctrl.c.shp ctrl.php) 1) &&& ctrl.c.mhp

/-- Completed headers not yet consumed, `(hhp - shp) & mhp`. -/
def ready_hdrs (c : nc_ndp_ctrl) : Nat := (sub32 c.hhp c.shp) &&& c.mhp

/-- What a run of the fill loop from state `s` to state `t` with effects `ev`
and at most `n` iterations guarantees; `kd` and `kh` are the binary logarithms
of the descriptor-ring and header-ring sizes. -/
structure FillLoopFacts (P : Params) (kd kh n : Nat) (s t : FillState)
    (ev : List FillEvent) : Prop where
  i_eq : t.i = s.i + (pages_attached ev).length
  le_n : (pages_attached ev).length ≤ n
  obtained : pages_obtained ev = pages_attached ev ++ pages_returned ev
  returned_le : (pages_returned ev).length ≤ 1
  stream : ∃ T, descs_written ev =
        expected_descs P s.last_upper_addr ((pages_attached ev).map (page_dma P)) ++ T ∧
      (T = [] ∨ ∃ pg, pages_returned ev = [pg] ∧ T = [nc_ndp_rx_desc0 (page_dma P pg)] ∧
        P.NDP_CTRL_DESC_UPPER_ADDR (page_dma P pg) ≠
          cache_after P s.last_upper_addr ((pages_attached ev).map (page_dma P))) ∧
      t.last_upper_addr =
        cache_after P s.last_upper_addr
          ((pages_attached ev).map (page_dma P) ++ T.map nc_ndp_desc.addr)
  free : t.free_desc + (descs_written ev).length = s.free_desc
  returned_when : ∀ pg, pages_returned ev = [pg] →
      s.free_desc - (expected_descs P s.last_upper_addr
          ((pages_attached ev).map (page_dma P))).length <
        slots_needed P (cache_after P s.last_upper_addr ((pages_attached ev).map (page_dma P)))
          (page_dma P pg)
  attached_when : ∀ j pg, (pages_attached ev)[j]? = some pg →
      (expected_descs P s.last_upper_addr
          (((pages_attached ev).take j).map (page_dma P))).length +
        slots_needed P
          (cache_after P s.last_upper_addr (((pages_attached ev).take j).map (page_dma P)))
          (page_dma P pg) ≤ s.free_desc
  alloc_fail : ∀ k, (alloc_results ev)[k]? = some none → (pages_attached ev).length = k
  php_eq : t.php % 2 ^ kh = (s.php + (pages_attached ev).length) % 2 ^ kh
  sdp_eq : t.sdp % 2 ^ kd = (s.sdp + (descs_written ev).length) % 2 ^ kd
  desc_slots_eq : (desc_slots ev).map (fun x => x % 2 ^ kd) =
      (List.range' s.sdp (descs_written ev).length).map (fun x => x % 2 ^ kd)
  attach_slots_eq : (attach_slots ev).map (fun x => x % 2 ^ kh) =
      (List.range' s.php (pages_attached ev).length).map (fun x => x % 2 ^ kh)
  cursors : t.ctrl.c.mdp = s.ctrl.c.mdp ∧ t.ctrl.c.mhp = s.ctrl.c.mhp ∧
      t.ctrl.c.shp = s.ctrl.c.shp ∧ t.ctrl.c.hdp = s.ctrl.c.hdp ∧ t.ctrl.c.hhp = s.ctrl.c.hhp
  cache_sync : s.ctrl.c.last_upper_addr = s.last_upper_addr →
      t.ctrl.c.last_upper_addr = t.last_upper_addr
  fail_last : none ∈ alloc_results ev → ev.getLast? = some (FillEvent.page_alloc none)
  put_last : ∀ pg, pg ∈ pages_returned ev → ev.getLast? = some (FillEvent.page_put pg)

/-- The loop state on entry to the `for` loop of `nfb_xctrl_rx_fill_pp`: the
locals as initialised from the controller after the hardware cursor was
re-read. -/
def fill_entry (env : FillEnv) (ctrl : xctrl) : FillState :=
  { ctrl := { ctrl with c := nc_ndp_ctrl_hdp_update env.hdp ctrl.c }
    last_upper_addr := ctrl.c.last_upper_addr
    sdp := ctrl.c.sdp
    php := ctrl.php
    free_desc := free_desc_slots (nc_ndp_ctrl_hdp_update env.hdp ctrl.c)
    i := 0 }

/-- One call on an RX controller: a call of `nfb_xctrl_rx_fill_pp`, or the
receive step of `nfb_xctrl_rx_pp`; each carries what the hardware and the page
pool present to it. -/
inductive RingOp where
  | fill (env : FillEnv)
  | drain (hhp_hw : Nat) (nb_pkts : Nat)

/-- Perform one call on the controller. -/
def RingOp.exec (P : Params) : RingOp → xctrl → xctrl
  | RingOp.fill env, ctrl => (nfb_xctrl_rx_fill_pp P env ctrl).ctrl
  | RingOp.drain hhp_hw nb_pkts, ctrl => (nfb_xctrl_rx_pp_drain hhp_hw nb_pkts ctrl).ctrl

/-- Perform a sequence of calls on the controller, left to right. -/
def ring_run (P : Params) : List RingOp → xctrl → xctrl
  | [], ctrl => ctrl
  | op :: ops, ctrl => ring_run P ops (op.exec P ctrl)

/-- The ring-full condition for one call made in controller state `ctrl`.
A fill emits no more descriptors than the free descriptor slots it observed
and attaches no more buffers than the free header slots it observed, and each
free count drops by exactly what was used (so `sdp` stays behind `hdp - 1` and
`php` behind `shp - 1`).  A receive step hands out no more buffers than the
completed headers it observed, and the count of completed headers drops by
exactly that number (so `shp` stays behind `hhp`). -/
def RingOp.within_ring (P : Params) (ctrl : xctrl) : RingOp → Prop
  | RingOp.fill env =>
    (descs_written (nfb_xctrl_rx_fill_pp P env ctrl).trace).length ≤
        free_desc_slots (nc_ndp_ctrl_hdp_update env.hdp ctrl.c) ∧
      (pages_attached (nfb_xctrl_rx_fill_pp P env ctrl).trace).length ≤ free_hdr_slots ctrl ∧
      free_desc_slots (nfb_xctrl_rx_fill_pp P env ctrl).ctrl.c =
        free_desc_slots (nc_ndp_ctrl_hdp_update env.hdp ctrl.c) -
          (descs_written (nfb_xctrl_rx_fill_pp P env ctrl).trace).length ∧
      free_hdr_slots (nfb_xctrl_rx_fill_pp P env ctrl).ctrl =
        free_hdr_slots ctrl - (pages_attached (nfb_xctrl_rx_fill_pp P env ctrl).trace).length
  | RingOp.drain hhp_hw nb_pkts =>
    (nfb_xctrl_rx_pp_drain hhp_hw nb_pkts ctrl).nb_rx ≤
        ready_hdrs (nc_ndp_ctrl_hhp_update hhp_hw ctrl.c) ∧
      ready_hdrs (nfb_xctrl_rx_pp_drain hhp_hw nb_pkts ctrl).ctrl.c =
        ready_hdrs (nc_ndp_ctrl_hhp_update hhp_hw ctrl.c) -
          (nfb_xctrl_rx_pp_drain hhp_hw nb_pkts ctrl).nb_rx

/-! ### Concrete controllers used as test inputs -/

/-- Test values for the constants: a burst of 4 buffers, 4 KiB pages, 256
bytes of headroom, and upper address bits taken above bit 30. -/
def test_params : Params :=
  { NFB_XDP_CTRL_PACKET_BURST := 4
    PAGE_SIZE := 4096
    XDP_PACKET_HEADROOM := 256
    frame_len := 3520
    NDP_CTRL_DESC_UPPER_ADDR := fun a => a &&& 0xFFFFFFFFC0000000 }

/-- An empty buffer record. -/
def empty_buff : xdp_buff :=
  { data := 0, data_end := 0, data_meta := 0, data_hard_start := 0, frame_sz := 0 }

/-- A controller over rings of 8 slots with all cursors at 0. -/
def ring8 : xctrl :=
  { c := { sdp := 0, hdp := 0, shp := 0, hhp := 0, mdp := 7, mhp := 7, last_upper_addr := 0 }
    php := 0
    descs := fun _ => nc_ndp_desc.desc0 0
    xdp_ring := fun _ => empty_buff
    hdrs := fun _ => { frame_len := 0 } }

/-- A controller over rings of 8 slots in which three buffers are filled
(`php = 3`, slot `i` holding data address `4096 * i + 256`), and the hardware
has written headers with frame lengths 60 and 1500 into slots 0 and 1. -/
def ring8_filled : xctrl :=
  { c := { sdp := 3, hdp := 0, shp := 0, hhp := 0, mdp := 7, mhp := 7, last_upper_addr := 0 }
    php := 3
    descs := fun _ => nc_ndp_desc.desc0 0
    xdp_ring := fun i =>
      { data := 4096 * i + 256, data_end := 4096 * i + 256, data_meta := 4096 * i + 257,
        data_hard_start := 4096 * i, frame_sz := 4096 }
    hdrs := fun i => { frame_len := if i = 0 then 60 else if i = 1 then 1500 else 0 } }

/-- A controller over a header ring of `2^17` slots. -/
def ring_2_17 : xctrl :=
  { ring8 with c := { ring8.c with mdp := 2 ^ 17 - 1, mhp := 2 ^ 17 - 1 } }

/-- A page-pool environment: the hardware descriptor cursor reads `hdp`, and
the page pool hands out the pages of the list in order and then fails. -/
def list_env (hdp : Nat) (pages : List page) : FillEnv :=
  { hdp := hdp, alloc := fun n => pages[n]? }

/-- Four pages, the last two above the first 1 GiB boundary. -/
def test_pages : List page :=
  [{ virt := 0x10000, dma := 0x1000 }, { virt := 0x20000, dma := 0x2000 },
   { virt := 0x30000, dma := 0x40000000 }, { virt := 0x40000, dma := 0x40001000 }]

/-! ### The TX thread function -/

/-- The inner wait loop of `nfb_xdp_tx_thread`,
`while (!kthread_should_stop() && test_bit(NAPI_STATE_SCHED, ...)) usleep_range(10, 20);`.
`should_stop k` is the answer of the `k`-th call of `kthread_should_stop`,
`sched j` the outcome of the `j`-th test of `NAPI_STATE_SCHED`; the result is
the numbers of calls and tests made when the loop is left, or `none` when the
loop is still running after `fuel` rounds. -/
def tx_thread_wait (should_stop sched : Nat → Bool) : Nat → Nat → Nat → Option (Nat × Nat)
  | 0, _, _ => none
  | fuel + 1, k, j =>
    if should_stop k then some (k + 1, j)
    else if sched j then tx_thread_wait should_stop sched fuel (k + 1) (j + 1)
    else some (k + 1, j + 1)

/-- The outer loop of `nfb_xdp_tx_thread`,
`while (!kthread_should_stop()) { napi_schedule(&txq->napi_xsk); ... }`;
`n` counts the `napi_schedule` calls made so far. -/
def tx_thread_poll (should_stop sched : Nat → Bool) : Nat → Nat → Nat → Nat → Option Nat
  | 0, _, _, _ => none
  | fuel + 1, k, j, n =>
    if should_stop k then some n
    else
      match tx_thread_wait should_stop sched fuel (k + 1) j with
      | none => none
      | some (k1, j1) => tx_thread_poll should_stop sched fuel k1 j1 (n + 1)

/-- The function `nfb_xdp_tx_thread` of `channel.c`, run on a channel with
the given status word.  The result is the return value together with the
number of `napi_schedule` calls made, or `none` while the thread is still
polling after `fuel` rounds. -/
def nfb_xdp_tx_thread (status : Nat) (should_stop sched : Nat → Bool) (fuel : Nat) :
    Option (Int × Nat) :=
  if !test_bit NFB_STATUS_IS_XSK status then
    -- In page pool mode tx exits
    some (0, 0)
  else
    (tx_thread_poll should_stop sched fuel 0 0 0).map fun n => (0, n)

/-- The RX poller selected by the status word. -/
def rx_napi (status : Nat) : Napi :=
  if !test_bit NFB_STATUS_IS_XSK status then Napi.rx_pp else Napi.rx_xsk

/-- The destroy routine selected by the status word in `channel_stop`. -/
def stop_mode (status : Nat) : Mode :=
  if !test_bit NFB_STATUS_IS_XSK status then Mode.pp else Mode.xsk

/-- The outgoing calls of a start in mode `m` whose steps all succeed, in
order: both controllers are allocated and started, the RX thread is created,
its poller enabled and the thread woken, the TX thread is created, the TX
poller enabled in XSK mode only, the TX queue started and the TX thread woken,
and the running flag set. -/
def start_ok_events (m : Mode) (env : StartEnv) (w : World) : List Event :=
  [Event.alloc m CtrlType.NFB_XCTRL_RX (w.next + 1),
    Event.alloc m CtrlType.NFB_XCTRL_TX (w.next + 1 + 1),
    Event.xctrl_start (w.next + 1), Event.xctrl_start (w.next + 1 + 1),
    Event.kthread_create CtrlType.NFB_XCTRL_RX env.rx_thread,
    Event.get_task_struct env.rx_thread,
    Event.napi_enable (rx_napi w.channel.status),
    Event.wake_up_process env.rx_thread,
    Event.kthread_create CtrlType.NFB_XCTRL_TX env.tx_thread,
    Event.get_task_struct env.tx_thread] ++
  (if test_bit NFB_STATUS_IS_XSK w.channel.status then [Event.napi_enable Napi.tx_xsk]
    else []) ++
  [Event.netif_tx_start_queue, Event.wake_up_process env.tx_thread,
    Event.set_bit NFB_STATUS_IS_RUNNING]

/-! ## TX enqueue (`nfb_xctrl_rexmit_pp`) -/

/-- Kernel `ETH_ZLEN`: the minimum length of an Ethernet frame without FCS. -/
def ETH_ZLEN : Nat := 60

/-- The descriptor built by `nc_ndp_tx_desc0(phys)`. -/
def nc_ndp_tx_desc0 (phys : Nat) : nc_ndp_desc := nc_ndp_desc.desc0 phys

/-- The descriptor built by `nc_ndp_tx_desc2(phys, len, meta, next)`. -/
def nc_ndp_tx_desc2 (phys len m next : Nat) : nc_ndp_desc := nc_ndp_desc.desc2 phys len m next

/-- Kernel `xdp_convert_buff_to_frame(xdp)` for a page-pool buffer: the frame
record is placed at the start of the buffer's headroom, so the frame pointer
is `xdp->data_hard_start`. -/
def xdp_convert_buff_to_frame (xdp : xdp_buff) : Nat := xdp.data_hard_start

/-- Effects of `nfb_xctrl_rexmit_pp`, in program order. -/
inductive TxEvent where
  | pad_zero (addr : Nat)
  | reclaim_release (slot : Nat) (frame : Nat)
  | desc_write (slot : Nat) (d : nc_ndp_desc)
  | buffer_tag (slot : Nat) (t : xctrl_buff_type)
  | frame_own (slot : Nat) (frame : Nat)
  | dma_sync (dma : Nat) (len : Nat)
  | return_frame (frame : Nat)
  | sdp_flush (sdp : Nat)
  deriving DecidableEq, Repr

/-- What one call of `nfb_xctrl_rexmit_pp` meets outside the controller: the
value of the hardware descriptor cursor it reads, and the DMA address of the
page the buffer lies in, `page_pool_get_dma_addr(virt_to_page(xdp->data_hard_start))`. -/
structure TxEnv where
  hdp : Nat
  dma : Nat

/-- Release loop of reclaim: visits `n` slots from slot `i` onwards and
releases the frame of every slot tagged as a page-pool frame. -/
def tx_free_loop (bufs : Nat → xctrl_tx_buffer) (mdp : Nat) : Nat → Nat → List TxEvent
  | 0, _ => []
  | n + 1, i =>
    (if (bufs i).type = xctrl_buff_type.NFB_XCTRL_BUFF_FRAME_PP then
        [TxEvent.reclaim_release i (bufs i).frame]
      else []) ++ tx_free_loop bufs mdp n ((add32 i 1) &&& mdp)

/-- Modelled from the spec: `nfb_xctrl_tx_free_buffers` is defined outside the
embedded files.  By section 4.4 (`reclaim()`), for every producer slot between
the reclaim cursor `fdp` and the hardware-done cursor `hdp` a slot that owns a
frame releases it to its buffer source, and the reclaim cursor advances to
hardware-done; the buffer records themselves are left as they are. -/
def nfb_xctrl_tx_free_buffers (ctrl : xctrl) : xctrl × List TxEvent :=
  ({ ctrl with fdp := ctrl.c.hdp },
    tx_free_loop ctrl.tx_buffers ctrl.c.mdp ((sub32 ctrl.c.hdp ctrl.fdp) &&& ctrl.c.mdp) ctrl.fdp)

/-- The locals of `nfb_xctrl_rexmit_pp` that are set before the lock is taken
(lines 36-41). -/
structure RexmitLocals where
  sdp : Nat
  mdp : Nat
  last_upper_addr : Nat
  len : Nat

/-- The part of `nfb_xctrl_rexmit_pp` before `spin_lock` (lines 35-45): the
locals are read from the controller, the length is raised to `ETH_ZLEN`, and a
short packet is padded with zeroes. -/
def rexmit_prologue (ctrl : xctrl) (xdp : xdp_buff) : RexmitLocals × List TxEvent :=
  ({ sdp := ctrl.c.sdp
     mdp := ctrl.c.mdp
     last_upper_addr := ctrl.c.last_upper_addr
     -- len = max((u32)(xdp->data_end - xdp->data), min_len);
     len := max ((xdp.data_end + 2 ^ 64 - xdp.data) % 2 ^ 32) ETH_ZLEN },
    if (xdp.data_end : Int) - (xdp.data : Int) < (ETH_ZLEN : Int) then
      [TxEvent.pad_zero xdp.data_end]
    else [])

/-- Result of `nfb_xctrl_rexmit_pp`: return value, controller afterwards, and
the effects of the call. -/
structure TxResult where
  ret : Int
  ctrl : xctrl
  trace : List TxEvent

/-- The label `exit_free` of `nfb_xctrl_rexmit_pp` (lines 90-98): a failed
call releases the frame; the producer cursor is flushed in every case. -/
def rexmit_exit (ret : Int) (xdp : xdp_buff) (ctrl : xctrl) (ev : List TxEvent) : TxResult :=
  { ret := ret
    ctrl := ctrl
    trace := ev ++
      (if ret ≠ 0 then [TxEvent.return_frame (xdp_convert_buff_to_frame xdp)] else []) ++
      [TxEvent.sdp_flush ctrl.c.sdp] }

/-- Lines 72-88 of `nfb_xctrl_rexmit_pp`: the check for one free slot and the
emission of the data descriptor at `sdp`; `ev` holds the effects so far. -/
def rexmit_data (loc : RexmitLocals) (xdp : xdp_buff) (dma sdp free_desc : Nat)
    (ctrl : xctrl) (ev : List TxEvent) : TxResult :=
  if free_desc = 0 then
    -- ret = -EBUSY; goto exit_free;
    rexmit_exit (-EBUSY) xdp ctrl ev
  else
    let frame := xdp_convert_buff_to_frame xdp
    let ctrl1 : xctrl :=
      { ctrl with
        tx_buffers := Function.update ctrl.tx_buffers sdp
          { type := xctrl_buff_type.NFB_XCTRL_BUFF_FRAME_PP, frame := frame }
        descs := Function.update ctrl.descs sdp (nc_ndp_tx_desc2 dma loc.len 0 0)
        -- sdp = (sdp + 1) & mdp; ctrl->c.sdp = sdp;
        c := { ctrl.c with sdp := (add32 sdp 1) &&& loc.mdp } }
    rexmit_exit 0 xdp ctrl1
      (ev ++ [TxEvent.buffer_tag sdp xctrl_buff_type.NFB_XCTRL_BUFF_FRAME_PP,
        TxEvent.frame_own sdp frame,
        TxEvent.desc_write sdp (nc_ndp_tx_desc2 dma loc.len 0 0),
        TxEvent.dma_sync dma loc.len])

/-- The part of `nfb_xctrl_rexmit_pp` under `tx_lock` (lines 47-100), run with
the locals `loc` that were read before the lock was taken. -/
def rexmit_locked (P : Params) (env : TxEnv) (loc : RexmitLocals) (xdp : xdp_buff)
    (ctrl : xctrl) : TxResult :=
  -- nc_ndp_ctrl_hdp_update(&ctrl->c); nfb_xctrl_tx_free_buffers(ctrl);
  let rc := nfb_xctrl_tx_free_buffers { ctrl with c := nc_ndp_ctrl_hdp_update env.hdp ctrl.c }
  let ctrl := rc.1
  let free_desc := (sub32 (sub32 ctrl.fdp loc.sdp) 1) &&& loc.mdp
  let dma := (env.dma + P.XDP_PACKET_HEADROOM) % 2 ^ 64
  if P.NDP_CTRL_DESC_UPPER_ADDR dma ≠ loc.last_upper_addr then
    if free_desc < 2 then
      -- ret = -EBUSY; goto exit_free;
      rexmit_exit (-EBUSY) xdp ctrl rc.2
    else
      let ctrl1 : xctrl :=
        { ctrl with
          c := { ctrl.c with last_upper_addr := P.NDP_CTRL_DESC_UPPER_ADDR dma }
          descs := Function.update ctrl.descs loc.sdp (nc_ndp_tx_desc0 dma)
          tx_buffers := Function.update ctrl.tx_buffers loc.sdp
            { ctrl.tx_buffers loc.sdp with type := xctrl_buff_type.NFB_XCTRL_BUFF_DESC_TYPE0 } }
      rexmit_data loc xdp dma ((add32 loc.sdp 1) &&& loc.mdp) (free_desc - 1) ctrl1
        (rc.2 ++ [TxEvent.desc_write loc.sdp (nc_ndp_tx_desc0 dma),
          TxEvent.buffer_tag loc.sdp xctrl_buff_type.NFB_XCTRL_BUFF_DESC_TYPE0])
  else
    rexmit_data loc xdp dma loc.sdp free_desc ctrl rc.2

/-- The function `nfb_xctrl_rexmit_pp` of `ctrl_xdp_pp.c`, called from one
context: the prologue followed at once by the locked part. -/
def nfb_xctrl_rexmit_pp (P : Params) (env : TxEnv) (xdp : xdp_buff) (ctrl : xctrl) :
    TxResult :=
  let pr := rexmit_prologue ctrl xdp
  let r := rexmit_locked P env pr.1 xdp ctrl
  { r with trace := pr.2 ++ r.trace }

/-- Free descriptor slots `(fdp - sdp - 1) & mdp` of a TX controller. -/
def tx_free_slots (ctrl : xctrl) : Nat := (sub32 (sub32 ctrl.fdp ctrl.c.sdp) 1) &&& ctrl.c.mdp

/-- The DMA address `nfb_xctrl_rexmit_pp` gives to the card:
`page_pool_get_dma_addr(virt_to_page(xdp->data_hard_start)) + XDP_PACKET_HEADROOM`. -/
def tx_dma (P : Params) (env : TxEnv) : Nat := (env.dma + P.XDP_PACKET_HEADROOM) % 2 ^ 64

/-- The controller as reclaim leaves it at the start of the locked part. -/
def tx_reclaimed (env : TxEnv) (ctrl : xctrl) : xctrl :=
  (nfb_xctrl_tx_free_buffers { ctrl with c := nc_ndp_ctrl_hdp_update env.hdp ctrl.c }).1

/-- Descriptors written by a TX call, with their slots, in order. -/
def tx_desc_writes (tr : List TxEvent) : List (Nat × nc_ndp_desc) :=
  tr.filterMap fun e => match e with
    | TxEvent.desc_write slot d => some (slot, d)
    | _ => none

/-- Slot `slot` lies in the window from the reclaim cursor up to, but not
including, `sdp`: its descriptor was produced and its buffer not reclaimed. -/
def tx_pending (ctrl : xctrl) (sdp slot : Nat) : Prop :=
  (sub32 slot ctrl.fdp) &&& ctrl.c.mdp < (sub32 sdp ctrl.fdp) &&& ctrl.c.mdp

/-- A TX controller over a ring of 8 descriptors with all cursors at 0. -/
def tx8 : xctrl :=
  { ring8 with type := CtrlType.NFB_XCTRL_TX }

/-- A received buffer in the page at `0x10000` holding a 100-byte packet. -/
def buff_a : xdp_buff :=
  { data := 0x10100, data_end := 0x10164, data_meta := 0x10100, data_hard_start := 0x10000,
    frame_sz := 4096 }

/-- A received buffer in the page at `0x20000` holding a 100-byte packet. -/
def buff_b : xdp_buff :=
  { data := 0x20100, data_end := 0x20164, data_meta := 0x20100, data_hard_start := 0x20000,
    frame_sz := 4096 }

/-- A TX controller over 8 descriptors with one free slot: `sdp` is 0 and the
reclaim cursor stands at 2. -/
def tx8_one_free : xctrl :=
  { tx8 with fdp := 2, c := { tx8.c with hdp := 2 } }

/-- A TX environment whose page lies above the first gigabyte, so that the
upper address bits differ from a cache of 0. -/
def tx_env_far (hdp : Nat) : TxEnv := { hdp := hdp, dma := 0x40001000 }

/-- A TX environment whose page lies in the first gigabyte. -/
def tx_env_near (hdp : Nat) : TxEnv := { hdp := hdp, dma := 0x1000 }

/-! ## Verdict handling (`nfb_xctrl_handle_pp`) -/

/-- Kernel XDP verdicts (`enum xdp_action`). -/
def XDP_ABORTED : Nat := 0
def XDP_DROP : Nat := 1
def XDP_PASS : Nat := 2
def XDP_TX : Nat := 3
def XDP_REDIRECT : Nat := 4

/-- What a packet program leaves behind: its verdict and the data pointers of
the buffer, which it may have moved. -/
structure ProgResult where
  act : Nat
  data : Nat
  data_end : Nat
  data_meta : Nat

/-- What one call of `nfb_xctrl_handle_pp` meets outside the driver: the
attached program (`none` when no program is attached), whether
`xdp_build_skb_from_frame` yields an skb, the return value of
`xdp_do_redirect`, and what the TX enqueue meets. -/
structure HandleEnv where
  prog : Option (xdp_buff → ProgResult)
  skb_ok : Bool
  redirect_ret : Int
  tx : TxEnv

/-- Effects of `nfb_xctrl_handle_pp`, in program order; `netif_receive_skb`
carries the frame the skb was built from and the RX queue recorded in it. -/
inductive HandleEvent where
  | skb_build (frame : Nat) (ok : Bool)
  | netif_receive_skb (frame : Nat) (rx_queue : Nat)
  | rexmit_call
  | tx (e : TxEvent)
  | xdp_do_redirect (frame : Nat) (ret : Int)
  | xdp_return_frame (frame : Nat)
  deriving DecidableEq, Repr

/-- Result of `bpf_prog_run_xdp` on the buffer, or `XDP_PASS` with the buffer
untouched when no program is attached. -/
def run_prog (prog : Option (xdp_buff → ProgResult)) (xdp : xdp_buff) : Nat × xdp_buff :=
  match prog with
  | some f =>
    ((f xdp).act,
      { xdp with data := (f xdp).data, data_end := (f xdp).data_end, data_meta := (f xdp).data_meta })
  | none => (XDP_PASS, xdp)

/-- The function `nfb_xctrl_handle_pp` of `ctrl_xdp_pp.c`; `index` is
`channel->index` and `txctrl` is `channel->txq.ctrl` of the channel the RX
queue belongs to.  Returns the TX controller afterwards and the effects. -/
def nfb_xctrl_handle_pp (P : Params) (env : HandleEnv) (index : Nat) (xdp0 : xdp_buff)
    (txctrl : xctrl) : xctrl × List HandleEvent :=
  let act := (run_prog env.prog xdp0).1
  let xdp := (run_prog env.prog xdp0).2
  if act = XDP_PASS then
    let frame := xdp_convert_buff_to_frame xdp
    if env.skb_ok then
      -- skb_record_rx_queue(skb, channel->index); netif_receive_skb(skb);
      (txctrl, [HandleEvent.skb_build frame true, HandleEvent.netif_receive_skb frame index])
    else
      -- goto aborted;
      (txctrl, [HandleEvent.skb_build frame false,
        HandleEvent.xdp_return_frame (xdp_convert_buff_to_frame xdp)])
  else if act = XDP_TX then
    let r := nfb_xctrl_rexmit_pp P env.tx xdp txctrl
    (r.ctrl, HandleEvent.rexmit_call :: r.trace.map HandleEvent.tx)
  else if act = XDP_REDIRECT then
    if env.redirect_ret ≠ 0 then
      -- goto aborted;
      (txctrl, [HandleEvent.xdp_do_redirect (xdp_convert_buff_to_frame xdp) env.redirect_ret,
        HandleEvent.xdp_return_frame (xdp_convert_buff_to_frame xdp)])
    else
      (txctrl, [HandleEvent.xdp_do_redirect (xdp_convert_buff_to_frame xdp) env.redirect_ret])
  else
    -- default, XDP_ABORTED, XDP_DROP
    (txctrl, [HandleEvent.xdp_return_frame (xdp_convert_buff_to_frame xdp)])

/-- Where a received buffer ends up. -/
inductive Disposal where
  | to_stack (frame : Nat) (rx_queue : Nat)
  | to_tx_slot (slot : Nat) (frame : Nat)
  | to_redirect (frame : Nat)
  | released (frame : Nat)
  deriving DecidableEq, Repr

/-- The frame a disposal is about. -/
def Disposal.frame : Disposal → Nat
  | Disposal.to_stack f _ => f
  | Disposal.to_tx_slot _ f => f
  | Disposal.to_redirect f => f
  | Disposal.released f => f

/-- The disposal an effect of `nfb_xctrl_handle_pp` makes of the buffer being
handled, if any: delivery to the stack, ownership by a TX slot, a successful
redirect, or a release to the page pool (by the handler or by the failed TX
enqueue).  Releases made by TX reclaim concern frames enqueued earlier and
are not disposals of the handled buffer. -/
def HandleEvent.disposal : HandleEvent → Option Disposal
  | HandleEvent.netif_receive_skb f q => some (Disposal.to_stack f q)
  | HandleEvent.tx (TxEvent.frame_own slot f) => some (Disposal.to_tx_slot slot f)
  | HandleEvent.tx (TxEvent.return_frame f) => some (Disposal.released f)
  | HandleEvent.xdp_do_redirect f ret => if ret = 0 then some (Disposal.to_redirect f) else none
  | HandleEvent.xdp_return_frame f => some (Disposal.released f)
  | _ => none

/-- The disposals of the handled buffer in a list of effects, in order. -/
def disposals (tr : List HandleEvent) : List Disposal := tr.filterMap HandleEvent.disposal

/-- Number of calls of the TX enqueue in a list of effects. -/
def rexmit_calls (tr : List HandleEvent) : Nat :=
  (tr.filter fun e => match e with
    | HandleEvent.rexmit_call => true
    | _ => false).length

/-- A program that returns the verdict `act` and leaves the buffer as it is. -/
def const_prog (act : Nat) : xdp_buff → ProgResult :=
  fun x => { act := act, data := x.data, data_end := x.data_end, data_meta := x.data_meta }

/-- An environment of the verdict handler with program `prog`, in which the
skb conversion and the redirect succeed and the TX page lies in the first
gigabyte. -/
def handle_env (prog : Option (xdp_buff → ProgResult)) : HandleEnv :=
  { prog := prog, skb_ok := true, redirect_ret := 0, tx := tx_env_near 0 }

/-! ## Hardware stop (`nfb_xctrl_stop_pp`) -/

def EAGAIN : Int := 11
def EINPROGRESS : Int := 115

/-- What one call of `nfb_xctrl_stop_pp` meets: whether the `n`-th read of the
status register shows `NDP_CTRL_REG_STATUS_RUNNING`, the result of the `k`-th
call of `nc_ndp_ctrl_stop`, the value of the hardware header cursor at the
`n`-th `nc_ndp_ctrl_hhp_update`, and the values the locals `cnt` and `err`,
which are declared without an initialiser, happen to hold on entry. -/
structure StopEnv where
  running : Nat → Bool
  stop : Nat → Int
  hhp : Nat → Nat
  cnt0 : Int
  err0 : Int

/-- Effects of `nfb_xctrl_stop_pp`, in program order. -/
inductive StopEvent where
  | status_read
  | stop_request (ret : Int)
  | return_frame (slot : Nat) (frame : Nat)
  | sp_flush (shp : Nat)
  | mdelay
  | stop_force
  deriving DecidableEq, Repr

/-- The controller and the locals of `nfb_xctrl_stop_pp`, with the numbers of
status reads, stop requests and header-cursor reads made so far. -/
structure StopState where
  ctrl : xctrl
  shp : Nat
  err : Int
  reads : Nat
  stops : Nat
  hhps : Nat

/-- The test `err != -EAGAIN && err != -EINPROGRESS` negated: the stop request
reports that the stop is still in progress. -/
def stop_in_progress (err : Int) : Bool := decide (err = -EAGAIN) || decide (err = -EINPROGRESS)

/-- The loop `for (i = 0; i < count; ++i)` of `nfb_xctrl_stop_pp`: returns the
buffers of `count` slots from `shp` to the page pool. -/
def stop_release_loop (ring : Nat → xdp_buff) (mhp : Nat) : Nat → Nat → List StopEvent × Nat
  | 0, shp => ([], shp)
  | n + 1, shp =>
    let r := stop_release_loop ring mhp n ((add32 shp 1) &&& mhp)
    (StopEvent.return_frame shp (xdp_convert_buff_to_frame (ring shp)) :: r.1, r.2)

/-- Body of the `do ... while` loop of `nfb_xctrl_stop_pp` (lines 335-359);
the Boolean is `true` when the body leaves the loop with `break`. -/
def stop_body (env : StopEnv) (mhp : Nat) (s : StopState) : Bool × StopState × List StopEvent :=
  let s1 := { s with reads := s.reads + 1 }
  if env.running s.reads then
    -- err = nc_ndp_ctrl_stop(&ctrl->c);
    let err := env.stop s1.stops
    let s2 := { s1 with err := err, stops := s1.stops + 1 }
    if !stop_in_progress err then
      (true, s2, [StopEvent.status_read, StopEvent.stop_request err])
    else if s2.ctrl.type = CtrlType.NFB_XCTRL_RX then
      -- nc_ndp_ctrl_hhp_update(&ctrl->c); count = (ctrl->c.hhp - shp) & mhp;
      let c1 := nc_ndp_ctrl_hhp_update (env.hhp s2.hhps) s2.ctrl.c
      let count := (sub32 c1.hhp s2.shp) &&& mhp
      let rel := stop_release_loop s2.ctrl.xdp_ring mhp count s2.shp
      -- ctrl->c.shp = shp; nc_ndp_ctrl_sp_flush(&ctrl->c);
      let err2 := env.stop s2.stops
      let s3 : StopState :=
        { s2 with
          ctrl := { s2.ctrl with c := { c1 with shp := rel.2 } }
          shp := rel.2
          hhps := s2.hhps + 1
          err := err2
          stops := s2.stops + 1 }
      let ev := [StopEvent.status_read, StopEvent.stop_request err] ++ rel.1 ++
        [StopEvent.sp_flush rel.2, StopEvent.stop_request err2]
      if !stop_in_progress err2 then (true, s3, ev)
      else (false, s3, ev ++ [StopEvent.mdelay])
    else
      (false, s2, [StopEvent.status_read, StopEvent.stop_request err, StopEvent.mdelay])
  else
    (false, s1, [StopEvent.status_read])

/-- The loop `do { ... } while (cnt++ < 100);` of `nfb_xctrl_stop_pp`.  The
first argument is the number of times the condition will still hold, that is
`100 - cnt` when `cnt < 100` and `0` otherwise: the body runs, and unless it
left with `break` the loop goes on exactly when that number is not 0. -/
def stop_loop (env : StopEnv) (mhp : Nat) : Nat → StopState → StopState × List StopEvent
  | 0, s => ((stop_body env mhp s).2.1, (stop_body env mhp s).2.2)
  | n + 1, s =>
    if (stop_body env mhp s).1 then ((stop_body env mhp s).2.1, (stop_body env mhp s).2.2)
    else
      ((stop_loop env mhp n (stop_body env mhp s).2.1).1,
        (stop_body env mhp s).2.2 ++ (stop_loop env mhp n (stop_body env mhp s).2.1).2)

/-- The function `nfb_xctrl_stop_pp` of `ctrl_xdp_pp.c`: the controller
afterwards and the effects of the call. -/
def nfb_xctrl_stop_pp (env : StopEnv) (ctrl : xctrl) : xctrl × List StopEvent :=
  let r := stop_loop env ctrl.c.mhp (100 - env.cnt0).toNat
    { ctrl := ctrl, shp := ctrl.c.shp, err := env.err0, reads := 0, stops := 0, hhps := 0 }
  if r.1.err ≠ 0 then
    -- err = nc_ndp_ctrl_stop_force(&ctrl->c);
    (r.1.ctrl, r.2 ++ [StopEvent.stop_force])
  else (r.1.ctrl, r.2)

/-- Number of passes through the loop body: one status read is made per pass. -/
def stop_passes (tr : List StopEvent) : Nat := tr.count StopEvent.status_read

/-- Number of forced stops. -/
def stop_forces (tr : List StopEvent) : Nat := tr.count StopEvent.stop_force

/-- Results of the stop requests, in order. -/
def stop_results (tr : List StopEvent) : List Int :=
  tr.filterMap fun e => match e with
    | StopEvent.stop_request ret => some ret
    | _ => none

/-- Ring slots whose buffers were returned to the page pool, in order. -/
def stop_released (tr : List StopEvent) : List Nat :=
  tr.filterMap fun e => match e with
    | StopEvent.return_frame slot _ => some slot
    | _ => none

/-- Hardware that never completes the stop: the status register always shows
the controller running and every stop request answers `-EAGAIN`; the hardware
header cursor stays at `hhp`, and `cnt` and `err` start as `cnt0` and 0. -/
def stuck_env (hhp : Nat) (cnt0 : Int) : StopEnv :=
  { running := fun _ => true, stop := fun _ => -EAGAIN, hhp := fun _ => hhp, cnt0 := cnt0,
    err0 := 0 }

/-- Values of `shp` flushed to the hardware by `nc_ndp_ctrl_sp_flush`, in
order; one flush is made in every pass that reads the hardware header cursor. -/
def stop_flushed (tr : List StopEvent) : List Nat :=
  tr.filterMap fun e => match e with
    | StopEvent.sp_flush shp => some shp
    | _ => none

/-- Number of 1 ms waits. -/
def stop_delays (tr : List StopEvent) : Nat := tr.count StopEvent.mdelay

/-- Hardware that completes the stop at the first request. -/
def prompt_env : StopEnv :=
  { running := fun _ => true, stop := fun _ => 0, hhp := fun _ => 0, cnt0 := 0, err0 := 0 }

/-! ## TX enqueue from two contexts -/

/-- Two calls of `nfb_xctrl_rexmit_pp` on the same controller from two
contexts, scheduled as follows: context A runs the part before `spin_lock`,
context B runs the part before `spin_lock`, then A takes `tx_lock` and runs
the locked part to `spin_unlock`, then B does.  The locked parts are
serialised by the lock; the reads of `sdp`, `mdp` and `last_upper_addr`
(lines 36-38) are not. -/
def rexmit_interleaved (P : Params) (envA envB : TxEnv) (xdpA xdpB : xdp_buff)
    (ctrl : xctrl) : TxResult × TxResult :=
  let la := rexmit_prologue ctrl xdpA
  let lb := rexmit_prologue ctrl xdpB
  let ra := rexmit_locked P envA la.1 xdpA ctrl
  let rb := rexmit_locked P envB lb.1 xdpB ra.ctrl
  ({ ra with trace := la.2 ++ ra.trace }, { rb with trace := lb.2 ++ rb.trace })

/-- The same two calls made one after the other: context B starts after A
has returned. -/
def rexmit_serial (P : Params) (envA envB : TxEnv) (xdpA xdpB : xdp_buff)
    (ctrl : xctrl) : TxResult × TxResult :=
  let ra := nfb_xctrl_rexmit_pp P envA xdpA ctrl
  (ra, nfb_xctrl_rexmit_pp P envB xdpB ra.ctrl)

/-- Frames made owned by a TX slot in a list of effects, with their slots. -/
def tx_owned (tr : List TxEvent) : List (Nat × Nat) :=
  tr.filterMap fun e => match e with
    | TxEvent.frame_own slot frame => some (slot, frame)
    | _ => none

/-- Frames released in a list of effects, by reclaim or by a failed call. -/
def tx_released (tr : List TxEvent) : List Nat :=
  tr.filterMap fun e => match e with
    | TxEvent.reclaim_release _ frame => some frame
    | TxEvent.return_frame frame => some frame
    | _ => none

/-- The TX environment of the second context: no descriptor completed, the
buffer's page at DMA address `0x2000`. -/
def tx_env_second : TxEnv := { hdp := 0, dma := 0x2000 }

/-! ## NDP queue control (`ndp_core.h`) -/

/-- Constants used by `ndp_queue_start` and `ndp_queue_stop` whose definitions
live in headers outside the embedded files. -/
structure NdpConsts where
  NDP_QUEUE_RUNNING : Int
  NDP_QUEUE_STOPPED : Int
  NDP_CHANNEL_TYPE_TX : Int
  EALREADY : Int

/-- The fields of `struct ndp_queue` read or written by `ndp_queue_start` and
`ndp_queue_stop`. -/
structure ndp_queue where
  status : Int
  dir : Int
  deriving DecidableEq, Repr

/-- Driver operations called through `q->ops`, in the order they are made. -/
inductive QueueEvent where
  | control_start
  | control_stop
  | tx_flush
  deriving DecidableEq, Repr

/-- Results of the driver operations `q->ops.control.start` and
`q->ops.control.stop` for one call. -/
structure QueueEnv where
  start_ret : Int
  stop_ret : Int

/-- The function `_ndp_queue_init` of `ndp_core.h`, for the fields kept. -/
def _ndp_queue_init (K : NdpConsts) (dir : Int) : ndp_queue :=
  { status := K.NDP_QUEUE_STOPPED, dir := dir }

/-- The function `ndp_queue_start` of `ndp_core.h`: return value, queue
afterwards, driver operations called. -/
def ndp_queue_start (K : NdpConsts) (env : QueueEnv) (q : ndp_queue) :
    Int × ndp_queue × List QueueEvent :=
  if q.status = K.NDP_QUEUE_RUNNING then (K.EALREADY, q, [])
  else
    -- ret = q->ops.control.start(q->priv);
    let ret := env.start_ret
    if ret ≠ 0 then (ret, q, [QueueEvent.control_start])
    else (0, { q with status := K.NDP_QUEUE_RUNNING }, [QueueEvent.control_start])

/-- The function `ndp_queue_stop` of `ndp_core.h`. -/
def ndp_queue_stop (K : NdpConsts) (env : QueueEnv) (q : ndp_queue) :
    Int × ndp_queue × List QueueEvent :=
  if q.status = K.NDP_QUEUE_STOPPED then (K.EALREADY, q, [])
  else
    -- if (q->dir == NDP_CHANNEL_TYPE_TX) q->ops.burst.tx.flush(q->priv);
    let ev := if q.dir = K.NDP_CHANNEL_TYPE_TX then [QueueEvent.tx_flush] else []
    -- ret = q->ops.control.stop(q->priv);
    let ret := env.stop_ret
    if ret ≠ 0 then (ret, q, ev ++ [QueueEvent.control_stop])
    else (0, { q with status := K.NDP_QUEUE_STOPPED }, ev ++ [QueueEvent.control_stop])

/-- One call on a queue, with the results its driver operations give. -/
inductive QueueCall where
  | start (env : QueueEnv)
  | stop (env : QueueEnv)

/-- Perform a sequence of start and stop calls, left to right. -/
def queue_run (K : NdpConsts) : List QueueCall → ndp_queue → ndp_queue
  | [], q => q
  | QueueCall.start env :: cs, q => queue_run K cs (ndp_queue_start K env q).2.1
  | QueueCall.stop env :: cs, q => queue_run K cs (ndp_queue_stop K env q).2.1

/-- Test values for the constants. -/
def test_consts : NdpConsts :=
  { NDP_QUEUE_RUNNING := 1, NDP_QUEUE_STOPPED := 0, NDP_CHANNEL_TYPE_TX := 1, EALREADY := 114 }

/-! ## Component lock (`nfb.c`) -/

def ETIMEDOUT : Int := 110

/-- What one call of `nfb_comp_trylock` meets: the result of the `k`-th call
(counted from 0) of the device operation `comp_lock`, and the elapsed time in
nanoseconds `diff` computed from the clock after the `k`-th call. -/
structure LockEnv where
  lock : Nat → Int
  diff : Nat → Int

/-- The loop condition `timeout == -1 || (timeout > 0 && diff < timeout * 1000000L)`. -/
def trylock_again (timeout diff : Int) : Bool :=
  decide (timeout = -1) || (decide (0 < timeout) && decide (diff < timeout * 1000000))

/-- The `do ... while` loop of `nfb_comp_trylock` from attempt `k` on: the
return value and the number of `comp_lock` calls made, or `none` when the loop
is still running after `fuel` attempts. -/
def trylock_loop (env : LockEnv) (timeout : Int) : Nat → Nat → Option (Int × Nat)
  | 0, _ => none
  | fuel + 1, k =>
    -- ret = comp->dev->ops.comp_lock(comp, features);
    if env.lock k = 1 then some (0, k + 1)
    else if env.lock k ≠ 0 ∧ env.lock k ≠ -EBUSY then some (env.lock k, k + 1)
    else if timeout = 0 then some (-EBUSY, k + 1)
    else
      -- usleep(50);
      if trylock_again timeout (env.diff k) then trylock_loop env timeout fuel (k + 1)
      else some (-ETIMEDOUT, k + 1)

/-- The function `nfb_comp_trylock` of `nfb.c`; `comp` tells whether the
component pointer is non-`NULL`.  The result is the return value with the
number of `comp_lock` calls made. -/
def nfb_comp_trylock (comp : Bool) (env : LockEnv) (timeout : Int) (fuel : Nat) :
    Option (Int × Nat) :=
  if !comp then some (-EINVAL, 0)
  else trylock_loop env timeout fuel 0

/-- The function `nfb_comp_lock` of `nfb.c`. -/
def nfb_comp_lock (comp : Bool) (env : LockEnv) (fuel : Nat) : Option (Int × Nat) :=
  (nfb_comp_trylock comp env (-1) fuel).map fun r => (if r.1 = 0 then 1 else 0, r.2)

/-- A lock that is busy twice and then granted. -/
def busy_twice_env : LockEnv :=
  { lock := fun k => if k < 2 then -EBUSY else 1, diff := fun _ => 0 }

/-- A lock whose device operation reports `-EINVAL` at the second attempt. -/
def failing_lock_env : LockEnv :=
  { lock := fun k => if k = 0 then 0 else -EINVAL, diff := fun _ => 0 }

/-! ## Component access (`nfb.c`) -/

/-- The fields `base` and `size` of `struct nfb_comp`.  The structure is
declared outside the embedded files; `nfb_comp_open_ext` fills both fields
from 32-bit cells of the device tree. -/
structure nfb_comp where
  base : Nat
  size : Nat
  deriving DecidableEq, Repr

/-- The value of a signed 64-bit `off_t` converted to `size_t` (LP64). -/
def size_t_of_off (x : Int) : Nat := (x % 2 ^ 64).toNat

/-- The value of a 64-bit pattern read as `off_t`. -/
def off_of_size_t (x : Nat) : Int :=
  if x % 2 ^ 64 < 2 ^ 63 then ((x % 2 ^ 64 : Nat) : Int) else ((x % 2 ^ 64 : Nat) : Int) - 2 ^ 64

/-- An access handed to the bus: the `off_t` bus address and the byte count. -/
inductive BusAccess where
  | read (addr : Int) (nbyte : Nat)
  | write (addr : Int) (nbyte : Nat)
  deriving DecidableEq, Repr

/-- The test `offset + nbyte > comp->size`: `nbyte` is a `size_t`, so the sum
is formed in `unsigned long`, modulo `2^64`. -/
def comp_range_rejected (comp : nfb_comp) (nbyte : Nat) (offset : Int) : Bool :=
  decide ((size_t_of_off offset + nbyte % 2 ^ 64) % 2 ^ 64 > comp.size % 2 ^ 64)

/-- The bus address `offset + comp->base` as passed in an `off_t` argument. -/
def comp_bus_addr (comp : nfb_comp) (offset : Int) : Int :=
  off_of_size_t (size_t_of_off offset + comp.base)

/-- The function `nfb_comp_read` of `nfb.c`; `bus_ret` is what the bus read
returns.  The result is the return value and the accesses made on the bus. -/
def nfb_comp_read (comp : nfb_comp) (nbyte : Nat) (offset : Int) (bus_ret : Int) :
    Int × List BusAccess :=
  if comp_range_rejected comp nbyte offset then (-1, [])
  else (bus_ret, [BusAccess.read (comp_bus_addr comp offset) nbyte])

/-- The function `nfb_comp_write` of `nfb.c`. -/
def nfb_comp_write (comp : nfb_comp) (nbyte : Nat) (offset : Int) (bus_ret : Int) :
    Int × List BusAccess :=
  if comp_range_rejected comp nbyte offset then (-1, [])
  else (bus_ret, [BusAccess.write (comp_bus_addr comp offset) nbyte])

/-- A component of 16 bytes at bus address `0x1000`. -/
def test_comp : nfb_comp := { base := 0x1000, size := 16 }

/-! ## Extension loading (`load_extension` of `nfb.c`) -/

/-- C `strstr(hay, needle)` on strings given as character lists: the offset of
the first occurrence of `needle` in `hay`, or `none` for `NULL`. -/
def strstr : List Char → List Char → Option Nat
  | [], needle => if needle.isPrefixOf [] then some 0 else none
  | a :: t, needle =>
    if needle.isPrefixOf (a :: t) then some 0 else (strstr t needle).map (· + 1)

/-- C `strchr(s, c)` for a character `c` other than NUL: the offset of the
first `c` in `s`, or `none` for `NULL`. -/
def strchr : List Char → Char → Option Nat
  | [], _ => none
  | a :: t, c => if a = c then some 0 else (strchr t c).map (· + 1)

/-- The string `"libnfb-ext:"`. -/
def LIBNFB_EXT_PREFIX : List Char := ['l', 'i', 'b', 'n', 'f', 'b', '-', 'e', 'x', 't', ':']

/-- The string `"libnfb-ext-"`. -/
def LIBNFB_EXT_PATTERN : List Char := ['l', 'i', 'b', 'n', 'f', 'b', '-', 'e', 'x', 't', '-']

/-- What one call of `load_extension` meets: whether `strndup` can allocate,
and the return value of `load_lib_extension`. -/
structure LoadEnv where
  strndup_ok : Bool
  load_ret : Int

/-- Result of `load_extension`: return value, the string `*devname` points to
afterwards, and the calls of `load_lib_extension` made, each with its library
name and device name. -/
structure LoadResult where
  ret : Int
  devname : List Char
  loaded : List (List Char × List Char)
  deriving DecidableEq, Repr

/-- The function `load_extension` of `nfb.c`.  Pointers into the device name
are offsets into it: the string at offset `p` is `devname.drop p`. -/
def load_extension (env : LoadEnv) (devname : List Char) : LoadResult :=
  let dev_name := devname
  -- ext_name, ext_name_end
  let ext : Option (Nat × Option Nat) :=
    if strstr dev_name LIBNFB_EXT_PREFIX = some 0 then
      -- ext_name = dev_name + strlen(LIBNFB_EXT_PREFIX); ext_name_end = strchr(ext_name, ':');
      some (LIBNFB_EXT_PREFIX.length,
        (strchr (dev_name.drop LIBNFB_EXT_PREFIX.length) ':').map (· + LIBNFB_EXT_PREFIX.length))
    else if (strstr dev_name LIBNFB_EXT_PATTERN).isSome then
      -- ext_name = dev_name; ext_name_end = strchr(dev_name, ':');
      some (0, strchr dev_name ':')
    else none
  match ext with
  | none => { ret := 0, devname := devname, loaded := [] }
  | some (ext_name, ext_name_end) =>
    -- the offsets ext_name_end and dev_name
    let ends : Nat × Nat :=
      match ext_name_end with
      | none => (devname.length, devname.length)
      | some p => (p, p + 1)
    -- lib_name = strndup(ext_name, ext_name_end - ext_name);
    let lib_name := (devname.drop ext_name).take (ends.1 - ext_name)
    if !env.strndup_ok then { ret := -ENOMEM, devname := devname, loaded := [] }
    else
      { ret := env.load_ret
        devname := devname.drop ends.2
        loaded := [(lib_name, devname.drop ends.2)] }

/-- An environment in which the library name can be allocated and the
extension loads with return value 1. -/
def load_ok_env : LoadEnv := { strndup_ok := true, load_ret := 1 }

/-! ## Component search in the device tree (`find_in_subtree` of `nfb.c`) -/

def FDT_ERR_NOTFOUND : Int := 1

/-- The subnodes of a node of the device tree as libfdt presents them: either
no (further) subnode, or a subnode with its offset and the strings of its
`compatible` property, together with its own subnodes (`fdt_first_subnode`)
and the subnodes that follow it under the same parent (`fdt_next_subnode`). -/
inductive fdt where
  | none
  | node (offset : Int) (compatible : List String) (first_subnode : fdt) (next_subnode : fdt)
  deriving DecidableEq, Repr

/-- The return value of `fdt_first_subnode`/`fdt_next_subnode` for a list of
subnodes: the offset of its first node, or `-FDT_ERR_NOTFOUND`. -/
def fdt.first_offset : fdt → Int
  | fdt.none => -FDT_ERR_NOTFOUND
  | fdt.node offset _ _ _ => offset

/-- The function `find_in_subtree` of `nfb.c`, run over the subnodes `sub` of
`subtree_offset`; the second argument and the second component of the result
are `*index_current` (an `unsigned`) before and after the call. -/
def find_in_subtree (compatible : String) (index_searched : Nat) : fdt → Nat → Int × Nat
  | fdt.none, cur => (-FDT_ERR_NOTFOUND, cur)
  | fdt.node offset compat first next, cur =>
    -- if (fdt_node_check_compatible(fdt, node, compatible) == 0) (*index_current)++;
    let cur1 := if compatible ∈ compat then (cur + 1) % 2 ^ 32 else cur
    if compatible ∈ compat ∧ cur1 = (index_searched + 1) % 2 ^ 32 then (offset, cur1)
    else if first.first_offset > 0 then
      let r := find_in_subtree compatible index_searched first cur1
      if r.1 > 0 then r
      else find_in_subtree compatible index_searched next r.2
    else find_in_subtree compatible index_searched next cur1

/-- The subnodes of the node at offset `parent` in a list of subnodes (with
all that lies below them), or `fdt.none` when there is no such node. -/
def fdt.subnodes_of (parent : Int) : fdt → fdt
  | fdt.none => fdt.none
  | fdt.node offset _ first next =>
    if offset = parent then first
    else
      match fdt.subnodes_of parent first with
      | fdt.none => fdt.subnodes_of parent next
      | found => found

/-- The function `nfb_comp_find_in_parent` of `nfb.c` on the device tree whose
root node has the subnodes `root_subnodes`; `dev` and `compatible` tell
whether the two pointers are non-`NULL`.  Offset 0 is the root node. -/
def nfb_comp_find_in_parent (root_subnodes : fdt) (dev : Bool) (compatible : Option String)
    (index : Nat) (parent_offset : Int) : Int :=
  match dev, compatible with
  | true, some c =>
    (find_in_subtree c index
      (if parent_offset = 0 then root_subnodes else fdt.subnodes_of parent_offset root_subnodes)
      0).1
  | _, _ => -1

/-- The nodes below a list of subnodes in depth-first pre-order, each with
its offset and its `compatible` strings. -/
def fdt.preorder : fdt → List (Int × List String)
  | fdt.none => []
  | fdt.node offset compat first next => (offset, compat) :: (first.preorder ++ next.preorder)

/-- The offsets of the nodes whose `compatible` property holds `c`, in
depth-first pre-order. -/
def fdt.matching (c : String) (t : fdt) : List Int :=
  (t.preorder.filter fun n => decide (c ∈ n.2)).map Prod.fst

/-- A device tree: under the root, a bus node (offset 8, compatible
`"bus"`) holding two `"dma"` nodes (offsets 16, 24), the second of which has
a `"dma"` node (offset 32) below it, and after the bus a further `"dma"` node
(offset 40). -/
def test_fdt : fdt :=
  fdt.node 8 ["bus"]
    (fdt.node 16 ["dma", "x"] fdt.none
      (fdt.node 24 ["dma"] (fdt.node 32 ["dma"] fdt.none fdt.none) fdt.none))
    (fdt.node 40 ["dma"] fdt.none fdt.none)

/-! ## TX enqueue: the payload address -/

/-- The DMA address of the first payload byte `xdp->data`: the DMA address of
the page the buffer lies in, which begins at `data_hard_start`, plus the
offset of `data` in that page. -/
def tx_data_dma (env : TxEnv) (xdp : xdp_buff) : Nat :=
  (env.dma + (xdp.data - xdp.data_hard_start)) % 2 ^ 64

/-- A received buffer in the page at `0x10000` whose data start the packet
program moved forward by 14 bytes, to `data_hard_start + 256 + 14`; 86 bytes
of payload remain. -/
def buff_moved : xdp_buff :=
  { data := 0x1010E, data_end := 0x10164, data_meta := 0x1010E, data_hard_start := 0x10000,
    frame_sz := 4096 }

/-! ## Channel mode and teardown -/

/-- Modes of the controller allocations in an event list, in order. -/
def alloc_modes : List Event → List Mode
  | [] => []
  | Event.alloc m _ _ :: es => m :: alloc_modes es
  | _ :: es => alloc_modes es

/-- Modes of the controller destructions in an event list, in order. -/
def destroy_modes : List Event → List Mode
  | [] => []
  | Event.destroy m _ :: es => m :: destroy_modes es
  | _ :: es => destroy_modes es

/-- A freshly created, stopped channel whose XSK flag is set (`test_bit` and
`set_bit` take the flag macro as a bit number, so the flag is bit 1 of the
status word). -/
def xsk_flagged_world : World :=
  { stopped_world with channel := { stopped_world.channel with status := 2 } }

/-! ## Receive: the refill loop and the NAPI poll (`ctrl_xdp_pp.c`) -/

/-- The loop `while (nfb_xctrl_rx_fill_pp(ctrl));` at the start of
`nfb_xctrl_rx_pp`.  `fills k` is what the `k`-th fill call meets (the hardware
cursor it reads and the answers of the page pool).  The result is the number
of fill calls made, the controller afterwards and the effects of the calls, or
`none` when the loop is still running after `fuel` calls. -/
def rx_refill (P : Params) (fills : Nat → FillEnv) :
    Nat → Nat → xctrl → Option (Nat × xctrl × List FillEvent)
  | 0, _, _ => none
  | fuel + 1, k, ctrl =>
    if (nfb_xctrl_rx_fill_pp P (fills k) ctrl).ret ≠ 0 then
      (rx_refill P fills fuel (k + 1) (nfb_xctrl_rx_fill_pp P (fills k) ctrl).ctrl).map
        fun r => (r.1, r.2.1, (nfb_xctrl_rx_fill_pp P (fills k) ctrl).trace ++ r.2.2)
    else
      some (k + 1, (nfb_xctrl_rx_fill_pp P (fills k) ctrl).ctrl,
        (nfb_xctrl_rx_fill_pp P (fills k) ctrl).trace)

/-- The function `nfb_xctrl_rx_pp` of `ctrl_xdp_pp.c`: the refill loop, then
the receive step with the locals `shp` and `mhp` as read on entry.  `nb_pkts`
is the `u16` argument.  The result carries the effects of the refill calls. -/
def nfb_xctrl_rx_pp (P : Params) (fills : Nat → FillEnv) (hhp_hw : Nat) (nb_pkts : Nat)
    (ctrl0 : xctrl) (fuel : Nat) : Option (RxResult × List FillEvent) :=
  let shp := ctrl0.c.shp
  let mhp := ctrl0.c.mhp
  -- while (nfb_xctrl_rx_fill_pp(ctrl));
  match rx_refill P fills fuel 0 ctrl0 with
  | none => none
  | some (_, ctrl1, tr) =>
    -- nc_ndp_ctrl_sdp_flush(&ctrl->c); nc_ndp_ctrl_hhp_update(&ctrl->c);
    let ctrl := { ctrl1 with c := nc_ndp_ctrl_hhp_update hhp_hw ctrl1.c }
    -- nb_rx = (ctrl->c.hhp - shp) & mhp;   (u16)
    let nb_rx := ((sub32 ctrl.c.hhp shp) &&& mhp) % 2 ^ 16
    let nb_rx := if nb_pkts < nb_rx then nb_pkts else nb_rx
    let r := rx_loop ctrl.hdrs mhp nb_rx ctrl.xdp_ring shp
    some ({ nb_rx := nb_rx, buffs := r.1,
            ctrl := { ctrl with xdp_ring := r.2.1, c := { ctrl.c with shp := r.2.2 } } }, tr)

/-- Kernel `NAPI_POLL_WEIGHT`. -/
def NAPI_POLL_WEIGHT : Nat := 64

/-- What one call of `nfb_xctrl_napi_poll_pp` meets: the environments of the
refill calls, the hardware header cursor, what the handler call on `xdp[i]`
meets, and `channel->index`. -/
structure PollEnv where
  fills : Nat → FillEnv
  hhp : Nat
  handle : Nat → HandleEnv
  index : Nat

/-- Effects of `nfb_xctrl_napi_poll_pp`, in program order: the effects of the
refill calls, the descriptor flush, each handler call (with the index `i` and
the ring slot of `xdp[i]`) followed by the handler's own effects, the final
flushes, and the completion of NAPI. -/
inductive PollEvent where
  | fill (e : FillEvent)
  | sdp_flush
  | handle_call (i : Nat) (slot : Nat)
  | handle (e : HandleEvent)
  | sp_flush
  | xdp_do_flush
  | napi_complete_done (work_done : Int)
  deriving DecidableEq, Repr

/-- The loop `for (i = 0; i < received; i++) nfb_xctrl_handle_pp(ethdev->prog, xdp[i], rxq);`
with `n` iterations left; `buffs` holds the ring slots stored into `xdp[]`
(an entry that was never stored reads as slot 0). -/
def handle_loop (P : Params) (env : PollEnv) (rx : xctrl) (buffs : List Nat) :
    Nat → Nat → xctrl → xctrl × List PollEvent
  | 0, _, tx => (tx, [])
  | n + 1, i, tx =>
    let h := nfb_xctrl_handle_pp P (env.handle i) env.index (rx.xdp_ring (buffs.getD i 0)) tx
    let r := handle_loop P env rx buffs n (i + 1) h.1
    (r.1, PollEvent.handle_call i (buffs.getD i 0) :: (h.2.map PollEvent.handle ++ r.2))

/-- Result of a poll that returns: return value, both controllers afterwards,
and the effects. -/
structure PollResult where
  ret : Int
  rx : xctrl
  tx : xctrl
  trace : List PollEvent

/-- Outcome of a poll: `BUG()` halts the kernel thread, otherwise the call
returns. -/
inductive PollOutcome where
  | bug
  | returned (r : PollResult)

/-- The function `nfb_xctrl_napi_poll_pp` of `ctrl_xdp_pp.c`; `rx` is
`rxq->ctrl` and `tx` the TX controller of the same channel.  `none` when the
refill loop is still running after `fuel` calls. -/
def nfb_xctrl_napi_poll_pp (P : Params) (env : PollEnv) (budget : Int) (rx tx : xctrl)
    (fuel : Nat) : Option PollOutcome :=
  if budget > (NAPI_POLL_WEIGHT : Int) then some PollOutcome.bug
  else
    -- received = nfb_xctrl_rx_pp(ctrl, xdp, budget);   (budget converted to u16)
    match nfb_xctrl_rx_pp P env.fills env.hhp (budget % 2 ^ 16).toNat rx fuel with
    | none => none
    | some (r, ftr) =>
      let received := r.nb_rx
      let h := handle_loop P env r.ctrl r.buffs received 0 tx
      let tr := ftr.map PollEvent.fill ++ [PollEvent.sdp_flush] ++ h.2 ++
        [PollEvent.sp_flush, PollEvent.xdp_do_flush]
      -- if (received == budget) return budget;   (compared as unsigned)
      if (received : Int) % 2 ^ 32 = budget % 2 ^ 32 then
        some (PollOutcome.returned { ret := budget, rx := r.ctrl, tx := h.1, trace := tr })
      else
        -- napi_complete_done(napi, received); return received;
        some (PollOutcome.returned
          { ret := int_of_u32 received, rx := r.ctrl, tx := h.1,
            trace := tr ++ [PollEvent.napi_complete_done (int_of_u32 received)] })

/-- The handler calls in a list of effects: index and ring slot, in order. -/
def handle_calls (tr : List PollEvent) : List (Nat × Nat) :=
  tr.filterMap fun e => match e with
    | PollEvent.handle_call i slot => some (i, slot)
    | _ => none

/-- The NAPI completions in a list of effects, in order. -/
def napi_completions (tr : List PollEvent) : List Int :=
  tr.filterMap fun e => match e with
    | PollEvent.napi_complete_done n => some n
    | _ => none

/-- A poll environment in which the page pool is empty, the hardware has
completed `hhp` headers, no program is attached, and the channel index is 5. -/
def poll_env (hhp : Nat) : PollEnv :=
  { fills := fun _ => list_env 0 [], hhp := hhp, handle := fun _ => handle_env none, index := 5 }

/-- The return value and the effects of a poll, for inspection. -/
def poll_summary : Option PollOutcome → Option (Int × List PollEvent)
  | some (PollOutcome.returned r) => some (r.ret, r.trace)
  | _ => none

/-! ## Queue mapping of the ndp tool (`xdp_common.c`) -/

/-- From `xdp_common.c`: `#define MAX_ETHDEV 16`. -/
def MAX_ETHDEV : Nat := 16

/-- The record `struct ethdev` as read from sysfs. -/
structure ethdev where
  ifname : String
  channel_count : Int
  channel_offset : Int
  deriving DecidableEq, Repr

/-- What the sysfs files of the XDP module hold: `ethdev_count`,
`channel_total`, and for each index the files of `ethdev<index>`. -/
structure SysfsConfig where
  ethdev_count : Int
  channel_total : Int
  eths : Nat → ethdev

/-- One element of `queue_data_arr` (`struct ndp_mode_xdp_xsk_data`, the
fields written by the mapping). -/
structure xsk_data where
  eth_qid : Int
  nfb_qid : Int
  ifname : String
  deriving DecidableEq, Repr

/-- A store into `queue_data_arr[data_idx]` followed by `data_idx++`, on an
array allocated with `queue_count` elements.  The state is the list of the
elements stored so far (`data_idx` is its length), or `none` once a store fell
outside the array. -/
def store_entry (queue_count : Nat) (st : Option (List xsk_data)) (x : xsk_data) :
    Option (List xsk_data) :=
  match st with
  | none => none
  | some arr => if arr.length < queue_count then some (arr ++ [x]) else none

/-- The loop `for (eth_qid = 0; eth_qid < eths[eth_idx].channel_count; eth_qid++)`
of the mapping, with `n` iterations left from `eth_qid` on. -/
def eth_qid_loop (queue_count : Nat) (nfb_qid : Int) (e : ethdev) :
    Nat → Nat → Option (List xsk_data) → Option (List xsk_data)
  | 0, _, st => st
  | n + 1, eth_qid, st =>
    eth_qid_loop queue_count nfb_qid e n (eth_qid + 1)
      (if nfb_qid = (eth_qid : Int) + e.channel_offset then
        store_entry queue_count st
          { eth_qid := (eth_qid : Int), nfb_qid := nfb_qid, ifname := e.ifname }
      else st)

/-- The loop `for (eth_idx = 0; eth_idx < ethdev_count; eth_idx++)` of the
mapping, with `n` iterations left from `eth_idx` on. -/
def eth_idx_loop (queue_count : Nat) (cfg : SysfsConfig) (nfb_qid : Int) :
    Nat → Nat → Option (List xsk_data) → Option (List xsk_data)
  | 0, _, st => st
  | n + 1, eth_idx, st =>
    eth_idx_loop queue_count cfg nfb_qid n (eth_idx + 1)
      (eth_qid_loop queue_count nfb_qid (cfg.eths eth_idx)
        (cfg.eths eth_idx).channel_count.toNat 0 st)

/-- The loop `for (nfb_qid = 0; nfb_qid < channel_total && data_idx < queue_count; nfb_qid++)`
of the mapping, with `n` values of `nfb_qid` left below `channel_total`;
`contains` is `list_range_contains(queue_range, ·)`. -/
def nfb_qid_loop (queue_count : Nat) (cfg : SysfsConfig) (contains : Int → Bool) :
    Nat → Nat → Option (List xsk_data) → Option (List xsk_data)
  | 0, _, st => st
  | n + 1, nfb_qid, st =>
    match st with
    | none => none
    | some arr =>
      if arr.length < queue_count then
        nfb_qid_loop queue_count cfg contains n (nfb_qid + 1)
          (if !contains (nfb_qid : Int) then some arr
          else eth_idx_loop queue_count cfg (nfb_qid : Int) cfg.ethdev_count.toNat 0 (some arr))
      else some arr

/-- How a call of `xdp_mode_common_parse_queues` ends: it returns with
`socket_cnt` set and the stored elements of `queue_data_arr`, it leaves the
process with `exit`, or it stores outside an array (`eths` or
`queue_data_arr`), after which the behaviour is undefined. -/
inductive ParseOutcome where
  | returned (ret : Int) (socket_cnt : Int) (arr : List xsk_data)
  | exited (code : Int)
  | out_of_bounds
  deriving DecidableEq, Repr

/-- The function `xdp_mode_common_parse_queues` of `xdp_common.c` for a queue
range that is not empty (the `else` branch at lines 139-160): the device and
the sysfs files can be opened and read, giving `cfg`; `queue_count` is the
non-zero value of `list_range_count(queue_range)`, `contains` is
`list_range_contains(queue_range, ·)`, and `calloc_ok` tells whether the
array can be allocated. -/
def xdp_mode_common_parse_queues (cfg : SysfsConfig) (queue_count : Nat)
    (contains : Int → Bool) (calloc_ok : Bool) : ParseOutcome :=
  -- the sysfs files of ethdev 0 .. ethdev_count - 1 are read into eths[MAX_ETHDEV]
  if cfg.ethdev_count > (MAX_ETHDEV : Int) then ParseOutcome.out_of_bounds
  else if !calloc_ok then ParseOutcome.exited (-1)
  else
    match nfb_qid_loop queue_count cfg contains cfg.channel_total.toNat 0 (some []) with
    | none => ParseOutcome.out_of_bounds
    | some arr =>
      -- params->socket_cnt = data_idx;
      if arr.length = 0 then ParseOutcome.exited (-1)
      else ParseOutcome.returned 0 (arr.length : Int) arr

/-- The elements the two inner loops store for one queue id when no store
falls outside the array: one for every pair of an ethdev and a queue index of
it with `nfb_qid = eth_qid + channel_offset`, in loop order. -/
def owners (cfg : SysfsConfig) (nfb_qid : Int) : List xsk_data :=
  (List.range cfg.ethdev_count.toNat).flatMap fun (eth_idx : Nat) =>
    ((List.range (cfg.eths eth_idx).channel_count.toNat).filter fun (eth_qid : Nat) =>
        decide (nfb_qid = (eth_qid : Int) + (cfg.eths eth_idx).channel_offset)).map
      fun (eth_qid : Nat) =>
        { eth_qid := (eth_qid : Int), nfb_qid := nfb_qid, ifname := (cfg.eths eth_idx).ifname }

/-- The elements for the selected queue ids below `channel_total`, in
ascending order of the queue id. -/
def selected_owners (cfg : SysfsConfig) (contains : Int → Bool) : List xsk_data :=
  (List.range cfg.channel_total.toNat).flatMap fun (nfb_qid : Nat) =>
    if contains (nfb_qid : Int) then owners cfg (nfb_qid : Int) else []

/-- No queue id belongs to two ethdevs: the intervals
`[channel_offset, channel_offset + channel_count)` of different ethdevs are
disjoint. -/
def SysfsConfig.disjoint (cfg : SysfsConfig) : Prop :=
  ∀ i < cfg.ethdev_count.toNat, ∀ j < cfg.ethdev_count.toNat,
    ∀ q1 < (cfg.eths i).channel_count.toNat, ∀ q2 < (cfg.eths j).channel_count.toNat,
      (q1 : Int) + (cfg.eths i).channel_offset = (q2 : Int) + (cfg.eths j).channel_offset → i = j

/-- The sums `eth_qid + channel_offset` the mapping computes stay inside `int`,
so that the sum over the integers is the sum the C code computes. -/
def SysfsConfig.sums_fit_int (cfg : SysfsConfig) : Prop :=
  ∀ i < cfg.ethdev_count.toNat,
    -(2 : Int) ^ 31 ≤ (cfg.eths i).channel_offset ∧
    (cfg.eths i).channel_offset + (cfg.eths i).channel_count ≤ (2 : Int) ^ 31

/-- The number of selected queue ids below `channel_total`. -/
def selected_count (cfg : SysfsConfig) (contains : Int → Bool) : Nat :=
  ((List.range cfg.channel_total.toNat).filter fun (nfb_qid : Nat) =>
    contains (nfb_qid : Int)).length

/-- The queue range that holds the single queue id `q`. -/
def single_queue (q : Int) : Int → Bool := fun x => decide (x = q)

/-- The queue range that holds the queue ids 1 and 3. -/
def queues_1_3 : Int → Bool := fun x => decide (x = 1) || decide (x = 3)

/-- Two ethdevs of two channels each, with consecutive queue ids 0-1 and 2-3. -/
def test_sysfs : SysfsConfig :=
  { ethdev_count := 2, channel_total := 4,
    eths := fun i =>
      if i = 0 then { ifname := "nfb0p0", channel_count := 2, channel_offset := 0 }
      else { ifname := "nfb0p1", channel_count := 2, channel_offset := 2 } }

/-- Two ethdevs that both report queue id 0 as theirs. -/
def overlapping_sysfs : SysfsConfig :=
  { ethdev_count := 2, channel_total := 1,
    eths := fun i =>
      if i = 0 then { ifname := "nfb0p0", channel_count := 1, channel_offset := 0 }
      else { ifname := "nfb0p1", channel_count := 1, channel_offset := 0 } }

/-! ### The rings after a fill call -/

/-- The ring `r` after the stores `ws` were made in order; a store names its
slot and how the new content is obtained from the content the slot held. -/
def ring_apply {α : Type} : List (Nat × (α → α)) → (Nat → α) → (Nat → α)
  | [], r => r
  | w :: rest, r => ring_apply rest (Function.update r w.1 (w.2 (r w.1)))

/-- The stores into the descriptor ring among the effects of a fill call. -/
def desc_stores (tr : List FillEvent) : List (Nat × (nc_ndp_desc → nc_ndp_desc)) :=
  tr.filterMap fun e => match e with
    | FillEvent.desc_write slot d => some (slot, fun _ => d)
    | _ => none

/-- The stores into the buffer ring among the effects of a fill call:
`xdp_init_buff` and `xdp_prepare_buff` on the buffer of the slot. -/
def buff_stores (P : Params) (tr : List FillEvent) : List (Nat × (xdp_buff → xdp_buff)) :=
  tr.filterMap fun e => match e with
    | FillEvent.buff_prepare slot pg =>
      some (slot, fun b =>
        xdp_prepare_buff (xdp_init_buff b P.PAGE_SIZE) pg.virt P.XDP_PACKET_HEADROOM 0 false)
    | _ => none

/-! ## Controller teardown (`nfb_xctrl_destroy_pp`) -/

/-- Effects of `nfb_xctrl_destroy_pp`, in program order: the effects of the
stop it calls, the calls that close the controller and free its memory, and
for a TX controller the effects of the reclaim of all enqueued buffers. -/
inductive DestroyEvent where
  | stop (e : StopEvent)
  | ctrl_close
  | dma_free_descs
  | dma_free_update
  | dma_free_hdrs
  | unreg_mem_model
  | unreg_rxq_info
  | kfree_buffs
  | kfree_ring
  | reclaim (e : TxEvent)
  | kfree_tx_buffers
  | kfree_ctrl
  deriving DecidableEq, Repr

/-- The function `nfb_xctrl_destroy_pp` of `ctrl_xdp_pp.c` (lines 538-566);
`running` is `test_bit(XCTRL_STATUS_IS_RUNNING, &ctrl->status)`.  The RX
branch frees the header ring, unregisters the memory model (which destroys
the page pool) and frees the buffer records and the ring; it returns no page.
The TX branch sets `hdp` to `sdp` and reclaims every enqueued buffer. -/
def nfb_xctrl_destroy_pp (running : Bool) (env : StopEnv) (ctrl : xctrl) : List DestroyEvent :=
  let r := if running then nfb_xctrl_stop_pp env ctrl else (ctrl, [])
  r.2.map DestroyEvent.stop ++
    [DestroyEvent.ctrl_close, DestroyEvent.dma_free_descs, DestroyEvent.dma_free_update] ++
    (match r.1.type with
      | CtrlType.NFB_XCTRL_RX =>
        [DestroyEvent.dma_free_hdrs, DestroyEvent.unreg_mem_model, DestroyEvent.unreg_rxq_info,
          DestroyEvent.kfree_buffs, DestroyEvent.kfree_ring]
      | CtrlType.NFB_XCTRL_TX =>
        -- ctrl->c.hdp = ctrl->c.sdp; nfb_xctrl_tx_free_buffers(ctrl);
        (nfb_xctrl_tx_free_buffers
          { r.1 with c := { r.1.c with hdp := r.1.c.sdp } }).2.map DestroyEvent.reclaim ++
          [DestroyEvent.kfree_tx_buffers]) ++
    [DestroyEvent.kfree_ctrl]

/-- Frames returned to their page pool during a teardown, in order. -/
def destroy_returned (tr : List DestroyEvent) : List Nat :=
  tr.filterMap fun e => match e with
    | DestroyEvent.stop (StopEvent.return_frame _ frame) => some frame
    | DestroyEvent.reclaim (TxEvent.reclaim_release _ frame) => some frame
    | _ => none

/-- Frames returned to the page pool by `nfb_xctrl_stop_pp`, in order. -/
def stop_returned_frames (tr : List StopEvent) : List Nat :=
  tr.filterMap fun e => match e with
    | StopEvent.return_frame _ frame => some frame
    | _ => none

/-! ## TX enqueue: the lock, and calls made in turn -/

/-- Steps of one call of `nfb_xctrl_rexmit_pp` in program order: the reads of
the controller fields into the locals `sdp`, `mdp` and `last_upper_addr`
(lines 36-38), taking and releasing `tx_lock` (lines 47 and 100), and the
effects of the call. -/
inductive TxStep where
  | read_sdp (v : Nat)
  | read_mdp (v : Nat)
  | read_last_upper_addr (v : Nat)
  | spin_lock
  | spin_unlock
  | effect (e : TxEvent)
  deriving DecidableEq, Repr

/-- The function `nfb_xctrl_rexmit_pp` as the sequence of its steps: the
three reads, the padding of a short packet, `spin_lock`, the locked part run
with the locals read before, `spin_unlock`. -/
def rexmit_steps (P : Params) (env : TxEnv) (xdp : xdp_buff) (ctrl : xctrl) : List TxStep :=
  let pr := rexmit_prologue ctrl xdp
  [TxStep.read_sdp pr.1.sdp, TxStep.read_mdp pr.1.mdp,
    TxStep.read_last_upper_addr pr.1.last_upper_addr] ++
    pr.2.map TxStep.effect ++ [TxStep.spin_lock] ++
    (rexmit_locked P env pr.1 xdp ctrl).trace.map TxStep.effect ++ [TxStep.spin_unlock]

/-- One call of `nfb_xctrl_rexmit_pp` in a run: the controller it found, what
it met outside the controller, its buffer, and its result. -/
structure TxCall where
  before : xctrl
  env : TxEnv
  xdp : xdp_buff
  result : TxResult

/-- Calls of `nfb_xctrl_rexmit_pp` on one TX controller made one after the
other, as the channel's poll makes them: each call starts on the controller
the call before it left. -/
def rexmit_run (P : Params) : List (TxEnv × xdp_buff) → xctrl → List TxCall
  | [], _ => []
  | call :: rest, ctrl =>
    { before := ctrl, env := call.1, xdp := call.2,
      result := nfb_xctrl_rexmit_pp P call.1 call.2 ctrl } ::
      rexmit_run P rest (nfb_xctrl_rexmit_pp P call.1 call.2 ctrl).ctrl

/-- The data (type 2) descriptors among the descriptors a call wrote, with
their slots. -/
def tx_data_descs (tr : List TxEvent) : List (Nat × nc_ndp_desc) :=
  (tx_desc_writes tr).filter fun sd => match sd.2 with
    | nc_ndp_desc.desc2 _ _ _ _ => true
    | _ => false

end NfbXdp

/-! # Theorems -/

namespace NfbXdp

/-! ## Channel life cycle: lemmas -/

theorem test_bit_set_bit (nr w : Nat) : test_bit nr (set_bit nr w) = true := by
  simp [test_bit, set_bit, Nat.testBit_or, Nat.testBit_shiftLeft]

theorem test_bit_clear_bit (nr w : Nat) : test_bit nr (clear_bit nr w) = false := by
  simp [test_bit, clear_bit, Nat.testBit_and, Nat.testBit_xor, Nat.testBit_shiftLeft]

theorem ptr_err_ne_zero (p : Nat) (h : IS_ERR p = true) : PTR_ERR p ≠ 0 := by
  simp only [IS_ERR, MAX_ERRNO, decide_eq_true_eq] at h
  norm_num at h
  unfold PTR_ERR
  have h63 : ¬ p < 2 ^ 63 := by norm_num; omega
  rw [if_neg h63]
  norm_num
  omega

/-! ## Channel life cycle: claims -/

/-- C1: on a channel whose running flag is set, both `channel_start_pp` and
`channel_start_xsk` return `-EBUSY` and leave the world as it was: the log
gains no event (no controller allocated, started or destroyed, no thread
created) and the status word and all queue fields are unchanged. -/
theorem channel_start_when_running (env : StartEnv) (w : World)
    (h : test_bit NFB_STATUS_IS_RUNNING w.channel.status = true) :
    channel_start_pp env w = (-EBUSY, w) ∧ channel_start_xsk env w = (-EBUSY, w) ∧
      new_events w (channel_start_pp env w).2 = [] ∧
      new_events w (channel_start_xsk env w).2 = [] := by
  have hpp : channel_start_pp env w = (-EBUSY, w) := by
    simp [channel_start_pp, channel_start, h]
  have hxsk : channel_start_xsk env w = (-EBUSY, w) := by
    simp [channel_start_xsk, channel_start, h]
  refine ⟨hpp, hxsk, ?_, ?_⟩
  · rw [hpp]; simp [new_events]
  · rw [hxsk]; simp [new_events]

theorem channel_start_when_running_witness :
    test_bit NFB_STATUS_IS_RUNNING running_world.channel.status = true ∧
      channel_start_pp ok_env running_world = (-EBUSY, running_world) ∧
      channel_start_xsk ok_env running_world = (-EBUSY, running_world) :=
  ⟨by decide, (channel_start_when_running ok_env running_world (by decide)).1,
    (channel_start_when_running ok_env running_world (by decide)).2.1⟩

/-- C2: on a channel whose running flag is clear, `channel_stop` returns
`-EINVAL` and leaves the world as it was (no thread stopped, no poller
disabled, no controller destroyed, status unchanged); and for every world a
second `channel_stop` right after a first one is rejected in this way, so it
destroys nothing. -/
theorem channel_stop_when_stopped (w : World) :
    (test_bit NFB_STATUS_IS_RUNNING w.channel.status = false →
        channel_stop w = (-EINVAL, w)) ∧
      channel_stop (channel_stop w).2 = (-EINVAL, (channel_stop w).2) ∧
      destroyed (new_events (channel_stop w).2 (channel_stop (channel_stop w).2).2) = [] := by
  have h1 : ∀ v : World, test_bit NFB_STATUS_IS_RUNNING v.channel.status = false →
      channel_stop v = (-EINVAL, v) := by
    intro v hv
    simp [channel_stop, hv]
  have h2 : test_bit NFB_STATUS_IS_RUNNING (channel_stop w).2.channel.status = false := by
    by_cases hr : test_bit NFB_STATUS_IS_RUNNING w.channel.status = true
    · simp only [channel_stop, hr, Bool.not_true, Bool.false_eq_true, if_false]
      exact test_bit_clear_bit _ _
    · have hr' : test_bit NFB_STATUS_IS_RUNNING w.channel.status = false := by
        simpa using hr
      rw [h1 w hr']
      exact hr'
  refine ⟨h1 w, h1 _ h2, ?_⟩
  rw [h1 _ h2]
  simp [new_events, destroyed]

theorem channel_stop_when_stopped_witness :
    test_bit NFB_STATUS_IS_RUNNING stopped_world.channel.status = false ∧
      channel_stop stopped_world = (-EINVAL, stopped_world) :=
  ⟨by decide, (channel_stop_when_stopped stopped_world).1 (by decide)⟩

theorem allocated_append (l1 l2 : List Event) :
    allocated (l1 ++ l2) = allocated l1 ++ allocated l2 := by
  induction l1 with
  | nil => rfl
  | cons e es ih => cases e <;> simp [allocated, ih]

theorem destroyed_append (l1 l2 : List Event) :
    destroyed (l1 ++ l2) = destroyed l1 ++ destroyed l2 := by
  induction l1 with
  | nil => rfl
  | cons e es ih => cases e <;> simp [destroyed, ih]

theorem channel_create_threads_log (env : StartEnv) (w : World) :
    ∃ es, (channel_create_threads env w).2.log = w.log ++ es ∧
      allocated es = [] ∧ destroyed es = [] := by
  unfold channel_create_threads
  simp only [World.emit]
  split_ifs <;>
    (apply Exists.intro
     refine ⟨?_, ?_⟩
     · simp only [List.append_assoc]; rfl
     · exact ⟨rfl, rfl⟩)

theorem channel_create_threads_frame (env : StartEnv) (w : World) :
    (channel_create_threads env w).2.live = w.live ∧
      (channel_create_threads env w).2.next = w.next ∧
      (channel_create_threads env w).2.channel.status = w.channel.status ∧
      (channel_create_threads env w).2.channel.rxq.ctrl = w.channel.rxq.ctrl ∧
      (channel_create_threads env w).2.channel.txq.ctrl = w.channel.txq.ctrl := by
  unfold channel_create_threads
  simp only [World.emit]
  split_ifs <;> exact ⟨rfl, rfl, rfl, rfl, rfl⟩

theorem channel_create_threads_ret (env : StartEnv) (w : World) :
    ((channel_create_threads env w).1 = 0 ↔
      (IS_ERR env.rx_thread = false ∧ IS_ERR env.tx_thread = false)) := by
  unfold channel_create_threads
  simp only [World.emit]
  split_ifs with h1 h2 h3 h4 h5 h6 <;>
    simp_all [ptr_err_ne_zero]

theorem channel_start_rolled_back (m : Mode) (env : StartEnv) (w : World)
    (hstop : w.running = false) (hfail : env.all_ok = false) :
    rolled_back w (channel_start m env w) := by
  obtain ⟨ra, ta, rs, ts, rt, tt⟩ := env
  obtain ⟨ch, live, next, log⟩ := w
  simp only [World.running] at hstop
  simp only [StartEnv.all_ok] at hfail
  unfold rolled_back channel_start
  simp only [hstop, Bool.false_eq_true, if_false]
  cases ra
  · simp [xctrl_alloc, ENOMEM, new_events, allocated, destroyed, World.running, hstop]
  cases ta
  · simp [xctrl_alloc, xctrl_destroy, ENOMEM, new_events, allocated, destroyed, World.running, hstop]
  simp only [xctrl_alloc, if_true, World.emit]
  simp only [Nat.add_one_ne_zero, if_false]
  by_cases hrs : rs = 0
  swap
  · simp [hrs, xctrl_destroy, new_events, allocated, destroyed, World.running, hstop]
    exact List.Perm.swap _ _ _
  by_cases hts : ts = 0
  swap
  · simp [hrs, hts, xctrl_destroy, new_events, allocated, destroyed, World.running, hstop]
    exact List.Perm.swap _ _ _
  simp only [hrs, hts, ne_eq, not_true_eq_false, if_false]
  have hthr : ¬ (IS_ERR rt = false ∧ IS_ERR tt = false) := by
    intro h
    simp [hrs, hts, h.1, h.2] at hfail
  generalize hE : StartEnv.mk true true 0 0 rt tt = E at *
  have hEr : E.rx_thread = rt := by rw [← hE]
  have hEt : E.tx_thread = tt := by rw [← hE]
  generalize hW : World.mk _ _ _ _ = W
  obtain ⟨es, hlog, hal, hde⟩ := channel_create_threads_log E W
  have hfr := channel_create_threads_frame E W
  have hret := channel_create_threads_ret E W
  rw [hEr, hEt] at hret
  have hne : (channel_create_threads E W).1 ≠ 0 := fun h => hthr (hret.1 h)
  generalize channel_create_threads E W = r at hlog hfr hne
  obtain ⟨ret, ch1, live1, next1, log1⟩ := r
  subst hW
  simp only at hlog hfr hne
  obtain ⟨rfl, rfl, hst, hrx, htx⟩ := hfr
  subst hlog
  simp only [hne, not_false_eq_true, if_true, ne_eq]
  simp [xctrl_destroy, new_events, allocated_append, destroyed_append, allocated, destroyed,
    hal, hde, hrx, htx, World.running, hst, hstop]
  exact List.Perm.swap _ _ _

theorem channel_start_all_ok (m : Mode) (env : StartEnv) (w : World)
    (hstop : w.running = false) (hok : env.all_ok = true) :
    (channel_start m env w).1 = 0 ∧ (channel_start m env w).2.running = true ∧
      (channel_start m env w).2.live = (w.next + 1 + 1) :: (w.next + 1) :: w.live ∧
      (channel_start m env w).2.channel.txq.ctrl = w.next + 1 + 1 ∧
      (channel_start m env w).2.channel.rxq.ctrl = w.next + 1 := by
  obtain ⟨ra, ta, rs, ts, rt, tt⟩ := env
  obtain ⟨ch, live, next, log⟩ := w
  simp only [World.running] at hstop
  simp only [StartEnv.all_ok, Bool.and_eq_true, decide_eq_true_eq, Bool.not_eq_true'] at hok
  obtain ⟨⟨⟨⟨⟨rfl, rfl⟩, rfl⟩, rfl⟩, hrt⟩, htt⟩ := hok
  unfold channel_start
  simp only [hstop, Bool.false_eq_true, if_false, xctrl_alloc, if_true, World.emit,
    Nat.add_one_ne_zero, ne_eq, not_true_eq_false]
  generalize hE : StartEnv.mk true true 0 0 rt tt = E at *
  have hEr : E.rx_thread = rt := by rw [← hE]
  have hEt : E.tx_thread = tt := by rw [← hE]
  generalize hW : World.mk _ _ _ _ = W
  have hfr := channel_create_threads_frame E W
  have hret := channel_create_threads_ret E W
  rw [hEr, hEt] at hret
  have hz : (channel_create_threads E W).1 = 0 := hret.2 ⟨hrt, htt⟩
  generalize channel_create_threads E W = r at hfr hz
  obtain ⟨ret, ch1, live1, next1, log1⟩ := r
  subst hW
  simp only at hfr hz
  obtain ⟨rfl, rfl, hst, hrx, htx⟩ := hfr
  subst hz
  simp [World.running, test_bit_set_bit, hrx, htx]

theorem channel_stop_running (w : World) (hrun : w.running = true) :
    (channel_stop w).1 = 0 ∧ (channel_stop w).2.running = false ∧
      (channel_stop w).2.live = (w.live.erase w.channel.rxq.ctrl).erase w.channel.txq.ctrl ∧
      destroyed (new_events w (channel_stop w).2) = [w.channel.rxq.ctrl, w.channel.txq.ctrl] := by
  obtain ⟨ch, live, next, log⟩ := w
  simp only [World.running] at hrun
  unfold channel_stop
  simp only [hrun, Bool.not_true, Bool.false_eq_true, if_false, World.emit]
  refine ⟨?_, ?_, ?_, ?_⟩
  · trivial
  · simp only [World.running]
    exact test_bit_clear_bit _ _
  · split_ifs <;> simp [xctrl_destroy]
  · split_ifs <;>
      simp [xctrl_destroy, new_events, destroyed_append, destroyed]

theorem channel_start_running_noop (m : Mode) (env : StartEnv) (w : World)
    (hrun : w.running = true) : channel_start m env w = (-EBUSY, w) := by
  simp only [World.running] at hrun
  simp [channel_start, hrun]

theorem channel_stop_stopped_noop (w : World) (hstop : w.running = false) :
    channel_stop w = (-EINVAL, w) := by
  simp only [World.running] at hstop
  simp [channel_stop, hstop]

theorem inv_channel_start (m : Mode) (env : StartEnv) (w : World) (hinv : w.inv) :
    (channel_start m env w).2.inv := by
  by_cases hrun : w.running = true
  · rw [channel_start_running_noop m env w hrun]
    exact hinv
  · have hstop : w.running = false := by simpa using hrun
    have hlive := hinv.2 hstop
    by_cases hok : env.all_ok = true
    · obtain ⟨_, h2, h3, h4, h5⟩ := channel_start_all_ok m env w hstop hok
      refine ⟨fun _ => ⟨?_, ?_⟩, fun hc => ?_⟩
      · rw [h3, h4, h5, hlive]
      · rw [h4, h5]
        omega
      · rw [h2] at hc
        cases hc
    · have hfail : env.all_ok = false := by simpa using hok
      obtain ⟨_, h2, _, _, h5⟩ := channel_start_rolled_back m env w hstop hfail
      refine ⟨fun hc => ?_, fun _ => ?_⟩
      · rw [h2] at hc
        cases hc
      · rw [h5, hlive]

theorem inv_channel_stop (w : World) (hinv : w.inv) : (channel_stop w).2.inv := by
  by_cases hrun : w.running = true
  · obtain ⟨_, h2, h3, _⟩ := channel_stop_running w hrun
    obtain ⟨hl, hne⟩ := hinv.1 hrun
    refine ⟨fun hc => ?_, fun _ => ?_⟩
    · rw [h2] at hc
      cases hc
    · rw [h3, hl]
      simp [List.erase_cons, hne, Ne.symm hne]
  · have hstop : w.running = false := by simpa using hrun
    rw [channel_stop_stopped_noop w hstop]
    exact hinv

theorem inv_run (calls : List Call) (w : World) (hinv : w.inv) : (run calls w).inv := by
  induction calls generalizing w with
  | nil => exact hinv
  | cons c cs ih =>
    apply ih
    cases c with
    | start_pp env => exact inv_channel_start Mode.pp env w hinv
    | start_xsk env => exact inv_channel_start Mode.xsk env w hinv
    | stop => exact inv_channel_stop w hinv

theorem owns_live_iff_running (w : World) (hinv : w.inv) :
    w.running = true ↔ w.owns_live := by
  constructor
  · intro hrun
    obtain ⟨hl, hne⟩ := hinv.1 hrun
    refine ⟨?_, ?_, hne⟩ <;> simp [hl]
  · intro ho
    by_contra hrun
    have hstop : w.running = false := by simpa using hrun
    have hl := hinv.2 hstop
    have := ho.1
    rw [hl] at this
    cases this

/-- C4: after every sequence of `channel_start_pp` / `channel_start_xsk` /
`channel_stop` calls on a channel that begins stopped and owning no
controller, the running flag is set exactly when the channel owns a live RX
and a live TX controller; from such a state a start on a stopped channel
whose steps all succeed returns 0 and sets the flag, and a stop on a running
channel returns 0, destroys the RX and the TX controller (each once, leaving
none alive) and clears the flag, after which a start whose steps all succeed
is accepted: it returns 0 and sets the flag again. -/
theorem channel_running_iff_owns_controllers (calls : List Call) (w0 : World)
    (h0 : test_bit NFB_STATUS_IS_RUNNING w0.channel.status = false) (hl0 : w0.live = []) :
    ((run calls w0).running = true ↔ (run calls w0).owns_live) ∧
      ((run calls w0).running = false → ∀ env : StartEnv, env.all_ok = true →
        ((channel_start_pp env (run calls w0)).1 = 0 ∧
          (channel_start_pp env (run calls w0)).2.running = true ∧
          (channel_start_pp env (run calls w0)).2.owns_live) ∧
        ((channel_start_xsk env (run calls w0)).1 = 0 ∧
          (channel_start_xsk env (run calls w0)).2.running = true ∧
          (channel_start_xsk env (run calls w0)).2.owns_live)) ∧
      ((run calls w0).running = true →
        (channel_stop (run calls w0)).1 = 0 ∧
        (channel_stop (run calls w0)).2.running = false ∧
        destroyed (new_events (run calls w0) (channel_stop (run calls w0)).2) =
          [(run calls w0).channel.rxq.ctrl, (run calls w0).channel.txq.ctrl] ∧
        (channel_stop (run calls w0)).2.live = [] ∧
        ∀ env : StartEnv, env.all_ok = true →
          ((channel_start_pp env (channel_stop (run calls w0)).2).1 = 0 ∧
            (channel_start_pp env (channel_stop (run calls w0)).2).2.running = true) ∧
          ((channel_start_xsk env (channel_stop (run calls w0)).2).1 = 0 ∧
            (channel_start_xsk env (channel_stop (run calls w0)).2).2.running = true)) := by
  have hinv0 : w0.inv := ⟨fun hc => by simp [World.running, h0] at hc, fun _ => hl0⟩
  have hinv := inv_run calls w0 hinv0
  generalize run calls w0 = w at hinv
  have hstart : ∀ (m : Mode) (v : World), v.inv → v.running = false → ∀ env : StartEnv,
      env.all_ok = true → (channel_start m env v).1 = 0 ∧
        (channel_start m env v).2.running = true ∧ (channel_start m env v).2.owns_live := by
    intro m v hv hs env hok
    have h := channel_start_all_ok m env v hs hok
    exact ⟨h.1, h.2.1, (owns_live_iff_running _ (inv_channel_start m env v hv)).1 h.2.1⟩
  refine ⟨owns_live_iff_running w hinv, ?_, ?_⟩
  · intro hs env hok
    exact ⟨hstart Mode.pp w hinv hs env hok, hstart Mode.xsk w hinv hs env hok⟩
  · intro hrun
    obtain ⟨h1, h2, h3, h4⟩ := channel_stop_running w hrun
    have hinv2 := inv_channel_stop w hinv
    refine ⟨h1, h2, h4, hinv2.2 h2, ?_⟩
    intro env hok
    have hp := hstart Mode.pp _ hinv2 h2 env hok
    have hx := hstart Mode.xsk _ hinv2 h2 env hok
    exact ⟨⟨hp.1, hp.2.1⟩, ⟨hx.1, hx.2.1⟩⟩

theorem channel_running_iff_owns_controllers_witness :
    test_bit NFB_STATUS_IS_RUNNING stopped_world.channel.status = false ∧
      stopped_world.live = [] ∧
      (run [Call.start_pp ok_env, Call.stop, Call.start_xsk tx_thread_fail_env,
          Call.start_xsk ok_env] stopped_world).running = true ∧
      (channel_stop (run [Call.start_pp ok_env, Call.stop, Call.start_xsk tx_thread_fail_env,
          Call.start_xsk ok_env] stopped_world)).1 = 0 :=
  ⟨by decide, rfl, by decide,
    ((channel_running_iff_owns_controllers
      [Call.start_pp ok_env, Call.stop, Call.start_xsk tx_thread_fail_env, Call.start_xsk ok_env]
      stopped_world (by decide) rfl).2.2 (by decide)).1⟩

/-! ## Ring arithmetic -/

theorem mask_eq_mod (m k x : Nat) (hm : m + 1 = 2 ^ k) : x &&& m = x % 2 ^ k := by
  have : m = 2 ^ k - 1 := by omega
  rw [this, Nat.and_pow_two_sub_one_eq_mod]

theorem pow_dvd_32 (k : Nat) (hk : k ≤ 32) : 2 ^ k ∣ 2 ^ 32 := Nat.pow_dvd_pow 2 hk

theorem add32_mask (m k x y : Nat) (hm : m + 1 = 2 ^ k) (hk : k ≤ 32) :
    (add32 x y) &&& m = (x + y) % 2 ^ k := by
  rw [mask_eq_mod m k _ hm, add32, Nat.mod_mod_of_dvd _ (pow_dvd_32 k hk)]

theorem sub32_modEq (k a b : Nat) (hk : k ≤ 32) : sub32 a b + b ≡ a [MOD 2 ^ k] := by
  have h1 : sub32 a b + b ≡ a [MOD 2 ^ 32] := by
    unfold sub32 Nat.ModEq
    omega
  exact h1.of_dvd (pow_dvd_32 k hk)

theorem mask_sub32_modEq (m k a b : Nat) (hm : m + 1 = 2 ^ k) (hk : k ≤ 32) :
    (sub32 a b &&& m) + b ≡ a [MOD 2 ^ k] := by
  rw [mask_eq_mod m k _ hm]
  exact ((Nat.mod_modEq _ _).add_right b).trans (sub32_modEq k a b hk)

/-- Moving the software cursor `s` forward by `w ≤ free` slots lowers the free
count `(h - s - 1) & m` by exactly `w`: the cursor does not pass `h - 1`. -/
theorem free_advance (m k h s s' w : Nat) (hm : m + 1 = 2 ^ k) (hk : k ≤ 32)
    (hs : s' % 2 ^ k = (s + w) % 2 ^ k) (hw : w ≤ (sub32 (sub32 h s) 1) &&& m) :
    (sub32 (sub32 h s') 1) &&& m = ((sub32 (sub32 h s) 1) &&& m) - w := by
  set F := (sub32 (sub32 h s) 1) &&& m with hF
  set G := (sub32 (sub32 h s') 1) &&& m with hG
  have hFlt : F < 2 ^ k := by rw [hF, mask_eq_mod m k _ hm]; exact Nat.mod_lt _ (by positivity)
  have hGlt : G < 2 ^ k := by rw [hG, mask_eq_mod m k _ hm]; exact Nat.mod_lt _ (by positivity)
  have e1 : F + 1 + s ≡ h [MOD 2 ^ k] :=
    ((mask_sub32_modEq m k _ 1 hm hk).add_right s).trans (sub32_modEq k h s hk)
  have e2 : G + 1 + s' ≡ h [MOD 2 ^ k] :=
    ((mask_sub32_modEq m k _ 1 hm hk).add_right s').trans (sub32_modEq k h s' hk)
  have e3 : s' ≡ s + w [MOD 2 ^ k] := hs
  have e4 : G + 1 + (s + w) ≡ F + 1 + s [MOD 2 ^ k] :=
    ((e3.symm.add_left (G + 1)).trans e2).trans e1.symm
  have e5 : G + (1 + s + w) ≡ (F - w) + (1 + s + w) [MOD 2 ^ k] := by
    have h1 : F - w + (1 + s + w) = F + 1 + s := by omega
    have h2 : G + (1 + s + w) = G + 1 + (s + w) := by omega
    rw [h1, h2]
    exact e4
  have e6 : G ≡ F - w [MOD 2 ^ k] := Nat.ModEq.add_right_cancel' _ e5
  exact Nat.ModEq.eq_of_lt_of_lt e6 hGlt (by omega)

/-- Moving the consumer cursor `s` forward by `w ≤ ready` slots lowers the
ready count `(h - s) & m` by exactly `w`: the cursor does not pass `h`. -/
theorem ready_advance (m k h s s' w : Nat) (hm : m + 1 = 2 ^ k) (hk : k ≤ 32)
    (hs : s' % 2 ^ k = (s + w) % 2 ^ k) (hw : w ≤ (sub32 h s) &&& m) :
    (sub32 h s') &&& m = ((sub32 h s) &&& m) - w := by
  set F := (sub32 h s) &&& m with hF
  set G := (sub32 h s') &&& m with hG
  have hFlt : F < 2 ^ k := by rw [hF, mask_eq_mod m k _ hm]; exact Nat.mod_lt _ (by positivity)
  have hGlt : G < 2 ^ k := by rw [hG, mask_eq_mod m k _ hm]; exact Nat.mod_lt _ (by positivity)
  have e1 : F + s ≡ h [MOD 2 ^ k] := mask_sub32_modEq m k h s hm hk
  have e2 : G + s' ≡ h [MOD 2 ^ k] := mask_sub32_modEq m k h s' hm hk
  have e3 : s' ≡ s + w [MOD 2 ^ k] := hs
  have e4 : G + (s + w) ≡ F + s [MOD 2 ^ k] :=
    ((e3.symm.add_left G).trans e2).trans e1.symm
  have e5 : G + (s + w) ≡ (F - w) + (s + w) [MOD 2 ^ k] := by
    have h1 : F - w + (s + w) = F + s := by omega
    rw [h1]
    exact e4
  have e6 : G ≡ F - w [MOD 2 ^ k] := Nat.ModEq.add_right_cancel' _ e5
  exact Nat.ModEq.eq_of_lt_of_lt e6 hGlt (by omega)

theorem nodup_range_mod (M a n : Nat) (h : n ≤ M) :
    ((List.range' a n).map (fun x => x % M)).Nodup := by
  refine List.Nodup.map_on ?_ (List.nodup_range' a n)
  intro x hx y hy hxy
  rw [List.mem_range'_1] at hx hy
  have aux : ∀ u v : Nat, u ≤ v → v < u + M → u % M = v % M → u = v := by
    intro u v huv hlt hmod
    have hd : M ∣ v - u := (Nat.modEq_iff_dvd' huv).1 hmod
    have hz : v - u = 0 := Nat.eq_zero_of_dvd_of_lt hd (by omega)
    omega
  rcases Nat.le_total x y with hle | hle
  · exact aux x y hle (by omega) hxy
  · exact (aux y x hle (by omega) hxy.symm).symm

/-! ## Fill loop -/

theorem range_from_map_mod_congr (M a b n : Nat) (h : a % M = b % M) :
    (List.range' a n).map (fun x => x % M) = (List.range' b n).map (fun x => x % M) := by
  induction n generalizing a b with
  | zero => rfl
  | succ n ih =>
    simp only [List.range'_succ, List.map_cons, h]
    congr 1
    apply ih
    rw [Nat.add_mod, h, ← Nat.add_mod]

theorem expected_descs_cons (P : Params) (c d : Nat) (ds : List Nat) :
    expected_descs P c (d :: ds) =
      expected_descs P c [d] ++ expected_descs P (P.NDP_CTRL_DESC_UPPER_ADDR d) ds := by
  simp [expected_descs]

theorem expected_descs_single_length (P : Params) (c d : Nat) :
    (expected_descs P c [d]).length = slots_needed P c d := by
  by_cases h : P.NDP_CTRL_DESC_UPPER_ADDR d = c <;> simp [expected_descs, slots_needed, h]

/-- Facts about one loop body that ends the iteration normally. -/
theorem fill_body_cont (P : Params) (pg : page) (s s1 : FillState) (ev : List FillEvent)
    (kd kh : Nat) (hmd : s.ctrl.c.mdp + 1 = 2 ^ kd) (hkd : kd ≤ 32)
    (hmh : s.ctrl.c.mhp + 1 = 2 ^ kh) (hkh : kh ≤ 32)
    (hb : fill_body P pg s = (true, s1, ev)) :
    (pages_attached ev = [pg] ∧ pages_returned ev = [] ∧ alloc_results ev = [] ∧
      pages_obtained ev = [] ∧ attach_slots ev = [s.php]) ∧
      descs_written ev = expected_descs P s.last_upper_addr [page_dma P pg] ∧
      s1.last_upper_addr = P.NDP_CTRL_DESC_UPPER_ADDR (page_dma P pg) ∧
      s1.free_desc + (descs_written ev).length = s.free_desc ∧
      s1.i = s.i ∧ s1.php = (s.php + 1) % 2 ^ kh ∧
      s1.sdp = (s.sdp + (descs_written ev).length) % 2 ^ kd ∧
      (desc_slots ev).map (fun x => x % 2 ^ kd) =
        (List.range' s.sdp (descs_written ev).length).map (fun x => x % 2 ^ kd) ∧
      (s1.ctrl.c.mdp = s.ctrl.c.mdp ∧ s1.ctrl.c.mhp = s.ctrl.c.mhp ∧
        s1.ctrl.c.shp = s.ctrl.c.shp ∧ s1.ctrl.c.hdp = s.ctrl.c.hdp ∧
        s1.ctrl.c.hhp = s.ctrl.c.hhp) ∧
      (s.ctrl.c.last_upper_addr = s.last_upper_addr →
        s1.ctrl.c.last_upper_addr = s1.last_upper_addr) := by
  by_cases h1 : P.NDP_CTRL_DESC_UPPER_ADDR (page_dma P pg) = s.last_upper_addr <;>
    by_cases h2 : s.free_desc = 0 <;> by_cases h3 : s.free_desc - 1 = 0 <;>
    simp only [fill_body, h1, h2, h3, ne_eq, not_true_eq_false, not_false_eq_true, if_true,
      if_false, Prod.mk.injEq, Bool.false_eq_true, false_and, true_and] at hb
  all_goals obtain ⟨rfl, rfl⟩ := hb
  all_goals
    simp [pages_attached, pages_returned, alloc_results, pages_obtained, attach_slots,
      descs_written, desc_slots, expected_descs, slots_needed, h1, add32_mask _ _ _ _ hmd hkd,
      add32_mask _ _ _ _ hmh hkh, List.range', nc_ndp_rx_desc0, nc_ndp_rx_desc2]
  all_goals omega

/-- Facts about one loop body that leaves the loop with `break`. -/
theorem fill_body_break (P : Params) (pg : page) (s s1 : FillState) (ev : List FillEvent)
    (kd : Nat) (hmd : s.ctrl.c.mdp + 1 = 2 ^ kd) (hkd : kd ≤ 32)
    (hb : fill_body P pg s = (false, s1, ev)) :
    (pages_attached ev = [] ∧ pages_returned ev = [pg] ∧ alloc_results ev = [] ∧
      pages_obtained ev = [] ∧ attach_slots ev = []) ∧
      (descs_written ev = [] ∧ s1.last_upper_addr = s.last_upper_addr ∨
        descs_written ev = [nc_ndp_rx_desc0 (page_dma P pg)] ∧
          P.NDP_CTRL_DESC_UPPER_ADDR (page_dma P pg) ≠ s.last_upper_addr ∧
          s1.last_upper_addr = P.NDP_CTRL_DESC_UPPER_ADDR (page_dma P pg)) ∧
      s1.free_desc + (descs_written ev).length = s.free_desc ∧
      s.free_desc < slots_needed P s.last_upper_addr (page_dma P pg) ∧
      s1.i = s.i ∧ s1.php = s.php ∧
      s1.sdp % 2 ^ kd = (s.sdp + (descs_written ev).length) % 2 ^ kd ∧
      (desc_slots ev).map (fun x => x % 2 ^ kd) =
        (List.range' s.sdp (descs_written ev).length).map (fun x => x % 2 ^ kd) ∧
      (s1.ctrl.c.mdp = s.ctrl.c.mdp ∧ s1.ctrl.c.mhp = s.ctrl.c.mhp ∧
        s1.ctrl.c.shp = s.ctrl.c.shp ∧ s1.ctrl.c.hdp = s.ctrl.c.hdp ∧
        s1.ctrl.c.hhp = s.ctrl.c.hhp) ∧
      (s.ctrl.c.last_upper_addr = s.last_upper_addr →
        s1.ctrl.c.last_upper_addr = s1.last_upper_addr) ∧
      ev.getLast? = some (FillEvent.page_put pg) := by
  by_cases h1 : P.NDP_CTRL_DESC_UPPER_ADDR (page_dma P pg) = s.last_upper_addr <;>
    by_cases h2 : s.free_desc = 0 <;> by_cases h3 : s.free_desc - 1 = 0 <;>
    simp only [fill_body, h1, h2, h3, ne_eq, not_true_eq_false, not_false_eq_true, if_true,
      if_false, Prod.mk.injEq, Bool.true_eq_false, false_and, true_and] at hb
  all_goals obtain ⟨rfl, rfl⟩ := hb
  all_goals
    simp [pages_attached, pages_returned, alloc_results, pages_obtained, attach_slots,
      descs_written, desc_slots, expected_descs, slots_needed, h1, h2, add32_mask _ _ _ _ hmd hkd,
      List.range', nc_ndp_rx_desc0, nc_ndp_rx_desc2]
  all_goals omega

@[simp] theorem alloc_results_append (a b : List FillEvent) :
    alloc_results (a ++ b) = alloc_results a ++ alloc_results b := by
  simp [alloc_results]

@[simp] theorem pages_obtained_append (a b : List FillEvent) :
    pages_obtained (a ++ b) = pages_obtained a ++ pages_obtained b := by
  simp [pages_obtained]

@[simp] theorem pages_returned_append (a b : List FillEvent) :
    pages_returned (a ++ b) = pages_returned a ++ pages_returned b := by
  simp [pages_returned]

@[simp] theorem pages_attached_append (a b : List FillEvent) :
    pages_attached (a ++ b) = pages_attached a ++ pages_attached b := by
  simp [pages_attached]

@[simp] theorem attach_slots_append (a b : List FillEvent) :
    attach_slots (a ++ b) = attach_slots a ++ attach_slots b := by
  simp [attach_slots]

@[simp] theorem descs_written_append (a b : List FillEvent) :
    descs_written (a ++ b) = descs_written a ++ descs_written b := by
  simp [descs_written]

@[simp] theorem desc_slots_append (a b : List FillEvent) :
    desc_slots (a ++ b) = desc_slots a ++ desc_slots b := by
  simp [desc_slots]

theorem projections_alloc_cons (r : Option page) (l : List FillEvent) :
    alloc_results (FillEvent.page_alloc r :: l) = r :: alloc_results l ∧
      pages_returned (FillEvent.page_alloc r :: l) = pages_returned l ∧
      pages_attached (FillEvent.page_alloc r :: l) = pages_attached l ∧
      attach_slots (FillEvent.page_alloc r :: l) = attach_slots l ∧
      descs_written (FillEvent.page_alloc r :: l) = descs_written l ∧
      desc_slots (FillEvent.page_alloc r :: l) = desc_slots l := by
  simp [alloc_results, pages_returned, pages_attached, attach_slots, descs_written, desc_slots]

theorem pages_obtained_alloc_cons (pg : page) (l : List FillEvent) :
    pages_obtained (FillEvent.page_alloc (some pg) :: l) = pg :: pages_obtained l := by
  simp [pages_obtained]

theorem fill_loop_facts (P : Params) (alloc : Nat → Option page) (kd kh : Nat)
    (hkd : kd ≤ 32) (hkh : kh ≤ 32) (n : Nat) (s : FillState)
    (hmd : s.ctrl.c.mdp + 1 = 2 ^ kd) (hmh : s.ctrl.c.mhp + 1 = 2 ^ kh) :
    FillLoopFacts P kd kh n s (fill_loop P alloc n s).1 (fill_loop P alloc n s).2 := by
  induction n generalizing s with
  | zero =>
    simp only [fill_loop]
    constructor <;>
      simp [pages_attached, pages_returned, alloc_results, pages_obtained, attach_slots,
        descs_written, desc_slots, expected_descs, cache_after]
  | succ n ih =>
    simp only [fill_loop]
    cases halloc : alloc s.i with
    | none =>
      simp only []
      constructor <;>
        simp [pages_attached, pages_returned, alloc_results, pages_obtained, attach_slots,
          descs_written, desc_slots, expected_descs, cache_after]
      intro k hk
      cases k with
      | zero => rfl
      | succ k => simp at hk
    | some pg =>
      simp only []
      rcases hb : fill_body P pg s with ⟨b, s1, ev⟩
      cases b
      · simp only []
        obtain ⟨⟨hA, hR, hAl, hO, hAs⟩, hW, hfree, hlt, hi, hphp, hsdp, hslots, hcur, hsync,
            hlast⟩ := fill_body_break P pg s s1 ev kd hmd hkd hb
        obtain ⟨c1, c2, c3, c4, c5, c6⟩ := projections_alloc_cons (some pg) ev
        constructor
        · rw [c3, hA]; simpa using hi
        · rw [c3, hA]; simp
        · rw [pages_obtained_alloc_cons, c3, c2, hO, hA, hR]; rfl
        · rw [c2, hR]; simp
        · rw [c3, c5, c2, hA, hR]
          rcases hW with ⟨hW, hc⟩ | ⟨hW, hne, hc⟩
          · exact ⟨[], by simp [hW, expected_descs], Or.inl rfl, by simp [cache_after, hc]⟩
          · exact ⟨[nc_ndp_rx_desc0 (page_dma P pg)], by simp [hW, expected_descs],
              Or.inr ⟨pg, rfl, rfl, by simpa [cache_after] using hne⟩,
              by simp [cache_after, hc, nc_ndp_rx_desc0, nc_ndp_desc.addr]⟩
        · rw [c5]; exact hfree
        · intro pg1 h
          rw [c2, hR] at h
          rw [c3, hA]
          simp only [List.cons.injEq, and_true] at h
          subst h
          simpa [expected_descs, cache_after] using hlt
        · intro j pg1 h
          rw [c3, hA] at h
          simp at h
        · intro k h
          rw [c1, hAl] at h
          rw [c3, hA]
          cases k with
          | zero => simp at h
          | succ k => simp at h
        · rw [c3, hA, hphp]; simp
        · rw [c5]; exact hsdp
        · rw [c6, c5]; exact hslots
        · rw [c4, c3, hAs, hA]; simp
        · exact hcur
        · exact hsync
        · intro h
          rw [c1, hAl] at h
          simp at h
        · intro pg1 h
          rw [c2, hR] at h
          simp only [List.mem_singleton] at h
          subst h
          have hne : ev ≠ [] := by intro h'; simp [h'] at hlast
          rw [← List.singleton_append, List.getLast?_append_of_ne_nil _ hne, hlast]
      · simp only []
        obtain ⟨⟨hA, hR, hAl, hO, hAs⟩, hW, hc, hfree, hi, hphp, hsdp, hslots, hcur, hsync⟩ :=
          fill_body_cont P pg s s1 ev kd kh hmd hkd hmh hkh hb
        have H := ih { s1 with i := s1.i + 1 } (by simpa [hcur.1] using hmd)
          (by simpa [hcur.2.1] using hmh)
        generalize fill_loop P alloc n { s1 with i := s1.i + 1 } = r at H
        obtain ⟨t, ev2⟩ := r
        simp only at H ⊢
        obtain ⟨c1, c2, c3, c4, c5, c6⟩ := projections_alloc_cons (some pg) (ev ++ ev2)
        have hWlen : (descs_written ev).length =
            slots_needed P s.last_upper_addr (page_dma P pg) := by
          rw [hW, expected_descs_single_length]
        have hA' : pages_attached (FillEvent.page_alloc (some pg) :: (ev ++ ev2)) =
            pg :: pages_attached ev2 := by
          rw [c3, pages_attached_append, hA]; rfl
        have hW' : descs_written (FillEvent.page_alloc (some pg) :: (ev ++ ev2)) =
            descs_written ev ++ descs_written ev2 := by
          rw [c5, descs_written_append]
        have hR' : pages_returned (FillEvent.page_alloc (some pg) :: (ev ++ ev2)) =
            pages_returned ev2 := by
          rw [c2, pages_returned_append, hR]; rfl
        constructor
        · rw [hA', H.i_eq]; simp [hi]; omega
        · rw [hA']; have := H.le_n; simp; omega
        · rw [pages_obtained_alloc_cons, pages_obtained_append, hO, hA', hR', H.obtained]; rfl
        · rw [hR']; exact H.returned_le
        · rw [hA', hW', hR']
          obtain ⟨T, h1, h2, h3⟩ := H.stream
          simp only at h1 h2 h3
          rw [hc] at h1 h2 h3
          refine ⟨T, ?_, ?_, ?_⟩
          · rw [List.map_cons, expected_descs_cons, h1, hW, List.append_assoc]
          · simpa [cache_after] using h2
          · simpa [cache_after] using h3
        · rw [hW']; have := H.free; simp at this ⊢; omega
        · intro pg1 h
          rw [hR'] at h
          have h1 := H.returned_when pg1 h
          simp only at h1
          rw [hc] at h1
          rw [hA', List.map_cons, expected_descs_cons, List.length_append,
            expected_descs_single_length, ← hWlen]
          simp only [cache_after]
          omega
        · intro j pg1 h
          rw [hA'] at h ⊢
          cases j with
          | zero =>
            simp only [List.getElem?_cons_zero, Option.some.injEq] at h
            subst h
            simp [expected_descs, cache_after]
            omega
          | succ j =>
            simp only [List.getElem?_cons_succ] at h
            have h1 := H.attached_when j pg1 h
            simp only at h1
            rw [hc] at h1
            rw [List.take_succ_cons, List.map_cons, expected_descs_cons, List.length_append,
              expected_descs_single_length, ← hWlen]
            simp only [cache_after]
            omega
        · intro k h
          rw [c1, alloc_results_append, hAl] at h
          rw [hA']
          cases k with
          | zero => simp at h
          | succ k =>
            simp only [List.nil_append, List.getElem?_cons_succ] at h
            have := H.alloc_fail k h
            simp [this]
        · rw [hA', H.php_eq]
          simp only [hphp, List.length_cons, Nat.mod_add_mod]
          congr 1
          omega
        · rw [hW', H.sdp_eq]
          simp only [hsdp, List.length_append, Nat.mod_add_mod]
          congr 1
          omega
        · have e : List.range' s.sdp ((descs_written ev).length + (descs_written ev2).length) =
              List.range' s.sdp (descs_written ev).length ++
                List.range' (s.sdp + (descs_written ev).length) (descs_written ev2).length := by
            rw [List.range'_append_1, Nat.add_comm]
          rw [c6, desc_slots_append, hW', List.map_append, hslots, H.desc_slots_eq,
            List.length_append, e, List.map_append]
          congr 1
          apply range_from_map_mod_congr
          simp [hsdp]
        · rw [c4, attach_slots_append, hAs, hA', List.map_append, H.attach_slots_eq]
          simp only [List.map_cons, List.map_nil, List.length_cons, List.range'_succ,
            List.singleton_append]
          congr 1
          apply range_from_map_mod_congr
          simp [hphp]
        · obtain ⟨a1, a2, a3, a4, a5⟩ := H.cursors
          obtain ⟨b1, b2, b3, b4, b5⟩ := hcur
          simp only at a1 a2 a3 a4 a5
          exact ⟨a1.trans b1, a2.trans b2, a3.trans b3, a4.trans b4, a5.trans b5⟩
        · intro h
          exact H.cache_sync (hsync h)
        · intro h
          rw [c1, alloc_results_append, hAl] at h
          simp only [List.nil_append, List.mem_cons, reduceCtorEq, false_or] at h
          have h1 := H.fail_last h
          have hne : ev2 ≠ [] := by intro h'; simp [h'] at h1
          rw [← List.cons_append, List.getLast?_append_of_ne_nil _ hne, h1]
        · intro pg1 h
          rw [hR'] at h
          have h1 := H.put_last pg1 h
          have hne : ev2 ≠ [] := by intro h'; simp [h'] at h1
          rw [← List.cons_append, List.getLast?_append_of_ne_nil _ hne, h1]

theorem fill_loop_facts_refl (P : Params) (kd kh n : Nat) (s : FillState) :
    FillLoopFacts P kd kh n s s [] := by
  constructor <;>
    simp [pages_attached, pages_returned, alloc_results, pages_obtained, attach_slots,
      descs_written, desc_slots, expected_descs, cache_after]

/-- The whole of `nfb_xctrl_rx_fill_pp` in terms of its loop: there is a final
loop state that the entry state is related to by the loop facts, and the
result of the call is read off that state. -/
theorem fill_pp_facts (P : Params) (env : FillEnv) (ctrl : xctrl) (kd kh : Nat)
    (hkd : kd ≤ 32) (hkh : kh ≤ 32)
    (hmd : ctrl.c.mdp + 1 = 2 ^ kd) (hmh : ctrl.c.mhp + 1 = 2 ^ kh) :
    ∃ t : FillState,
      FillLoopFacts P kd kh P.NFB_XDP_CTRL_PACKET_BURST (fill_entry env ctrl) t
        (nfb_xctrl_rx_fill_pp P env ctrl).trace ∧
      (nfb_xctrl_rx_fill_pp P env ctrl).ret = int_of_u32 t.i ∧
      (nfb_xctrl_rx_fill_pp P env ctrl).ctrl.php = t.php ∧
      (nfb_xctrl_rx_fill_pp P env ctrl).ctrl.c.sdp = t.sdp ∧
      (nfb_xctrl_rx_fill_pp P env ctrl).ctrl.c.last_upper_addr = t.last_upper_addr ∧
      (nfb_xctrl_rx_fill_pp P env ctrl).ctrl.c.hdp = env.hdp ∧
      (nfb_xctrl_rx_fill_pp P env ctrl).ctrl.c.shp = ctrl.c.shp ∧
      (nfb_xctrl_rx_fill_pp P env ctrl).ctrl.c.hhp = ctrl.c.hhp ∧
      (nfb_xctrl_rx_fill_pp P env ctrl).ctrl.c.mdp = ctrl.c.mdp ∧
      (nfb_xctrl_rx_fill_pp P env ctrl).ctrl.c.mhp = ctrl.c.mhp ∧
      ((pages_attached (nfb_xctrl_rx_fill_pp P env ctrl).trace).length ≠ 0 →
        P.NFB_XDP_CTRL_PACKET_BURST ≤ free_hdr_slots ctrl) := by
  by_cases hearly : free_hdr_slots ctrl < P.NFB_XDP_CTRL_PACKET_BURST ∨
      free_desc_slots (nc_ndp_ctrl_hdp_update env.hdp ctrl.c) < P.NFB_XDP_CTRL_PACKET_BURST
  · have hr : nfb_xctrl_rx_fill_pp P env ctrl =
        { ret := 0, ctrl := { ctrl with c := nc_ndp_ctrl_hdp_update env.hdp ctrl.c },
          trace := [] } := by
      unfold nfb_xctrl_rx_fill_pp
      simp only [free_hdr_slots, free_desc_slots, nc_ndp_ctrl_hdp_update] at hearly
      simp only [nc_ndp_ctrl_hdp_update, hearly, if_true]
    rw [hr]
    refine ⟨fill_entry env ctrl, fill_loop_facts_refl P kd kh _ _, ?_⟩
    simp [fill_entry, int_of_u32, nc_ndp_ctrl_hdp_update, pages_attached]
  · have hr : nfb_xctrl_rx_fill_pp P env ctrl =
        { ret := int_of_u32
            (fill_loop P env.alloc P.NFB_XDP_CTRL_PACKET_BURST (fill_entry env ctrl)).1.i,
          ctrl := { (fill_loop P env.alloc P.NFB_XDP_CTRL_PACKET_BURST
                (fill_entry env ctrl)).1.ctrl with
              php := (fill_loop P env.alloc P.NFB_XDP_CTRL_PACKET_BURST
                (fill_entry env ctrl)).1.php,
              c := { (fill_loop P env.alloc P.NFB_XDP_CTRL_PACKET_BURST
                  (fill_entry env ctrl)).1.ctrl.c with
                sdp := (fill_loop P env.alloc P.NFB_XDP_CTRL_PACKET_BURST
                  (fill_entry env ctrl)).1.sdp } },
          trace := (fill_loop P env.alloc P.NFB_XDP_CTRL_PACKET_BURST
            (fill_entry env ctrl)).2 } := by
      unfold nfb_xctrl_rx_fill_pp
      simp only [free_hdr_slots, free_desc_slots, nc_ndp_ctrl_hdp_update] at hearly
      simp only [nc_ndp_ctrl_hdp_update, hearly, if_false]
      rfl
    rw [hr]
    have H := fill_loop_facts P env.alloc kd kh hkd hkh P.NFB_XDP_CTRL_PACKET_BURST
      (fill_entry env ctrl) hmd hmh
    obtain ⟨a1, a2, a3, a4, a5⟩ := H.cursors
    have hs := H.cache_sync rfl
    refine ⟨_, H, rfl, rfl, rfl, hs, ?_, ?_, ?_, ?_, ?_, ?_⟩
    · simpa [fill_entry, nc_ndp_ctrl_hdp_update] using a4
    · simpa [fill_entry, nc_ndp_ctrl_hdp_update] using a3
    · simpa [fill_entry, nc_ndp_ctrl_hdp_update] using a5
    · simpa [fill_entry, nc_ndp_ctrl_hdp_update] using a1
    · simpa [fill_entry, nc_ndp_ctrl_hdp_update] using a2
    · intro _
      push_neg at hearly
      exact hearly.1

/-! ## Receive loop -/

theorem rx_loop_facts (hdrs : Nat → nc_ndp_hdr) (mhp kh : Nat) (hmh : mhp + 1 = 2 ^ kh)
    (hkh : kh ≤ 32) (n : Nat) (ring : Nat → xdp_buff) (shp : Nat) :
    (rx_loop hdrs mhp n ring shp).1.length = n ∧
      (rx_loop hdrs mhp n ring shp).1.map (fun x => x % 2 ^ kh) =
        (List.range' shp n).map (fun x => x % 2 ^ kh) ∧
      (rx_loop hdrs mhp n ring shp).2.2 % 2 ^ kh = (shp + n) % 2 ^ kh ∧
      (∀ slot, (rx_loop hdrs mhp n ring shp).2.1 slot =
        if slot ∈ (rx_loop hdrs mhp n ring shp).1 then
          { ring slot with data_end := (ring slot).data + (hdrs slot).frame_len }
        else ring slot) ∧
      (shp < 2 ^ kh → (∀ x ∈ (rx_loop hdrs mhp n ring shp).1, x < 2 ^ kh) ∧
        (rx_loop hdrs mhp n ring shp).2.2 < 2 ^ kh) := by
  induction n generalizing ring shp with
  | zero => simp [rx_loop]
  | succ n ih =>
    obtain ⟨h1, h2, h3, h4, h5⟩ := ih
      (Function.update ring shp
        { ring shp with data_end := (ring shp).data + (hdrs shp).frame_len })
      ((add32 shp 1) &&& mhp)
    have hmask : (add32 shp 1) &&& mhp = (shp + 1) % 2 ^ kh := add32_mask mhp kh shp 1 hmh hkh
    have hpos : 0 < 2 ^ kh := by positivity
    simp only [rx_loop]
    refine ⟨by simp [h1], ?_, ?_, ?_, ?_⟩
    · rw [List.map_cons, h2, List.range'_succ, List.map_cons]
      congr 1
      apply range_from_map_mod_congr
      rw [hmask, Nat.mod_mod]
    · rw [h3, hmask, Nat.mod_add_mod]
      congr 1
      omega
    · intro slot
      rw [h4 slot]
      by_cases hs : slot = shp
      · subst hs
        simp
      · simp [hs, Function.update_noteq hs]
    · intro hlt
      have hlt' : (add32 shp 1) &&& mhp < 2 ^ kh := by
        rw [hmask]
        exact Nat.mod_lt _ hpos
      obtain ⟨h6, h7⟩ := h5 hlt'
      refine ⟨?_, h7⟩
      intro x hx
      simp only [List.mem_cons] at hx
      rcases hx with rfl | hx
      · exact hlt
      · exact h6 x hx

theorem map_mod_eq_self (M : Nat) (l : List Nat) (h : ∀ x ∈ l, x < M) :
    l.map (fun x => x % M) = l := by
  induction l with
  | nil => rfl
  | cons a l ih =>
    simp only [List.map_cons, List.mem_cons, forall_eq_or_imp] at h ⊢
    rw [Nat.mod_eq_of_lt h.1, ih h.2]

/-! ## Fill loop: the rings -/

theorem ring_apply_append {α : Type} (a b : List (Nat × (α → α))) (r : Nat → α) :
    ring_apply (a ++ b) r = ring_apply b (ring_apply a r) := by
  induction a generalizing r with
  | nil => rfl
  | cons w rest ih =>
    show ring_apply (rest ++ b) _ = _
    exact ih _

theorem ring_apply_not_mem {α : Type} (ws : List (Nat × (α → α))) (r : Nat → α) (slot : Nat)
    (h : slot ∉ ws.map Prod.fst) : ring_apply ws r slot = r slot := by
  induction ws generalizing r with
  | nil => rfl
  | cons w rest ih =>
    simp only [List.map_cons, List.mem_cons, not_or] at h
    simp only [ring_apply]
    rw [ih _ h.2, Function.update_noteq h.1]

theorem ring_apply_get {α : Type} (ws : List (Nat × (α → α))) (r : Nat → α)
    (hnd : (ws.map Prod.fst).Nodup) (i : Nat) (w : Nat × (α → α)) (h : ws[i]? = some w) :
    ring_apply ws r w.1 = w.2 (r w.1) := by
  induction ws generalizing r i with
  | nil => simp at h
  | cons w0 rest ih =>
    simp only [List.map_cons, List.nodup_cons] at hnd
    simp only [ring_apply]
    cases i with
    | zero =>
      simp only [List.getElem?_cons_zero, Option.some.injEq] at h
      subst h
      rw [ring_apply_not_mem _ _ _ hnd.1, Function.update_same]
    | succ i =>
      simp only [List.getElem?_cons_succ] at h
      have hmem : w.1 ∈ rest.map Prod.fst := List.mem_map_of_mem _ (List.getElem?_mem h)
      have hne : w.1 ≠ w0.1 := by
        intro he
        rw [he] at hmem
        exact hnd.1 hmem
      rw [ih _ hnd.2 i h, Function.update_noteq hne]

@[simp] theorem desc_stores_append (a b : List FillEvent) :
    desc_stores (a ++ b) = desc_stores a ++ desc_stores b := by
  simp [desc_stores]

@[simp] theorem buff_stores_append (P : Params) (a b : List FillEvent) :
    buff_stores P (a ++ b) = buff_stores P a ++ buff_stores P b := by
  simp [buff_stores]

theorem desc_stores_fst (tr : List FillEvent) :
    (desc_stores tr).map Prod.fst = desc_slots tr := by
  induction tr with
  | nil => rfl
  | cons e tr ih =>
    cases e <;> simp_all [desc_stores, desc_slots]

theorem buff_stores_fst (P : Params) (tr : List FillEvent) :
    (buff_stores P tr).map Prod.fst = attach_slots tr := by
  induction tr with
  | nil => rfl
  | cons e tr ih =>
    cases e <;> simp_all [buff_stores, attach_slots]

theorem desc_stores_get (tr : List FillEvent) (i : Nat) (d : nc_ndp_desc)
    (h : (descs_written tr)[i]? = some d) :
    ∃ slot, (desc_slots tr)[i]? = some slot ∧ (desc_stores tr)[i]? = some (slot, fun _ => d) := by
  induction tr generalizing i with
  | nil => simp [descs_written] at h
  | cons e tr ih =>
    cases e with
    | desc_write slot x =>
      cases i with
      | zero =>
        simp only [descs_written, List.filterMap_cons, List.getElem?_cons_zero,
          Option.some.injEq] at h
        subst h
        exact ⟨slot, by simp [desc_slots], by simp [desc_stores]⟩
      | succ i =>
        have h1 : (descs_written tr)[i]? = some d := by
          simpa [descs_written] using h
        obtain ⟨s, hs1, hs2⟩ := ih i h1
        exact ⟨s, by simpa [desc_slots] using hs1, by simpa [desc_stores] using hs2⟩
    | page_alloc r =>
      have h1 : (descs_written tr)[i]? = some d := by simpa [descs_written] using h
      obtain ⟨s, hs1, hs2⟩ := ih i h1
      exact ⟨s, by simpa [desc_slots] using hs1, by simpa [desc_stores] using hs2⟩
    | page_put pg =>
      have h1 : (descs_written tr)[i]? = some d := by simpa [descs_written] using h
      obtain ⟨s, hs1, hs2⟩ := ih i h1
      exact ⟨s, by simpa [desc_slots] using hs1, by simpa [desc_stores] using hs2⟩
    | buff_prepare slot pg =>
      have h1 : (descs_written tr)[i]? = some d := by simpa [descs_written] using h
      obtain ⟨s, hs1, hs2⟩ := ih i h1
      exact ⟨s, by simpa [desc_slots] using hs1, by simpa [desc_stores] using hs2⟩

theorem buff_stores_get (P : Params) (tr : List FillEvent) (j : Nat) (pg : page)
    (h : (pages_attached tr)[j]? = some pg) :
    ∃ slot, (attach_slots tr)[j]? = some slot ∧
      (buff_stores P tr)[j]? = some (slot, fun b =>
        xdp_prepare_buff (xdp_init_buff b P.PAGE_SIZE) pg.virt P.XDP_PACKET_HEADROOM 0 false) := by
  induction tr generalizing j with
  | nil => simp [pages_attached] at h
  | cons e tr ih =>
    cases e with
    | buff_prepare slot x =>
      cases j with
      | zero =>
        simp only [pages_attached, List.filterMap_cons, List.getElem?_cons_zero,
          Option.some.injEq] at h
        subst h
        exact ⟨slot, by simp [attach_slots], by simp [buff_stores]⟩
      | succ j =>
        have h1 : (pages_attached tr)[j]? = some pg := by
          simpa [pages_attached] using h
        obtain ⟨s, hs1, hs2⟩ := ih j h1
        exact ⟨s, by simpa [attach_slots] using hs1, by simpa [buff_stores] using hs2⟩
    | page_alloc r =>
      have h1 : (pages_attached tr)[j]? = some pg := by simpa [pages_attached] using h
      obtain ⟨s, hs1, hs2⟩ := ih j h1
      exact ⟨s, by simpa [attach_slots] using hs1, by simpa [buff_stores] using hs2⟩
    | page_put x =>
      have h1 : (pages_attached tr)[j]? = some pg := by simpa [pages_attached] using h
      obtain ⟨s, hs1, hs2⟩ := ih j h1
      exact ⟨s, by simpa [attach_slots] using hs1, by simpa [buff_stores] using hs2⟩
    | desc_write slot x =>
      have h1 : (pages_attached tr)[j]? = some pg := by simpa [pages_attached] using h
      obtain ⟨s, hs1, hs2⟩ := ih j h1
      exact ⟨s, by simpa [attach_slots] using hs1, by simpa [buff_stores] using hs2⟩

/-- The rings after one loop body are the rings before it with the stores of
the body made in order. -/
theorem fill_body_rings (P : Params) (pg : page) (s : FillState) :
    (fill_body P pg s).2.1.ctrl.descs =
        ring_apply (desc_stores (fill_body P pg s).2.2) s.ctrl.descs ∧
      (fill_body P pg s).2.1.ctrl.xdp_ring =
        ring_apply (buff_stores P (fill_body P pg s).2.2) s.ctrl.xdp_ring := by
  by_cases h1 : P.NDP_CTRL_DESC_UPPER_ADDR (page_dma P pg) = s.last_upper_addr <;>
    by_cases h2 : s.free_desc = 0 <;> by_cases h3 : s.free_desc - 1 = 0 <;>
    simp [fill_body, h1, h2, h3, desc_stores, buff_stores, ring_apply]

/-- The slots one loop body stores into lie inside the rings, and so do the
cursors it leaves. -/
theorem fill_body_slots_lt (P : Params) (pg : page) (s : FillState) (kd kh : Nat)
    (hmd : s.ctrl.c.mdp + 1 = 2 ^ kd) (hkd : kd ≤ 32)
    (hmh : s.ctrl.c.mhp + 1 = 2 ^ kh) (hkh : kh ≤ 32) :
    (s.sdp < 2 ^ kd → (∀ x ∈ desc_slots (fill_body P pg s).2.2, x < 2 ^ kd) ∧
        (fill_body P pg s).2.1.sdp < 2 ^ kd) ∧
      (s.php < 2 ^ kh → (∀ x ∈ attach_slots (fill_body P pg s).2.2, x < 2 ^ kh) ∧
        (fill_body P pg s).2.1.php < 2 ^ kh) ∧
      (fill_body P pg s).2.1.ctrl.c.mdp = s.ctrl.c.mdp ∧
      (fill_body P pg s).2.1.ctrl.c.mhp = s.ctrl.c.mhp := by
  have hd : ∀ x, (x + 1) % 2 ^ kd < 2 ^ kd := fun x => Nat.mod_lt _ (by positivity)
  have hh : ∀ x, (x + 1) % 2 ^ kh < 2 ^ kh := fun x => Nat.mod_lt _ (by positivity)
  by_cases h1 : P.NDP_CTRL_DESC_UPPER_ADDR (page_dma P pg) = s.last_upper_addr <;>
    by_cases h2 : s.free_desc = 0 <;> by_cases h3 : s.free_desc - 1 = 0 <;>
    simp +contextual [fill_body, h1, h2, h3, desc_slots, attach_slots,
      add32_mask _ _ _ _ hmd hkd, add32_mask _ _ _ _ hmh hkh, hd, hh]

theorem fill_loop_rings (P : Params) (alloc : Nat → Option page) (n : Nat) (s : FillState) :
    (fill_loop P alloc n s).1.ctrl.descs =
        ring_apply (desc_stores (fill_loop P alloc n s).2) s.ctrl.descs ∧
      (fill_loop P alloc n s).1.ctrl.xdp_ring =
        ring_apply (buff_stores P (fill_loop P alloc n s).2) s.ctrl.xdp_ring := by
  induction n generalizing s with
  | zero => simp [fill_loop, desc_stores, buff_stores, ring_apply]
  | succ n ih =>
    simp only [fill_loop]
    cases halloc : alloc s.i with
    | none => simp [desc_stores, buff_stores, ring_apply]
    | some pg =>
      simp only []
      have hb := fill_body_rings P pg s
      rcases hfb : fill_body P pg s with ⟨b, s1, ev⟩
      rw [hfb] at hb
      simp only at hb
      cases b
      · simp only []
        have e1 : desc_stores (FillEvent.page_alloc (some pg) :: ev) = desc_stores ev := by
          simp [desc_stores]
        have e2 : buff_stores P (FillEvent.page_alloc (some pg) :: ev) = buff_stores P ev := by
          simp [buff_stores]
        rw [e1, e2]
        exact hb
      · simp only []
        have H := ih { s1 with i := s1.i + 1 }
        have e1 : ∀ l, desc_stores (FillEvent.page_alloc (some pg) :: l) = desc_stores l := by
          intro l; simp [desc_stores]
        have e2 : ∀ l, buff_stores P (FillEvent.page_alloc (some pg) :: l) =
            buff_stores P l := by
          intro l; simp [buff_stores]
        rw [e1, e2, desc_stores_append, buff_stores_append, ring_apply_append,
          ring_apply_append, ← hb.1, ← hb.2]
        exact H

theorem fill_loop_slots_lt (P : Params) (alloc : Nat → Option page) (kd kh : Nat)
    (hkd : kd ≤ 32) (hkh : kh ≤ 32) (n : Nat) (s : FillState)
    (hmd : s.ctrl.c.mdp + 1 = 2 ^ kd) (hmh : s.ctrl.c.mhp + 1 = 2 ^ kh) :
    (s.sdp < 2 ^ kd → (∀ x ∈ desc_slots (fill_loop P alloc n s).2, x < 2 ^ kd) ∧
        (fill_loop P alloc n s).1.sdp < 2 ^ kd) ∧
      (s.php < 2 ^ kh → (∀ x ∈ attach_slots (fill_loop P alloc n s).2, x < 2 ^ kh) ∧
        (fill_loop P alloc n s).1.php < 2 ^ kh) := by
  induction n generalizing s with
  | zero => simp +contextual [fill_loop, desc_slots, attach_slots]
  | succ n ih =>
    simp only [fill_loop]
    cases halloc : alloc s.i with
    | none => simp +contextual [desc_slots, attach_slots]
    | some pg =>
      simp only []
      have hb := fill_body_slots_lt P pg s kd kh hmd hkd hmh hkh
      rcases hfb : fill_body P pg s with ⟨b, s1, ev⟩
      rw [hfb] at hb
      simp only at hb
      obtain ⟨b1, b2, b5, b6⟩ := hb
      obtain ⟨_, _, _, c4, _, c6⟩ := projections_alloc_cons (some pg) ev
      cases b
      · simp only []
        rw [c4, c6]
        exact ⟨b1, b2⟩
      · simp only []
        have H := ih { s1 with i := s1.i + 1 } (by simpa [b5] using hmd)
          (by simpa [b6] using hmh)
        obtain ⟨_, _, _, d4, _, d6⟩ := projections_alloc_cons (some pg)
          (ev ++ (fill_loop P alloc n { s1 with i := s1.i + 1 }).2)
        rw [d4, d6, desc_slots_append, attach_slots_append]
        refine ⟨?_, ?_⟩
        · intro hs
          obtain ⟨x1, x2⟩ := b1 hs
          obtain ⟨y1, y2⟩ := H.1 x2
          refine ⟨?_, y2⟩
          intro x hx
          rcases List.mem_append.1 hx with h | h
          · exact x1 x h
          · exact y1 x h
        · intro hp
          obtain ⟨x1, x2⟩ := b2 hp
          obtain ⟨y1, y2⟩ := H.2 x2
          refine ⟨?_, y2⟩
          intro x hx
          rcases List.mem_append.1 hx with h | h
          · exact x1 x h
          · exact y1 x h

/-- The pages a run of the fill loop obtains are the results of the page
pool's allocations, in order, counted from the loop's current `i`. -/
theorem fill_loop_obtained_env (P : Params) (alloc : Nat → Option page) (n : Nat)
    (s : FillState) :
    ∀ j pg, (pages_obtained (fill_loop P alloc n s).2)[j]? = some pg →
      alloc (s.i + j) = some pg := by
  induction n generalizing s with
  | zero =>
    intro j pg h
    simp [fill_loop, pages_obtained] at h
  | succ n ih =>
    intro j pg1 h
    simp only [fill_loop] at h
    cases halloc : alloc s.i with
    | none =>
      rw [halloc] at h
      simp [pages_obtained] at h
    | some pg =>
      rw [halloc] at h
      simp only [] at h
      rcases hfb : fill_body P pg s with ⟨b, s1, ev⟩
      rw [hfb] at h
      cases b
      · obtain ⟨⟨_, _, _, hO, _⟩, _⟩ : (pages_attached ev = [] ∧ pages_returned ev = [pg] ∧
            alloc_results ev = [] ∧ pages_obtained ev = [] ∧ attach_slots ev = []) ∧ True := by
          by_cases h1 : P.NDP_CTRL_DESC_UPPER_ADDR (page_dma P pg) = s.last_upper_addr <;>
            by_cases h2 : s.free_desc = 0 <;> by_cases h3 : s.free_desc - 1 = 0 <;>
            simp only [fill_body, h1, h2, h3, ne_eq, not_true_eq_false, not_false_eq_true,
              if_true, if_false, Prod.mk.injEq, Bool.true_eq_false, false_and, true_and] at hfb
          all_goals obtain ⟨rfl, rfl⟩ := hfb
          all_goals
            simp [pages_attached, pages_returned, alloc_results, pages_obtained, attach_slots]
        simp only [] at h
        rw [pages_obtained_alloc_cons, hO] at h
        cases j with
        | zero =>
          simp only [List.getElem?_cons_zero, Option.some.injEq] at h
          rw [Nat.add_zero, halloc, h]
        | succ j => simp at h
      · obtain ⟨hO, hi⟩ : pages_obtained ev = [] ∧ s1.i = s.i := by
          by_cases h1 : P.NDP_CTRL_DESC_UPPER_ADDR (page_dma P pg) = s.last_upper_addr <;>
            by_cases h2 : s.free_desc = 0 <;> by_cases h3 : s.free_desc - 1 = 0 <;>
            simp only [fill_body, h1, h2, h3, ne_eq, not_true_eq_false, not_false_eq_true,
              if_true, if_false, Prod.mk.injEq, Bool.false_eq_true, false_and, true_and] at hfb
          all_goals obtain ⟨rfl, rfl⟩ := hfb
          all_goals simp [pages_obtained]
        simp only [] at h
        rw [pages_obtained_alloc_cons, pages_obtained_append, hO, List.nil_append] at h
        cases j with
        | zero =>
          simp only [List.getElem?_cons_zero, Option.some.injEq] at h
          rw [Nat.add_zero, halloc, h]
        | succ j =>
          simp only [List.getElem?_cons_succ] at h
          have := ih { s1 with i := s1.i + 1 } j pg1 h
          simp only [hi] at this
          rw [← this]
          congr 1
          omega

/-- Stores into consecutive slots of a ring of `M` slots, fewer than the ring
has: every store is found in the ring afterwards, applied to what its slot
held before, and every other slot is as it was. -/
theorem ring_apply_consecutive {α : Type} (ws : List (Nat × (α → α))) (r : Nat → α)
    (M a : Nat) (hM : ws.length ≤ M)
    (hslots : ws.map Prod.fst = (List.range' a ws.length).map (fun x => x % M)) :
    (∀ i w, ws[i]? = some w → ring_apply ws r ((a + i) % M) = w.2 (r ((a + i) % M))) ∧
      (∀ slot, (∀ i, i < ws.length → slot ≠ (a + i) % M) → ring_apply ws r slot = r slot) := by
  have hnd : (ws.map Prod.fst).Nodup := by
    rw [hslots]
    exact nodup_range_mod M a ws.length hM
  refine ⟨?_, ?_⟩
  · intro i w h
    have hi : i < ws.length := by
      by_contra hc
      rw [List.getElem?_eq_none (by omega)] at h
      cases h
    have h1 : (ws.map Prod.fst)[i]? = some w.1 := by
      rw [List.getElem?_map, h]
      rfl
    rw [hslots, List.getElem?_map, List.getElem?_eq_getElem (by simpa using hi)] at h1
    simp only [List.getElem_range', Nat.one_mul, Option.map_some', Option.some.injEq] at h1
    rw [h1]
    exact ring_apply_get ws r hnd i w h
  · intro slot hne
    apply ring_apply_not_mem
    rw [hslots]
    intro hmem
    rw [List.mem_map] at hmem
    obtain ⟨x, hx, rfl⟩ := hmem
    rw [List.mem_range'_1] at hx
    have := hne (x - a) (by omega)
    apply this
    congr 1
    omega

/-- The two ways a call of `nfb_xctrl_rx_fill_pp` goes: it returns at once, or
it runs the fill loop from the entry state. -/
theorem fill_pp_cases (P : Params) (env : FillEnv) (ctrl : xctrl) :
    nfb_xctrl_rx_fill_pp P env ctrl =
        { ret := 0, ctrl := { ctrl with c := nc_ndp_ctrl_hdp_update env.hdp ctrl.c },
          trace := [] } ∨
      nfb_xctrl_rx_fill_pp P env ctrl =
        { ret := int_of_u32
            (fill_loop P env.alloc P.NFB_XDP_CTRL_PACKET_BURST (fill_entry env ctrl)).1.i,
          ctrl := { (fill_loop P env.alloc P.NFB_XDP_CTRL_PACKET_BURST
                (fill_entry env ctrl)).1.ctrl with
              php := (fill_loop P env.alloc P.NFB_XDP_CTRL_PACKET_BURST
                (fill_entry env ctrl)).1.php,
              c := { (fill_loop P env.alloc P.NFB_XDP_CTRL_PACKET_BURST
                  (fill_entry env ctrl)).1.ctrl.c with
                sdp := (fill_loop P env.alloc P.NFB_XDP_CTRL_PACKET_BURST
                  (fill_entry env ctrl)).1.sdp } },
          trace := (fill_loop P env.alloc P.NFB_XDP_CTRL_PACKET_BURST
            (fill_entry env ctrl)).2 } := by
  by_cases hearly : free_hdr_slots ctrl < P.NFB_XDP_CTRL_PACKET_BURST ∨
      free_desc_slots (nc_ndp_ctrl_hdp_update env.hdp ctrl.c) < P.NFB_XDP_CTRL_PACKET_BURST
  · left
    unfold nfb_xctrl_rx_fill_pp
    simp only [free_hdr_slots, free_desc_slots, nc_ndp_ctrl_hdp_update] at hearly
    simp only [nc_ndp_ctrl_hdp_update, hearly, if_true]
  · right
    unfold nfb_xctrl_rx_fill_pp
    simp only [free_hdr_slots, free_desc_slots, nc_ndp_ctrl_hdp_update] at hearly
    simp only [nc_ndp_ctrl_hdp_update, hearly, if_false]
    rfl

/-- The state a call of `nfb_xctrl_rx_fill_pp` leaves: both rings are the
rings on entry with the stores of the call made in order, the pages obtained
are the page pool's allocation results in order, and cursors that were inside
their rings stay inside, as do the slots stored into. -/
theorem fill_pp_state (P : Params) (env : FillEnv) (ctrl : xctrl) (kd kh : Nat)
    (hkd : kd ≤ 32) (hkh : kh ≤ 32)
    (hmd : ctrl.c.mdp + 1 = 2 ^ kd) (hmh : ctrl.c.mhp + 1 = 2 ^ kh) :
    (nfb_xctrl_rx_fill_pp P env ctrl).ctrl.descs =
        ring_apply (desc_stores (nfb_xctrl_rx_fill_pp P env ctrl).trace) ctrl.descs ∧
      (nfb_xctrl_rx_fill_pp P env ctrl).ctrl.xdp_ring =
        ring_apply (buff_stores P (nfb_xctrl_rx_fill_pp P env ctrl).trace) ctrl.xdp_ring ∧
      (∀ j pg, (pages_obtained (nfb_xctrl_rx_fill_pp P env ctrl).trace)[j]? = some pg →
        env.alloc j = some pg) ∧
      (ctrl.c.sdp < 2 ^ kd →
        (∀ x ∈ desc_slots (nfb_xctrl_rx_fill_pp P env ctrl).trace, x < 2 ^ kd) ∧
        (nfb_xctrl_rx_fill_pp P env ctrl).ctrl.c.sdp < 2 ^ kd) ∧
      (ctrl.php < 2 ^ kh →
        (∀ x ∈ attach_slots (nfb_xctrl_rx_fill_pp P env ctrl).trace, x < 2 ^ kh) ∧
        (nfb_xctrl_rx_fill_pp P env ctrl).ctrl.php < 2 ^ kh) := by
  rcases fill_pp_cases P env ctrl with hr | hr
  · rw [hr]
    simp +contextual [desc_stores, buff_stores, ring_apply, pages_obtained, desc_slots,
      attach_slots, nc_ndp_ctrl_hdp_update]
  · rw [hr]
    have hR := fill_loop_rings P env.alloc P.NFB_XDP_CTRL_PACKET_BURST (fill_entry env ctrl)
    have hS := fill_loop_slots_lt P env.alloc kd kh hkd hkh P.NFB_XDP_CTRL_PACKET_BURST
      (fill_entry env ctrl) hmd hmh
    have hO := fill_loop_obtained_env P env.alloc P.NFB_XDP_CTRL_PACKET_BURST
      (fill_entry env ctrl)
    refine ⟨hR.1, hR.2, ?_, hS.1, hS.2⟩
    intro j pg h
    have := hO j pg h
    simpa [fill_entry] using this

/-! ## Ring controller: claims -/

/-- C5, as stated, fails on a header ring of `2^17` slots: with `shp = 0`,
the hardware header cursor at `65536` and `nb_pkts = 10`, there are
`(hhp - shp) & mhp = 65536` completed headers, so the claim asks for
`min 10 65536 = 10` buffers, but the count is held in a `u16` and the receive
step returns `0`. -/
theorem rx_drain_count_truncated :
    ring_2_17.c.mhp + 1 = 2 ^ 17 ∧
      ready_hdrs (nc_ndp_ctrl_hhp_update 65536 ring_2_17.c) = 65536 ∧
      (nfb_xctrl_rx_pp_drain 65536 10 ring_2_17).nb_rx = 0 ∧
      (nfb_xctrl_rx_pp_drain 65536 10 ring_2_17).nb_rx ≠
        min 10 (ready_hdrs (nc_ndp_ctrl_hhp_update 65536 ring_2_17.c)) := by
  decide

/-- C5 (amended): for every header ring of `2^kh ≤ 65536` slots, every
controller state and every `nb_pkts`, the receive step of `nfb_xctrl_rx_pp`
returns `n = min nb_pkts ((hhp - shp) & mhp)` with `hhp` the value just read
from the hardware, advances `shp` by `n` modulo the ring size, and hands out
the buffers of the slots `shp, shp + 1, ..., shp + n - 1` (modulo the ring
size) in that order, each with `data_end = data + frame_len` of the header in
its slot, leaving all other buffers as they were. -/
theorem rx_drain_returns_completed (hhp_hw nb_pkts : Nat) (ctrl : xctrl) (kh : Nat)
    (hmh : ctrl.c.mhp + 1 = 2 ^ kh) (hkh : kh ≤ 16) :
    (nfb_xctrl_rx_pp_drain hhp_hw nb_pkts ctrl).nb_rx =
        min nb_pkts (ready_hdrs (nc_ndp_ctrl_hhp_update hhp_hw ctrl.c)) ∧
      (nfb_xctrl_rx_pp_drain hhp_hw nb_pkts ctrl).ctrl.c.hhp = hhp_hw ∧
      (nfb_xctrl_rx_pp_drain hhp_hw nb_pkts ctrl).buffs.length =
        (nfb_xctrl_rx_pp_drain hhp_hw nb_pkts ctrl).nb_rx ∧
      (nfb_xctrl_rx_pp_drain hhp_hw nb_pkts ctrl).buffs.map (fun x => x % 2 ^ kh) =
        (List.range' ctrl.c.shp (nfb_xctrl_rx_pp_drain hhp_hw nb_pkts ctrl).nb_rx).map
          (fun x => x % 2 ^ kh) ∧
      (nfb_xctrl_rx_pp_drain hhp_hw nb_pkts ctrl).ctrl.c.shp % 2 ^ kh =
        (ctrl.c.shp + (nfb_xctrl_rx_pp_drain hhp_hw nb_pkts ctrl).nb_rx) % 2 ^ kh ∧
      (ctrl.c.shp ≤ ctrl.c.mhp →
        (nfb_xctrl_rx_pp_drain hhp_hw nb_pkts ctrl).buffs =
          (List.range' ctrl.c.shp (nfb_xctrl_rx_pp_drain hhp_hw nb_pkts ctrl).nb_rx).map
            (fun x => x % 2 ^ kh) ∧
        (nfb_xctrl_rx_pp_drain hhp_hw nb_pkts ctrl).ctrl.c.shp =
          (ctrl.c.shp + (nfb_xctrl_rx_pp_drain hhp_hw nb_pkts ctrl).nb_rx) % 2 ^ kh) ∧
      (∀ slot ∈ (nfb_xctrl_rx_pp_drain hhp_hw nb_pkts ctrl).buffs,
        (nfb_xctrl_rx_pp_drain hhp_hw nb_pkts ctrl).ctrl.xdp_ring slot =
          { ctrl.xdp_ring slot with
            data_end := (ctrl.xdp_ring slot).data + (ctrl.hdrs slot).frame_len }) ∧
      (∀ slot, slot ∉ (nfb_xctrl_rx_pp_drain hhp_hw nb_pkts ctrl).buffs →
        (nfb_xctrl_rx_pp_drain hhp_hw nb_pkts ctrl).ctrl.xdp_ring slot = ctrl.xdp_ring slot) := by
  have hkh32 : kh ≤ 32 := by omega
  have hready : ready_hdrs (nc_ndp_ctrl_hhp_update hhp_hw ctrl.c) < 2 ^ 16 := by
    simp only [ready_hdrs, nc_ndp_ctrl_hhp_update]
    rw [mask_eq_mod _ kh _ hmh]
    exact lt_of_lt_of_le (Nat.mod_lt _ (by positivity)) (Nat.pow_le_pow_right (by norm_num) hkh)
  have hn : (nfb_xctrl_rx_pp_drain hhp_hw nb_pkts ctrl).nb_rx =
      min nb_pkts (ready_hdrs (nc_ndp_ctrl_hhp_update hhp_hw ctrl.c)) := by
    simp only [nfb_xctrl_rx_pp_drain]
    simp only [ready_hdrs, nc_ndp_ctrl_hhp_update] at hready ⊢
    rw [Nat.mod_eq_of_lt hready]
    split_ifs with h
    · exact (Nat.min_eq_left (le_of_lt h)).symm
    · exact (Nat.min_eq_right (not_lt.mp h)).symm
  obtain ⟨h1, h2, h3, h4, h5⟩ := rx_loop_facts ctrl.hdrs ctrl.c.mhp kh hmh hkh32
    (nfb_xctrl_rx_pp_drain hhp_hw nb_pkts ctrl).nb_rx ctrl.xdp_ring ctrl.c.shp
  refine ⟨hn, rfl, h1, h2, h3, ?_, ?_, ?_⟩
  · intro hle
    have hlt : ctrl.c.shp < 2 ^ kh := by omega
    obtain ⟨h6, h7⟩ := h5 hlt
    refine ⟨?_, ?_⟩
    · have := h2
      rw [map_mod_eq_self _ _ h6] at this
      exact this
    · have := h3
      rw [Nat.mod_eq_of_lt h7] at this
      exact this
  · intro slot hslot
    exact (h4 slot).trans (if_pos hslot)
  · intro slot hslot
    exact (h4 slot).trans (if_neg hslot)

theorem rx_drain_returns_completed_witness :
    ring8_filled.c.mhp + 1 = 2 ^ 3 ∧
      (nfb_xctrl_rx_pp_drain 2 10 ring8_filled).nb_rx =
        min 10 (ready_hdrs (nc_ndp_ctrl_hhp_update 2 ring8_filled.c)) ∧
      (nfb_xctrl_rx_pp_drain 2 10 ring8_filled).nb_rx = 2 ∧
      (nfb_xctrl_rx_pp_drain 2 10 ring8_filled).buffs = [0, 1] ∧
      (nfb_xctrl_rx_pp_drain 2 10 ring8_filled).ctrl.c.shp = 2 ∧
      ((nfb_xctrl_rx_pp_drain 2 10 ring8_filled).ctrl.xdp_ring 0).data_end = 256 + 60 ∧
      ((nfb_xctrl_rx_pp_drain 2 10 ring8_filled).ctrl.xdp_ring 1).data_end = 4096 + 256 + 1500 ∧
      (nfb_xctrl_rx_pp_drain 2 10 (nfb_xctrl_rx_pp_drain 2 10 ring8_filled).ctrl).nb_rx = 0 :=
  ⟨by decide, (rx_drain_returns_completed 2 10 ring8_filled 3 (by decide) (by decide)).1,
    by decide, by decide, by decide, by decide, by decide, by decide⟩

theorem exec_masks (P : Params) (op : RingOp) (ctrl : xctrl) (kd kh : Nat)
    (hkd : kd ≤ 32) (hkh : kh ≤ 32)
    (hmd : ctrl.c.mdp + 1 = 2 ^ kd) (hmh : ctrl.c.mhp + 1 = 2 ^ kh) :
    (op.exec P ctrl).c.mdp = ctrl.c.mdp ∧ (op.exec P ctrl).c.mhp = ctrl.c.mhp := by
  cases op with
  | fill env =>
    obtain ⟨t, _, _, _, _, _, _, _, _, h1, h2, _⟩ := fill_pp_facts P env ctrl kd kh hkd hkh hmd hmh
    exact ⟨h1, h2⟩
  | drain hhp_hw nb_pkts => exact ⟨rfl, rfl⟩

theorem within_ring_step (P : Params) (op : RingOp) (ctrl : xctrl) (kd kh : Nat)
    (hkd : kd ≤ 32) (hkh : kh ≤ 32)
    (hmd : ctrl.c.mdp + 1 = 2 ^ kd) (hmh : ctrl.c.mhp + 1 = 2 ^ kh) :
    op.within_ring P ctrl := by
  cases op with
  | fill env =>
    obtain ⟨t, H, _, hphp, hsdp, _, hhdp, hshp, _, hmdp, hmhp, hB⟩ :=
      fill_pp_facts P env ctrl kd kh hkd hkh hmd hmh
    have hW : (descs_written (nfb_xctrl_rx_fill_pp P env ctrl).trace).length ≤
        free_desc_slots (nc_ndp_ctrl_hdp_update env.hdp ctrl.c) := by
      have := H.free
      simp only [fill_entry] at this
      omega
    have hA : (pages_attached (nfb_xctrl_rx_fill_pp P env ctrl).trace).length ≤
        free_hdr_slots ctrl := by
      by_cases h0 : (pages_attached (nfb_xctrl_rx_fill_pp P env ctrl).trace).length = 0
      · omega
      · exact le_trans H.le_n (hB h0)
    refine ⟨hW, hA, ?_, ?_⟩
    · have hs := H.sdp_eq
      simp only [fill_entry] at hs
      rw [← hsdp] at hs
      have := free_advance ctrl.c.mdp kd env.hdp ctrl.c.sdp _ _ hmd hkd hs hW
      simp only [free_desc_slots, nc_ndp_ctrl_hdp_update, hhdp, hmdp]
      exact this
    · have hs := H.php_eq
      simp only [fill_entry] at hs
      rw [← hphp] at hs
      have := free_advance ctrl.c.mhp kh ctrl.c.shp ctrl.php _ _ hmh hkh hs hA
      simp only [free_hdr_slots, hshp, hmhp]
      exact this
  | drain hhp_hw nb_pkts =>
    obtain ⟨_, _, h3, _, _⟩ := rx_loop_facts ctrl.hdrs ctrl.c.mhp kh hmh hkh
      (nfb_xctrl_rx_pp_drain hhp_hw nb_pkts ctrl).nb_rx ctrl.xdp_ring ctrl.c.shp
    have hle : (nfb_xctrl_rx_pp_drain hhp_hw nb_pkts ctrl).nb_rx ≤
        ready_hdrs (nc_ndp_ctrl_hhp_update hhp_hw ctrl.c) := by
      simp only [nfb_xctrl_rx_pp_drain, ready_hdrs, nc_ndp_ctrl_hhp_update]
      have hm := Nat.mod_le (sub32 hhp_hw ctrl.c.shp &&& ctrl.c.mhp) (2 ^ 16)
      split_ifs with h
      · omega
      · exact hm
    refine ⟨hle, ?_⟩
    exact ready_advance ctrl.c.mhp kh hhp_hw ctrl.c.shp _ _ hmh hkh h3 hle

/-- C6: for rings of `2^kd` descriptors and `2^kh` headers, after every
sequence `before` of `nfb_xctrl_rx_fill_pp` calls and receive steps of
`nfb_xctrl_rx_pp`, each with arbitrary hardware cursor values and page-pool
behaviour, every further call `op` stays within the ring: a receive step
advances `shp` by no more than the completed headers `(hhp - shp) & mhp` it
observed, a fill emits no more descriptors than the `(hdp - sdp - 1) & mdp`
free slots it observed and attaches no more buffers than the
`(shp - php - 1) & mhp` free header slots it observed, and each of these
counts drops by exactly the amount used, so no cursor passes its limit. -/
theorem ring_full_invariant (P : Params) (kd kh : Nat) (hkd : kd ≤ 32) (hkh : kh ≤ 32)
    (ctrl : xctrl) (hmd : ctrl.c.mdp + 1 = 2 ^ kd) (hmh : ctrl.c.mhp + 1 = 2 ^ kh)
    (before : List RingOp) (op : RingOp) :
    op.within_ring P (ring_run P before ctrl) := by
  induction before generalizing ctrl with
  | nil => exact within_ring_step P op ctrl kd kh hkd hkh hmd hmh
  | cons o os ih =>
    obtain ⟨h1, h2⟩ := exec_masks P o ctrl kd kh hkd hkh hmd hmh
    exact ih (o.exec P ctrl) (by rw [h1]; exact hmd) (by rw [h2]; exact hmh)

theorem ring_full_invariant_witness :
    ring8.c.mdp + 1 = 2 ^ 3 ∧ ring8.c.mhp + 1 = 2 ^ 3 ∧
      (RingOp.fill (list_env 3 test_pages)).within_ring test_params
        (ring_run test_params [RingOp.fill (list_env 0 test_pages), RingOp.drain 2 10] ring8) :=
  ⟨by decide, by decide,
    ring_full_invariant test_params 3 3 (by decide) (by decide) ring8 (by decide) (by decide)
      [RingOp.fill (list_env 0 test_pages), RingOp.drain 2 10]
      (RingOp.fill (list_env 3 test_pages))⟩

/-- C7: when the free descriptor slots `(hdp - sdp - 1) & mdp` (with `hdp` as
the call reads it from the hardware) or the free header slots
`(shp - php - 1) & mhp` are fewer than the batch size, `nfb_xctrl_rx_fill_pp`
returns 0 with no effect on page pool or rings (no page allocated, no
descriptor written, no buffer prepared) and leaves `sdp`, `php`,
`last_upper_addr`, the descriptor ring and the buffer ring unchanged. -/
theorem rx_fill_short_of_slots (P : Params) (env : FillEnv) (ctrl : xctrl)
    (h : free_desc_slots (nc_ndp_ctrl_hdp_update env.hdp ctrl.c) < P.NFB_XDP_CTRL_PACKET_BURST ∨
      free_hdr_slots ctrl < P.NFB_XDP_CTRL_PACKET_BURST) :
    (nfb_xctrl_rx_fill_pp P env ctrl).ret = 0 ∧
      (nfb_xctrl_rx_fill_pp P env ctrl).trace = [] ∧
      (nfb_xctrl_rx_fill_pp P env ctrl).ctrl.c.sdp = ctrl.c.sdp ∧
      (nfb_xctrl_rx_fill_pp P env ctrl).ctrl.php = ctrl.php ∧
      (nfb_xctrl_rx_fill_pp P env ctrl).ctrl.c.last_upper_addr = ctrl.c.last_upper_addr ∧
      (nfb_xctrl_rx_fill_pp P env ctrl).ctrl.descs = ctrl.descs ∧
      (nfb_xctrl_rx_fill_pp P env ctrl).ctrl.xdp_ring = ctrl.xdp_ring := by
  have hearly : (sub32 (sub32 ctrl.c.shp ctrl.php) 1) &&& ctrl.c.mhp < P.NFB_XDP_CTRL_PACKET_BURST ∨
      (sub32 (sub32 env.hdp ctrl.c.sdp) 1) &&& ctrl.c.mdp < P.NFB_XDP_CTRL_PACKET_BURST := by
    simp only [free_desc_slots, free_hdr_slots, nc_ndp_ctrl_hdp_update] at h
    exact h.symm
  unfold nfb_xctrl_rx_fill_pp
  simp only [nc_ndp_ctrl_hdp_update, hearly, if_true, and_self]

theorem rx_fill_short_of_slots_witness :
    free_desc_slots (nc_ndp_ctrl_hdp_update 4 ring8.c) = 3 ∧
      (nfb_xctrl_rx_fill_pp test_params (list_env 4 test_pages) ring8).ret = 0 ∧
      (nfb_xctrl_rx_fill_pp test_params (list_env 4 test_pages) ring8).trace = [] :=
  ⟨by decide,
    (rx_fill_short_of_slots test_params (list_env 4 test_pages) ring8
      (Or.inl (by decide))).1,
    (rx_fill_short_of_slots test_params (list_env 4 test_pages) ring8
      (Or.inl (by decide))).2.1⟩

theorem int_of_u32_small (n : Nat) (h : n < 2 ^ 31) : int_of_u32 n = (n : Int) := by
  have h32 : n % 2 ^ 32 = n := Nat.mod_eq_of_lt (by omega)
  simp only [int_of_u32, h32, h, if_true]

theorem ext_count_append (a b : List nc_ndp_desc) :
    ext_count (a ++ b) = ext_count a + ext_count b := by
  simp [ext_count]

theorem expected_descs_length (P : Params) (c : Nat) (ds : List Nat) :
    (expected_descs P c ds).length = ds.length + ext_count (expected_descs P c ds) := by
  induction ds generalizing c with
  | nil => simp [expected_descs, ext_count]
  | cons d ds ih =>
    rw [expected_descs_cons, List.length_append, ext_count_append, ih]
    by_cases h : P.NDP_CTRL_DESC_UPPER_ADDR d = c <;>
      simp [expected_descs, ext_count, h, nc_ndp_rx_desc0, nc_ndp_rx_desc2] <;> omega

theorem expected_descs_length_le (P : Params) (c : Nat) (ds : List Nat) :
    ds.length ≤ (expected_descs P c ds).length ∧
      (expected_descs P c ds).length ≤ 2 * ds.length := by
  induction ds generalizing c with
  | nil => simp [expected_descs]
  | cons d ds ih =>
    rw [expected_descs_cons, List.length_append, expected_descs_single_length]
    have := ih (P.NDP_CTRL_DESC_UPPER_ADDR d)
    have h2 : 1 ≤ slots_needed P c d ∧ slots_needed P c d ≤ 2 := by
      unfold slots_needed
      split_ifs <;> omega
    simp only [List.length_cons]
    omega

/-- The return value of `nfb_xctrl_rx_fill_pp` is the number of buffers it
attached, which is at most the batch size. -/
theorem fill_pp_ret (P : Params) (env : FillEnv) (ctrl : xctrl) (kd kh : Nat)
    (hkd : kd ≤ 32) (hkh : kh ≤ 32)
    (hmd : ctrl.c.mdp + 1 = 2 ^ kd) (hmh : ctrl.c.mhp + 1 = 2 ^ kh)
    (hB : P.NFB_XDP_CTRL_PACKET_BURST < 2 ^ 31) :
    (nfb_xctrl_rx_fill_pp P env ctrl).ret =
        ((pages_attached (nfb_xctrl_rx_fill_pp P env ctrl).trace).length : Int) ∧
      (pages_attached (nfb_xctrl_rx_fill_pp P env ctrl).trace).length ≤
        P.NFB_XDP_CTRL_PACKET_BURST := by
  obtain ⟨t, H, hret, _⟩ := fill_pp_facts P env ctrl kd kh hkd hkh hmd hmh
  have hi := H.i_eq
  simp only [fill_entry, Nat.zero_add] at hi
  have hle := H.le_n
  rw [hret, hi, int_of_u32_small _ (by omega)]
  exact ⟨rfl, hle⟩

/-- The descriptors written by `nfb_xctrl_rx_fill_pp` number one per attached
buffer plus one per address-extension descriptor. -/
theorem fill_pp_written_length (P : Params) (env : FillEnv) (ctrl : xctrl) (kd kh : Nat)
    (hkd : kd ≤ 32) (hkh : kh ≤ 32)
    (hmd : ctrl.c.mdp + 1 = 2 ^ kd) (hmh : ctrl.c.mhp + 1 = 2 ^ kh) :
    (descs_written (nfb_xctrl_rx_fill_pp P env ctrl).trace).length =
      (pages_attached (nfb_xctrl_rx_fill_pp P env ctrl).trace).length +
        ext_count (descs_written (nfb_xctrl_rx_fill_pp P env ctrl).trace) := by
  obtain ⟨t, H, _⟩ := fill_pp_facts P env ctrl kd kh hkd hkh hmd hmh
  obtain ⟨T, h1, h2, _⟩ := H.stream
  rw [h1, List.length_append, ext_count_append, expected_descs_length, List.length_map]
  rcases h2 with rfl | ⟨pg, _, rfl, _⟩
  · simp [ext_count]
  · simp [ext_count, nc_ndp_rx_desc0]
    omega

/-- C8: in every call of `nfb_xctrl_rx_fill_pp` (rings of `2^kd` descriptors
and `2^kh` headers, batch size below `2^31`), if the `(k+1)`-th page
allocation of the call fails, the call ends there and returns `k`, a
non-negative count; and in every case the returned count is between 0 and
the batch size, equals the number of buffers attached, `php` advances by
exactly the returned count modulo the header-ring size, and `sdp` advances by
the returned count plus the number of address-extension descriptors written,
modulo the descriptor-ring size. -/
theorem rx_fill_alloc_failure_and_counts (P : Params) (env : FillEnv) (ctrl : xctrl)
    (kd kh : Nat) (hkd : kd ≤ 32) (hkh : kh ≤ 32)
    (hmd : ctrl.c.mdp + 1 = 2 ^ kd) (hmh : ctrl.c.mhp + 1 = 2 ^ kh)
    (hB : P.NFB_XDP_CTRL_PACKET_BURST < 2 ^ 31) :
    (∀ k : Nat, (alloc_results (nfb_xctrl_rx_fill_pp P env ctrl).trace)[k]? = some none →
        (nfb_xctrl_rx_fill_pp P env ctrl).ret = (k : Int) ∧
        (nfb_xctrl_rx_fill_pp P env ctrl).trace.getLast? = some (FillEvent.page_alloc none)) ∧
      0 ≤ (nfb_xctrl_rx_fill_pp P env ctrl).ret ∧
      (nfb_xctrl_rx_fill_pp P env ctrl).ret ≤ (P.NFB_XDP_CTRL_PACKET_BURST : Int) ∧
      (nfb_xctrl_rx_fill_pp P env ctrl).ret =
        ((pages_attached (nfb_xctrl_rx_fill_pp P env ctrl).trace).length : Int) ∧
      (nfb_xctrl_rx_fill_pp P env ctrl).ctrl.php % 2 ^ kh =
        (ctrl.php + (nfb_xctrl_rx_fill_pp P env ctrl).ret.toNat) % 2 ^ kh ∧
      (nfb_xctrl_rx_fill_pp P env ctrl).ctrl.c.sdp % 2 ^ kd =
        (ctrl.c.sdp + (nfb_xctrl_rx_fill_pp P env ctrl).ret.toNat +
          ext_count (descs_written (nfb_xctrl_rx_fill_pp P env ctrl).trace)) % 2 ^ kd := by
  obtain ⟨hret, hle⟩ := fill_pp_ret P env ctrl kd kh hkd hkh hmd hmh hB
  have hlen := fill_pp_written_length P env ctrl kd kh hkd hkh hmd hmh
  obtain ⟨t, H, _, hphp, hsdp, _⟩ := fill_pp_facts P env ctrl kd kh hkd hkh hmd hmh
  have htoNat : (nfb_xctrl_rx_fill_pp P env ctrl).ret.toNat =
      (pages_attached (nfb_xctrl_rx_fill_pp P env ctrl).trace).length := by
    rw [hret]; exact Int.toNat_natCast _
  refine ⟨?_, ?_, ?_, hret, ?_, ?_⟩
  · intro k hk
    refine ⟨?_, H.fail_last (List.getElem?_mem hk)⟩
    rw [hret, H.alloc_fail k hk]
  · rw [hret]; exact Int.natCast_nonneg _
  · rw [hret]; exact_mod_cast hle
  · rw [htoNat, hphp]
    exact H.php_eq
  · rw [htoNat, hsdp, Nat.add_assoc, ← hlen]
    exact H.sdp_eq

theorem rx_fill_alloc_failure_and_counts_witness :
    ring8.c.mdp + 1 = 2 ^ 3 ∧ ring8.c.mhp + 1 = 2 ^ 3 ∧
      (alloc_results
        (nfb_xctrl_rx_fill_pp test_params (list_env 0 (test_pages.take 2)) ring8).trace)[2]? =
          some none ∧
      (nfb_xctrl_rx_fill_pp test_params (list_env 0 (test_pages.take 2)) ring8).ret = 2 :=
  ⟨by decide, by decide, by decide,
    ((rx_fill_alloc_failure_and_counts test_params (list_env 0 (test_pages.take 2)) ring8 3 3
      (by decide) (by decide) (by decide) (by decide) (by decide)).1 2 (by decide)).1⟩

/-- C9: in every call of `nfb_xctrl_rx_fill_pp` the descriptors written, in
order and into consecutive slots from `sdp`, are the stream `expected_descs`
for the attached buffers from the cached `last_upper_addr` on entry: each
buffer contributes its data descriptor, preceded by an address-extension
descriptor exactly when its upper address bits differ from the cache at that
moment, and the cache then holds those bits.  The only descriptor beyond that
stream is at most one trailing address-extension descriptor, for the page the
call gave back because the slots ran out; the cache of the controller after
the call accounts for it as well.  Each attached buffer therefore takes one
or two slots.  The attached buffers are the pages the page pool handed out
first.  When `sdp` lies inside the ring on entry, the descriptor ring after
the call holds that stream in the slots `sdp`, `sdp + 1`, ... (modulo the ring
size), every other slot of the ring is as it was, and `sdp` has moved past the
stream. -/
theorem rx_fill_descriptor_stream (P : Params) (env : FillEnv) (ctrl : xctrl)
    (kd kh : Nat) (hkd : kd ≤ 32) (hkh : kh ≤ 32)
    (hmd : ctrl.c.mdp + 1 = 2 ^ kd) (hmh : ctrl.c.mhp + 1 = 2 ^ kh) :
    (∃ T : List nc_ndp_desc,
      descs_written (nfb_xctrl_rx_fill_pp P env ctrl).trace =
          expected_descs P ctrl.c.last_upper_addr
            ((pages_attached (nfb_xctrl_rx_fill_pp P env ctrl).trace).map (page_dma P)) ++ T ∧
        (T = [] ∨ ∃ pg, pages_returned (nfb_xctrl_rx_fill_pp P env ctrl).trace = [pg] ∧
          T = [nc_ndp_rx_desc0 (page_dma P pg)] ∧
          P.NDP_CTRL_DESC_UPPER_ADDR (page_dma P pg) ≠
            cache_after P ctrl.c.last_upper_addr
              ((pages_attached (nfb_xctrl_rx_fill_pp P env ctrl).trace).map (page_dma P))) ∧
        (nfb_xctrl_rx_fill_pp P env ctrl).ctrl.c.last_upper_addr =
          cache_after P ctrl.c.last_upper_addr
            ((pages_attached (nfb_xctrl_rx_fill_pp P env ctrl).trace).map (page_dma P) ++
              T.map nc_ndp_desc.addr) ∧
        (ctrl.c.sdp ≤ ctrl.c.mdp →
          (∀ i d,
            (expected_descs P ctrl.c.last_upper_addr
              ((pages_attached (nfb_xctrl_rx_fill_pp P env ctrl).trace).map (page_dma P)) ++
                T)[i]? = some d →
            (nfb_xctrl_rx_fill_pp P env ctrl).ctrl.descs ((ctrl.c.sdp + i) % 2 ^ kd) = d) ∧
          (∀ slot,
            (∀ i, i < (expected_descs P ctrl.c.last_upper_addr
                ((pages_attached (nfb_xctrl_rx_fill_pp P env ctrl).trace).map (page_dma P)) ++
                  T).length → slot ≠ (ctrl.c.sdp + i) % 2 ^ kd) →
            (nfb_xctrl_rx_fill_pp P env ctrl).ctrl.descs slot = ctrl.descs slot) ∧
          (nfb_xctrl_rx_fill_pp P env ctrl).ctrl.c.sdp =
            (ctrl.c.sdp + (expected_descs P ctrl.c.last_upper_addr
              ((pages_attached (nfb_xctrl_rx_fill_pp P env ctrl).trace).map (page_dma P)) ++
                T).length) % 2 ^ kd)) ∧
      (∀ j pg, (pages_attached (nfb_xctrl_rx_fill_pp P env ctrl).trace)[j]? = some pg →
        env.alloc j = some pg) ∧
      (desc_slots (nfb_xctrl_rx_fill_pp P env ctrl).trace).map (fun x => x % 2 ^ kd) =
        (List.range' ctrl.c.sdp
          (descs_written (nfb_xctrl_rx_fill_pp P env ctrl).trace).length).map
            (fun x => x % 2 ^ kd) ∧
      (pages_attached (nfb_xctrl_rx_fill_pp P env ctrl).trace).length ≤
        (expected_descs P ctrl.c.last_upper_addr
          ((pages_attached (nfb_xctrl_rx_fill_pp P env ctrl).trace).map (page_dma P))).length ∧
      (expected_descs P ctrl.c.last_upper_addr
          ((pages_attached (nfb_xctrl_rx_fill_pp P env ctrl).trace).map (page_dma P))).length ≤
        2 * (pages_attached (nfb_xctrl_rx_fill_pp P env ctrl).trace).length := by
  obtain ⟨t, H, _, _, hsdpt, hcache, _⟩ := fill_pp_facts P env ctrl kd kh hkd hkh hmd hmh
  obtain ⟨hD, _, hO, hSl, _⟩ := fill_pp_state P env ctrl kd kh hkd hkh hmd hmh
  obtain ⟨T, h1, h2, h3⟩ := H.stream
  have hlen := expected_descs_length_le P ctrl.c.last_upper_addr
    ((pages_attached (nfb_xctrl_rx_fill_pp P env ctrl).trace).map (page_dma P))
  rw [List.length_map] at hlen
  refine ⟨⟨T, h1, h2, ?_, ?_⟩, ?_, H.desc_slots_eq, hlen.1, hlen.2⟩
  · rw [hcache]
    exact h3
  · intro hin
    have hs : ctrl.c.sdp < 2 ^ kd := by omega
    obtain ⟨hlt, hfin⟩ := hSl hs
    have hslots : desc_slots (nfb_xctrl_rx_fill_pp P env ctrl).trace =
        (List.range' ctrl.c.sdp
          (descs_written (nfb_xctrl_rx_fill_pp P env ctrl).trace).length).map
            (fun x => x % 2 ^ kd) := by
      rw [← map_mod_eq_self (2 ^ kd) _ hlt]
      exact H.desc_slots_eq
    have hlen2 : (desc_stores (nfb_xctrl_rx_fill_pp P env ctrl).trace).length =
        (descs_written (nfb_xctrl_rx_fill_pp P env ctrl).trace).length := by
      have := congrArg List.length (desc_stores_fst (nfb_xctrl_rx_fill_pp P env ctrl).trace)
      rw [hslots] at this
      simpa using this
    have hn : (descs_written (nfb_xctrl_rx_fill_pp P env ctrl).trace).length ≤ 2 ^ kd := by
      have hf := H.free
      have hlt2 : free_desc_slots (nc_ndp_ctrl_hdp_update env.hdp ctrl.c) < 2 ^ kd := by
        unfold free_desc_slots
        rw [show (nc_ndp_ctrl_hdp_update env.hdp ctrl.c).mdp = ctrl.c.mdp from rfl,
          mask_eq_mod _ kd _ hmd]
        exact Nat.mod_lt _ (by positivity)
      simp only [fill_entry] at hf
      omega
    have hC := ring_apply_consecutive (desc_stores (nfb_xctrl_rx_fill_pp P env ctrl).trace)
      ctrl.descs (2 ^ kd) ctrl.c.sdp (by rw [hlen2]; exact hn)
      (by rw [desc_stores_fst, hlen2, hslots])
    have h1c : descs_written (nfb_xctrl_rx_fill_pp P env ctrl).trace =
        expected_descs P ctrl.c.last_upper_addr
          ((pages_attached (nfb_xctrl_rx_fill_pp P env ctrl).trace).map (page_dma P)) ++ T := h1
    rw [← h1c]
    refine ⟨?_, ?_, ?_⟩
    · intro i d hd
      obtain ⟨slot, _, hst⟩ := desc_stores_get _ i d hd
      rw [hD]
      exact hC.1 i _ hst
    · intro slot hne
      rw [hD]
      exact hC.2 slot (by rw [hlen2]; exact hne)
    · have he := H.sdp_eq
      simp only [fill_entry] at he
      rw [← hsdpt, Nat.mod_eq_of_lt hfin] at he
      exact he
  · intro j pg hj
    apply hO j pg
    rw [H.obtained, List.getElem?_append_left (by
      by_contra hc
      rw [List.getElem?_eq_none (by omega)] at hj
      cases hj)]
    exact hj

theorem rx_fill_descriptor_stream_witness :
    ring8.c.mdp + 1 = 2 ^ 3 ∧ ring8.c.mhp + 1 = 2 ^ 3 ∧ ring8.c.sdp ≤ ring8.c.mdp ∧
      descs_written (nfb_xctrl_rx_fill_pp test_params (list_env 0 test_pages) ring8).trace =
        [nc_ndp_desc.desc2 0x1100 3520 0 0, nc_ndp_desc.desc2 0x2100 3520 0 0,
          nc_ndp_desc.desc0 0x40000100, nc_ndp_desc.desc2 0x40000100 3520 0 0,
          nc_ndp_desc.desc2 0x40001100 3520 0 0] ∧
      (nfb_xctrl_rx_fill_pp test_params (list_env 0 test_pages) ring8).ctrl.descs 2 =
        nc_ndp_desc.desc0 0x40000100 ∧
      (nfb_xctrl_rx_fill_pp test_params (list_env 0 test_pages) ring8).ctrl.descs 3 =
        nc_ndp_desc.desc2 0x40000100 3520 0 0 ∧
      (nfb_xctrl_rx_fill_pp test_params (list_env 0 test_pages) ring8).ctrl.c.sdp = 5 ∧
      (desc_slots (nfb_xctrl_rx_fill_pp test_params (list_env 0 test_pages) ring8).trace).map
          (fun x => x % 2 ^ 3) =
        (List.range' ring8.c.sdp
          (descs_written (nfb_xctrl_rx_fill_pp test_params (list_env 0 test_pages)
            ring8).trace).length).map (fun x => x % 2 ^ 3) := by
  have hm := rx_fill_descriptor_stream test_params (list_env 0 test_pages) ring8 3 3
    (by decide) (by decide) (by decide) (by decide)
  obtain ⟨⟨T, h1, _, _, h4⟩, _, h5, _⟩ := hm
  have hw : descs_written
      (nfb_xctrl_rx_fill_pp test_params (list_env 0 test_pages) ring8).trace =
        [nc_ndp_desc.desc2 0x1100 3520 0 0, nc_ndp_desc.desc2 0x2100 3520 0 0,
          nc_ndp_desc.desc0 0x40000100, nc_ndp_desc.desc2 0x40000100 3520 0 0,
          nc_ndp_desc.desc2 0x40001100 3520 0 0] := by decide
  obtain ⟨g1, _, g3⟩ := h4 (by decide)
  rw [← h1, hw] at g1 g3
  exact ⟨by decide, by decide, by decide, hw, g1 2 _ rfl, g1 3 _ rfl, g3, h5⟩

/-- C10: in every call of `nfb_xctrl_rx_fill_pp` the pages obtained from the
page pool are the results of the pool's allocations in order, and they are the
pages attached to the ring followed by the pages given back, of which there is
at most one.  The attached pages are the ones counted by the return value.
When `php` lies inside the ring on entry, the buffer ring after the call holds
the attached pages in the slots `php`, `php + 1`, ... (modulo the ring size),
each slot's buffer initialised and prepared on its page, every other slot is
as it was, so a page given back is in no slot, and `php` has moved past the
attached pages.  A page is given back exactly when the free descriptor slots
left at its turn are fewer than the one or two slots its descriptors need, and
giving it back is the last thing the call does; every attached page found
enough free slots at its turn. -/
theorem rx_fill_page_ownership (P : Params) (env : FillEnv) (ctrl : xctrl)
    (kd kh : Nat) (hkd : kd ≤ 32) (hkh : kh ≤ 32)
    (hmd : ctrl.c.mdp + 1 = 2 ^ kd) (hmh : ctrl.c.mhp + 1 = 2 ^ kh)
    (hB : P.NFB_XDP_CTRL_PACKET_BURST < 2 ^ 31) :
    pages_obtained (nfb_xctrl_rx_fill_pp P env ctrl).trace =
        pages_attached (nfb_xctrl_rx_fill_pp P env ctrl).trace ++
          pages_returned (nfb_xctrl_rx_fill_pp P env ctrl).trace ∧
      (pages_returned (nfb_xctrl_rx_fill_pp P env ctrl).trace).length ≤ 1 ∧
      (nfb_xctrl_rx_fill_pp P env ctrl).ret =
        ((pages_attached (nfb_xctrl_rx_fill_pp P env ctrl).trace).length : Int) ∧
      (attach_slots (nfb_xctrl_rx_fill_pp P env ctrl).trace).map (fun x => x % 2 ^ kh) =
        (List.range' ctrl.php
          (pages_attached (nfb_xctrl_rx_fill_pp P env ctrl).trace).length).map
            (fun x => x % 2 ^ kh) ∧
      (∀ pg, pages_returned (nfb_xctrl_rx_fill_pp P env ctrl).trace = [pg] →
        free_desc_slots (nc_ndp_ctrl_hdp_update env.hdp ctrl.c) -
            (expected_descs P ctrl.c.last_upper_addr
              ((pages_attached (nfb_xctrl_rx_fill_pp P env ctrl).trace).map
                (page_dma P))).length <
          slots_needed P
            (cache_after P ctrl.c.last_upper_addr
              ((pages_attached (nfb_xctrl_rx_fill_pp P env ctrl).trace).map (page_dma P)))
            (page_dma P pg) ∧
        (nfb_xctrl_rx_fill_pp P env ctrl).trace.getLast? = some (FillEvent.page_put pg)) ∧
      (∀ j pg, (pages_attached (nfb_xctrl_rx_fill_pp P env ctrl).trace)[j]? = some pg →
        (expected_descs P ctrl.c.last_upper_addr
            (((pages_attached (nfb_xctrl_rx_fill_pp P env ctrl).trace).take j).map
              (page_dma P))).length +
          slots_needed P
            (cache_after P ctrl.c.last_upper_addr
              (((pages_attached (nfb_xctrl_rx_fill_pp P env ctrl).trace).take j).map
                (page_dma P)))
            (page_dma P pg) ≤
          free_desc_slots (nc_ndp_ctrl_hdp_update env.hdp ctrl.c)) ∧
      (∀ j pg, (pages_obtained (nfb_xctrl_rx_fill_pp P env ctrl).trace)[j]? = some pg →
        env.alloc j = some pg) ∧
      (ctrl.php ≤ ctrl.c.mhp →
        (∀ j pg, (pages_attached (nfb_xctrl_rx_fill_pp P env ctrl).trace)[j]? = some pg →
          (nfb_xctrl_rx_fill_pp P env ctrl).ctrl.xdp_ring ((ctrl.php + j) % 2 ^ kh) =
            xdp_prepare_buff
              (xdp_init_buff (ctrl.xdp_ring ((ctrl.php + j) % 2 ^ kh)) P.PAGE_SIZE)
              pg.virt P.XDP_PACKET_HEADROOM 0 false) ∧
        (∀ slot,
          (∀ j, j < (pages_attached (nfb_xctrl_rx_fill_pp P env ctrl).trace).length →
            slot ≠ (ctrl.php + j) % 2 ^ kh) →
          (nfb_xctrl_rx_fill_pp P env ctrl).ctrl.xdp_ring slot = ctrl.xdp_ring slot) ∧
        (nfb_xctrl_rx_fill_pp P env ctrl).ctrl.php =
          (ctrl.php + (pages_attached (nfb_xctrl_rx_fill_pp P env ctrl).trace).length) %
            2 ^ kh) := by
  obtain ⟨hret, _⟩ := fill_pp_ret P env ctrl kd kh hkd hkh hmd hmh hB
  obtain ⟨t, H, _, hphpt, _, _, _, _, _, _, _, hfree⟩ :=
    fill_pp_facts P env ctrl kd kh hkd hkh hmd hmh
  obtain ⟨_, hR, hO, _, hSl⟩ := fill_pp_state P env ctrl kd kh hkd hkh hmd hmh
  refine ⟨H.obtained, H.returned_le, hret, H.attach_slots_eq, ?_, ?_, hO, ?_⟩
  · intro pg hpg
    exact ⟨H.returned_when pg hpg, H.put_last pg (by rw [hpg]; exact List.mem_singleton_self pg)⟩
  · intro j pg hj
    exact H.attached_when j pg hj
  · intro hin
    have hp : ctrl.php < 2 ^ kh := by omega
    obtain ⟨hlt, hfin⟩ := hSl hp
    have hslots : attach_slots (nfb_xctrl_rx_fill_pp P env ctrl).trace =
        (List.range' ctrl.php
          (pages_attached (nfb_xctrl_rx_fill_pp P env ctrl).trace).length).map
            (fun x => x % 2 ^ kh) := by
      rw [← map_mod_eq_self (2 ^ kh) _ hlt]
      exact H.attach_slots_eq
    have hlen2 : (buff_stores P (nfb_xctrl_rx_fill_pp P env ctrl).trace).length =
        (pages_attached (nfb_xctrl_rx_fill_pp P env ctrl).trace).length := by
      have := congrArg List.length (buff_stores_fst P (nfb_xctrl_rx_fill_pp P env ctrl).trace)
      rw [hslots] at this
      simpa using this
    have hn : (pages_attached (nfb_xctrl_rx_fill_pp P env ctrl).trace).length ≤ 2 ^ kh := by
      have hlt2 : free_hdr_slots ctrl < 2 ^ kh := by
        unfold free_hdr_slots
        rw [mask_eq_mod _ kh _ hmh]
        exact Nat.mod_lt _ (by positivity)
      by_cases h0 : (pages_attached (nfb_xctrl_rx_fill_pp P env ctrl).trace).length = 0
      · omega
      · have := hfree h0
        have := H.le_n
        omega
    have hC := ring_apply_consecutive (buff_stores P (nfb_xctrl_rx_fill_pp P env ctrl).trace)
      ctrl.xdp_ring (2 ^ kh) ctrl.php (by rw [hlen2]; exact hn)
      (by rw [buff_stores_fst, hlen2, hslots])
    refine ⟨?_, ?_, ?_⟩
    · intro j pg hj
      obtain ⟨slot, _, hst⟩ := buff_stores_get P _ j pg hj
      rw [hR]
      exact hC.1 j _ hst
    · intro slot hne
      rw [hR]
      exact hC.2 slot (by rw [hlen2]; exact hne)
    · have he := H.php_eq
      simp only [fill_entry] at he
      rw [← hphpt, Nat.mod_eq_of_lt hfin] at he
      exact he

theorem rx_fill_page_ownership_witness :
    ring8.c.mdp + 1 = 2 ^ 3 ∧ ring8.c.mhp + 1 = 2 ^ 3 ∧ ring8.php ≤ ring8.c.mhp ∧
      pages_returned (nfb_xctrl_rx_fill_pp test_params (list_env 5 test_pages.reverse)
        ring8).trace = [{ virt := 0x20000, dma := 0x2000 }] ∧
      pages_attached (nfb_xctrl_rx_fill_pp test_params (list_env 5 test_pages.reverse)
        ring8).trace =
          [{ virt := 0x40000, dma := 0x40001000 }, { virt := 0x30000, dma := 0x40000000 }] ∧
      pages_obtained (nfb_xctrl_rx_fill_pp test_params (list_env 5 test_pages.reverse)
          ring8).trace =
        pages_attached (nfb_xctrl_rx_fill_pp test_params (list_env 5 test_pages.reverse)
            ring8).trace ++
          pages_returned (nfb_xctrl_rx_fill_pp test_params (list_env 5 test_pages.reverse)
            ring8).trace ∧
      ((nfb_xctrl_rx_fill_pp test_params (list_env 5 test_pages.reverse) ring8).ctrl.xdp_ring
          1).data_hard_start = 0x30000 ∧
      (nfb_xctrl_rx_fill_pp test_params (list_env 5 test_pages.reverse) ring8).ctrl.xdp_ring 2 =
        ring8.xdp_ring 2 ∧
      (nfb_xctrl_rx_fill_pp test_params (list_env 5 test_pages.reverse) ring8).ctrl.php = 2 ∧
      (nfb_xctrl_rx_fill_pp test_params (list_env 5 test_pages.reverse) ring8).ret = 2 := by
  have hm := rx_fill_page_ownership test_params (list_env 5 test_pages.reverse) ring8 3 3
    (by decide) (by decide) (by decide) (by decide) (by decide)
  obtain ⟨h1, _, h3, _, _, _, _, h8⟩ := hm
  have ha : pages_attached (nfb_xctrl_rx_fill_pp test_params (list_env 5 test_pages.reverse)
      ring8).trace =
        [{ virt := 0x40000, dma := 0x40001000 }, { virt := 0x30000, dma := 0x40000000 }] := by
    decide
  obtain ⟨g1, g2, g3⟩ := h8 (by decide)
  rw [ha] at g1 g2 g3 h3
  refine ⟨by decide, by decide, by decide, by decide, ha, h1, ?_, ?_, g3, h3⟩
  · have := g1 1 _ rfl
    rw [show (ring8.php + 1) % 2 ^ 3 = 1 from rfl] at this
    rw [this]
    rfl
  · apply g2 2
    intro j hj
    have : j = 0 ∨ j = 1 := by
      simp only [List.length_cons, List.length_nil] at hj
      omega
    rcases this with rfl | rfl <;> decide

/-! ## Channel threads and stop order -/

/-- C18, as stated, fails: starting the freshly created channel in page-pool
mode (XSK flag clear) with every step succeeding creates a TX thread as well;
the call log holds `kthread_create` and `wake_up_process` for the TX thread
`21`, and the TX thread handle of the channel is `21`, not `NULL`. -/
theorem start_pp_creates_tx_thread :
    test_bit NFB_STATUS_IS_XSK stopped_world.channel.status = false ∧
      (channel_start_pp ok_env stopped_world).1 = 0 ∧
      Event.kthread_create CtrlType.NFB_XCTRL_TX 21 ∈
        (channel_start_pp ok_env stopped_world).2.log ∧
      Event.wake_up_process 21 ∈ (channel_start_pp ok_env stopped_world).2.log ∧
      (channel_start_pp ok_env stopped_world).2.channel.txq.thread = 21 ∧
      (channel_start_pp ok_env stopped_world).2.channel.txq.thread ≠ 0 := by
  decide

theorem channel_start_ok_events (m : Mode) (env : StartEnv) (w : World)
    (hstop : w.running = false) (hok : env.all_ok = true) :
    new_events w (channel_start m env w).2 = start_ok_events m env w ∧
      (channel_start m env w).2.channel.rxq.thread = env.rx_thread ∧
      (channel_start m env w).2.channel.txq.thread = env.tx_thread := by
  obtain ⟨ra, ta, rs, ts, rt, tt⟩ := env
  obtain ⟨ch, live, next, log⟩ := w
  simp only [World.running] at hstop
  simp only [StartEnv.all_ok, Bool.and_eq_true, decide_eq_true_eq, Bool.not_eq_true'] at hok
  obtain ⟨⟨⟨⟨⟨rfl, rfl⟩, rfl⟩, rfl⟩, hrt⟩, htt⟩ := hok
  by_cases hx : test_bit NFB_STATUS_IS_XSK ch.status = true
  · simp [channel_start, channel_create_threads, xctrl_alloc, World.emit, new_events, hstop,
      hrt, htt, hx, rx_napi, start_ok_events]
  · simp [channel_start, channel_create_threads, xctrl_alloc, World.emit, new_events, hstop,
      hrt, htt, hx, rx_napi, start_ok_events]

/-- C18 (amended): a start on a stopped channel whose steps all succeed, in
either mode, makes exactly the calls of `start_ok_events`: it creates and
wakes the RX polling thread and then creates and wakes the TX thread, enables
the RX poller in both modes and the TX poller only when the XSK flag is set,
and stores both thread handles; and when the XSK flag is clear the TX thread
function `nfb_xdp_tx_thread` returns 0 at once, without scheduling a poll,
whatever `kthread_should_stop` answers. -/
theorem channel_start_creates_both_threads (env : StartEnv) (w : World)
    (hstop : test_bit NFB_STATUS_IS_RUNNING w.channel.status = false)
    (hok : env.all_ok = true) :
    (new_events w (channel_start_pp env w).2 = start_ok_events Mode.pp env w ∧
      (channel_start_pp env w).2.channel.rxq.thread = env.rx_thread ∧
      (channel_start_pp env w).2.channel.txq.thread = env.tx_thread) ∧
    (new_events w (channel_start_xsk env w).2 = start_ok_events Mode.xsk env w ∧
      (channel_start_xsk env w).2.channel.rxq.thread = env.rx_thread ∧
      (channel_start_xsk env w).2.channel.txq.thread = env.tx_thread) ∧
    IS_ERR env.rx_thread = false ∧ IS_ERR env.tx_thread = false ∧
    (test_bit NFB_STATUS_IS_XSK w.channel.status = false →
      ∀ (should_stop sched : Nat → Bool) (fuel : Nat),
        nfb_xdp_tx_thread w.channel.status should_stop sched fuel = some (0, 0)) := by
  have hthr : IS_ERR env.rx_thread = false ∧ IS_ERR env.tx_thread = false := by
    simp only [StartEnv.all_ok, Bool.and_eq_true, decide_eq_true_eq, Bool.not_eq_true'] at hok
    exact ⟨hok.1.2, hok.2⟩
  refine ⟨channel_start_ok_events Mode.pp env w hstop hok,
    channel_start_ok_events Mode.xsk env w hstop hok, hthr.1, hthr.2, ?_⟩
  intro hx should_stop sched fuel
  simp [nfb_xdp_tx_thread, hx]

theorem channel_start_creates_both_threads_witness :
    test_bit NFB_STATUS_IS_RUNNING stopped_world.channel.status = false ∧
      ok_env.all_ok = true ∧
      new_events stopped_world (channel_start_pp ok_env stopped_world).2 =
        start_ok_events Mode.pp ok_env stopped_world ∧
      (channel_start_pp ok_env stopped_world).2.channel.txq.thread = 21 ∧
      nfb_xdp_tx_thread stopped_world.channel.status (fun _ => false) (fun _ => true) 5 =
        some (0, 0) :=
  ⟨by decide, by decide,
    (channel_start_creates_both_threads ok_env stopped_world (by decide) (by decide)).1.1,
    (channel_start_creates_both_threads ok_env stopped_world (by decide) (by decide)).1.2.2,
    (channel_start_creates_both_threads ok_env stopped_world (by decide) (by decide)).2.2.2.2
      (by decide) _ _ _⟩

/-- C19: on a running channel `channel_stop` makes its outgoing calls in
exactly this order: the RX thread is stopped and its task reference dropped
(when the handle is not `NULL`), the RX poller of the current mode is
disabled, the TX queue is stopped, the TX thread is stopped and its reference
dropped (when the handle is not `NULL`), in XSK mode the TX poller is
disabled, the RX and then the TX controller are destroyed, and last the
running flag is cleared; it returns 0 and leaves both thread handles `NULL`.
Both thread stops therefore precede both controller destructions. -/
theorem channel_stop_order (w : World)
    (hrun : test_bit NFB_STATUS_IS_RUNNING w.channel.status = true) :
    (channel_stop w).1 = 0 ∧
      new_events w (channel_stop w).2 =
        (if w.channel.rxq.thread ≠ 0 then
          [Event.kthread_stop w.channel.rxq.thread, Event.put_task_struct w.channel.rxq.thread]
          else []) ++
        [Event.napi_disable (rx_napi w.channel.status), Event.netif_tx_stop_queue] ++
        (if w.channel.txq.thread ≠ 0 then
          [Event.kthread_stop w.channel.txq.thread, Event.put_task_struct w.channel.txq.thread]
          else []) ++
        (if test_bit NFB_STATUS_IS_XSK w.channel.status then
          [Event.napi_disable Napi.tx_xsk] else []) ++
        [Event.destroy (stop_mode w.channel.status) w.channel.rxq.ctrl,
          Event.destroy (stop_mode w.channel.status) w.channel.txq.ctrl,
          Event.clear_bit NFB_STATUS_IS_RUNNING] ∧
      (channel_stop w).2.channel.rxq.thread = 0 ∧
      (channel_stop w).2.channel.txq.thread = 0 ∧
      test_bit NFB_STATUS_IS_RUNNING (channel_stop w).2.channel.status = false := by
  obtain ⟨ch, live, next, log⟩ := w
  simp only at hrun
  by_cases hx : test_bit NFB_STATUS_IS_XSK ch.status = true <;>
    by_cases hr : ch.rxq.thread = 0 <;> by_cases ht : ch.txq.thread = 0 <;>
    simp [channel_stop, xctrl_destroy, World.emit, new_events, hrun, hx, hr, ht, rx_napi,
      stop_mode, test_bit_clear_bit]

theorem channel_stop_order_witness :
    test_bit NFB_STATUS_IS_RUNNING running_world.channel.status = true ∧
      new_events running_world (channel_stop running_world).2 =
        [Event.kthread_stop 10, Event.put_task_struct 10, Event.napi_disable Napi.rx_pp,
          Event.netif_tx_stop_queue, Event.kthread_stop 11, Event.put_task_struct 11,
          Event.destroy Mode.pp 1, Event.destroy Mode.pp 2,
          Event.clear_bit NFB_STATUS_IS_RUNNING] ∧
      (channel_stop running_world).1 = 0 :=
  ⟨by decide, by decide, (channel_stop_order running_world (by decide)).1⟩

/-! ## TX enqueue: claims -/

theorem tx_desc_writes_append (a b : List TxEvent) :
    tx_desc_writes (a ++ b) = tx_desc_writes a ++ tx_desc_writes b := by
  simp [tx_desc_writes]

theorem tx_free_loop_no_writes (bufs : Nat → xctrl_tx_buffer) (mdp n i : Nat) :
    tx_desc_writes (tx_free_loop bufs mdp n i) = [] := by
  induction n generalizing i with
  | zero => rfl
  | succ n ih =>
    simp only [tx_free_loop, tx_desc_writes_append, ih]
    split_ifs <;> simp [tx_desc_writes]

theorem tx_prologue_no_writes (ctrl : xctrl) (xdp : xdp_buff) :
    tx_desc_writes (rexmit_prologue ctrl xdp).2 = [] := by
  simp only [rexmit_prologue]
  split_ifs <;> simp [tx_desc_writes]

/-- The reclaim effects at the start of the locked part. -/
theorem tx_reclaimed_fields (env : TxEnv) (ctrl : xctrl) :
    (tx_reclaimed env ctrl).fdp = env.hdp ∧ (tx_reclaimed env ctrl).c.sdp = ctrl.c.sdp ∧
      (tx_reclaimed env ctrl).c.mdp = ctrl.c.mdp ∧
      (tx_reclaimed env ctrl).c.last_upper_addr = ctrl.c.last_upper_addr ∧
      (tx_reclaimed env ctrl).tx_buffers = ctrl.tx_buffers ∧
      (tx_reclaimed env ctrl).descs = ctrl.descs ∧
      tx_free_slots (tx_reclaimed env ctrl) =
        (sub32 (sub32 env.hdp ctrl.c.sdp) 1) &&& ctrl.c.mdp := by
  simp [tx_reclaimed, nfb_xctrl_tx_free_buffers, nc_ndp_ctrl_hdp_update, tx_free_slots]

/-- The call when the slots do not suffice. -/
theorem rexmit_busy_eq (P : Params) (env : TxEnv) (xdp : xdp_buff) (ctrl : xctrl)
    (h : tx_free_slots (tx_reclaimed env ctrl) <
      slots_needed P ctrl.c.last_upper_addr (tx_dma P env)) :
    nfb_xctrl_rexmit_pp P env xdp ctrl =
      { ret := -EBUSY
        ctrl := tx_reclaimed env ctrl
        trace := (rexmit_prologue ctrl xdp).2 ++
          ((nfb_xctrl_tx_free_buffers
            { ctrl with c := nc_ndp_ctrl_hdp_update env.hdp ctrl.c }).2 ++
          [TxEvent.return_frame (xdp_convert_buff_to_frame xdp)] ++
          [TxEvent.sdp_flush ctrl.c.sdp]) } := by
  have hE : (-EBUSY : Int) ≠ 0 := by decide
  obtain ⟨_, _, _, _, _, _, hf⟩ := tx_reclaimed_fields env ctrl
  rw [hf] at h
  unfold slots_needed tx_dma at h
  by_cases h1 : P.NDP_CTRL_DESC_UPPER_ADDR ((env.dma + P.XDP_PACKET_HEADROOM) % 2 ^ 64) =
      ctrl.c.last_upper_addr
  · rw [if_pos h1] at h
    have h2 : (sub32 (sub32 env.hdp ctrl.c.sdp) 1) &&& ctrl.c.mdp = 0 := by omega
    simp only [nfb_xctrl_rexmit_pp, rexmit_locked, rexmit_data, rexmit_exit, rexmit_prologue,
      nfb_xctrl_tx_free_buffers, nc_ndp_ctrl_hdp_update, tx_reclaimed, h1, h2, hE,
      ne_eq, not_true_eq_false, not_false_eq_true, if_true, if_false]
  · rw [if_neg h1] at h
    simp only [nfb_xctrl_rexmit_pp, rexmit_locked, rexmit_data, rexmit_exit, rexmit_prologue,
      nfb_xctrl_tx_free_buffers, nc_ndp_ctrl_hdp_update, tx_reclaimed, h1, h, hE,
      ne_eq, not_true_eq_false, not_false_eq_true, if_true, if_false]

/-- The call when the upper address bits match the cache and a slot is free. -/
theorem rexmit_same_eq (P : Params) (env : TxEnv) (xdp : xdp_buff) (ctrl : xctrl)
    (h1 : P.NDP_CTRL_DESC_UPPER_ADDR (tx_dma P env) = ctrl.c.last_upper_addr)
    (h : 1 ≤ tx_free_slots (tx_reclaimed env ctrl)) :
    nfb_xctrl_rexmit_pp P env xdp ctrl =
      { ret := 0
        ctrl := { tx_reclaimed env ctrl with
          tx_buffers := Function.update ctrl.tx_buffers ctrl.c.sdp
            { type := xctrl_buff_type.NFB_XCTRL_BUFF_FRAME_PP,
              frame := xdp_convert_buff_to_frame xdp }
          descs := Function.update ctrl.descs ctrl.c.sdp
            (nc_ndp_tx_desc2 (tx_dma P env) (rexmit_prologue ctrl xdp).1.len 0 0)
          c := { (tx_reclaimed env ctrl).c with sdp := (add32 ctrl.c.sdp 1) &&& ctrl.c.mdp } }
        trace := (rexmit_prologue ctrl xdp).2 ++
          ((nfb_xctrl_tx_free_buffers
            { ctrl with c := nc_ndp_ctrl_hdp_update env.hdp ctrl.c }).2 ++
          [TxEvent.buffer_tag ctrl.c.sdp xctrl_buff_type.NFB_XCTRL_BUFF_FRAME_PP,
            TxEvent.frame_own ctrl.c.sdp (xdp_convert_buff_to_frame xdp),
            TxEvent.desc_write ctrl.c.sdp
              (nc_ndp_tx_desc2 (tx_dma P env) (rexmit_prologue ctrl xdp).1.len 0 0),
            TxEvent.dma_sync (tx_dma P env) (rexmit_prologue ctrl xdp).1.len] ++
          [] ++ [TxEvent.sdp_flush ((add32 ctrl.c.sdp 1) &&& ctrl.c.mdp)]) } := by
  obtain ⟨_, _, _, _, _, _, hf⟩ := tx_reclaimed_fields env ctrl
  rw [hf] at h
  unfold tx_dma at h1
  have h2 : ¬ (sub32 (sub32 env.hdp ctrl.c.sdp) 1) &&& ctrl.c.mdp = 0 := by omega
  simp only [nfb_xctrl_rexmit_pp, rexmit_locked, rexmit_data, rexmit_exit, rexmit_prologue,
    nfb_xctrl_tx_free_buffers, nc_ndp_ctrl_hdp_update, tx_reclaimed, tx_dma, h1, h2,
    ne_eq, not_true_eq_false, not_false_eq_true, if_true, if_false]

/-- The call when the upper address bits differ from the cache and two slots
are free. -/
theorem rexmit_ext_eq (P : Params) (env : TxEnv) (xdp : xdp_buff) (ctrl : xctrl)
    (h1 : P.NDP_CTRL_DESC_UPPER_ADDR (tx_dma P env) ≠ ctrl.c.last_upper_addr)
    (h : 2 ≤ tx_free_slots (tx_reclaimed env ctrl)) :
    nfb_xctrl_rexmit_pp P env xdp ctrl =
      { ret := 0
        ctrl := { tx_reclaimed env ctrl with
          tx_buffers := Function.update
            (Function.update ctrl.tx_buffers ctrl.c.sdp
              { ctrl.tx_buffers ctrl.c.sdp with
                type := xctrl_buff_type.NFB_XCTRL_BUFF_DESC_TYPE0 })
            ((add32 ctrl.c.sdp 1) &&& ctrl.c.mdp)
            { type := xctrl_buff_type.NFB_XCTRL_BUFF_FRAME_PP,
              frame := xdp_convert_buff_to_frame xdp }
          descs := Function.update
            (Function.update ctrl.descs ctrl.c.sdp (nc_ndp_tx_desc0 (tx_dma P env)))
            ((add32 ctrl.c.sdp 1) &&& ctrl.c.mdp)
            (nc_ndp_tx_desc2 (tx_dma P env) (rexmit_prologue ctrl xdp).1.len 0 0)
          c := { (tx_reclaimed env ctrl).c with
            last_upper_addr := P.NDP_CTRL_DESC_UPPER_ADDR (tx_dma P env)
            sdp := (add32 ((add32 ctrl.c.sdp 1) &&& ctrl.c.mdp) 1) &&& ctrl.c.mdp } }
        trace := (rexmit_prologue ctrl xdp).2 ++
          ((nfb_xctrl_tx_free_buffers
            { ctrl with c := nc_ndp_ctrl_hdp_update env.hdp ctrl.c }).2 ++
          [TxEvent.desc_write ctrl.c.sdp (nc_ndp_tx_desc0 (tx_dma P env)),
            TxEvent.buffer_tag ctrl.c.sdp xctrl_buff_type.NFB_XCTRL_BUFF_DESC_TYPE0] ++
          [TxEvent.buffer_tag ((add32 ctrl.c.sdp 1) &&& ctrl.c.mdp)
              xctrl_buff_type.NFB_XCTRL_BUFF_FRAME_PP,
            TxEvent.frame_own ((add32 ctrl.c.sdp 1) &&& ctrl.c.mdp)
              (xdp_convert_buff_to_frame xdp),
            TxEvent.desc_write ((add32 ctrl.c.sdp 1) &&& ctrl.c.mdp)
              (nc_ndp_tx_desc2 (tx_dma P env) (rexmit_prologue ctrl xdp).1.len 0 0),
            TxEvent.dma_sync (tx_dma P env) (rexmit_prologue ctrl xdp).1.len] ++
          [] ++
          [TxEvent.sdp_flush ((add32 ((add32 ctrl.c.sdp 1) &&& ctrl.c.mdp) 1) &&& ctrl.c.mdp)]) } := by
  obtain ⟨_, _, _, _, _, _, hf⟩ := tx_reclaimed_fields env ctrl
  rw [hf] at h
  unfold tx_dma at h1
  have h2 : ¬ (sub32 (sub32 env.hdp ctrl.c.sdp) 1) &&& ctrl.c.mdp < 2 := by omega
  have h3 : ¬ (sub32 (sub32 env.hdp ctrl.c.sdp) 1 &&& ctrl.c.mdp) - 1 = 0 := by omega
  simp only [nfb_xctrl_rexmit_pp, rexmit_locked, rexmit_data, rexmit_exit, rexmit_prologue,
    nfb_xctrl_tx_free_buffers, nc_ndp_ctrl_hdp_update, tx_reclaimed, tx_dma, h1, h2, h3,
    ne_eq, not_true_eq_false, not_false_eq_true, if_true, if_false]

/-- C11: `nfb_xctrl_rexmit_pp` returns `-EBUSY` exactly when, after reclaim,
the free descriptor slots `(fdp - sdp - 1) & mdp` are fewer than the slots the
buffer needs (one, or two when the upper bits of its DMA address differ from
`last_upper_addr`), and returns 0 otherwise; when it returns `-EBUSY` it
writes no descriptor and leaves the controller, in particular `sdp`,
`last_upper_addr`, the descriptor ring and all TX buffer records, exactly as
reclaim left it. -/
theorem rexmit_busy_iff_short_of_slots (P : Params) (env : TxEnv) (xdp : xdp_buff)
    (ctrl : xctrl) :
    ((nfb_xctrl_rexmit_pp P env xdp ctrl).ret = -EBUSY ↔
        tx_free_slots (tx_reclaimed env ctrl) <
          slots_needed P ctrl.c.last_upper_addr (tx_dma P env)) ∧
      (¬ tx_free_slots (tx_reclaimed env ctrl) <
          slots_needed P ctrl.c.last_upper_addr (tx_dma P env) →
        (nfb_xctrl_rexmit_pp P env xdp ctrl).ret = 0) ∧
      ((nfb_xctrl_rexmit_pp P env xdp ctrl).ret = -EBUSY →
        tx_desc_writes (nfb_xctrl_rexmit_pp P env xdp ctrl).trace = [] ∧
        (nfb_xctrl_rexmit_pp P env xdp ctrl).ctrl.descs = ctrl.descs ∧
        (nfb_xctrl_rexmit_pp P env xdp ctrl).ctrl.c.sdp = ctrl.c.sdp ∧
        (nfb_xctrl_rexmit_pp P env xdp ctrl).ctrl.c.last_upper_addr = ctrl.c.last_upper_addr ∧
        (nfb_xctrl_rexmit_pp P env xdp ctrl).ctrl.tx_buffers =
          (tx_reclaimed env ctrl).tx_buffers ∧
        (nfb_xctrl_rexmit_pp P env xdp ctrl).ctrl.fdp = (tx_reclaimed env ctrl).fdp) := by
  have hE : (-EBUSY : Int) ≠ 0 := by decide
  have hzero : ¬ tx_free_slots (tx_reclaimed env ctrl) <
      slots_needed P ctrl.c.last_upper_addr (tx_dma P env) →
      (nfb_xctrl_rexmit_pp P env xdp ctrl).ret = 0 := by
    intro h
    unfold slots_needed at h
    by_cases h1 : P.NDP_CTRL_DESC_UPPER_ADDR (tx_dma P env) = ctrl.c.last_upper_addr
    · rw [if_pos h1] at h
      rw [rexmit_same_eq P env xdp ctrl h1 (by omega)]
    · rw [if_neg h1] at h
      rw [rexmit_ext_eq P env xdp ctrl h1 (by omega)]
  have hbusy : tx_free_slots (tx_reclaimed env ctrl) <
      slots_needed P ctrl.c.last_upper_addr (tx_dma P env) →
      (nfb_xctrl_rexmit_pp P env xdp ctrl).ret = -EBUSY := by
    intro h
    rw [rexmit_busy_eq P env xdp ctrl h]
  have hiff : (nfb_xctrl_rexmit_pp P env xdp ctrl).ret = -EBUSY ↔
      tx_free_slots (tx_reclaimed env ctrl) <
        slots_needed P ctrl.c.last_upper_addr (tx_dma P env) := by
    constructor
    · intro hret
      by_contra hn
      rw [hzero hn] at hret
      exact hE hret.symm
    · exact hbusy
  refine ⟨hiff, hzero, ?_⟩
  intro hret
  have h := hiff.1 hret
  obtain ⟨_, h2, _, h4, _, h6, _⟩ := tx_reclaimed_fields env ctrl
  rw [rexmit_busy_eq P env xdp ctrl h]
  refine ⟨?_, h6, h2, h4, rfl, rfl⟩
  simp only [tx_desc_writes_append, tx_prologue_no_writes, nfb_xctrl_tx_free_buffers,
    nc_ndp_ctrl_hdp_update, tx_free_loop_no_writes]
  simp [tx_desc_writes]

/-- The occupied window and the free slots together with the one slot kept
empty make up the ring. -/
theorem occupied_add_free (m k f sd : Nat) (hm : m + 1 = 2 ^ k) (hk : k ≤ 32) :
    ((sub32 sd f) &&& m) + ((sub32 (sub32 f sd) 1) &&& m) + 1 = 2 ^ k := by
  set d := (sub32 sd f) &&& m with hd
  set fr := (sub32 (sub32 f sd) 1) &&& m with hfr
  have hpos : 0 < 2 ^ k := by positivity
  have hdlt : d < 2 ^ k := by rw [hd, mask_eq_mod m k _ hm]; exact Nat.mod_lt _ hpos
  have hflt : fr < 2 ^ k := by rw [hfr, mask_eq_mod m k _ hm]; exact Nat.mod_lt _ hpos
  have e1 : d + f ≡ sd [MOD 2 ^ k] := mask_sub32_modEq m k sd f hm hk
  have e2 : fr + 1 + sd ≡ f [MOD 2 ^ k] :=
    ((mask_sub32_modEq m k _ 1 hm hk).add_right sd).trans (sub32_modEq k f sd hk)
  have e3 : (d + fr + 1) + (sd + f) ≡ 0 + (sd + f) [MOD 2 ^ k] := by
    have h1 : (d + fr + 1) + (sd + f) = (d + f) + (fr + 1 + sd) := by omega
    rw [h1, Nat.zero_add]
    exact e1.add e2
  have e4 : d + fr + 1 ≡ 0 [MOD 2 ^ k] := Nat.ModEq.add_right_cancel' _ e3
  have hdvd : 2 ^ k ∣ d + fr + 1 := (Nat.modEq_zero_iff_dvd).1 e4
  obtain ⟨q, hq⟩ := hdvd
  have hq1 : q = 1 := by
    rcases q with _ | _ | q
    · omega
    · rfl
    · exfalso
      have : 2 ^ k * (q + 1 + 1) = 2 ^ k * q + 2 ^ k + 2 ^ k := by ring
      have h0 : 0 ≤ 2 ^ k * q := Nat.zero_le _
      omega
  rw [hq, hq1, Nat.mul_one]

/-- The offset of a slot `j` places after `sd`, counted from the reclaim
cursor, is the occupied count plus `j` as long as that stays inside the
ring. -/
theorem offset_advance (m k f sd sd1 j : Nat) (hm : m + 1 = 2 ^ k) (hk : k ≤ 32)
    (hs : sd1 % 2 ^ k = (sd + j) % 2 ^ k) (hj : ((sub32 sd f) &&& m) + j < 2 ^ k) :
    (sub32 sd1 f) &&& m = ((sub32 sd f) &&& m) + j := by
  set d := (sub32 sd f) &&& m with hd
  set x := (sub32 sd1 f) &&& m with hx
  have hpos : 0 < 2 ^ k := by positivity
  have hxlt : x < 2 ^ k := by rw [hx, mask_eq_mod m k _ hm]; exact Nat.mod_lt _ hpos
  have e1 : d + f ≡ sd [MOD 2 ^ k] := mask_sub32_modEq m k sd f hm hk
  have e2 : x + f ≡ sd1 [MOD 2 ^ k] := mask_sub32_modEq m k sd1 f hm hk
  have e3 : sd1 ≡ sd + j [MOD 2 ^ k] := hs
  have e4 : x + f ≡ (d + j) + f [MOD 2 ^ k] := by
    have h1 : (d + j) + f = (d + f) + j := by omega
    rw [h1]
    exact (e2.trans e3).trans (e1.add_right j).symm
  have e5 : x ≡ d + j [MOD 2 ^ k] := Nat.ModEq.add_right_cancel' _ e4
  exact Nat.ModEq.eq_of_lt_of_lt e5 hxlt hj

theorem succ_mod_ne_self (M a : Nat) (hM : 2 ≤ M) : (a + 1) % M ≠ a := by
  intro h
  have hlt : a < M := by rw [← h]; exact Nat.mod_lt _ (by omega)
  by_cases h1 : a + 1 < M
  · rw [Nat.mod_eq_of_lt h1] at h
    omega
  · have h2 : a + 1 = M := by omega
    rw [h2, Nat.mod_self] at h
    omega

/-- C12: when `nfb_xctrl_rexmit_pp` succeeds on a ring of `2^kd` descriptors
it writes, at consecutive slots from the old `sdp`, the address-extension
descriptor (only when the upper address bits differ from `last_upper_addr`)
and then the data descriptor; it tags the extension slot as
`NFB_XCTRL_BUFF_DESC_TYPE0`, keeping its frame field, and the data slot as
`NFB_XCTRL_BUFF_FRAME_PP` owning the frame converted from the buffer; every
other buffer record stays as reclaim left it; `sdp` advances by the number of
descriptors written modulo the ring size, the free slot count drops by
exactly that number, and no written slot lies between the reclaim cursor and
the old `sdp`. -/
theorem rexmit_success_writes (P : Params) (env : TxEnv) (xdp : xdp_buff) (ctrl : xctrl)
    (kd : Nat) (hkd : kd ≤ 32) (hmd : ctrl.c.mdp + 1 = 2 ^ kd)
    (hret : (nfb_xctrl_rexmit_pp P env xdp ctrl).ret = 0) :
    tx_desc_writes (nfb_xctrl_rexmit_pp P env xdp ctrl).trace =
        (if P.NDP_CTRL_DESC_UPPER_ADDR (tx_dma P env) ≠ ctrl.c.last_upper_addr then
          [(ctrl.c.sdp, nc_ndp_tx_desc0 (tx_dma P env)),
            ((ctrl.c.sdp + 1) % 2 ^ kd,
              nc_ndp_tx_desc2 (tx_dma P env) (rexmit_prologue ctrl xdp).1.len 0 0)]
        else
          [(ctrl.c.sdp,
            nc_ndp_tx_desc2 (tx_dma P env) (rexmit_prologue ctrl xdp).1.len 0 0)]) ∧
      (∀ sd ∈ tx_desc_writes (nfb_xctrl_rexmit_pp P env xdp ctrl).trace,
        (nfb_xctrl_rexmit_pp P env xdp ctrl).ctrl.descs sd.1 = sd.2 ∧
        ¬ tx_pending (tx_reclaimed env ctrl) ctrl.c.sdp sd.1) ∧
      (P.NDP_CTRL_DESC_UPPER_ADDR (tx_dma P env) ≠ ctrl.c.last_upper_addr →
        (nfb_xctrl_rexmit_pp P env xdp ctrl).ctrl.tx_buffers ctrl.c.sdp =
          { type := xctrl_buff_type.NFB_XCTRL_BUFF_DESC_TYPE0,
            frame := (ctrl.tx_buffers ctrl.c.sdp).frame } ∧
        (nfb_xctrl_rexmit_pp P env xdp ctrl).ctrl.tx_buffers ((ctrl.c.sdp + 1) % 2 ^ kd) =
          { type := xctrl_buff_type.NFB_XCTRL_BUFF_FRAME_PP,
            frame := xdp_convert_buff_to_frame xdp } ∧
        ∀ slot, slot ≠ ctrl.c.sdp → slot ≠ (ctrl.c.sdp + 1) % 2 ^ kd →
          (nfb_xctrl_rexmit_pp P env xdp ctrl).ctrl.tx_buffers slot =
            (tx_reclaimed env ctrl).tx_buffers slot) ∧
      (P.NDP_CTRL_DESC_UPPER_ADDR (tx_dma P env) = ctrl.c.last_upper_addr →
        (nfb_xctrl_rexmit_pp P env xdp ctrl).ctrl.tx_buffers ctrl.c.sdp =
          { type := xctrl_buff_type.NFB_XCTRL_BUFF_FRAME_PP,
            frame := xdp_convert_buff_to_frame xdp } ∧
        ∀ slot, slot ≠ ctrl.c.sdp →
          (nfb_xctrl_rexmit_pp P env xdp ctrl).ctrl.tx_buffers slot =
            (tx_reclaimed env ctrl).tx_buffers slot) ∧
      (nfb_xctrl_rexmit_pp P env xdp ctrl).ctrl.c.sdp =
        (ctrl.c.sdp + slots_needed P ctrl.c.last_upper_addr (tx_dma P env)) % 2 ^ kd ∧
      (nfb_xctrl_rexmit_pp P env xdp ctrl).ctrl.c.last_upper_addr =
        P.NDP_CTRL_DESC_UPPER_ADDR (tx_dma P env) ∧
      (nfb_xctrl_rexmit_pp P env xdp ctrl).ctrl.fdp = (tx_reclaimed env ctrl).fdp ∧
      tx_free_slots (nfb_xctrl_rexmit_pp P env xdp ctrl).ctrl =
        tx_free_slots (tx_reclaimed env ctrl) -
          slots_needed P ctrl.c.last_upper_addr (tx_dma P env) ∧
      slots_needed P ctrl.c.last_upper_addr (tx_dma P env) ≤
        tx_free_slots (tx_reclaimed env ctrl) := by
  have hE : (-EBUSY : Int) ≠ 0 := by decide
  have hfree : slots_needed P ctrl.c.last_upper_addr (tx_dma P env) ≤
      tx_free_slots (tx_reclaimed env ctrl) := by
    by_contra hn
    rw [rexmit_busy_eq P env xdp ctrl (by omega)] at hret
    exact hE hret
  obtain ⟨hfdp, _, _, hcache, hbufs, _, hfs⟩ := tx_reclaimed_fields env ctrl
  have hpos : 0 < 2 ^ kd := by positivity
  have hocc := occupied_add_free ctrl.c.mdp kd env.hdp ctrl.c.sdp hmd hkd
  have hwr : tx_desc_writes ((rexmit_prologue ctrl xdp).2 ++
      (nfb_xctrl_tx_free_buffers
        { ctrl with c := nc_ndp_ctrl_hdp_update env.hdp ctrl.c }).2) = [] := by
    simp only [tx_desc_writes_append, tx_prologue_no_writes, nfb_xctrl_tx_free_buffers,
      nc_ndp_ctrl_hdp_update, tx_free_loop_no_writes, List.append_nil]
  by_cases h1 : P.NDP_CTRL_DESC_UPPER_ADDR (tx_dma P env) = ctrl.c.last_upper_addr
  · have hn : slots_needed P ctrl.c.last_upper_addr (tx_dma P env) = 1 := by
      simp [slots_needed, h1]
    rw [hn] at hfree ⊢
    have hsdp : (add32 ctrl.c.sdp 1) &&& ctrl.c.mdp = (ctrl.c.sdp + 1) % 2 ^ kd :=
      add32_mask _ _ _ _ hmd hkd
    rw [rexmit_same_eq P env xdp ctrl h1 hfree]
    have hw1 : tx_desc_writes ((rexmit_prologue ctrl xdp).2 ++
        ((nfb_xctrl_tx_free_buffers
            { ctrl with c := nc_ndp_ctrl_hdp_update env.hdp ctrl.c }).2 ++
          [TxEvent.buffer_tag ctrl.c.sdp xctrl_buff_type.NFB_XCTRL_BUFF_FRAME_PP,
            TxEvent.frame_own ctrl.c.sdp (xdp_convert_buff_to_frame xdp),
            TxEvent.desc_write ctrl.c.sdp
              (nc_ndp_tx_desc2 (tx_dma P env) (rexmit_prologue ctrl xdp).1.len 0 0),
            TxEvent.dma_sync (tx_dma P env) (rexmit_prologue ctrl xdp).1.len] ++
          [] ++ [TxEvent.sdp_flush ((add32 ctrl.c.sdp 1) &&& ctrl.c.mdp)])) =
        [(ctrl.c.sdp,
          nc_ndp_tx_desc2 (tx_dma P env) (rexmit_prologue ctrl xdp).1.len 0 0)] := by
      simp only [tx_desc_writes_append, tx_prologue_no_writes, nfb_xctrl_tx_free_buffers,
        nc_ndp_ctrl_hdp_update, tx_free_loop_no_writes]
      simp [tx_desc_writes]
    simp only [hw1]
    refine ⟨by simp [h1], ?_, ?_, ?_, hsdp, ?_, trivial, ?_, hfree⟩
    · intro sd hsd
      simp only [List.mem_singleton] at hsd
      subst hsd
      refine ⟨by simp, ?_⟩
      simp [tx_pending]
    · intro h
      exact absurd h1 h
    · intro _
      refine ⟨by simp, ?_⟩
      intro slot hslot
      simp [Function.update_noteq hslot, hbufs]
    · simp only [hcache]
      exact h1.symm
    · have hs : ((ctrl.c.sdp + 1) % 2 ^ kd) % 2 ^ kd = (ctrl.c.sdp + 1) % 2 ^ kd :=
        Nat.mod_mod _ _
      have hw : 1 ≤ (sub32 (sub32 env.hdp ctrl.c.sdp) 1) &&& ctrl.c.mdp := by
        rw [← hfs]; exact hfree
      have := free_advance ctrl.c.mdp kd env.hdp ctrl.c.sdp _ 1 hmd hkd hs hw
      simp only [tx_free_slots, hfdp, hsdp, tx_reclaimed, nfb_xctrl_tx_free_buffers,
        nc_ndp_ctrl_hdp_update]
      exact this
  · have hn : slots_needed P ctrl.c.last_upper_addr (tx_dma P env) = 2 := by
      simp [slots_needed, h1]
    rw [hn] at hfree ⊢
    have hfree2 : 2 ≤ (sub32 (sub32 env.hdp ctrl.c.sdp) 1) &&& ctrl.c.mdp := by
      rw [← hfs]; exact hfree
    have hM : 2 ≤ 2 ^ kd := by omega
    have hs1 : (add32 ctrl.c.sdp 1) &&& ctrl.c.mdp = (ctrl.c.sdp + 1) % 2 ^ kd :=
      add32_mask _ _ _ _ hmd hkd
    have hs2 : (add32 ((ctrl.c.sdp + 1) % 2 ^ kd) 1) &&& ctrl.c.mdp =
        (ctrl.c.sdp + 2) % 2 ^ kd := by
      rw [add32_mask _ _ _ _ hmd hkd, Nat.mod_add_mod]
    have hne : (ctrl.c.sdp + 1) % 2 ^ kd ≠ ctrl.c.sdp := succ_mod_ne_self _ _ hM
    rw [rexmit_ext_eq P env xdp ctrl h1 hfree]
    simp only [hs1, hs2]
    have hw2 : tx_desc_writes ((rexmit_prologue ctrl xdp).2 ++
        ((nfb_xctrl_tx_free_buffers
            { ctrl with c := nc_ndp_ctrl_hdp_update env.hdp ctrl.c }).2 ++
          [TxEvent.desc_write ctrl.c.sdp (nc_ndp_tx_desc0 (tx_dma P env)),
            TxEvent.buffer_tag ctrl.c.sdp xctrl_buff_type.NFB_XCTRL_BUFF_DESC_TYPE0] ++
          [TxEvent.buffer_tag ((ctrl.c.sdp + 1) % 2 ^ kd)
              xctrl_buff_type.NFB_XCTRL_BUFF_FRAME_PP,
            TxEvent.frame_own ((ctrl.c.sdp + 1) % 2 ^ kd) (xdp_convert_buff_to_frame xdp),
            TxEvent.desc_write ((ctrl.c.sdp + 1) % 2 ^ kd)
              (nc_ndp_tx_desc2 (tx_dma P env) (rexmit_prologue ctrl xdp).1.len 0 0),
            TxEvent.dma_sync (tx_dma P env) (rexmit_prologue ctrl xdp).1.len] ++
          [] ++ [TxEvent.sdp_flush ((ctrl.c.sdp + 2) % 2 ^ kd)])) =
        [(ctrl.c.sdp, nc_ndp_tx_desc0 (tx_dma P env)),
          ((ctrl.c.sdp + 1) % 2 ^ kd,
            nc_ndp_tx_desc2 (tx_dma P env) (rexmit_prologue ctrl xdp).1.len 0 0)] := by
      simp only [tx_desc_writes_append, tx_prologue_no_writes, nfb_xctrl_tx_free_buffers,
        nc_ndp_ctrl_hdp_update, tx_free_loop_no_writes]
      simp [tx_desc_writes]
    simp only [hw2]
    refine ⟨by simp [h1], ?_, ?_, ?_, ?_, ?_, trivial, ?_, hfree⟩
    · intro sd hsd
      simp only [List.mem_cons, List.mem_singleton, List.not_mem_nil, or_false] at hsd
      rcases hsd with rfl | rfl
      · refine ⟨?_, ?_⟩
        · rw [hs1]
          exact (Function.update_noteq hne.symm _ _).trans (Function.update_same _ _ _)
        · simp [tx_pending]
      · refine ⟨by rw [hs1]; exact Function.update_same _ _ _, ?_⟩
        have hoff := offset_advance ctrl.c.mdp kd env.hdp ctrl.c.sdp
          ((ctrl.c.sdp + 1) % 2 ^ kd) 1 hmd hkd (Nat.mod_mod _ _) (by omega)
        simp only [tx_pending, hfdp, tx_reclaimed, nfb_xctrl_tx_free_buffers,
          nc_ndp_ctrl_hdp_update]
        omega
    · intro _
      refine ⟨?_, by rw [hs1]; exact Function.update_same _ _ _, ?_⟩
      · rw [hs1]
        exact (Function.update_noteq hne.symm _ _).trans (Function.update_same _ _ _)
      · intro slot hslot1 hslot2
        rw [hs1]
        exact ((Function.update_noteq hslot2 _ _).trans (Function.update_noteq hslot1 _ _)).trans
          (congrFun hbufs slot).symm
    · intro h
      exact absurd h h1
    · trivial
    · trivial
    · have hs : ((ctrl.c.sdp + 2) % 2 ^ kd) % 2 ^ kd = (ctrl.c.sdp + 2) % 2 ^ kd :=
        Nat.mod_mod _ _
      have := free_advance ctrl.c.mdp kd env.hdp ctrl.c.sdp _ 2 hmd hkd hs hfree2
      simp only [tx_free_slots, hfdp, tx_reclaimed, nfb_xctrl_tx_free_buffers,
        nc_ndp_ctrl_hdp_update]
      exact this

theorem rexmit_busy_iff_short_of_slots_witness :
    tx_free_slots (tx_reclaimed (tx_env_far 2) tx8_one_free) = 1 ∧
      slots_needed test_params tx8_one_free.c.last_upper_addr
        (tx_dma test_params (tx_env_far 2)) = 2 ∧
      (nfb_xctrl_rexmit_pp test_params (tx_env_far 2) buff_a tx8_one_free).ret = -EBUSY ∧
      (nfb_xctrl_rexmit_pp test_params (tx_env_near 2) buff_a tx8_one_free).ret = 0 :=
  ⟨by decide, by decide,
    (rexmit_busy_iff_short_of_slots test_params (tx_env_far 2) buff_a tx8_one_free).1.2
      (by decide),
    (rexmit_busy_iff_short_of_slots test_params (tx_env_near 2) buff_a tx8_one_free).2.1
      (by decide)⟩

theorem rexmit_success_writes_witness :
    tx8.c.mdp + 1 = 2 ^ 3 ∧
      (nfb_xctrl_rexmit_pp test_params (tx_env_far 0) buff_a tx8).ret = 0 ∧
      tx_desc_writes (nfb_xctrl_rexmit_pp test_params (tx_env_far 0) buff_a tx8).trace =
        [(0, nc_ndp_desc.desc0 0x40001100), (1, nc_ndp_desc.desc2 0x40001100 100 0 0)] ∧
      (nfb_xctrl_rexmit_pp test_params (tx_env_far 0) buff_a tx8).ctrl.c.sdp = 2 :=
  ⟨by decide, by decide,
    (rexmit_success_writes test_params (tx_env_far 0) buff_a tx8 3 (by decide) (by decide)
      (by decide)).1.trans (by decide),
    (rexmit_success_writes test_params (tx_env_far 0) buff_a tx8 3 (by decide) (by decide)
      (by decide)).2.2.2.2.1.trans (by decide)⟩

/-! ## Verdict handling: claims -/

theorem run_prog_hard_start (prog : Option (xdp_buff → ProgResult)) (xdp : xdp_buff) :
    xdp_convert_buff_to_frame (run_prog prog xdp).2 = xdp.data_hard_start := by
  cases prog <;> rfl

theorem disposals_append (a b : List HandleEvent) :
    disposals (a ++ b) = disposals a ++ disposals b := by
  simp [disposals]

theorem disposals_tx_free_loop (bufs : Nat → xctrl_tx_buffer) (mdp n i : Nat) :
    disposals ((tx_free_loop bufs mdp n i).map HandleEvent.tx) = [] := by
  induction n generalizing i with
  | zero => rfl
  | succ n ih =>
    simp only [tx_free_loop, List.map_append, disposals_append, ih]
    split_ifs <;> simp [disposals, HandleEvent.disposal]

theorem disposals_tx_prologue (ctrl : xctrl) (xdp : xdp_buff) :
    disposals ((rexmit_prologue ctrl xdp).2.map HandleEvent.tx) = [] := by
  simp only [rexmit_prologue]
  split_ifs <;> simp [disposals, HandleEvent.disposal]

/-- A TX enqueue disposes of its buffer exactly once: a successful call makes
one TX slot its owner, a busy call releases it. -/
theorem rexmit_disposals (P : Params) (env : TxEnv) (xdp : xdp_buff) (ctrl : xctrl) :
    ((nfb_xctrl_rexmit_pp P env xdp ctrl).ret = 0 ∧
        ∃ slot, disposals ((nfb_xctrl_rexmit_pp P env xdp ctrl).trace.map HandleEvent.tx) =
          [Disposal.to_tx_slot slot (xdp_convert_buff_to_frame xdp)]) ∨
      ((nfb_xctrl_rexmit_pp P env xdp ctrl).ret = -EBUSY ∧
        disposals ((nfb_xctrl_rexmit_pp P env xdp ctrl).trace.map HandleEvent.tx) =
          [Disposal.released (xdp_convert_buff_to_frame xdp)]) := by
  by_cases h : tx_free_slots (tx_reclaimed env ctrl) <
      slots_needed P ctrl.c.last_upper_addr (tx_dma P env)
  · right
    rw [rexmit_busy_eq P env xdp ctrl h]
    refine ⟨rfl, ?_⟩
    simp only [List.map_append, disposals_append, disposals_tx_prologue,
      nfb_xctrl_tx_free_buffers, disposals_tx_free_loop]
    simp [disposals, HandleEvent.disposal]
  · left
    by_cases h1 : P.NDP_CTRL_DESC_UPPER_ADDR (tx_dma P env) = ctrl.c.last_upper_addr
    · have h2 : 1 ≤ tx_free_slots (tx_reclaimed env ctrl) := by
        simp only [slots_needed, h1, if_true] at h
        omega
      rw [rexmit_same_eq P env xdp ctrl h1 h2]
      refine ⟨rfl, ctrl.c.sdp, ?_⟩
      simp only [List.map_append, disposals_append, disposals_tx_prologue,
        nfb_xctrl_tx_free_buffers, disposals_tx_free_loop]
      simp [disposals, HandleEvent.disposal]
    · have h2 : 2 ≤ tx_free_slots (tx_reclaimed env ctrl) := by
        simp only [slots_needed, h1, if_false] at h
        omega
      rw [rexmit_ext_eq P env xdp ctrl h1 h2]
      refine ⟨rfl, (add32 ctrl.c.sdp 1) &&& ctrl.c.mdp, ?_⟩
      simp only [List.map_append, disposals_append, disposals_tx_prologue,
        nfb_xctrl_tx_free_buffers, disposals_tx_free_loop]
      simp [disposals, HandleEvent.disposal]

theorem rexmit_calls_map_tx (tr : List TxEvent) :
    rexmit_calls (tr.map HandleEvent.tx) = 0 := by
  induction tr with
  | nil => rfl
  | cons e tr ih =>
    simp only [rexmit_calls, List.map_cons, List.filter_cons] at ih ⊢
    exact ih

/-- The call for the verdict Pass. -/
theorem handle_pp_pass_eq (P : Params) (env : HandleEnv) (index : Nat) (xdp : xdp_buff)
    (txctrl : xctrl) (hp : (run_prog env.prog xdp).1 = XDP_PASS) :
    nfb_xctrl_handle_pp P env index xdp txctrl =
      (txctrl,
        if env.skb_ok = true then
          [HandleEvent.skb_build xdp.data_hard_start true,
            HandleEvent.netif_receive_skb xdp.data_hard_start index]
        else
          [HandleEvent.skb_build xdp.data_hard_start false,
            HandleEvent.xdp_return_frame xdp.data_hard_start]) := by
  have hf := run_prog_hard_start env.prog xdp
  by_cases hs : env.skb_ok = true
  · simp only [nfb_xctrl_handle_pp, hp, hs, hf, if_true]
  · simp only [nfb_xctrl_handle_pp, hp, hs, hf, if_true, if_false, Bool.false_eq_true]

/-- The call for the verdict Transmit. -/
theorem handle_pp_tx_eq (P : Params) (env : HandleEnv) (index : Nat) (xdp : xdp_buff)
    (txctrl : xctrl) (ht : (run_prog env.prog xdp).1 = XDP_TX) :
    nfb_xctrl_handle_pp P env index xdp txctrl =
      ((nfb_xctrl_rexmit_pp P env.tx (run_prog env.prog xdp).2 txctrl).ctrl,
        HandleEvent.rexmit_call ::
          (nfb_xctrl_rexmit_pp P env.tx (run_prog env.prog xdp).2 txctrl).trace.map
            HandleEvent.tx) := by
  have hTP : XDP_TX ≠ XDP_PASS := by decide
  simp only [nfb_xctrl_handle_pp, ht, hTP, if_false, if_true]

/-- The call for the verdict Redirect. -/
theorem handle_pp_redirect_eq (P : Params) (env : HandleEnv) (index : Nat) (xdp : xdp_buff)
    (txctrl : xctrl) (hr : (run_prog env.prog xdp).1 = XDP_REDIRECT) :
    nfb_xctrl_handle_pp P env index xdp txctrl =
      (txctrl,
        if env.redirect_ret ≠ 0 then
          [HandleEvent.xdp_do_redirect xdp.data_hard_start env.redirect_ret,
            HandleEvent.xdp_return_frame xdp.data_hard_start]
        else [HandleEvent.xdp_do_redirect xdp.data_hard_start env.redirect_ret]) := by
  have hf := run_prog_hard_start env.prog xdp
  have hRP : XDP_REDIRECT ≠ XDP_PASS := by decide
  have hRT : XDP_REDIRECT ≠ XDP_TX := by decide
  by_cases hret : env.redirect_ret = 0
  · simp only [nfb_xctrl_handle_pp, hr, hRP, hRT, hret, hf, ne_eq, not_true_eq_false,
      if_false, if_true]
  · simp only [nfb_xctrl_handle_pp, hr, hRP, hRT, hret, hf, ne_eq, not_false_eq_true,
      if_false, if_true]

/-- The call for every other verdict. -/
theorem handle_pp_other_eq (P : Params) (env : HandleEnv) (index : Nat) (xdp : xdp_buff)
    (txctrl : xctrl) (hp : (run_prog env.prog xdp).1 ≠ XDP_PASS)
    (ht : (run_prog env.prog xdp).1 ≠ XDP_TX) (hr : (run_prog env.prog xdp).1 ≠ XDP_REDIRECT) :
    nfb_xctrl_handle_pp P env index xdp txctrl =
      (txctrl, [HandleEvent.xdp_return_frame xdp.data_hard_start]) := by
  have hf := run_prog_hard_start env.prog xdp
  simp only [nfb_xctrl_handle_pp, hp, ht, hr, hf, if_false]

/-- C14: routing of verdicts by `nfb_xctrl_handle_pp`.  Pass builds an skb and
delivers it with the recorded RX queue equal to the channel index, and a
failed conversion releases the buffer; Transmit calls the enqueue of the
channel's TX controller exactly once, its effects being those of that single
call, and a busy enqueue ends with the buffer released; Redirect releases the
buffer when `xdp_do_redirect` fails; every verdict other than Pass, Transmit
and Redirect (Drop, Aborted, unknown values) releases the buffer; without a
program the call is the one a program returning Pass would give. -/
theorem handle_pp_routes (P : Params) (env : HandleEnv) (index : Nat) (xdp : xdp_buff)
    (txctrl : xctrl) :
    ((run_prog env.prog xdp).1 = XDP_PASS → env.skb_ok = true →
        nfb_xctrl_handle_pp P env index xdp txctrl =
          (txctrl, [HandleEvent.skb_build xdp.data_hard_start true,
            HandleEvent.netif_receive_skb xdp.data_hard_start index])) ∧
      ((run_prog env.prog xdp).1 = XDP_PASS → env.skb_ok = false →
        nfb_xctrl_handle_pp P env index xdp txctrl =
          (txctrl, [HandleEvent.skb_build xdp.data_hard_start false,
            HandleEvent.xdp_return_frame xdp.data_hard_start])) ∧
      ((run_prog env.prog xdp).1 = XDP_TX →
        nfb_xctrl_handle_pp P env index xdp txctrl =
          ((nfb_xctrl_rexmit_pp P env.tx (run_prog env.prog xdp).2 txctrl).ctrl,
            HandleEvent.rexmit_call ::
              (nfb_xctrl_rexmit_pp P env.tx (run_prog env.prog xdp).2 txctrl).trace.map
                HandleEvent.tx) ∧
        rexmit_calls (nfb_xctrl_handle_pp P env index xdp txctrl).2 = 1 ∧
        ((nfb_xctrl_rexmit_pp P env.tx (run_prog env.prog xdp).2 txctrl).ret = -EBUSY →
          disposals (nfb_xctrl_handle_pp P env index xdp txctrl).2 =
            [Disposal.released xdp.data_hard_start])) ∧
      ((run_prog env.prog xdp).1 = XDP_REDIRECT → env.redirect_ret ≠ 0 →
        nfb_xctrl_handle_pp P env index xdp txctrl =
          (txctrl, [HandleEvent.xdp_do_redirect xdp.data_hard_start env.redirect_ret,
            HandleEvent.xdp_return_frame xdp.data_hard_start])) ∧
      ((run_prog env.prog xdp).1 = XDP_REDIRECT → env.redirect_ret = 0 →
        nfb_xctrl_handle_pp P env index xdp txctrl =
          (txctrl, [HandleEvent.xdp_do_redirect xdp.data_hard_start 0])) ∧
      ((run_prog env.prog xdp).1 ≠ XDP_PASS → (run_prog env.prog xdp).1 ≠ XDP_TX →
        (run_prog env.prog xdp).1 ≠ XDP_REDIRECT →
        nfb_xctrl_handle_pp P env index xdp txctrl =
          (txctrl, [HandleEvent.xdp_return_frame xdp.data_hard_start])) ∧
      (env.prog = none →
        (run_prog env.prog xdp).1 = XDP_PASS ∧
        nfb_xctrl_handle_pp P env index xdp txctrl =
          nfb_xctrl_handle_pp P { env with prog := some (const_prog XDP_PASS) } index xdp
            txctrl) := by
  have hf := run_prog_hard_start env.prog xdp
  refine ⟨?_, ?_, ?_, ?_, ?_, ?_, ?_⟩
  · intro hp hs
    rw [handle_pp_pass_eq P env index xdp txctrl hp, if_pos hs]
  · intro hp hs
    rw [handle_pp_pass_eq P env index xdp txctrl hp, hs]
    rfl
  · intro ht
    have hcall := handle_pp_tx_eq P env index xdp txctrl ht
    refine ⟨hcall, ?_, ?_⟩
    · rw [hcall]
      have h0 := rexmit_calls_map_tx
        (nfb_xctrl_rexmit_pp P env.tx (run_prog env.prog xdp).2 txctrl).trace
      simp only [rexmit_calls, List.filter_cons] at h0 ⊢
      simp [h0]
    · intro hb
      rw [hcall]
      have hd := rexmit_disposals P env.tx (run_prog env.prog xdp).2 txctrl
      rw [hf] at hd
      have hE : (-EBUSY : Int) ≠ 0 := by decide
      rcases hd with ⟨h0, _⟩ | ⟨_, hd⟩
      · rw [h0] at hb
        exact absurd hb.symm hE
      · show disposals (HandleEvent.rexmit_call :: _) = _
        rw [← hd]
        simp [disposals, HandleEvent.disposal]
  · intro hr hret
    rw [handle_pp_redirect_eq P env index xdp txctrl hr, if_pos hret]
  · intro hr hret
    rw [handle_pp_redirect_eq P env index xdp txctrl hr, hret]
    rfl
  · intro hp ht hr
    exact handle_pp_other_eq P env index xdp txctrl hp ht hr
  · intro hn
    refine ⟨by rw [hn]; rfl, ?_⟩
    have hx : run_prog env.prog xdp = run_prog (some (const_prog XDP_PASS)) xdp := by
      rw [hn]
      rfl
    simp only [nfb_xctrl_handle_pp, hx]

theorem handle_pp_routes_witness :
    (run_prog (handle_env none).prog buff_a).1 = XDP_PASS ∧
      nfb_xctrl_handle_pp test_params (handle_env none) 5 buff_a tx8 =
        (tx8, [HandleEvent.skb_build 0x10000 true, HandleEvent.netif_receive_skb 0x10000 5]) ∧
      rexmit_calls
        (nfb_xctrl_handle_pp test_params (handle_env (some (const_prog XDP_TX))) 5 buff_a
          tx8).2 = 1 ∧
      nfb_xctrl_handle_pp test_params (handle_env (some (const_prog 77))) 5 buff_a tx8 =
        (tx8, [HandleEvent.xdp_return_frame 0x10000]) :=
  ⟨by decide,
    (handle_pp_routes test_params (handle_env none) 5 buff_a tx8).1 (by decide) (by decide),
    ((handle_pp_routes test_params (handle_env (some (const_prog XDP_TX))) 5 buff_a
      tx8).2.2.1 (by decide)).2.1,
    (handle_pp_routes test_params (handle_env (some (const_prog 77))) 5 buff_a
      tx8).2.2.2.2.2.1 (by decide) (by decide) (by decide)⟩

/-! ## Hardware stop: claims -/

theorem stop_results_append (a b : List StopEvent) :
    stop_results (a ++ b) = stop_results a ++ stop_results b := by
  simp [stop_results]

theorem stop_released_append (a b : List StopEvent) :
    stop_released (a ++ b) = stop_released a ++ stop_released b := by
  simp [stop_released]

theorem stop_flushed_append (a b : List StopEvent) :
    stop_flushed (a ++ b) = stop_flushed a ++ stop_flushed b := by
  simp [stop_flushed]

theorem stop_passes_append (a b : List StopEvent) :
    stop_passes (a ++ b) = stop_passes a + stop_passes b := by
  simp [stop_passes]

theorem stop_forces_append (a b : List StopEvent) :
    stop_forces (a ++ b) = stop_forces a + stop_forces b := by
  simp [stop_forces]

theorem stop_delays_append (a b : List StopEvent) :
    stop_delays (a ++ b) = stop_delays a + stop_delays b := by
  simp [stop_delays]

/-- The release loop returns the buffers of `n` consecutive slots from `shp`
and nothing else. -/
theorem stop_release_loop_eq (ring : Nat → xdp_buff) (mhp kh : Nat) (hmh : mhp + 1 = 2 ^ kh)
    (hkh : kh ≤ 32) (n shp : Nat) (hshp : shp < 2 ^ kh) :
    (stop_release_loop ring mhp n shp).1 =
        (List.range' shp n).map (fun x =>
          StopEvent.return_frame (x % 2 ^ kh) (xdp_convert_buff_to_frame (ring (x % 2 ^ kh)))) ∧
      (stop_release_loop ring mhp n shp).2 = (shp + n) % 2 ^ kh := by
  induction n generalizing shp with
  | zero => exact ⟨rfl, (Nat.mod_eq_of_lt hshp).symm⟩
  | succ n ih =>
    have hlt : (shp + 1) % 2 ^ kh < 2 ^ kh := Nat.mod_lt _ (by positivity)
    obtain ⟨h1, h2⟩ := ih ((shp + 1) % 2 ^ kh) hlt
    have hstep : (add32 shp 1) &&& mhp = (shp + 1) % 2 ^ kh := add32_mask mhp kh shp 1 hmh hkh
    simp only [stop_release_loop, hstep, h1, h2, List.range'_succ, List.map_cons,
      Nat.mod_eq_of_lt hshp]
    refine ⟨?_, ?_⟩
    · congr 1
      have hc := range_from_map_mod_congr (2 ^ kh) ((shp + 1) % 2 ^ kh) (shp + 1) n
        (Nat.mod_mod _ _)
      have hm := congrArg (List.map (fun x =>
        StopEvent.return_frame x (xdp_convert_buff_to_frame (ring x)))) hc
      simpa only [List.map_map, Function.comp] using hm
    · rw [Nat.mod_add_mod]
      congr 1
      omega

theorem stop_released_map_return (kh : Nat) (ring : Nat → xdp_buff) (l : List Nat) :
    stop_released (l.map (fun x =>
      StopEvent.return_frame (x % 2 ^ kh) (xdp_convert_buff_to_frame (ring (x % 2 ^ kh))))) =
      l.map (fun x => x % 2 ^ kh) := by
  induction l with
  | nil => rfl
  | cons a l ih =>
    simp only [List.map_cons, stop_released, List.filterMap_cons] at ih ⊢
    rw [ih]

theorem stop_results_map_return (kh : Nat) (ring : Nat → xdp_buff) (l : List Nat) :
    stop_results (l.map (fun x =>
      StopEvent.return_frame (x % 2 ^ kh) (xdp_convert_buff_to_frame (ring (x % 2 ^ kh))))) =
      [] := by
  induction l with
  | nil => rfl
  | cons a l ih =>
    simp only [List.map_cons, stop_results, List.filterMap_cons] at ih ⊢
    rw [ih]

theorem stop_flushed_map_return (kh : Nat) (ring : Nat → xdp_buff) (l : List Nat) :
    stop_flushed (l.map (fun x =>
      StopEvent.return_frame (x % 2 ^ kh) (xdp_convert_buff_to_frame (ring (x % 2 ^ kh))))) =
      [] := by
  induction l with
  | nil => rfl
  | cons a l ih =>
    simp only [List.map_cons, stop_flushed, List.filterMap_cons] at ih ⊢
    rw [ih]

theorem stop_count_map_return (kh : Nat) (ring : Nat → xdp_buff) (l : List Nat)
    (e : StopEvent) (he : ∀ a b, e ≠ StopEvent.return_frame a b) :
    (l.map (fun x =>
      StopEvent.return_frame (x % 2 ^ kh) (xdp_convert_buff_to_frame (ring (x % 2 ^ kh))))).count
      e = 0 := by
  rw [List.count_eq_zero]
  intro hmem
  obtain ⟨x, _, hx⟩ := List.mem_map.1 hmem
  exact he _ _ hx.symm

/-- Control facts of one pass of the loop body: it makes one status read and
no forced stop; `err` holds the result of the last stop request of the pass
(or its old value when none was made); a stop request that does not report
in-progress ends the pass, as its last effect, with `break`; and the pass
leaves with `break` only after such a request. -/
theorem stop_body_control (env : StopEnv) (mhp : Nat) (s : StopState) :
    stop_passes (stop_body env mhp s).2.2 = 1 ∧
      stop_forces (stop_body env mhp s).2.2 = 0 ∧
      (stop_body env mhp s).2.1.err =
        (stop_results (stop_body env mhp s).2.2).getLast?.getD s.err ∧
      (∀ x ∈ stop_results (stop_body env mhp s).2.2, stop_in_progress x = false →
        (stop_body env mhp s).1 = true ∧
        (stop_body env mhp s).2.2.getLast? = some (StopEvent.stop_request x)) ∧
      ((stop_body env mhp s).1 = true →
        ∃ x ∈ stop_results (stop_body env mhp s).2.2, stop_in_progress x = false) ∧
      ((stop_body env mhp s).1 = false → env.running s.reads = true →
        stop_delays (stop_body env mhp s).2.2 = 1) ∧
      (stop_body env mhp s).2.2 ≠ [] ∧
      (stop_body env mhp s).2.1.reads = s.reads + 1 ∧
      (∀ x ∈ stop_results (stop_body env mhp s).2.2, ∃ k, x = env.stop k) := by
  have hcnt : ∀ (l : List StopEvent) (e : StopEvent),
      (∀ a b, e ≠ StopEvent.return_frame a b) →
      (∀ x ∈ l, ∃ a b, x = StopEvent.return_frame a b) → l.count e = 0 := by
    intro l e he hl
    rw [List.count_eq_zero]
    intro hmem
    obtain ⟨a, b, hab⟩ := hl e hmem
    exact he a b hab
  have hrel : ∀ (ring : Nat → xdp_buff) (n shp : Nat),
      ∀ x ∈ (stop_release_loop ring mhp n shp).1, ∃ a b, x = StopEvent.return_frame a b := by
    intro ring n
    induction n with
    | zero => intro shp x hx; simp [stop_release_loop] at hx
    | succ n ih =>
      intro shp x hx
      simp only [stop_release_loop, List.mem_cons] at hx
      rcases hx with hx | hx
      · exact ⟨_, _, hx⟩
      · exact ih _ x hx
  have hres : ∀ (ring : Nat → xdp_buff) (n shp : Nat),
      stop_results (stop_release_loop ring mhp n shp).1 = [] := by
    intro ring n
    induction n with
    | zero => intro shp; rfl
    | succ n ih =>
      intro shp
      have := ih ((add32 shp 1) &&& mhp)
      simp only [stop_release_loop, stop_results, List.filterMap_cons] at this ⊢
      exact this
  by_cases hr : env.running s.reads = true
  · by_cases h1 : stop_in_progress (env.stop s.stops) = true
    · by_cases ht : s.ctrl.type = CtrlType.NFB_XCTRL_RX
      · have hp := hcnt _ StopEvent.status_read (by intro a b h; cases h)
          (hrel s.ctrl.xdp_ring
            ((sub32 (nc_ndp_ctrl_hhp_update (env.hhp s.hhps) s.ctrl.c).hhp s.shp) &&& mhp) s.shp)
        have hfo := hcnt _ StopEvent.stop_force (by intro a b h; cases h)
          (hrel s.ctrl.xdp_ring
            ((sub32 (nc_ndp_ctrl_hhp_update (env.hhp s.hhps) s.ctrl.c).hhp s.shp) &&& mhp) s.shp)
        have hde := hcnt _ StopEvent.mdelay (by intro a b h; cases h)
          (hrel s.ctrl.xdp_ring
            ((sub32 (nc_ndp_ctrl_hhp_update (env.hhp s.hhps) s.ctrl.c).hhp s.shp) &&& mhp) s.shp)
        have hre := hres s.ctrl.xdp_ring
            ((sub32 (nc_ndp_ctrl_hhp_update (env.hhp s.hhps) s.ctrl.c).hhp s.shp) &&& mhp) s.shp
        by_cases h2 : stop_in_progress (env.stop (s.stops + 1)) = true
        · simp only [stop_body, hr, h1, ht, h2, if_true, Bool.not_true, Bool.false_eq_true,
            if_false, stop_passes_append, stop_forces_append, stop_results_append,
            stop_delays_append, hre]
          simp only [stop_passes, stop_forces, stop_delays] at hp hfo hde ⊢
          simp [hp, hfo, hde, stop_results, h1, h2]
        · have h2f : stop_in_progress (env.stop (s.stops + 1)) = false := by simpa using h2
          simp only [stop_body, hr, h1, ht, h2f, if_true, Bool.not_true, Bool.false_eq_true,
            if_false, Bool.not_false, stop_passes_append, stop_forces_append,
            stop_results_append, stop_delays_append, hre]
          simp only [stop_passes, stop_forces, stop_delays] at hp hfo hde ⊢
          simp [hp, hfo, hde, stop_results, h1, h2f]
          rw [← List.cons_append, List.getLast?_append_of_ne_nil _ (by simp)]
          rfl
      · simp only [stop_body, hr, h1, ht, if_true, Bool.not_true, Bool.false_eq_true, if_false]
        simp [stop_passes, stop_forces, stop_delays, stop_results, h1]
    · have h1f : stop_in_progress (env.stop s.stops) = false := by simpa using h1
      simp only [stop_body, hr, h1f, if_true, Bool.not_false]
      simp [stop_passes, stop_forces, stop_delays, stop_results, h1f]
  · have hrf : env.running s.reads = false := by simpa using hr
    simp only [stop_body, hrf, Bool.false_eq_true, if_false]
    simp [stop_passes, stop_forces, stop_delays, stop_results]

theorem getLast_getD_append (a b : List Int) (d : Int) :
    ((a ++ b).getLast?).getD d = (b.getLast?).getD ((a.getLast?).getD d) := by
  rw [List.getLast?_append]
  cases b.getLast? <;> simp

/-- Control facts of the whole retry loop entered with `n` further passes
allowed: no forced stop inside the loop; `err` holds the result of the last
stop request; a stop request that does not report in-progress is the last
effect of the loop; the body runs at least once and at most `n + 1` times, and
exactly `n + 1` times when every stop request reports in-progress. -/
theorem stop_loop_control (env : StopEnv) (mhp n : Nat) (s : StopState) :
    stop_forces (stop_loop env mhp n s).2 = 0 ∧
      (stop_loop env mhp n s).1.err = (stop_results (stop_loop env mhp n s).2).getLast?.getD s.err ∧
      (∀ x ∈ stop_results (stop_loop env mhp n s).2, stop_in_progress x = false →
        (stop_loop env mhp n s).2.getLast? = some (StopEvent.stop_request x)) ∧
      1 ≤ stop_passes (stop_loop env mhp n s).2 ∧
      stop_passes (stop_loop env mhp n s).2 ≤ n + 1 ∧
      ((∀ x ∈ stop_results (stop_loop env mhp n s).2, stop_in_progress x = true) →
        stop_passes (stop_loop env mhp n s).2 = n + 1) ∧
      ((∀ x ∈ stop_results (stop_loop env mhp n s).2, stop_in_progress x = true) →
        (∀ k, env.running k = true) → stop_delays (stop_loop env mhp n s).2 = n + 1) ∧
      (∀ x ∈ stop_results (stop_loop env mhp n s).2, ∃ k, x = env.stop k) := by
  induction n generalizing s with
  | zero =>
    obtain ⟨bp, bf, be, bl, bb, bd, _, _, bk⟩ := stop_body_control env mhp s
    have hb : ∀ (_ : ∀ x ∈ stop_results (stop_body env mhp s).2.2, stop_in_progress x = true),
        (stop_body env mhp s).1 = false := by
      intro hall
      by_contra hne
      have ht : (stop_body env mhp s).1 = true := by simpa using hne
      obtain ⟨x, hx, hxf⟩ := bb ht
      rw [hall x hx] at hxf
      cases hxf
    simp only [stop_loop]
    exact ⟨bf, be, fun x hx hxp => (bl x hx hxp).2, by omega, by omega, fun _ => bp,
      fun hall hrun => bd (hb hall) (hrun _), bk⟩
  | succ n ih =>
    obtain ⟨bp, bf, be, bl, bb, bd, _, _, bk⟩ := stop_body_control env mhp s
    by_cases hb : (stop_body env mhp s).1 = true
    · simp only [stop_loop, hb, if_true]
      refine ⟨bf, be, fun x hx hxp => (bl x hx hxp).2, by omega, by omega, ?_, ?_, bk⟩
      · intro hall
        obtain ⟨x, hx, hxf⟩ := bb hb
        rw [hall x hx] at hxf
        cases hxf
      · intro hall
        obtain ⟨x, hx, hxf⟩ := bb hb
        rw [hall x hx] at hxf
        cases hxf
    · have hbf : (stop_body env mhp s).1 = false := by simpa using hb
      obtain ⟨lf, le, ll, lp1, lp2, lpe, lde, lk⟩ := ih (stop_body env mhp s).2.1
      simp only [stop_loop, hbf, Bool.false_eq_true, if_false, stop_forces_append,
        stop_results_append, stop_passes_append, stop_delays_append, List.mem_append]
      refine ⟨by omega, ?_, ?_, by omega, by omega, ?_, ?_, ?_⟩
      · rw [getLast_getD_append, le, be]
      · intro x hx hxp
        rcases hx with hx | hx
        · have := (bl x hx hxp).1
          rw [hbf] at this
          cases this
        · rw [List.getLast?_append, ll x hx hxp]
          rfl
      · intro hall
        rw [bp, lpe (fun x hx => hall x (Or.inr hx))]
        omega
      · intro hall hrun
        rw [bd hbf (hrun _), lde (fun x hx => hall x (Or.inr hx)) hrun]
        omega
      · intro x hx
        rcases hx with hx | hx
        · exact bk x hx
        · exact lk x hx

/-- Ring facts of one pass of the loop body on a header ring of `2^kh` slots:
the pass returns the buffers of consecutive slots from `shp`, moves `shp` past
them, and keeps `ctrl->c.shp` equal to the local `shp`; a controller that is
not an RX controller returns nothing; when the pass flushes, `shp` has reached
the hardware header cursor read in the pass. -/
theorem stop_body_ring (env : StopEnv) (mhp kh : Nat) (hmh : mhp + 1 = 2 ^ kh) (hkh : kh ≤ 32)
    (s : StopState) (hshp : s.shp < 2 ^ kh) :
    stop_released (stop_body env mhp s).2.2 =
        (List.range' s.shp (stop_released (stop_body env mhp s).2.2).length).map
          (fun x => x % 2 ^ kh) ∧
      (stop_body env mhp s).2.1.shp =
        (s.shp + (stop_released (stop_body env mhp s).2.2).length) % 2 ^ kh ∧
      (s.ctrl.type ≠ CtrlType.NFB_XCTRL_RX → stop_released (stop_body env mhp s).2.2 = []) ∧
      (stop_body env mhp s).2.1.ctrl.type = s.ctrl.type ∧
      (s.ctrl.c.shp = s.shp → (stop_body env mhp s).2.1.ctrl.c.shp = (stop_body env mhp s).2.1.shp) ∧
      (stop_body env mhp s).2.1.hhps = s.hhps + (stop_flushed (stop_body env mhp s).2.2).length ∧
      (stop_flushed (stop_body env mhp s).2.2 ≠ [] →
        (stop_body env mhp s).2.1.shp = env.hhp ((stop_body env mhp s).2.1.hhps - 1) % 2 ^ kh) ∧
      (stop_released (stop_body env mhp s).2.2 ≠ [] →
        stop_flushed (stop_body env mhp s).2.2 ≠ []) := by
  have hmod : s.shp = s.shp % 2 ^ kh := (Nat.mod_eq_of_lt hshp).symm
  by_cases hr : env.running s.reads = true
  · by_cases h1 : stop_in_progress (env.stop s.stops) = true
    · by_cases ht : s.ctrl.type = CtrlType.NFB_XCTRL_RX
      · obtain ⟨e1, e2⟩ := stop_release_loop_eq s.ctrl.xdp_ring mhp kh hmh hkh
          ((sub32 (env.hhp s.hhps) s.shp) &&& mhp) s.shp hshp
        have hcur : (s.shp + ((sub32 (env.hhp s.hhps) s.shp) &&& mhp)) % 2 ^ kh =
            env.hhp s.hhps % 2 ^ kh := by
          have := mask_sub32_modEq mhp kh (env.hhp s.hhps) s.shp hmh hkh
          rw [Nat.add_comm]
          exact this
        by_cases h2 : stop_in_progress (env.stop (s.stops + 1)) = true
        · simp only [stop_body, hr, h1, ht, h2, if_true, Bool.not_true, Bool.false_eq_true,
            if_false, nc_ndp_ctrl_hhp_update, e1, e2, stop_released_append,
            stop_flushed_append, stop_released_map_return, stop_flushed_map_return]
          simp [stop_released, stop_flushed, hcur]
        · have h2f : stop_in_progress (env.stop (s.stops + 1)) = false := by simpa using h2
          simp only [stop_body, hr, h1, ht, h2f, if_true, Bool.not_true, Bool.false_eq_true,
            if_false, Bool.not_false, nc_ndp_ctrl_hhp_update, e1, e2, stop_released_append,
            stop_flushed_append, stop_released_map_return, stop_flushed_map_return]
          simp [stop_released, stop_flushed, hcur]
      · simp only [stop_body, hr, h1, ht, if_true, Bool.not_true, Bool.false_eq_true, if_false]
        simp [stop_released, stop_flushed, ← hmod]
    · have h1f : stop_in_progress (env.stop s.stops) = false := by simpa using h1
      simp only [stop_body, hr, h1f, if_true, Bool.not_false]
      simp [stop_released, stop_flushed, ← hmod]
  · have hrf : env.running s.reads = false := by simpa using hr
    simp only [stop_body, hrf, Bool.false_eq_true, if_false]
    simp [stop_released, stop_flushed, ← hmod]

/-- Ring facts of the whole retry loop on a header ring of `2^kh` slots. -/
theorem stop_loop_ring (env : StopEnv) (mhp kh : Nat) (hmh : mhp + 1 = 2 ^ kh) (hkh : kh ≤ 32)
    (n : Nat) (s : StopState) (hshp : s.shp < 2 ^ kh) (hc : s.ctrl.c.shp = s.shp) :
    stop_released (stop_loop env mhp n s).2 =
        (List.range' s.shp (stop_released (stop_loop env mhp n s).2).length).map
          (fun x => x % 2 ^ kh) ∧
      (stop_loop env mhp n s).1.shp =
        (s.shp + (stop_released (stop_loop env mhp n s).2).length) % 2 ^ kh ∧
      (s.ctrl.type ≠ CtrlType.NFB_XCTRL_RX → stop_released (stop_loop env mhp n s).2 = []) ∧
      (stop_loop env mhp n s).1.ctrl.type = s.ctrl.type ∧
      (stop_loop env mhp n s).1.ctrl.c.shp = (stop_loop env mhp n s).1.shp ∧
      (stop_loop env mhp n s).1.hhps = s.hhps + (stop_flushed (stop_loop env mhp n s).2).length ∧
      (stop_flushed (stop_loop env mhp n s).2 ≠ [] →
        (stop_loop env mhp n s).1.shp =
          env.hhp ((stop_loop env mhp n s).1.hhps - 1) % 2 ^ kh) ∧
      (stop_released (stop_loop env mhp n s).2 ≠ [] →
        stop_flushed (stop_loop env mhp n s).2 ≠ []) := by
  induction n generalizing s with
  | zero =>
    obtain ⟨b1, b2, b3, b4, b5, b6, b7, b8⟩ := stop_body_ring env mhp kh hmh hkh s hshp
    simp only [stop_loop]
    exact ⟨b1, b2, b3, b4, b5 hc, b6, b7, b8⟩
  | succ n ih =>
    obtain ⟨b1, b2, b3, b4, b5, b6, b7, b8⟩ := stop_body_ring env mhp kh hmh hkh s hshp
    by_cases hb : (stop_body env mhp s).1 = true
    · simp only [stop_loop, hb, if_true]
      exact ⟨b1, b2, b3, b4, b5 hc, b6, b7, b8⟩
    · have hbf : (stop_body env mhp s).1 = false := by simpa using hb
      have hlt : (stop_body env mhp s).2.1.shp < 2 ^ kh := by
        rw [b2]
        exact Nat.mod_lt _ (by positivity)
      obtain ⟨l1, l2, l3, l4, l5, l6, l7, l8⟩ := ih (stop_body env mhp s).2.1 hlt (b5 hc)
      simp only [stop_loop, hbf, Bool.false_eq_true, if_false, stop_released_append,
        stop_flushed_append, List.length_append]
      refine ⟨?_, ?_, ?_, ?_, l5, ?_, ?_, ?_⟩
      · have key : (List.range' s.shp ((stop_released (stop_body env mhp s).2.2).length +
            (stop_released (stop_loop env mhp n (stop_body env mhp s).2.1).2).length)).map
              (fun x => x % 2 ^ kh) =
            (List.range' s.shp (stop_released (stop_body env mhp s).2.2).length).map
              (fun x => x % 2 ^ kh) ++
            (List.range' (s.shp + (stop_released (stop_body env mhp s).2.2).length)
              (stop_released (stop_loop env mhp n (stop_body env mhp s).2.1).2).length).map
              (fun x => x % 2 ^ kh) := by
          rw [← List.map_append, List.range'_append_1, Nat.add_comm]
        rw [key, ← b1,
          range_from_map_mod_congr (2 ^ kh)
            (s.shp + (stop_released (stop_body env mhp s).2.2).length)
            (stop_body env mhp s).2.1.shp _ (by rw [b2, Nat.mod_mod]), ← l1]
      · rw [l2, b2, Nat.mod_add_mod, Nat.add_assoc]
      · intro ht
        rw [b3 ht, l3 (by rw [b4]; exact ht)]
        rfl
      · rw [l4, b4]
      · rw [l6, b6, Nat.add_assoc]
      · intro hne
        by_cases hl : stop_flushed (stop_loop env mhp n (stop_body env mhp s).2.1).2 = []
        · have hrel : stop_released (stop_loop env mhp n (stop_body env mhp s).2.1).2 = [] := by
            by_contra h
            exact l8 h hl
          have hbne : stop_flushed (stop_body env mhp s).2.2 ≠ [] := by
            intro h
            apply hne
            rw [h, hl]
            rfl
          rw [l2, hrel, l6, hl]
          simp only [List.length_nil, Nat.add_zero, Nat.mod_eq_of_lt hlt]
          exact b7 hbne
        · exact l7 hl
      · intro hne
        by_cases hl : stop_released (stop_loop env mhp n (stop_body env mhp s).2.1).2 = []
        · have hbne : stop_released (stop_body env mhp s).2.2 ≠ [] := by
            intro h
            apply hne
            rw [h, hl]
            rfl
          intro h
          exact b8 hbne (List.append_eq_nil.1 h).1
        · intro h
          exact l8 hl (List.append_eq_nil.1 h).2

theorem stop_results_getLast (tr : List StopEvent) (x : Int)
    (h : tr.getLast? = some (StopEvent.stop_request x)) :
    (stop_results tr).getLast? = some x := by
  obtain ⟨ys, hys⟩ := List.getLast?_eq_some_iff.1 h
  rw [hys, stop_results_append, List.getLast?_append]
  rfl

/-- The call in terms of its loop. -/
theorem stop_pp_eq (env : StopEnv) (ctrl : xctrl) :
    nfb_xctrl_stop_pp env ctrl =
      ((stop_loop env ctrl.c.mhp (100 - env.cnt0).toNat
          { ctrl := ctrl, shp := ctrl.c.shp, err := env.err0, reads := 0, stops := 0,
            hhps := 0 }).1.ctrl,
        (stop_loop env ctrl.c.mhp (100 - env.cnt0).toNat
          { ctrl := ctrl, shp := ctrl.c.shp, err := env.err0, reads := 0, stops := 0,
            hhps := 0 }).2 ++
          if (stop_loop env ctrl.c.mhp (100 - env.cnt0).toNat
            { ctrl := ctrl, shp := ctrl.c.shp, err := env.err0, reads := 0, stops := 0,
              hhps := 0 }).1.err ≠ 0 then [StopEvent.stop_force] else []) := by
  by_cases h : (stop_loop env ctrl.c.mhp (100 - env.cnt0).toNat
      { ctrl := ctrl, shp := ctrl.c.shp, err := env.err0, reads := 0, stops := 0,
        hhps := 0 }).1.err = 0 <;>
    simp [nfb_xctrl_stop_pp, h]

/-- C15: on hardware that reports stop-in-progress forever, the body of the
retry loop of `nfb_xctrl_stop_pp` runs `max (100 - cnt) 0 + 1` times, each pass
waiting 1 ms, where `cnt` is the value the local declared without an
initialiser holds on entry: 101 passes when `cnt` starts at 0, and 1101 when
it starts at -1000. -/
theorem stop_pp_passes_stuck :
    (∀ (hhp : Nat) (cnt0 : Int) (ctrl : xctrl),
      stop_passes (nfb_xctrl_stop_pp (stuck_env hhp cnt0) ctrl).2 = (100 - cnt0).toNat + 1 ∧
      stop_delays (nfb_xctrl_stop_pp (stuck_env hhp cnt0) ctrl).2 = (100 - cnt0).toNat + 1) ∧
      (∀ (hhp : Nat) (ctrl : xctrl),
        stop_passes (nfb_xctrl_stop_pp (stuck_env hhp 0) ctrl).2 = 101) ∧
      (∀ (hhp : Nat) (ctrl : xctrl),
        stop_passes (nfb_xctrl_stop_pp (stuck_env hhp (-1000)) ctrl).2 = 1101) := by
  have gen : ∀ (hhp : Nat) (cnt0 : Int) (ctrl : xctrl),
      stop_passes (nfb_xctrl_stop_pp (stuck_env hhp cnt0) ctrl).2 = (100 - cnt0).toNat + 1 ∧
      stop_delays (nfb_xctrl_stop_pp (stuck_env hhp cnt0) ctrl).2 = (100 - cnt0).toNat + 1 := by
    intro hhp cnt0 ctrl
    obtain ⟨_, _, _, _, _, lpe, lde, lk⟩ := stop_loop_control (stuck_env hhp cnt0) ctrl.c.mhp
      (100 - (stuck_env hhp cnt0).cnt0).toNat
      { ctrl := ctrl, shp := ctrl.c.shp, err := (stuck_env hhp cnt0).err0, reads := 0,
        stops := 0, hhps := 0 }
    have hall : ∀ x ∈ stop_results (stop_loop (stuck_env hhp cnt0) ctrl.c.mhp
        (100 - (stuck_env hhp cnt0).cnt0).toNat
        { ctrl := ctrl, shp := ctrl.c.shp, err := (stuck_env hhp cnt0).err0, reads := 0,
          stops := 0, hhps := 0 }).2, stop_in_progress x = true := by
      intro x hx
      obtain ⟨k, hk⟩ := lk x hx
      rw [hk]
      rfl
    rw [stop_pp_eq]
    simp only [stop_passes_append, stop_delays_append, lpe hall, lde hall (fun _ => rfl)]
    have hc : (stuck_env hhp cnt0).cnt0 = cnt0 := rfl
    rw [hc]
    constructor <;> split_ifs <;> simp [stop_passes, stop_delays]
  exact ⟨gen, fun hhp ctrl => (gen hhp 0 ctrl).1, fun hhp ctrl => (gen hhp (-1000) ctrl).1⟩

/-- C16: in every run of `nfb_xctrl_stop_pp` the forced stop is invoked at
most once.  When at least one stop request is made and every stop request
reports in-progress (`-EAGAIN` or `-EINPROGRESS`), the loop runs until its
bound is exhausted and the forced stop is invoked exactly once, as the last
effect of the call.  When some stop request returns 0, that request is the
last effect of the call: the loop ends at once and the forced stop is not
invoked. -/
theorem stop_pp_force_once (env : StopEnv) (ctrl : xctrl) :
    stop_forces (nfb_xctrl_stop_pp env ctrl).2 ≤ 1 ∧
      (stop_results (nfb_xctrl_stop_pp env ctrl).2 ≠ [] →
        (∀ x ∈ stop_results (nfb_xctrl_stop_pp env ctrl).2, stop_in_progress x = true) →
        stop_forces (nfb_xctrl_stop_pp env ctrl).2 = 1 ∧
        (nfb_xctrl_stop_pp env ctrl).2.getLast? = some StopEvent.stop_force ∧
        stop_passes (nfb_xctrl_stop_pp env ctrl).2 = (100 - env.cnt0).toNat + 1) ∧
      (0 ∈ stop_results (nfb_xctrl_stop_pp env ctrl).2 →
        stop_forces (nfb_xctrl_stop_pp env ctrl).2 = 0 ∧
        (nfb_xctrl_stop_pp env ctrl).2.getLast? = some (StopEvent.stop_request 0)) := by
  obtain ⟨lf, le, ll, _, _, lpe, _, _⟩ := stop_loop_control env ctrl.c.mhp
    (100 - env.cnt0).toNat
    { ctrl := ctrl, shp := ctrl.c.shp, err := env.err0, reads := 0, stops := 0, hhps := 0 }
  rw [stop_pp_eq]
  simp only [stop_forces_append, stop_results_append, stop_passes_append, lf]
  have hres : ∀ b : Prop, [Decidable b] →
      stop_results (if b then [StopEvent.stop_force] else []) = [] := by
    intro b _
    split_ifs <;> rfl
  have hpass : ∀ b : Prop, [Decidable b] →
      stop_passes (if b then [StopEvent.stop_force] else []) = 0 := by
    intro b _
    split_ifs <;> rfl
  simp only [hres, hpass, List.append_nil, Nat.add_zero]
  refine ⟨?_, ?_, ?_⟩
  · split_ifs <;> simp [stop_forces]
  · intro hne hall
    obtain ⟨x, hx⟩ := Option.isSome_iff_exists.1
      (by simpa using hne : ((stop_results (stop_loop env ctrl.c.mhp (100 - env.cnt0).toNat
        { ctrl := ctrl, shp := ctrl.c.shp, err := env.err0, reads := 0, stops := 0,
          hhps := 0 }).2).getLast?).isSome = true)
    have hmem : x ∈ stop_results (stop_loop env ctrl.c.mhp (100 - env.cnt0).toNat
        { ctrl := ctrl, shp := ctrl.c.shp, err := env.err0, reads := 0, stops := 0,
          hhps := 0 }).2 := by
      obtain ⟨ys, hys⟩ := List.getLast?_eq_some_iff.1 hx
      rw [hys]
      simp
    have hxin := hall x hmem
    have herr : (stop_loop env ctrl.c.mhp (100 - env.cnt0).toNat
        { ctrl := ctrl, shp := ctrl.c.shp, err := env.err0, reads := 0, stops := 0,
          hhps := 0 }).1.err ≠ 0 := by
      rw [le, hx]
      intro h0
      simp only [Option.getD_some] at h0
      rw [h0] at hxin
      exact absurd hxin (by decide)
    rw [if_pos herr]
    refine ⟨by simp [stop_forces], by simp, lpe hall⟩
  · intro h0
    have hlast := ll 0 h0 (by decide)
    have herr : (stop_loop env ctrl.c.mhp (100 - env.cnt0).toNat
        { ctrl := ctrl, shp := ctrl.c.shp, err := env.err0, reads := 0, stops := 0,
          hhps := 0 }).1.err = 0 := by
      rw [le, stop_results_getLast _ 0 hlast]
      rfl
    simp only [herr, ne_eq, not_true_eq_false, if_false, List.append_nil]
    exact ⟨rfl, hlast⟩

theorem stop_pp_force_once_witness :
    stop_results (nfb_xctrl_stop_pp (stuck_env 0 97) tx8).2 = [-11, -11, -11, -11] ∧
      stop_forces (nfb_xctrl_stop_pp (stuck_env 0 97) tx8).2 = 1 ∧
      (nfb_xctrl_stop_pp prompt_env tx8).2 =
        [StopEvent.status_read, StopEvent.stop_request 0] ∧
      stop_forces (nfb_xctrl_stop_pp prompt_env tx8).2 = 0 :=
  ⟨by decide,
    ((stop_pp_force_once (stuck_env 0 97) tx8).2.1 (by decide) (by decide)).1,
    by decide,
    ((stop_pp_force_once prompt_env tx8).2.2 (by decide)).1⟩

set_option maxRecDepth 100000 in
/-- C17: on an RX ring of 8 slots with three filled buffers (slots 0, 1, 2
between `shp = 0` and `php = 3`, on the pages at 0, 4096 and 8192) of which
the hardware has completed one (`hhp = 1`), a stop that never completes runs
the loop to its bound and forces the stop, but only the buffer of slot 0 is
released: `shp` ends at 1, and the buffers of slots 1 and 2 are still attached
to their pages when `nfb_xctrl_stop_pp` returns.  The teardown
`nfb_xctrl_destroy_pp` that runs this stop returns the page of slot 0 only,
and a teardown of the stopped controller returns none, so the pages of slots
1 and 2 are never given back. -/
theorem stop_pp_keeps_uncompleted :
    ring8_filled.type = CtrlType.NFB_XCTRL_RX ∧ ring8_filled.c.shp = 0 ∧
      ring8_filled.php = 3 ∧
      stop_passes (nfb_xctrl_stop_pp (stuck_env 1 0) ring8_filled).2 = 101 ∧
      stop_forces (nfb_xctrl_stop_pp (stuck_env 1 0) ring8_filled).2 = 1 ∧
      stop_released (nfb_xctrl_stop_pp (stuck_env 1 0) ring8_filled).2 = [0] ∧
      (nfb_xctrl_stop_pp (stuck_env 1 0) ring8_filled).1.c.shp = 1 ∧
      (nfb_xctrl_stop_pp (stuck_env 1 0) ring8_filled).1.php = 3 ∧
      stop_returned_frames (nfb_xctrl_stop_pp (stuck_env 1 0) ring8_filled).2 = [0] ∧
      xdp_convert_buff_to_frame
        ((nfb_xctrl_stop_pp (stuck_env 1 0) ring8_filled).1.xdp_ring 1) = 4096 ∧
      xdp_convert_buff_to_frame
        ((nfb_xctrl_stop_pp (stuck_env 1 0) ring8_filled).1.xdp_ring 2) = 8192 ∧
      destroy_returned (nfb_xctrl_destroy_pp true (stuck_env 1 0) ring8_filled) = [0] ∧
      destroy_returned (nfb_xctrl_destroy_pp false (stuck_env 1 0)
        (nfb_xctrl_stop_pp (stuck_env 1 0) ring8_filled).1) = [] := by
  decide

/-- What the stop loop does release: on a header ring of `2^kh` slots
`nfb_xctrl_stop_pp` releases the buffers of consecutive slots starting at the
initial `shp` and moves `shp` past them; after a pass that read the hardware header cursor, `shp` stands at
the value read last, so the slots released are those the hardware has
completed; no slot is released twice as long as fewer buffers than the ring
has slots are released; a controller that is not an RX controller, and a call
in which no pass read the hardware cursor, release nothing. -/
theorem stop_pp_releases_completed (env : StopEnv) (ctrl : xctrl) (kh : Nat) (hkh : kh ≤ 32)
    (hmh : ctrl.c.mhp + 1 = 2 ^ kh) (hshp : ctrl.c.shp ≤ ctrl.c.mhp) :
    stop_released (nfb_xctrl_stop_pp env ctrl).2 =
        (List.range' ctrl.c.shp (stop_released (nfb_xctrl_stop_pp env ctrl).2).length).map
          (fun x => x % 2 ^ kh) ∧
      (nfb_xctrl_stop_pp env ctrl).1.c.shp =
        (ctrl.c.shp + (stop_released (nfb_xctrl_stop_pp env ctrl).2).length) % 2 ^ kh ∧
      (∀ k, (stop_flushed (nfb_xctrl_stop_pp env ctrl).2).length = k + 1 →
        (nfb_xctrl_stop_pp env ctrl).1.c.shp = env.hhp k % 2 ^ kh) ∧
      ((stop_released (nfb_xctrl_stop_pp env ctrl).2).length ≤ ctrl.c.mhp →
        (stop_released (nfb_xctrl_stop_pp env ctrl).2).Nodup) ∧
      (ctrl.type ≠ CtrlType.NFB_XCTRL_RX → stop_released (nfb_xctrl_stop_pp env ctrl).2 = []) ∧
      (stop_flushed (nfb_xctrl_stop_pp env ctrl).2 = [] →
        stop_released (nfb_xctrl_stop_pp env ctrl).2 = []) := by
  have hlt : ctrl.c.shp < 2 ^ kh := by omega
  obtain ⟨l1, l2, l3, _, l5, l6, l7, l8⟩ := stop_loop_ring env ctrl.c.mhp kh hmh hkh
    (100 - env.cnt0).toNat
    { ctrl := ctrl, shp := ctrl.c.shp, err := env.err0, reads := 0, stops := 0, hhps := 0 }
    hlt rfl
  have hrel : ∀ b : Prop, [Decidable b] →
      stop_released (if b then [StopEvent.stop_force] else []) = [] := by
    intro b _
    split_ifs <;> rfl
  have hflu : ∀ b : Prop, [Decidable b] →
      stop_flushed (if b then [StopEvent.stop_force] else []) = [] := by
    intro b _
    split_ifs <;> rfl
  rw [stop_pp_eq]
  simp only [stop_released_append, stop_flushed_append, hrel, hflu, List.append_nil]
  refine ⟨l1, ?_, ?_, ?_, l3, ?_⟩
  · rw [l5, l2]
  · intro k hk
    have hne : stop_flushed (stop_loop env ctrl.c.mhp (100 - env.cnt0).toNat
        { ctrl := ctrl, shp := ctrl.c.shp, err := env.err0, reads := 0, stops := 0,
          hhps := 0 }).2 ≠ [] := by
      intro h
      rw [h] at hk
      cases hk
    rw [l5, l7 hne, l6, hk]
    simp
  · intro hle
    rw [l1]
    exact nodup_range_mod _ _ _ (by omega)
  · intro h
    by_contra hne
    exact l8 hne h

theorem stop_pp_releases_completed_witness :
    ring8_filled.c.mhp + 1 = 2 ^ 3 ∧
      stop_released (nfb_xctrl_stop_pp (stuck_env 2 97) ring8_filled).2 = [0, 1] ∧
      (nfb_xctrl_stop_pp (stuck_env 2 97) ring8_filled).1.c.shp = 2 ∧
      (stop_released (nfb_xctrl_stop_pp (stuck_env 2 97) ring8_filled).2).Nodup :=
  ⟨by decide,
    (stop_pp_releases_completed (stuck_env 2 97) ring8_filled 3 (by decide) (by decide)
      (by decide)).1.trans (by decide),
    (stop_pp_releases_completed (stuck_env 2 97) ring8_filled 3 (by decide) (by decide)
      (by decide)).2.1.trans (by decide),
    (stop_pp_releases_completed (stuck_env 2 97) ring8_filled 3 (by decide) (by decide)
      (by decide)).2.2.2.1 (by decide)⟩

/-! ## TX enqueue from two contexts: claims -/

/-- What the reads before the lock would allow if a second context called
`nfb_xctrl_rexmit_pp` on the same controller, which the driver does not do:
when two contexts enqueue distinct buffers on an empty ring of 8 descriptors
and both pass the reads before either takes the lock, both calls return 0 and
both write their data descriptor and their ownership record to slot 0: `sdp`
ends at 1, one data descriptor is left for the hardware, slot 0 owns the
second frame, and the first frame is neither owned by a slot nor released.
The same calls made one after the other write slots 0 and 1 and end with
`sdp = 2`. -/
theorem rexmit_interleaved_overwrites :
    (rexmit_interleaved test_params (tx_env_near 0) tx_env_second buff_a buff_b tx8).1.ret = 0 ∧
      (rexmit_interleaved test_params (tx_env_near 0) tx_env_second buff_a buff_b tx8).2.ret = 0 ∧
      tx_desc_writes
          (rexmit_interleaved test_params (tx_env_near 0) tx_env_second buff_a buff_b
            tx8).1.trace = [(0, nc_ndp_desc.desc2 0x1100 100 0 0)] ∧
      tx_desc_writes
          (rexmit_interleaved test_params (tx_env_near 0) tx_env_second buff_a buff_b
            tx8).2.trace = [(0, nc_ndp_desc.desc2 0x2100 100 0 0)] ∧
      tx_owned
          (rexmit_interleaved test_params (tx_env_near 0) tx_env_second buff_a buff_b
            tx8).1.trace = [(0, 0x10000)] ∧
      tx_owned
          (rexmit_interleaved test_params (tx_env_near 0) tx_env_second buff_a buff_b
            tx8).2.trace = [(0, 0x20000)] ∧
      tx_released
          ((rexmit_interleaved test_params (tx_env_near 0) tx_env_second buff_a buff_b
            tx8).1.trace ++
          (rexmit_interleaved test_params (tx_env_near 0) tx_env_second buff_a buff_b
            tx8).2.trace) = [] ∧
      (rexmit_interleaved test_params (tx_env_near 0) tx_env_second buff_a buff_b
        tx8).2.ctrl.c.sdp = 1 ∧
      ((rexmit_interleaved test_params (tx_env_near 0) tx_env_second buff_a buff_b
        tx8).2.ctrl.tx_buffers 0).frame = 0x20000 ∧
      (rexmit_interleaved test_params (tx_env_near 0) tx_env_second buff_a buff_b
        tx8).2.ctrl.descs 0 = nc_ndp_desc.desc2 0x2100 100 0 0 ∧
      tx_desc_writes
          (rexmit_serial test_params (tx_env_near 0) tx_env_second buff_a buff_b
            tx8).2.trace = [(1, nc_ndp_desc.desc2 0x2100 100 0 0)] ∧
      (rexmit_serial test_params (tx_env_near 0) tx_env_second buff_a buff_b
        tx8).2.ctrl.c.sdp = 2 := by
  decide

/-! ## TX enqueue: the lock, and calls made in turn, claims -/

/-- C20 as stated fails: in a call of `nfb_xctrl_rexmit_pp` the reads of
`sdp`, `mdp` and `last_upper_addr` are the first three steps and `tx_lock` is
taken only after them, so the lock does not cover the reads the writes are
based on. -/
theorem rexmit_reads_before_lock :
    (rexmit_steps test_params (tx_env_near 0) buff_a tx8).take 4 =
        [TxStep.read_sdp 0, TxStep.read_mdp 7, TxStep.read_last_upper_addr 0,
          TxStep.spin_lock] ∧
      (rexmit_steps test_params (tx_env_near 0) buff_a tx8).getLast? =
        some TxStep.spin_unlock ∧
      (nfb_xctrl_rexmit_pp test_params (tx_env_near 0) buff_a tx8).ret = 0 := by
  decide

/-- The shape of every call: the reads and the padding come before
`spin_lock`, every other effect lies between `spin_lock` and `spin_unlock`. -/
theorem rexmit_steps_shape (P : Params) (env : TxEnv) (xdp : xdp_buff) (ctrl : xctrl) :
    ∃ pads post : List TxEvent,
      rexmit_steps P env xdp ctrl =
        [TxStep.read_sdp ctrl.c.sdp, TxStep.read_mdp ctrl.c.mdp,
          TxStep.read_last_upper_addr ctrl.c.last_upper_addr] ++
          pads.map TxStep.effect ++ [TxStep.spin_lock] ++
          post.map TxStep.effect ++ [TxStep.spin_unlock] ∧
      (∀ e ∈ pads, ∃ a, e = TxEvent.pad_zero a) ∧
      (nfb_xctrl_rexmit_pp P env xdp ctrl).trace = pads ++ post := by
  refine ⟨(rexmit_prologue ctrl xdp).2,
    (rexmit_locked P env (rexmit_prologue ctrl xdp).1 xdp ctrl).trace, rfl, ?_, rfl⟩
  intro e he
  simp only [rexmit_prologue] at he
  split_ifs at he
  · simp only [List.mem_singleton] at he
    exact ⟨_, he⟩
  · simp at he

/-- What one call does to the descriptor ring, by the free slots it finds
after reclaim. -/
theorem rexmit_call_facts (P : Params) (env : TxEnv) (xdp : xdp_buff) (ctrl : xctrl)
    (kd : Nat) (hkd : kd ≤ 32) (hmd : ctrl.c.mdp + 1 = 2 ^ kd) :
    (nfb_xctrl_rexmit_pp P env xdp ctrl).ctrl.c.mdp = ctrl.c.mdp ∧
      (slots_needed P ctrl.c.last_upper_addr (tx_dma P env) ≤
          tx_free_slots (tx_reclaimed env ctrl) →
        (nfb_xctrl_rexmit_pp P env xdp ctrl).ret = 0 ∧
        (tx_data_descs (nfb_xctrl_rexmit_pp P env xdp ctrl).trace).length = 1) ∧
      (tx_free_slots (tx_reclaimed env ctrl) <
          slots_needed P ctrl.c.last_upper_addr (tx_dma P env) →
        (nfb_xctrl_rexmit_pp P env xdp ctrl).ret = -EBUSY ∧
        tx_desc_writes (nfb_xctrl_rexmit_pp P env xdp ctrl).trace = []) ∧
      (∀ sd ∈ tx_desc_writes (nfb_xctrl_rexmit_pp P env xdp ctrl).trace,
        ¬ tx_pending (tx_reclaimed env ctrl) ctrl.c.sdp sd.1) := by
  obtain ⟨hfdp, _, hmdp, _, _, _, hfs⟩ := tx_reclaimed_fields env ctrl
  have hocc := occupied_add_free ctrl.c.mdp kd env.hdp ctrl.c.sdp hmd hkd
  by_cases hb : tx_free_slots (tx_reclaimed env ctrl) <
      slots_needed P ctrl.c.last_upper_addr (tx_dma P env)
  · have hw : tx_desc_writes (nfb_xctrl_rexmit_pp P env xdp ctrl).trace = [] := by
      rw [rexmit_busy_eq P env xdp ctrl hb]
      simp only [tx_desc_writes_append, tx_prologue_no_writes, nfb_xctrl_tx_free_buffers,
        nc_ndp_ctrl_hdp_update, tx_free_loop_no_writes]
      simp [tx_desc_writes]
    refine ⟨?_, ?_, ?_, ?_⟩
    · rw [rexmit_busy_eq P env xdp ctrl hb]
      exact hmdp
    · intro h
      omega
    · intro _
      refine ⟨?_, hw⟩
      rw [rexmit_busy_eq P env xdp ctrl hb]
    · intro sd hsd
      rw [hw] at hsd
      cases hsd
  · by_cases h1 : P.NDP_CTRL_DESC_UPPER_ADDR (tx_dma P env) = ctrl.c.last_upper_addr
    · have hn : slots_needed P ctrl.c.last_upper_addr (tx_dma P env) = 1 := by
        simp [slots_needed, h1]
      rw [hn] at hb ⊢
      have hfree : 1 ≤ tx_free_slots (tx_reclaimed env ctrl) := by omega
      have hw : tx_desc_writes (nfb_xctrl_rexmit_pp P env xdp ctrl).trace =
          [(ctrl.c.sdp,
            nc_ndp_tx_desc2 (tx_dma P env) (rexmit_prologue ctrl xdp).1.len 0 0)] := by
        rw [rexmit_same_eq P env xdp ctrl h1 hfree]
        simp only [tx_desc_writes_append, tx_prologue_no_writes, nfb_xctrl_tx_free_buffers,
          nc_ndp_ctrl_hdp_update, tx_free_loop_no_writes]
        simp [tx_desc_writes]
      refine ⟨?_, ?_, ?_, ?_⟩
      · rw [rexmit_same_eq P env xdp ctrl h1 hfree]
        exact hmdp
      · intro _
        refine ⟨by rw [rexmit_same_eq P env xdp ctrl h1 hfree], ?_⟩
        rw [tx_data_descs, hw]
        simp [nc_ndp_tx_desc2]
      · intro h
        omega
      · intro sd hsd
        rw [hw] at hsd
        simp only [List.mem_singleton] at hsd
        subst hsd
        simp [tx_pending]
    · have hn : slots_needed P ctrl.c.last_upper_addr (tx_dma P env) = 2 := by
        simp [slots_needed, h1]
      rw [hn] at hb ⊢
      have hfree : 2 ≤ tx_free_slots (tx_reclaimed env ctrl) := by omega
      have hfree2 : 2 ≤ (sub32 (sub32 env.hdp ctrl.c.sdp) 1) &&& ctrl.c.mdp := by
        rw [← hfs]; exact hfree
      have hs1 : (add32 ctrl.c.sdp 1) &&& ctrl.c.mdp = (ctrl.c.sdp + 1) % 2 ^ kd :=
        add32_mask _ _ _ _ hmd hkd
      have hw : tx_desc_writes (nfb_xctrl_rexmit_pp P env xdp ctrl).trace =
          [(ctrl.c.sdp, nc_ndp_tx_desc0 (tx_dma P env)),
            ((ctrl.c.sdp + 1) % 2 ^ kd,
              nc_ndp_tx_desc2 (tx_dma P env) (rexmit_prologue ctrl xdp).1.len 0 0)] := by
        rw [rexmit_ext_eq P env xdp ctrl h1 hfree]
        simp only [hs1]
        simp only [tx_desc_writes_append, tx_prologue_no_writes, nfb_xctrl_tx_free_buffers,
          nc_ndp_ctrl_hdp_update, tx_free_loop_no_writes]
        simp [tx_desc_writes]
      refine ⟨?_, ?_, ?_, ?_⟩
      · rw [rexmit_ext_eq P env xdp ctrl h1 hfree]
        exact hmdp
      · intro _
        refine ⟨by rw [rexmit_ext_eq P env xdp ctrl h1 hfree], ?_⟩
        rw [tx_data_descs, hw]
        simp [nc_ndp_tx_desc2, nc_ndp_tx_desc0]
      · intro h
        omega
      · intro sd hsd
        rw [hw] at hsd
        simp only [List.mem_cons, List.mem_singleton, List.not_mem_nil, or_false] at hsd
        rcases hsd with rfl | rfl
        · simp [tx_pending]
        · have hoff := offset_advance ctrl.c.mdp kd env.hdp ctrl.c.sdp
            ((ctrl.c.sdp + 1) % 2 ^ kd) 1 hmd hkd (Nat.mod_mod _ _) (by omega)
          simp only [tx_pending, hfdp, tx_reclaimed, nfb_xctrl_tx_free_buffers,
            nc_ndp_ctrl_hdp_update]
          omega

/-- C20, amended: `nfb_xctrl_rexmit_pp` reads `sdp`, `mdp` and
`last_upper_addr` before it takes `tx_lock`; the lock covers reclaim and every
write of the call.  For calls made one after the other on a ring of `2^kd`
descriptors, each starting on the controller the call before it left: a call
returns 0 exactly when it finds, after reclaim, the one or two free slots it
needs, and `-EBUSY` otherwise; a call that returns 0 writes exactly one data
descriptor and a call that fails writes none; no call writes a slot that is
pending, that is written and not yet reclaimed.  When every call finds the
slots it needs, the calls produce as many data descriptors as there are
calls. -/
theorem rexmit_serial_descriptors (P : Params) (calls : List (TxEnv × xdp_buff))
    (ctrl : xctrl) (kd : Nat) (hkd : kd ≤ 32) (hmd : ctrl.c.mdp + 1 = 2 ^ kd) :
    (rexmit_run P calls ctrl).map (fun c => (c.env, c.xdp)) = calls ∧
      (∀ c, (rexmit_run P calls ctrl)[0]? = some c → c.before = ctrl) ∧
      (∀ k c d, (rexmit_run P calls ctrl)[k]? = some c →
        (rexmit_run P calls ctrl)[k + 1]? = some d → d.before = c.result.ctrl) ∧
      (∀ c ∈ rexmit_run P calls ctrl,
        c.result = nfb_xctrl_rexmit_pp P c.env c.xdp c.before ∧
        (∃ pads post : List TxEvent,
          rexmit_steps P c.env c.xdp c.before =
            [TxStep.read_sdp c.before.c.sdp, TxStep.read_mdp c.before.c.mdp,
              TxStep.read_last_upper_addr c.before.c.last_upper_addr] ++
              pads.map TxStep.effect ++ [TxStep.spin_lock] ++
              post.map TxStep.effect ++ [TxStep.spin_unlock] ∧
          (∀ e ∈ pads, ∃ a, e = TxEvent.pad_zero a) ∧
          c.result.trace = pads ++ post) ∧
        (c.result.ret = 0 ∨ c.result.ret = -EBUSY) ∧
        (c.result.ret = 0 ↔
          slots_needed P c.before.c.last_upper_addr (tx_dma P c.env) ≤
            tx_free_slots (tx_reclaimed c.env c.before)) ∧
        (c.result.ret = 0 → (tx_data_descs c.result.trace).length = 1) ∧
        (c.result.ret ≠ 0 → tx_desc_writes c.result.trace = []) ∧
        (∀ sd ∈ tx_desc_writes c.result.trace,
          ¬ tx_pending (tx_reclaimed c.env c.before) c.before.c.sdp sd.1)) ∧
      ((∀ c ∈ rexmit_run P calls ctrl,
          slots_needed P c.before.c.last_upper_addr (tx_dma P c.env) ≤
            tx_free_slots (tx_reclaimed c.env c.before)) →
        (∀ c ∈ rexmit_run P calls ctrl, c.result.ret = 0) ∧
        ((rexmit_run P calls ctrl).flatMap fun c => tx_data_descs c.result.trace).length =
          calls.length) := by
  have hE : (-EBUSY : Int) ≠ 0 := by decide
  induction calls generalizing ctrl with
  | nil => simp [rexmit_run]
  | cons call rest ih =>
    obtain ⟨f1, f2, f3, f4⟩ := rexmit_call_facts P call.1 call.2 ctrl kd hkd hmd
    obtain ⟨i1, i2, i3, i4, i5⟩ := ih (nfb_xctrl_rexmit_pp P call.1 call.2 ctrl).ctrl
      (by rw [f1]; exact hmd)
    have hhead : ∀ c : TxCall,
        c = { before := ctrl, env := call.1, xdp := call.2,
              result := nfb_xctrl_rexmit_pp P call.1 call.2 ctrl } →
        c.result = nfb_xctrl_rexmit_pp P c.env c.xdp c.before ∧
        (∃ pads post : List TxEvent,
          rexmit_steps P c.env c.xdp c.before =
            [TxStep.read_sdp c.before.c.sdp, TxStep.read_mdp c.before.c.mdp,
              TxStep.read_last_upper_addr c.before.c.last_upper_addr] ++
              pads.map TxStep.effect ++ [TxStep.spin_lock] ++
              post.map TxStep.effect ++ [TxStep.spin_unlock] ∧
          (∀ e ∈ pads, ∃ a, e = TxEvent.pad_zero a) ∧
          c.result.trace = pads ++ post) ∧
        (c.result.ret = 0 ∨ c.result.ret = -EBUSY) ∧
        (c.result.ret = 0 ↔
          slots_needed P c.before.c.last_upper_addr (tx_dma P c.env) ≤
            tx_free_slots (tx_reclaimed c.env c.before)) ∧
        (c.result.ret = 0 → (tx_data_descs c.result.trace).length = 1) ∧
        (c.result.ret ≠ 0 → tx_desc_writes c.result.trace = []) ∧
        (∀ sd ∈ tx_desc_writes c.result.trace,
          ¬ tx_pending (tx_reclaimed c.env c.before) c.before.c.sdp sd.1) := by
      intro c hc
      subst hc
      simp only
      refine ⟨trivial, rexmit_steps_shape P call.1 call.2 ctrl, ?_, ?_, ?_, ?_, f4⟩
      · by_cases hb : tx_free_slots (tx_reclaimed call.1 ctrl) <
            slots_needed P ctrl.c.last_upper_addr (tx_dma P call.1)
        · exact Or.inr (f3 hb).1
        · exact Or.inl (f2 (by omega)).1
      · constructor
        · intro h0
          by_contra hn
          have := (f3 (by omega)).1
          rw [h0] at this
          exact hE this.symm
        · intro h
          exact (f2 h).1
      · intro h0
        by_cases hb : tx_free_slots (tx_reclaimed call.1 ctrl) <
            slots_needed P ctrl.c.last_upper_addr (tx_dma P call.1)
        · have := (f3 hb).1
          rw [h0] at this
          exact absurd this.symm hE
        · exact (f2 (by omega)).2
      · intro hne
        by_cases hb : tx_free_slots (tx_reclaimed call.1 ctrl) <
            slots_needed P ctrl.c.last_upper_addr (tx_dma P call.1)
        · exact (f3 hb).2
        · exact absurd (f2 (by omega)).1 hne
    simp only [rexmit_run]
    refine ⟨?_, ?_, ?_, ?_, ?_⟩
    · simp only [List.map_cons, i1]
    · intro c hc
      simp only [List.getElem?_cons_zero, Option.some.injEq] at hc
      rw [← hc]
    · intro k c d hc hd
      simp only [List.getElem?_cons_succ] at hd
      cases k with
      | zero =>
        simp only [List.getElem?_cons_zero, Option.some.injEq] at hc
        rw [← hc]
        exact i2 d hd
      | succ k =>
        simp only [List.getElem?_cons_succ] at hc
        exact i3 k c d hc hd
    · intro c hc
      simp only [List.mem_cons] at hc
      rcases hc with hc | hc
      · exact hhead c hc
      · exact i4 c hc
    · intro hall
      have h0 := hall _ (List.mem_cons_self _ _)
      simp only at h0
      obtain ⟨j1, j2⟩ := i5 (fun c hc => hall c (List.mem_cons_of_mem _ hc))
      refine ⟨?_, ?_⟩
      · intro c hc
        simp only [List.mem_cons] at hc
        rcases hc with hc | hc
        · rw [hc]
          exact (f2 h0).1
        · exact j1 c hc
      · rw [List.flatMap_cons, List.length_append, j2, (f2 h0).2, List.length_cons]
        omega

theorem rexmit_serial_descriptors_witness :
    tx8.c.mdp + 1 = 2 ^ 3 ∧
      (∀ c ∈ rexmit_run test_params [(tx_env_near 0, buff_a), (tx_env_second, buff_b)] tx8,
        slots_needed test_params c.before.c.last_upper_addr (tx_dma test_params c.env) ≤
          tx_free_slots (tx_reclaimed c.env c.before)) ∧
      ((rexmit_run test_params [(tx_env_near 0, buff_a), (tx_env_second, buff_b)]
        tx8).flatMap fun c => tx_data_descs c.result.trace) =
          [(0, nc_ndp_desc.desc2 0x1100 100 0 0), (1, nc_ndp_desc.desc2 0x2100 100 0 0)] ∧
      ((rexmit_run test_params [(tx_env_near 0, buff_a), (tx_env_second, buff_b)]
        tx8).flatMap fun c => tx_data_descs c.result.trace).length = 2 :=
  ⟨by decide, by decide, by decide,
    ((rexmit_serial_descriptors test_params [(tx_env_near 0, buff_a), (tx_env_second, buff_b)]
      tx8 3 (by decide) (by decide)).2.2.2.2 (by decide)).2⟩

/-! ## NDP queue control: claims -/

theorem queue_status_two_state (K : NdpConsts) (calls : List QueueCall) (q : ndp_queue)
    (h : q.status = K.NDP_QUEUE_STOPPED ∨ q.status = K.NDP_QUEUE_RUNNING) :
    (queue_run K calls q).status = K.NDP_QUEUE_STOPPED ∨
      (queue_run K calls q).status = K.NDP_QUEUE_RUNNING := by
  induction calls generalizing q with
  | nil => exact h
  | cons c cs ih =>
    cases c with
    | start env =>
      apply ih
      simp only [ndp_queue_start]
      split_ifs <;> simp [h]
    | stop env =>
      apply ih
      simp only [ndp_queue_stop]
      split_ifs <;> simp [h]

/-- C25: `ndp_queue_start` on a queue whose status is RUNNING returns
`EALREADY`, calls no driver operation and leaves the queue as it is; on any
other status it calls the driver's start operation once, returns a non-zero
result unchanged with the queue as it was, and on result 0 sets the status to
RUNNING and returns 0.  `ndp_queue_stop` does the same with STOPPED and the
driver's stop operation, and on a TX queue calls the TX flush before the stop
operation.  From `_ndp_queue_init` on, the status is STOPPED or RUNNING after
every sequence of calls. -/
theorem ndp_queue_start_stop (K : NdpConsts) (env : QueueEnv) (q : ndp_queue) :
    (q.status = K.NDP_QUEUE_RUNNING → ndp_queue_start K env q = (K.EALREADY, q, [])) ∧
      (q.status ≠ K.NDP_QUEUE_RUNNING → env.start_ret ≠ 0 →
        ndp_queue_start K env q = (env.start_ret, q, [QueueEvent.control_start])) ∧
      (q.status ≠ K.NDP_QUEUE_RUNNING → env.start_ret = 0 →
        ndp_queue_start K env q =
          (0, { q with status := K.NDP_QUEUE_RUNNING }, [QueueEvent.control_start])) ∧
      (q.status = K.NDP_QUEUE_STOPPED → ndp_queue_stop K env q = (K.EALREADY, q, [])) ∧
      (q.status ≠ K.NDP_QUEUE_STOPPED → env.stop_ret ≠ 0 →
        ndp_queue_stop K env q =
          (env.stop_ret, q,
            (if q.dir = K.NDP_CHANNEL_TYPE_TX then [QueueEvent.tx_flush] else []) ++
              [QueueEvent.control_stop])) ∧
      (q.status ≠ K.NDP_QUEUE_STOPPED → env.stop_ret = 0 →
        ndp_queue_stop K env q =
          (0, { q with status := K.NDP_QUEUE_STOPPED },
            (if q.dir = K.NDP_CHANNEL_TYPE_TX then [QueueEvent.tx_flush] else []) ++
              [QueueEvent.control_stop])) ∧
      (∀ (calls : List QueueCall) (dir : Int),
        (queue_run K calls (_ndp_queue_init K dir)).status = K.NDP_QUEUE_STOPPED ∨
          (queue_run K calls (_ndp_queue_init K dir)).status = K.NDP_QUEUE_RUNNING) := by
  refine ⟨?_, ?_, ?_, ?_, ?_, ?_, ?_⟩
  · intro h
    simp [ndp_queue_start, h]
  · intro h hr
    simp [ndp_queue_start, h, hr]
  · intro h hr
    simp [ndp_queue_start, h, hr]
  · intro h
    simp [ndp_queue_stop, h]
  · intro h hr
    simp [ndp_queue_stop, h, hr]
  · intro h hr
    simp [ndp_queue_stop, h, hr]
  · intro calls dir
    exact queue_status_two_state K calls _ (Or.inl rfl)

theorem ndp_queue_start_stop_witness :
    ndp_queue_start test_consts { start_ret := 0, stop_ret := 0 } (_ndp_queue_init test_consts 1) =
        (0, { status := 1, dir := 1 }, [QueueEvent.control_start]) ∧
      ndp_queue_start test_consts { start_ret := 0, stop_ret := 0 } { status := 1, dir := 1 } =
        (114, { status := 1, dir := 1 }, []) ∧
      ndp_queue_stop test_consts { start_ret := 0, stop_ret := -5 } { status := 1, dir := 1 } =
        (-5, { status := 1, dir := 1 }, [QueueEvent.tx_flush, QueueEvent.control_stop]) :=
  ⟨(ndp_queue_start_stop test_consts { start_ret := 0, stop_ret := 0 }
      (_ndp_queue_init test_consts 1)).2.2.1 (by decide) rfl,
    (ndp_queue_start_stop test_consts { start_ret := 0, stop_ret := 0 }
      { status := 1, dir := 1 }).1 rfl,
    (ndp_queue_start_stop test_consts { start_ret := 0, stop_ret := -5 }
      { status := 1, dir := 1 }).2.2.2.2.1 (by decide) (by decide)⟩

/-! ## Component lock: claims -/

/-- The loop of `nfb_comp_trylock` entered at attempt `k0`, when the next `d`
attempts are undecided and the loop goes on after each: it reaches attempt
`k0 + d`. -/
theorem trylock_loop_skip (env : LockEnv) (timeout : Int) (d fuel k0 : Nat)
    (hbusy : ∀ j, k0 ≤ j → j < k0 + d →
      (env.lock j = 0 ∨ env.lock j = -EBUSY) ∧ timeout ≠ 0 ∧
        trylock_again timeout (env.diff j) = true) :
    trylock_loop env timeout (d + fuel) k0 = trylock_loop env timeout fuel (k0 + d) := by
  induction d generalizing k0 with
  | zero => simp
  | succ d ih =>
    obtain ⟨hl, ht, ha⟩ := hbusy k0 (Nat.le_refl _) (by omega)
    have h1 : env.lock k0 ≠ 1 := by
      rcases hl with h | h <;> rw [h] <;> decide
    have h2 : ¬ (env.lock k0 ≠ 0 ∧ env.lock k0 ≠ -EBUSY) := by
      rcases hl with h | h <;> simp [h]
    have hf : d + 1 + fuel = (d + fuel) + 1 := by omega
    rw [hf]
    simp only [trylock_loop, h1, h2, ht, ha, if_false, if_true]
    rw [ih (k0 + 1) (fun j hj1 hj2 => hbusy j (by omega) (by omega))]
    congr 1
    omega

/-- C27: `nfb_comp_trylock` on a `NULL` component returns `-EINVAL` without
calling the lock operation.  Otherwise, when the attempts before attempt `k`
were undecided (result 0 or `-EBUSY`) and the loop went on after each, then:
if attempt `k` returns 1 the function returns 0 after exactly `k + 1` calls,
and if it returns a value other than 0, 1 and `-EBUSY` the function returns
that value after exactly `k + 1` calls.  With timeout 0 a first attempt that
yields 0 or `-EBUSY` makes the function return `-EBUSY` after exactly one
call.  `nfb_comp_lock` returns 1 exactly when `nfb_comp_trylock` with timeout
-1 returns 0, and 0 exactly when it returns another value. -/
theorem comp_trylock_results (env : LockEnv) (timeout : Int) (fuel : Nat) :
    nfb_comp_trylock false env timeout fuel = some (-EINVAL, 0) ∧
      (∀ k, k < fuel →
        (∀ j, j < k → (env.lock j = 0 ∨ env.lock j = -EBUSY) ∧ timeout ≠ 0 ∧
          trylock_again timeout (env.diff j) = true) →
        (env.lock k = 1 → nfb_comp_trylock true env timeout fuel = some (0, k + 1)) ∧
        (env.lock k ≠ 0 → env.lock k ≠ 1 → env.lock k ≠ -EBUSY →
          nfb_comp_trylock true env timeout fuel = some (env.lock k, k + 1))) ∧
      (0 < fuel → (env.lock 0 = 0 ∨ env.lock 0 = -EBUSY) →
        nfb_comp_trylock true env 0 fuel = some (-EBUSY, 1)) ∧
      (∀ comp n, nfb_comp_lock comp env fuel = some (1, n) ↔
        nfb_comp_trylock comp env (-1) fuel = some (0, n)) ∧
      (∀ comp n, nfb_comp_lock comp env fuel = some (0, n) ↔
        ∃ r, r ≠ 0 ∧ nfb_comp_trylock comp env (-1) fuel = some (r, n)) := by
  refine ⟨rfl, ?_, ?_, ?_, ?_⟩
  · intro k hk hbusy
    obtain ⟨f, rfl⟩ : ∃ f, fuel = k + (f + 1) := ⟨fuel - k - 1, by omega⟩
    have hskip := trylock_loop_skip env timeout k (f + 1) 0
      (fun j _ hj => hbusy j (by omega))
    simp only [Nat.zero_add] at hskip
    refine ⟨?_, ?_⟩
    · intro h1
      show trylock_loop env timeout (k + (f + 1)) 0 = _
      rw [hskip]
      simp only [trylock_loop, h1, if_true]
    · intro h0 h1 hb
      show trylock_loop env timeout (k + (f + 1)) 0 = _
      rw [hskip]
      simp only [trylock_loop, h0, h1, hb, ne_eq, not_false_eq_true, and_self, if_false,
        if_true]
  · intro hf hl
    obtain ⟨f, rfl⟩ : ∃ f, fuel = f + 1 := ⟨fuel - 1, by omega⟩
    have h1 : env.lock 0 ≠ 1 := by
      rcases hl with h | h <;> rw [h] <;> decide
    have h2 : ¬ (env.lock 0 ≠ 0 ∧ env.lock 0 ≠ -EBUSY) := by
      rcases hl with h | h <;> simp [h]
    simp only [nfb_comp_trylock, Bool.not_true, Bool.false_eq_true, if_false, trylock_loop, h1,
      h2, if_true]
  · intro comp n
    simp only [nfb_comp_lock, Option.map_eq_some', Prod.mk.injEq, Prod.exists]
    constructor
    · rintro ⟨r, m, hr, h1, rfl⟩
      have : r = 0 := by
        by_contra hne
        simp [hne] at h1
      rw [hr, this]
    · intro h
      exact ⟨0, n, h, by simp, rfl⟩
  · intro comp n
    simp only [nfb_comp_lock, Option.map_eq_some', Prod.mk.injEq, Prod.exists]
    constructor
    · rintro ⟨r, m, hr, h1, rfl⟩
      have : r ≠ 0 := by
        intro h0
        simp [h0] at h1
      exact ⟨r, this, hr⟩
    · rintro ⟨r, hne, h⟩
      exact ⟨r, n, h, by simp [hne], rfl⟩

theorem comp_trylock_results_witness :
    nfb_comp_trylock true busy_twice_env (-1) 5 = some (0, 3) ∧
      nfb_comp_trylock true failing_lock_env (-1) 5 = some (-22, 2) ∧
      nfb_comp_trylock true busy_twice_env 0 5 = some (-16, 1) ∧
      nfb_comp_lock true busy_twice_env 5 = some (1, 3) :=
  ⟨((comp_trylock_results busy_twice_env (-1) 5).2.1 2 (by decide)
      (fun j hj => by
        have : j = 0 ∨ j = 1 := by omega
        rcases this with rfl | rfl <;> decide)).1 (by decide),
    ((comp_trylock_results failing_lock_env (-1) 5).2.1 1 (by decide)
      (fun j hj => by
        have : j = 0 := by omega
        subst this
        decide)).2 (by decide) (by decide) (by decide),
    (comp_trylock_results busy_twice_env 0 5).2.2.1 (by decide) (by decide),
    ((comp_trylock_results busy_twice_env (-1) 5).2.2.2.1 true 3).2 (by decide)⟩

/-! ## Component access: claims -/

/-- C28: the range test of `nfb_comp_read` and `nfb_comp_write` is made on
the sum `offset + nbyte` reduced modulo `2^64`: the calls go to the bus
exactly when that reduced sum is at most `comp->size`.  On a component of 16
bytes at bus address `0x1000`, offset -4 with 4 bytes gives the sum 0, so
both calls reach the bus at address `0xFFC`, below the component's window; so
does offset 8 with `2^64 - 4` bytes. -/
theorem comp_access_range_check_wraps :
    (∀ (comp : nfb_comp) (nbyte : Nat) (offset bus_ret : Int),
      ((nfb_comp_read comp nbyte offset bus_ret).2 ≠ [] ↔
        (size_t_of_off offset + nbyte % 2 ^ 64) % 2 ^ 64 ≤ comp.size % 2 ^ 64) ∧
      ((nfb_comp_write comp nbyte offset bus_ret).2 ≠ [] ↔
        (size_t_of_off offset + nbyte % 2 ^ 64) % 2 ^ 64 ≤ comp.size % 2 ^ 64)) ∧
      nfb_comp_read test_comp 4 (-4) 4 = (4, [BusAccess.read 0xFFC 4]) ∧
      nfb_comp_write test_comp 4 (-4) 4 = (4, [BusAccess.write 0xFFC 4]) ∧
      (0xFFC : Int) < test_comp.base ∧
      nfb_comp_read test_comp (2 ^ 64 - 4) 8 0 = (0, [BusAccess.read 0x1008 (2 ^ 64 - 4)]) := by
  refine ⟨?_, by decide, by decide, by decide, by decide⟩
  intro comp nbyte offset bus_ret
  constructor
  · unfold nfb_comp_read comp_range_rejected
    split_ifs with h
    · simp only [decide_eq_true_eq] at h
      simp
      omega
    · simp only [decide_eq_true_eq] at h
      simp
      omega
  · unfold nfb_comp_write comp_range_rejected
    split_ifs with h
    · simp only [decide_eq_true_eq] at h
      simp
      omega
    · simp only [decide_eq_true_eq] at h
      simp
      omega

/-! ## Extension loading: claims -/

theorem strstr_zero_iff (hay needle : List Char) :
    strstr hay needle = some 0 ↔ needle <+: hay := by
  cases hay with
  | nil =>
    simp only [strstr]
    split_ifs with h
    · simp only [true_iff]
      exact List.isPrefixOf_iff_prefix.1 h
    · simp only [false_iff]
      exact fun hp => h (List.isPrefixOf_iff_prefix.2 hp)
  | cons a t =>
    simp only [strstr]
    split_ifs with h
    · simp only [true_iff]
      exact List.isPrefixOf_iff_prefix.1 h
    · constructor
      · intro h0
        cases hs : strstr t needle with
        | none => rw [hs] at h0; cases h0
        | some n => rw [hs] at h0; simp at h0
      · exact fun hp => absurd (List.isPrefixOf_iff_prefix.2 hp) h

theorem strstr_isSome_iff (hay needle : List Char) :
    (strstr hay needle).isSome = true ↔ needle <:+: hay := by
  induction hay with
  | nil =>
    simp only [strstr]
    split_ifs with h
    · simp only [Option.isSome_some, true_iff]
      exact (List.isPrefixOf_iff_prefix.1 h).isInfix
    · simp only [Option.isSome_none, Bool.false_eq_true, false_iff]
      intro hin
      apply h
      rw [List.isPrefixOf_iff_prefix]
      rw [List.infix_nil] at hin
      rw [hin]
  | cons a t ih =>
    simp only [strstr]
    split_ifs with h
    · simp only [Option.isSome_some, true_iff]
      exact (List.isPrefixOf_iff_prefix.1 h).isInfix
    · rw [Option.isSome_map', ih, List.infix_cons_iff]
      constructor
      · exact fun hin => Or.inr hin
      · rintro (hp | hin)
        · exact absurd (List.isPrefixOf_iff_prefix.2 hp) h
        · exact hin

theorem strchr_append (A B : List Char) (c : Char) (h : c ∉ A) :
    strchr (A ++ c :: B) c = some A.length := by
  induction A with
  | nil => simp [strchr]
  | cons a A ih =>
    simp only [List.mem_cons, not_or] at h
    have hne : ¬ a = c := fun e => h.1 e.symm
    have hi := ih h.2
    simp [strchr, hne, hi]

theorem strchr_none (s : List Char) (c : Char) (h : c ∉ s) : strchr s c = none := by
  induction s with
  | nil => rfl
  | cons a s ih =>
    simp only [List.mem_cons, not_or] at h
    have hne : ¬ a = c := fun e => h.1 e.symm
    simp only [strchr, hne, if_false, ih h.2, Option.map_none']

/-- The call on a name that starts with the prefix. -/
theorem load_extension_prefix_eq (env : LoadEnv) (rest : List Char) :
    load_extension env (LIBNFB_EXT_PREFIX ++ rest) =
      (if !env.strndup_ok then
        { ret := -ENOMEM, devname := LIBNFB_EXT_PREFIX ++ rest, loaded := [] }
      else
        match strchr rest ':' with
        | none => { ret := env.load_ret, devname := [], loaded := [(rest, [])] }
        | some p =>
          { ret := env.load_ret, devname := rest.drop (p + 1),
            loaded := [(rest.take p, rest.drop (p + 1))] }) := by
  have hp : strstr (LIBNFB_EXT_PREFIX ++ rest) LIBNFB_EXT_PREFIX = some 0 :=
    (strstr_zero_iff _ _).2 (List.prefix_append _ _)
  have hlen : LIBNFB_EXT_PREFIX.length = 11 := rfl
  have hdrop : (LIBNFB_EXT_PREFIX ++ rest).drop 11 = rest := List.drop_left' hlen
  unfold load_extension
  simp only [hp, if_true, hlen, hdrop]
  cases hc : strchr rest ':' with
  | none =>
    simp only [Option.map_none', List.length_append, hlen]
    have h1 : (LIBNFB_EXT_PREFIX ++ rest).drop (11 + rest.length) = [] := by
      apply List.drop_of_length_le
      simp [hlen]
    have h2 : List.take (11 + rest.length - 11) rest = rest := by
      apply List.take_of_length_le
      omega
    simp only [h1, h2]
  | some p =>
    simp only [Option.map_some']
    have h1 : (LIBNFB_EXT_PREFIX ++ rest).drop (p + 11 + 1) = rest.drop (p + 1) := by
      have : p + 11 + 1 = 11 + (p + 1) := by omega
      rw [this, ← List.drop_drop, hdrop]
    have h2 : p + 11 - 11 = p := by omega
    simp only [h1, h2]

/-- The call on a name that does not start with the prefix but holds the
pattern. -/
theorem load_extension_pattern_eq (env : LoadEnv) (s : List Char)
    (hnp : ¬ LIBNFB_EXT_PREFIX <+: s) (hpat : LIBNFB_EXT_PATTERN <:+: s) :
    load_extension env s =
      (if !env.strndup_ok then { ret := -ENOMEM, devname := s, loaded := [] }
      else
        match strchr s ':' with
        | none => { ret := env.load_ret, devname := [], loaded := [(s, [])] }
        | some p =>
          { ret := env.load_ret, devname := s.drop (p + 1),
            loaded := [(s.take p, s.drop (p + 1))] }) := by
  have hp : ¬ strstr s LIBNFB_EXT_PREFIX = some 0 := fun h => hnp ((strstr_zero_iff _ _).1 h)
  have hq : (strstr s LIBNFB_EXT_PATTERN).isSome = true := (strstr_isSome_iff _ _).2 hpat
  unfold load_extension
  simp only [hp, hq, if_true, if_false]
  cases hc : strchr s ':' with
  | none => simp
  | some p => simp

/-- C26: how `load_extension` splits the device name when the library name
can be allocated.  A name `"libnfb-ext:" ++ L ++ ":" ++ D` with no colon in
`L` loads library `L` with device name `D` and leaves `*devname` at `D`; a
name `"libnfb-ext:" ++ L` without a colon in `L` loads `L` with the empty
device name.  A name that holds `"libnfb-ext-"` without starting with
`"libnfb-ext:"` loads the text before its first colon with the text after it
as device name, or the whole name with the empty device name when it has no
colon.  In each case the return value is that of `load_lib_extension`.  A
name with neither the prefix nor the pattern returns 0, loads nothing and
leaves `*devname` unchanged, and so does every call that loads nothing. -/
theorem load_extension_split (env : LoadEnv) :
    (env.strndup_ok = true →
      (∀ L D : List Char, ':' ∉ L →
        load_extension env (LIBNFB_EXT_PREFIX ++ L ++ ':' :: D) =
          { ret := env.load_ret, devname := D, loaded := [(L, D)] }) ∧
      (∀ L : List Char, ':' ∉ L →
        load_extension env (LIBNFB_EXT_PREFIX ++ L) =
          { ret := env.load_ret, devname := [], loaded := [(L, [])] }) ∧
      (∀ A B : List Char, ¬ LIBNFB_EXT_PREFIX <+: (A ++ ':' :: B) →
        LIBNFB_EXT_PATTERN <:+: (A ++ ':' :: B) → ':' ∉ A →
        load_extension env (A ++ ':' :: B) =
          { ret := env.load_ret, devname := B, loaded := [(A, B)] }) ∧
      (∀ s : List Char, LIBNFB_EXT_PATTERN <:+: s → ':' ∉ s →
        load_extension env s = { ret := env.load_ret, devname := [], loaded := [(s, [])] })) ∧
      (∀ s : List Char, ¬ LIBNFB_EXT_PREFIX <+: s → ¬ LIBNFB_EXT_PATTERN <:+: s →
        load_extension env s = { ret := 0, devname := s, loaded := [] }) ∧
      (∀ s : List Char, (load_extension env s).loaded = [] →
        (load_extension env s).devname = s) := by
  refine ⟨?_, ?_, ?_⟩
  · intro hok
    refine ⟨?_, ?_, ?_, ?_⟩
    · intro L D hL
      rw [List.append_assoc, load_extension_prefix_eq, strchr_append L D ':' hL]
      simp [hok]
    · intro L hL
      rw [load_extension_prefix_eq, strchr_none L ':' hL]
      simp [hok]
    · intro A B hnp hpat hA
      rw [load_extension_pattern_eq env _ hnp hpat, strchr_append A B ':' hA]
      simp [hok]
    · intro s hpat hs
      have hnp : ¬ LIBNFB_EXT_PREFIX <+: s := by
        intro hp
        apply hs
        exact hp.subset (by decide)
      rw [load_extension_pattern_eq env _ hnp hpat, strchr_none s ':' hs]
      simp [hok]
  · intro s hnp hnpat
    have hp : ¬ strstr s LIBNFB_EXT_PREFIX = some 0 := fun h => hnp ((strstr_zero_iff _ _).1 h)
    have hq : ¬ (strstr s LIBNFB_EXT_PATTERN).isSome = true :=
      fun h => hnpat ((strstr_isSome_iff _ _).1 h)
    unfold load_extension
    simp [hp, hq]
  · intro s
    by_cases hp : LIBNFB_EXT_PREFIX <+: s
    · obtain ⟨rest, rfl⟩ := hp
      rw [load_extension_prefix_eq]
      cases env.strndup_ok <;> cases strchr rest ':' <;> simp
    · by_cases hq : LIBNFB_EXT_PATTERN <:+: s
      · rw [load_extension_pattern_eq env s hp hq]
        cases env.strndup_ok <;> cases strchr s ':' <;> simp
      · have h1 : ¬ strstr s LIBNFB_EXT_PREFIX = some 0 :=
          fun h => hp ((strstr_zero_iff _ _).1 h)
        have h2 : ¬ (strstr s LIBNFB_EXT_PATTERN).isSome = true :=
          fun h => hq ((strstr_isSome_iff _ _).1 h)
        unfold load_extension
        simp [h1, h2]

theorem load_extension_split_witness :
    load_extension load_ok_env
        (LIBNFB_EXT_PREFIX ++ ['a', '.', 's', 'o'] ++ ':' :: ['d', ':', '1']) =
        { ret := 1, devname := ['d', ':', '1'],
          loaded := [(['a', '.', 's', 'o'], ['d', ':', '1'])] } ∧
      load_extension load_ok_env ['/', 'd', 'e', 'v', '/', 'n', 'f', 'b', '0'] =
        { ret := 0, devname := ['/', 'd', 'e', 'v', '/', 'n', 'f', 'b', '0'], loaded := [] } :=
  ⟨((load_extension_split load_ok_env).1 rfl).1 ['a', '.', 's', 'o'] ['d', ':', '1']
      (by decide),
    (load_extension_split load_ok_env).2.1 ['/', 'd', 'e', 'v', '/', 'n', 'f', 'b', '0']
      (by decide) (by decide)⟩

/-! ## Component search in the device tree: claims -/

theorem fdt_matching_node (c : String) (offset : Int) (compat : List String)
    (first next : fdt) :
    (fdt.node offset compat first next).matching c =
      (if c ∈ compat then [offset] else []) ++ (first.matching c ++ next.matching c) := by
  simp only [fdt.matching, fdt.preorder, List.filter_cons, List.filter_append, List.map_append]
  split_ifs <;> simp_all

theorem fdt_first_offset_pos (t : fdt) (hpos : ∀ x ∈ t.preorder, 0 < x.1) :
    (t.first_offset > 0 ↔ t ≠ fdt.none) := by
  cases t with
  | none => simp [fdt.first_offset, FDT_ERR_NOTFOUND]
  | node offset compat first next =>
    simp only [fdt.first_offset, ne_eq, not_false_eq_true, iff_true, reduceCtorEq]
    exact hpos (offset, compat) (by simp [fdt.preorder])

theorem fdt_matching_pos (c : String) (t : fdt) (hpos : ∀ x ∈ t.preorder, 0 < x.1) :
    ∀ o ∈ t.matching c, 0 < o := by
  intro o ho
  simp only [fdt.matching, List.mem_map, List.mem_filter] at ho
  obtain ⟨x, ⟨hx, _⟩, hxe⟩ := ho
  rw [← hxe]
  exact hpos x hx

/-- The search over a list of subnodes entered with counter `cur`: it yields
the node of index `n - cur` among the matching nodes in pre-order, leaving the
counter at `n + 1`, or fails with the counter advanced by the number of
matching nodes. -/
theorem find_in_subtree_gen (c : String) (n : Nat) (hn : n < 2 ^ 32) (t : fdt) :
    ∀ cur : Nat, (∀ x ∈ t.preorder, 0 < x.1) → cur ≤ n →
      cur + (t.matching c).length < 2 ^ 32 →
      find_in_subtree c n t cur =
        match (t.matching c)[n - cur]? with
        | some off => (off, n + 1)
        | none => (-FDT_ERR_NOTFOUND, cur + (t.matching c).length) := by
  induction t with
  | none =>
    intro cur _ _ _
    simp [find_in_subtree, fdt.matching, fdt.preorder]
  | node offset compat first next ih1 ih2 =>
    intro cur hpos hcur hcount
    have hpos1 : ∀ x ∈ first.preorder, 0 < x.1 := fun x hx =>
      hpos x (by simp [fdt.preorder, hx])
    have hpos2 : ∀ x ∈ next.preorder, 0 < x.1 := fun x hx =>
      hpos x (by simp [fdt.preorder, hx])
    have hoff : 0 < offset := hpos (offset, compat) (by simp [fdt.preorder])
    rw [fdt_matching_node] at hcount ⊢
    -- the search below the node and after it, entered with counter `k`
    have rest : ∀ k : Nat, k ≤ n →
        k + ((first.matching c).length + (next.matching c).length) < 2 ^ 32 →
        (if first.first_offset > 0 then
          if (find_in_subtree c n first k).1 > 0 then find_in_subtree c n first k
          else find_in_subtree c n next (find_in_subtree c n first k).2
        else find_in_subtree c n next k) =
          match (first.matching c ++ next.matching c)[n - k]? with
          | some off => (off, n + 1)
          | none => (-FDT_ERR_NOTFOUND, k + ((first.matching c).length +
              (next.matching c).length)) := by
      intro k hk hkc
      by_cases hf : first = fdt.none
      · subst hf
        have h0 : ¬ fdt.none.first_offset > 0 := by simp [fdt.first_offset, FDT_ERR_NOTFOUND]
        rw [if_neg h0, ih2 k hpos2 hk (by simp [fdt.matching, fdt.preorder] at hkc ⊢; omega)]
        simp [fdt.matching, fdt.preorder]
      · have h0 : first.first_offset > 0 := (fdt_first_offset_pos first hpos1).2 hf
        rw [if_pos h0, ih1 k hpos1 hk (by omega)]
        by_cases hlt : n - k < (first.matching c).length
        · have hget : (first.matching c)[n - k]? = some ((first.matching c)[n - k]) :=
            List.getElem?_eq_getElem hlt
          have hmem : (first.matching c)[n - k] ∈ first.matching c := List.getElem_mem hlt
          have hp : 0 < (first.matching c)[n - k] := fdt_matching_pos c first hpos1 _ hmem
          rw [List.getElem?_append_left hlt, hget]
          simp only [gt_iff_lt, hp, if_true]
        · have hge : (first.matching c).length ≤ n - k := by omega
          have hnone : (first.matching c)[n - k]? = none := List.getElem?_eq_none hge
          rw [hnone, List.getElem?_append_right hge]
          have hneg : ¬ (-FDT_ERR_NOTFOUND : Int) > 0 := by decide
          simp only [hneg, if_false]
          rw [ih2 _ hpos2 (by omega) (by omega)]
          have hidx : n - (k + (first.matching c).length) = n - k - (first.matching c).length := by
            omega
          rw [hidx, Nat.add_assoc]
    by_cases hc : c ∈ compat
    · simp only [hc, if_true, List.length_append, List.length_cons, List.length_nil] at hcount ⊢
      have hmod : (cur + 1) % 2 ^ 32 = cur + 1 := Nat.mod_eq_of_lt (by omega)
      simp only [find_in_subtree, hc, if_true, true_and, hmod]
      by_cases heq : cur = n
      · subst heq
        rw [if_pos hmod.symm]
        simp
      · have hlt : cur < n := by omega
        have hne : ¬ cur + 1 = (n + 1) % 2 ^ 32 := by
          by_cases hn1 : n + 1 < 2 ^ 32
          · rw [Nat.mod_eq_of_lt hn1]
            omega
          · have : n + 1 = 2 ^ 32 := by omega
            rw [this, Nat.mod_self]
            omega
        simp only [hne, if_false]
        rw [rest (cur + 1) (by omega) (by omega)]
        have hidx : n - cur = (n - (cur + 1)) + 1 := by omega
        rw [hidx]
        simp only [List.singleton_append, List.getElem?_cons_succ]
        cases (first.matching c ++ next.matching c)[n - (cur + 1)]? with
        | none => simp; omega
        | some off => rfl
    · simp only [hc, if_false, List.nil_append, List.length_append] at hcount ⊢
      simp only [find_in_subtree, hc, if_false, false_and]
      exact rest cur hcur hcount

/-- C29: on a device tree in which every node below the parent has a positive
offset and fewer than `2^32` nodes match, `nfb_comp_find_in_parent` returns
for every index `n` below `2^32` the offset of the node of index `n`
(counted from 0) among the nodes below the parent whose `compatible`
property holds the string, in depth-first pre-order, and returns
`-FDT_ERR_NOTFOUND` exactly when at most `n` nodes match.  The search is
defined by recursion on the tree, so it ends on every tree. -/
theorem find_in_parent_preorder (root_subnodes : fdt) (c : String) (n : Nat)
    (parent_offset : Int) (hn : n < 2 ^ 32)
    (hpos : ∀ x ∈ (if parent_offset = 0 then root_subnodes
      else fdt.subnodes_of parent_offset root_subnodes).preorder, 0 < x.1)
    (hcount : ((if parent_offset = 0 then root_subnodes
      else fdt.subnodes_of parent_offset root_subnodes).matching c).length < 2 ^ 32) :
    nfb_comp_find_in_parent root_subnodes true (some c) n parent_offset =
        ((if parent_offset = 0 then root_subnodes
          else fdt.subnodes_of parent_offset root_subnodes).matching c).getD n
          (-FDT_ERR_NOTFOUND) ∧
      (nfb_comp_find_in_parent root_subnodes true (some c) n parent_offset =
          -FDT_ERR_NOTFOUND ↔
        ((if parent_offset = 0 then root_subnodes
          else fdt.subnodes_of parent_offset root_subnodes).matching c).length ≤ n) := by
  have hgen := find_in_subtree_gen c n hn _ 0 hpos (Nat.zero_le _) (by omega)
  have hmpos := fdt_matching_pos c _ hpos
  simp only [Nat.sub_zero] at hgen
  simp only [nfb_comp_find_in_parent, hgen]
  generalize ((if parent_offset = 0 then root_subnodes
    else fdt.subnodes_of parent_offset root_subnodes).matching c) = l at hmpos ⊢
  by_cases hlt : n < l.length
  · have hget : l[n]? = some l[n] := List.getElem?_eq_getElem hlt
    have hp : 0 < l[n] := hmpos _ (List.getElem_mem hlt)
    have hne : l[n] ≠ -FDT_ERR_NOTFOUND := by
      have : (-FDT_ERR_NOTFOUND : Int) < 0 := by decide
      omega
    simp only [hget, List.getD_eq_getElem?_getD, Option.getD_some]
    exact ⟨trivial, ⟨fun h => absurd h hne, fun h => absurd hlt (by omega)⟩⟩
  · have hge : l.length ≤ n := by omega
    have hget : l[n]? = none := List.getElem?_eq_none hge
    simp only [hget, List.getD_eq_getElem?_getD, Option.getD_none]
    exact ⟨trivial, ⟨fun _ => hge, fun _ => trivial⟩⟩

theorem find_in_parent_preorder_witness :
    test_fdt.matching "dma" = [16, 24, 32, 40] ∧
      nfb_comp_find_in_parent test_fdt true (some "dma") 2 0 = 32 ∧
      nfb_comp_find_in_parent test_fdt true (some "dma") 4 0 = -1 ∧
      nfb_comp_find_in_parent test_fdt true (some "dma") 0 24 = 32 :=
  ⟨by decide,
    (find_in_parent_preorder test_fdt "dma" 2 0 (by decide) (by decide) (by decide)).1.trans
      (by decide),
    (find_in_parent_preorder test_fdt "dma" 4 0 (by decide) (by decide) (by decide)).2.2
      (by decide),
    (find_in_parent_preorder test_fdt "dma" 0 24 (by decide) (by decide) (by decide)).1.trans
      (by decide)⟩

/-! ## TX enqueue: the payload address, claims -/

/-- The data descriptor of a successful call is the last descriptor written;
it carries the page's DMA address plus `XDP_PACKET_HEADROOM` and the length
computed before the lock. -/
theorem rexmit_data_desc (P : Params) (env : TxEnv) (xdp : xdp_buff) (ctrl : xctrl)
    (hret : (nfb_xctrl_rexmit_pp P env xdp ctrl).ret = 0) :
    ∃ slot, (tx_desc_writes (nfb_xctrl_rexmit_pp P env xdp ctrl).trace).getLast? =
      some (slot, nc_ndp_tx_desc2 (tx_dma P env) (rexmit_prologue ctrl xdp).1.len 0 0) := by
  have hE : (-EBUSY : Int) ≠ 0 := by decide
  have hfree : slots_needed P ctrl.c.last_upper_addr (tx_dma P env) ≤
      tx_free_slots (tx_reclaimed env ctrl) := by
    by_contra hn
    rw [rexmit_busy_eq P env xdp ctrl (by omega)] at hret
    exact hE hret
  by_cases h1 : P.NDP_CTRL_DESC_UPPER_ADDR (tx_dma P env) = ctrl.c.last_upper_addr
  · have hn : slots_needed P ctrl.c.last_upper_addr (tx_dma P env) = 1 := by
      simp [slots_needed, h1]
    rw [hn] at hfree
    rw [rexmit_same_eq P env xdp ctrl h1 hfree]
    refine ⟨ctrl.c.sdp, ?_⟩
    simp only [tx_desc_writes_append, tx_prologue_no_writes, nfb_xctrl_tx_free_buffers,
      nc_ndp_ctrl_hdp_update, tx_free_loop_no_writes]
    simp [tx_desc_writes]
  · have hn : slots_needed P ctrl.c.last_upper_addr (tx_dma P env) = 2 := by
      simp [slots_needed, h1]
    rw [hn] at hfree
    rw [rexmit_ext_eq P env xdp ctrl h1 hfree]
    refine ⟨(add32 ctrl.c.sdp 1) &&& ctrl.c.mdp, ?_⟩
    simp only [tx_desc_writes_append, tx_prologue_no_writes, nfb_xctrl_tx_free_buffers,
      nc_ndp_ctrl_hdp_update, tx_free_loop_no_writes]
    simp [tx_desc_writes]

/-- C23 as stated fails: for a buffer whose data start the program moved to
`data_hard_start + 270`, the enqueue succeeds and writes a data descriptor
with address `0x1100`, the page's DMA address plus `XDP_PACKET_HEADROOM`,
while the payload starts at DMA address `0x110E`. -/
theorem rexmit_moved_data_address :
    buff_moved.data ≠ buff_moved.data_hard_start + test_params.XDP_PACKET_HEADROOM ∧
      (nfb_xctrl_rexmit_pp test_params (tx_env_near 0) buff_moved tx8).ret = 0 ∧
      tx_desc_writes (nfb_xctrl_rexmit_pp test_params (tx_env_near 0) buff_moved tx8).trace =
        [(0, nc_ndp_desc.desc2 0x1100 86 0 0)] ∧
      tx_data_dma (tx_env_near 0) buff_moved = 0x110E := by
  decide

/-- C23, amended: for a buffer whose data start is where the fill put it,
`data_hard_start + XDP_PACKET_HEADROOM`, and whose payload is shorter than
`2^32` bytes, the data descriptor a successful `nfb_xctrl_rexmit_pp` writes
(the last descriptor of the call) carries the DMA address of `xdp->data` and
the length `max(data_end - data, ETH_ZLEN)`; for every buffer it carries the
page's DMA address plus `XDP_PACKET_HEADROOM`. -/
theorem rexmit_descriptor_payload (P : Params) (env : TxEnv) (xdp : xdp_buff) (ctrl : xctrl)
    (hret : (nfb_xctrl_rexmit_pp P env xdp ctrl).ret = 0)
    (hdata : xdp.data = xdp.data_hard_start + P.XDP_PACKET_HEADROOM)
    (hle : xdp.data ≤ xdp.data_end) (hlen : xdp.data_end - xdp.data < 2 ^ 32) :
    (∃ slot, (tx_desc_writes (nfb_xctrl_rexmit_pp P env xdp ctrl).trace).getLast? =
      some (slot, nc_ndp_tx_desc2 (tx_data_dma env xdp)
        (max (xdp.data_end - xdp.data) ETH_ZLEN) 0 0)) ∧
      tx_data_dma env xdp = (env.dma + P.XDP_PACKET_HEADROOM) % 2 ^ 64 := by
  obtain ⟨slot, hslot⟩ := rexmit_data_desc P env xdp ctrl hret
  have haddr : tx_data_dma env xdp = tx_dma P env := by
    simp only [tx_data_dma, tx_dma, hdata, Nat.add_sub_cancel_left]
  have hl : (rexmit_prologue ctrl xdp).1.len = max (xdp.data_end - xdp.data) ETH_ZLEN := by
    simp only [rexmit_prologue]
    congr 1
    have h64 : (2 : Nat) ^ 64 = 2 ^ 32 * 2 ^ 32 := by norm_num
    have : xdp.data_end + 2 ^ 64 - xdp.data = (xdp.data_end - xdp.data) + 2 ^ 32 * 2 ^ 32 := by
      rw [h64]
      omega
    rw [this, Nat.add_mul_mod_self_left, Nat.mod_eq_of_lt hlen]
  refine ⟨⟨slot, ?_⟩, haddr⟩
  rw [hslot, haddr, hl]

theorem rexmit_descriptor_payload_witness :
    (nfb_xctrl_rexmit_pp test_params (tx_env_far 0) buff_a tx8).ret = 0 ∧
      (∃ slot, (tx_desc_writes
          (nfb_xctrl_rexmit_pp test_params (tx_env_far 0) buff_a tx8).trace).getLast? =
        some (slot, nc_ndp_tx_desc2 (tx_data_dma (tx_env_far 0) buff_a)
          (max (buff_a.data_end - buff_a.data) ETH_ZLEN) 0 0)) ∧
      tx_data_dma (tx_env_far 0) buff_a = 0x40001100 :=
  ⟨by decide,
    (rexmit_descriptor_payload test_params (tx_env_far 0) buff_a tx8 (by decide) (by decide)
      (by decide) (by decide)).1,
    (rexmit_descriptor_payload test_params (tx_env_far 0) buff_a tx8 (by decide) (by decide)
      (by decide) (by decide)).2.trans (by decide)⟩

/-! ## Channel mode and teardown: claims -/

theorem test_bit_xsk_set_running (w : Nat) :
    test_bit NFB_STATUS_IS_XSK (set_bit NFB_STATUS_IS_RUNNING w) = test_bit NFB_STATUS_IS_XSK w := by
  have h : Nat.testBit (1 <<< 2) 1 = false := by decide
  show (w ||| (1 <<< 2)).testBit 1 = w.testBit 1
  rw [Nat.testBit_or, h, Bool.or_false]

theorem test_bit_xsk_clear_running (w : Nat) :
    test_bit NFB_STATUS_IS_XSK (clear_bit NFB_STATUS_IS_RUNNING w) =
      test_bit NFB_STATUS_IS_XSK w := by
  have h : Nat.testBit (1 <<< 2) 1 = false := by decide
  show (w &&& (w ^^^ (1 <<< 2))).testBit 1 = w.testBit 1
  rw [Nat.testBit_and, Nat.testBit_xor, h]
  cases w.testBit 1 <;> rfl

theorem alloc_modes_append (a b : List Event) :
    alloc_modes (a ++ b) = alloc_modes a ++ alloc_modes b := by
  induction a with
  | nil => rfl
  | cons e a ih => cases e <;> simp [alloc_modes, ih]

theorem destroy_modes_append (a b : List Event) :
    destroy_modes (a ++ b) = destroy_modes a ++ destroy_modes b := by
  induction a with
  | nil => rfl
  | cons e a ih => cases e <;> simp [destroy_modes, ih]

theorem channel_create_threads_modes (env : StartEnv) (w : World) :
    ∃ es, (channel_create_threads env w).2.log = w.log ++ es ∧
      alloc_modes es = [] ∧ destroy_modes es = [] := by
  unfold channel_create_threads
  simp only [World.emit]
  split_ifs <;>
    (apply Exists.intro
     refine ⟨?_, ?_⟩
     · simp only [List.append_assoc]; rfl
     · exact ⟨rfl, rfl⟩)

/-- Every controller a start allocates or destroys is handled by the routines
of the mode of the start function, and the status word is left as it was or
with the running flag set. -/
theorem channel_start_modes (m : Mode) (env : StartEnv) (w : World) :
    (∀ x ∈ alloc_modes (new_events w (channel_start m env w).2), x = m) ∧
      (∀ x ∈ destroy_modes (new_events w (channel_start m env w).2), x = m) ∧
      ((channel_start m env w).2.channel.status = w.channel.status ∨
        (channel_start m env w).2.channel.status =
          set_bit NFB_STATUS_IS_RUNNING w.channel.status) := by
  obtain ⟨ra, ta, rs, ts, rt, tt⟩ := env
  obtain ⟨ch, live, next, log⟩ := w
  unfold channel_start
  simp only [new_events]
  by_cases hrun : test_bit NFB_STATUS_IS_RUNNING ch.status = true
  · simp [hrun, new_events, alloc_modes, destroy_modes]
  simp only [hrun, if_false]
  cases ra
  · simp [xctrl_alloc, new_events, alloc_modes, destroy_modes]
  cases ta
  · simp [xctrl_alloc, xctrl_destroy, new_events, alloc_modes, destroy_modes]
  simp only [xctrl_alloc, if_true, World.emit]
  simp only [Nat.add_one_ne_zero, if_false]
  by_cases hrs : rs = 0
  swap
  · simp [hrs, xctrl_destroy, new_events, alloc_modes, destroy_modes]
  by_cases hts : ts = 0
  swap
  · simp [hrs, hts, xctrl_destroy, new_events, alloc_modes, destroy_modes]
  subst hrs hts
  by_cases hrt : IS_ERR rt = true
  · have hp := ptr_err_ne_zero rt hrt
    simp [channel_create_threads, World.emit, xctrl_destroy, hrt, hp, alloc_modes,
      destroy_modes]
  · by_cases htt : IS_ERR tt = true
    · have hp := ptr_err_ne_zero tt htt
      by_cases hx : test_bit NFB_STATUS_IS_XSK ch.status = true <;>
        by_cases hr0 : rt = 0 <;>
        simp [channel_create_threads, World.emit, xctrl_destroy, hrt, htt, hp, hx, hr0,
          alloc_modes, destroy_modes, (by decide : IS_ERR 0 = false)]
    · by_cases hx : test_bit NFB_STATUS_IS_XSK ch.status = true <;>
        simp [channel_create_threads, World.emit, xctrl_destroy, hrt, htt, hx,
          alloc_modes, destroy_modes]

/-- The controllers a stop on a running channel destroys, the routine it
destroys them with and the RX poller it disables are chosen by the XSK flag
of the status word. -/
theorem channel_stop_modes (w : World)
    (hrun : test_bit NFB_STATUS_IS_RUNNING w.channel.status = true) :
    destroy_modes (new_events w (channel_stop w).2) =
        [stop_mode w.channel.status, stop_mode w.channel.status] ∧
      destroyed (new_events w (channel_stop w).2) = [w.channel.rxq.ctrl, w.channel.txq.ctrl] ∧
      Event.napi_disable (rx_napi w.channel.status) ∈ new_events w (channel_stop w).2 ∧
      (channel_stop w).2.channel.status = clear_bit NFB_STATUS_IS_RUNNING w.channel.status := by
  obtain ⟨ch, live, next, log⟩ := w
  simp only at hrun
  by_cases hx : test_bit NFB_STATUS_IS_XSK ch.status = true <;>
    by_cases hr : ch.rxq.thread = 0 <;> by_cases ht : ch.txq.thread = 0 <;>
    simp [channel_stop, hrun, hx, hr, ht, World.emit, xctrl_destroy, new_events, rx_napi,
      stop_mode, destroy_modes, destroyed]

/-- C24 as stated fails: on a stopped channel whose XSK flag is set,
`channel_start_pp` succeeds and allocates both controllers with the page-pool
routine, and the following `channel_stop` destroys both with the zero-copy
routine and disables the zero-copy RX poller. -/
theorem start_pp_stop_destroys_xsk :
    test_bit NFB_STATUS_IS_XSK xsk_flagged_world.channel.status = true ∧
      test_bit NFB_STATUS_IS_RUNNING xsk_flagged_world.channel.status = false ∧
      (channel_start_pp ok_env xsk_flagged_world).1 = 0 ∧
      alloc_modes (new_events xsk_flagged_world (channel_start_pp ok_env xsk_flagged_world).2) =
        [Mode.pp, Mode.pp] ∧
      (channel_stop (channel_start_pp ok_env xsk_flagged_world).2).1 = 0 ∧
      destroy_modes (new_events (channel_start_pp ok_env xsk_flagged_world).2
        (channel_stop (channel_start_pp ok_env xsk_flagged_world).2).2) =
        [Mode.xsk, Mode.xsk] ∧
      Event.napi_disable Napi.rx_xsk ∈ new_events (channel_start_pp ok_env xsk_flagged_world).2
        (channel_stop (channel_start_pp ok_env xsk_flagged_world).2).2 := by
  decide

/-- C24, amended: on a stopped channel whose XSK flag is clear a start by
`channel_start_pp` whose steps all succeed allocates both controllers with
the page-pool routine, and the `channel_stop` that follows destroys exactly
these two with `nfb_xctrl_destroy_pp` and disables the page-pool RX poller;
with the XSK flag set the same holds for `channel_start_xsk`, the zero-copy
routines and the zero-copy RX poller.  For every status word and every
outcome, the controllers a start allocates or destroys (error paths included)
are handled by the routines of that start function's mode, and neither start
nor stop changes the XSK flag. -/
theorem teardown_matches_start (env : StartEnv) (w : World)
    (hstop : test_bit NFB_STATUS_IS_RUNNING w.channel.status = false)
    (hok : env.all_ok = true) :
    (test_bit NFB_STATUS_IS_XSK w.channel.status = false →
      (channel_start_pp env w).1 = 0 ∧
      alloc_modes (new_events w (channel_start_pp env w).2) = [Mode.pp, Mode.pp] ∧
      destroy_modes (new_events (channel_start_pp env w).2
        (channel_stop (channel_start_pp env w).2).2) = [Mode.pp, Mode.pp] ∧
      destroyed (new_events (channel_start_pp env w).2
        (channel_stop (channel_start_pp env w).2).2) =
        allocated (new_events w (channel_start_pp env w).2) ∧
      Event.napi_disable Napi.rx_pp ∈ new_events (channel_start_pp env w).2
        (channel_stop (channel_start_pp env w).2).2) ∧
    (test_bit NFB_STATUS_IS_XSK w.channel.status = true →
      (channel_start_xsk env w).1 = 0 ∧
      alloc_modes (new_events w (channel_start_xsk env w).2) = [Mode.xsk, Mode.xsk] ∧
      destroy_modes (new_events (channel_start_xsk env w).2
        (channel_stop (channel_start_xsk env w).2).2) = [Mode.xsk, Mode.xsk] ∧
      destroyed (new_events (channel_start_xsk env w).2
        (channel_stop (channel_start_xsk env w).2).2) =
        allocated (new_events w (channel_start_xsk env w).2) ∧
      Event.napi_disable Napi.rx_xsk ∈ new_events (channel_start_xsk env w).2
        (channel_stop (channel_start_xsk env w).2).2) ∧
    (∀ (m : Mode) (env1 : StartEnv) (w1 : World),
      (∀ x ∈ alloc_modes (new_events w1 (channel_start m env1 w1).2), x = m) ∧
      (∀ x ∈ destroy_modes (new_events w1 (channel_start m env1 w1).2), x = m) ∧
      test_bit NFB_STATUS_IS_XSK (channel_start m env1 w1).2.channel.status =
        test_bit NFB_STATUS_IS_XSK w1.channel.status) ∧
    (∀ w1 : World, test_bit NFB_STATUS_IS_XSK (channel_stop w1).2.channel.status =
      test_bit NFB_STATUS_IS_XSK w1.channel.status) := by
  have key : ∀ m : Mode,
      (channel_start m env w).1 = 0 ∧
      alloc_modes (new_events w (channel_start m env w).2) = [m, m] ∧
      destroy_modes (new_events (channel_start m env w).2
        (channel_stop (channel_start m env w).2).2) =
        [stop_mode w.channel.status, stop_mode w.channel.status] ∧
      destroyed (new_events (channel_start m env w).2
        (channel_stop (channel_start m env w).2).2) =
        allocated (new_events w (channel_start m env w).2) ∧
      Event.napi_disable (rx_napi w.channel.status) ∈ new_events (channel_start m env w).2
        (channel_stop (channel_start m env w).2).2 := by
    intro m
    obtain ⟨h1, h2, _, h4, h5⟩ := channel_start_all_ok m env w hstop hok
    obtain ⟨hev, _, _⟩ := channel_start_ok_events m env w hstop hok
    obtain ⟨_, _, hst⟩ := channel_start_modes m env w
    have hstatus : (channel_start m env w).2.channel.status =
        set_bit NFB_STATUS_IS_RUNNING w.channel.status := by
      rcases hst with h | h
      · exfalso
        have hr : test_bit NFB_STATUS_IS_RUNNING (channel_start m env w).2.channel.status =
            true := h2
        rw [h, hstop] at hr
        cases hr
      · exact h
    obtain ⟨s1, s2, s3, _⟩ := channel_stop_modes (channel_start m env w).2 h2
    have hxs : stop_mode (channel_start m env w).2.channel.status =
        stop_mode w.channel.status := by
      simp only [stop_mode, hstatus, test_bit_xsk_set_running]
    have hxn : rx_napi (channel_start m env w).2.channel.status =
        rx_napi w.channel.status := by
      simp only [rx_napi, hstatus, test_bit_xsk_set_running]
    rw [hxs] at s1
    rw [hxn] at s3
    refine ⟨h1, ?_, s1, ?_, s3⟩
    · rw [hev]
      simp only [start_ok_events, alloc_modes_append]
      split_ifs <;> rfl
    · rw [s2, h4, h5, hev]
      simp only [start_ok_events, allocated_append]
      split_ifs <;> rfl
  refine ⟨?_, ?_, ?_, ?_⟩
  · intro hx
    have := key Mode.pp
    simpa only [stop_mode, rx_napi, hx, Bool.not_false, if_true] using this
  · intro hx
    have := key Mode.xsk
    simpa only [stop_mode, rx_napi, hx, Bool.not_true, Bool.false_eq_true, if_false] using this
  · intro m env1 w1
    obtain ⟨a, d, hst⟩ := channel_start_modes m env1 w1
    refine ⟨a, d, ?_⟩
    rcases hst with h | h
    · rw [h]
    · rw [h, test_bit_xsk_set_running]
  · intro w1
    by_cases hrun : test_bit NFB_STATUS_IS_RUNNING w1.channel.status = true
    · obtain ⟨_, _, _, hs⟩ := channel_stop_modes w1 hrun
      rw [hs, test_bit_xsk_clear_running]
    · have hstop1 : w1.running = false := by simpa [World.running] using hrun
      rw [channel_stop_stopped_noop w1 hstop1]

theorem teardown_matches_start_witness :
    test_bit NFB_STATUS_IS_XSK stopped_world.channel.status = false ∧
      destroy_modes (new_events (channel_start_pp ok_env stopped_world).2
        (channel_stop (channel_start_pp ok_env stopped_world).2).2) = [Mode.pp, Mode.pp] ∧
      destroy_modes (new_events (channel_start_xsk ok_env xsk_flagged_world).2
        (channel_stop (channel_start_xsk ok_env xsk_flagged_world).2).2) =
        [Mode.xsk, Mode.xsk] :=
  ⟨by decide,
    ((teardown_matches_start ok_env stopped_world (by decide) (by decide)).1 (by decide)).2.2.1,
    ((teardown_matches_start ok_env xsk_flagged_world (by decide) (by decide)).2.1
      (by decide)).2.2.1⟩

/-! ## Receive: the refill loop and the NAPI poll, claims -/

/-- One fill call on rings of `2^kd` descriptors and `2^kh` headers: the free
header slots never grow, they shrink when the call returns non-zero, and the
masks and `shp` stay as they were. -/
theorem fill_step_free_hdrs (P : Params) (env : FillEnv) (ctrl : xctrl) (kd kh : Nat)
    (hkd : kd ≤ 32) (hkh : kh ≤ 32)
    (hmd : ctrl.c.mdp + 1 = 2 ^ kd) (hmh : ctrl.c.mhp + 1 = 2 ^ kh)
    (hB : P.NFB_XDP_CTRL_PACKET_BURST < 2 ^ 31) :
    free_hdr_slots (nfb_xctrl_rx_fill_pp P env ctrl).ctrl ≤ free_hdr_slots ctrl ∧
      ((nfb_xctrl_rx_fill_pp P env ctrl).ret ≠ 0 →
        free_hdr_slots (nfb_xctrl_rx_fill_pp P env ctrl).ctrl < free_hdr_slots ctrl) ∧
      (nfb_xctrl_rx_fill_pp P env ctrl).ctrl.c.mdp = ctrl.c.mdp ∧
      (nfb_xctrl_rx_fill_pp P env ctrl).ctrl.c.mhp = ctrl.c.mhp ∧
      (nfb_xctrl_rx_fill_pp P env ctrl).ctrl.c.shp = ctrl.c.shp := by
  have hw := within_ring_step P (RingOp.fill env) ctrl kd kh hkd hkh hmd hmh
  simp only [RingOp.within_ring] at hw
  obtain ⟨_, hle, _, hfree⟩ := hw
  obtain ⟨hret, _⟩ := fill_pp_ret P env ctrl kd kh hkd hkh hmd hmh hB
  obtain ⟨_, _, _, _, _, _, _, hshp, _, hmdp, hmhp, _⟩ :=
    fill_pp_facts P env ctrl kd kh hkd hkh hmd hmh
  refine ⟨by omega, ?_, hmdp, hmhp, hshp⟩
  intro hne
  rw [hret] at hne
  have : (pages_attached (nfb_xctrl_rx_fill_pp P env ctrl).trace).length ≠ 0 := by
    intro h0
    apply hne
    rw [h0]
    rfl
  omega

/-- The refill loop entered at call `k` ends within `free_hdr_slots + 1`
calls when it is given at least that much fuel. -/
theorem rx_refill_terminates (P : Params) (fills : Nat → FillEnv) (kd kh : Nat)
    (hkd : kd ≤ 32) (hkh : kh ≤ 32) (hB : P.NFB_XDP_CTRL_PACKET_BURST < 2 ^ 31) (fuel : Nat) :
    ∀ (k : Nat) (ctrl : xctrl), ctrl.c.mdp + 1 = 2 ^ kd → ctrl.c.mhp + 1 = 2 ^ kh →
      free_hdr_slots ctrl < fuel →
      ∃ n c tr, rx_refill P fills fuel k ctrl = some (n, c, tr) ∧
        k < n ∧ n ≤ k + free_hdr_slots ctrl + 1 ∧
        c.c.shp = ctrl.c.shp ∧ c.c.mhp = ctrl.c.mhp ∧ c.c.mdp = ctrl.c.mdp ∧
        free_hdr_slots c ≤ free_hdr_slots ctrl := by
  induction fuel with
  | zero =>
    intro k ctrl _ _ h
    omega
  | succ fuel ih =>
    intro k ctrl hmd hmh hfuel
    obtain ⟨hle, hlt, hmdp, hmhp, hshp⟩ :=
      fill_step_free_hdrs P (fills k) ctrl kd kh hkd hkh hmd hmh hB
    by_cases hret : (nfb_xctrl_rx_fill_pp P (fills k) ctrl).ret = 0
    · refine ⟨k + 1, (nfb_xctrl_rx_fill_pp P (fills k) ctrl).ctrl,
        (nfb_xctrl_rx_fill_pp P (fills k) ctrl).trace, ?_, by omega, by omega, hshp, hmhp,
        hmdp, hle⟩
      simp only [rx_refill, hret, ne_eq, not_true_eq_false, if_false]
    · have hdec := hlt hret
      obtain ⟨n, c, tr, heq, h1, h2, h3, h4, h5, h6⟩ :=
        ih (k + 1) (nfb_xctrl_rx_fill_pp P (fills k) ctrl).ctrl (by rw [hmdp]; exact hmd)
          (by rw [hmhp]; exact hmh) (by omega)
      refine ⟨n, c, (nfb_xctrl_rx_fill_pp P (fills k) ctrl).trace ++ tr, ?_, by omega,
        by omega, by rw [h3, hshp], by rw [h4, hmhp], by rw [h5, hmdp], by omega⟩
      simp only [rx_refill, hret, ne_eq, not_false_eq_true, if_true, heq, Option.map_some']

/-- C22: on rings of `2^kd` descriptors and `2^kh` headers and with a batch
size below `2^31`, the loop `while (nfb_xctrl_rx_fill_pp(ctrl));` ends for
every controller state, every sequence of hardware cursor values and every
behaviour of the page pool: given fuel above the free header slots
`(shp - php - 1) & mhp`, it returns after at most that many calls plus one,
hence after at most as many calls as the header ring has slots, with `shp`
untouched.  Every fill call leaves the free header slots no larger than they
were, and strictly smaller when it returns non-zero. -/
theorem rx_refill_bounded (P : Params) (fills : Nat → FillEnv) (ctrl : xctrl) (kd kh : Nat)
    (hkd : kd ≤ 32) (hkh : kh ≤ 32)
    (hmd : ctrl.c.mdp + 1 = 2 ^ kd) (hmh : ctrl.c.mhp + 1 = 2 ^ kh)
    (hB : P.NFB_XDP_CTRL_PACKET_BURST < 2 ^ 31) :
    (∀ fuel, free_hdr_slots ctrl < fuel →
      ∃ n c tr, rx_refill P fills fuel 0 ctrl = some (n, c, tr) ∧
        1 ≤ n ∧ n ≤ free_hdr_slots ctrl + 1 ∧ n ≤ 2 ^ kh ∧
        c.c.shp = ctrl.c.shp ∧ free_hdr_slots c ≤ free_hdr_slots ctrl) ∧
      (∀ env : FillEnv,
        free_hdr_slots (nfb_xctrl_rx_fill_pp P env ctrl).ctrl ≤ free_hdr_slots ctrl ∧
        ((nfb_xctrl_rx_fill_pp P env ctrl).ret ≠ 0 →
          free_hdr_slots (nfb_xctrl_rx_fill_pp P env ctrl).ctrl < free_hdr_slots ctrl)) := by
  refine ⟨?_, ?_⟩
  · intro fuel hfuel
    obtain ⟨n, c, tr, heq, h1, h2, h3, _, _, h6⟩ :=
      rx_refill_terminates P fills kd kh hkd hkh hB fuel 0 ctrl hmd hmh hfuel
    have hmask : free_hdr_slots ctrl ≤ ctrl.c.mhp := Nat.and_le_right
    exact ⟨n, c, tr, heq, by omega, by omega, by omega, h3, h6⟩
  · intro env
    obtain ⟨hle, hlt, _⟩ := fill_step_free_hdrs P env ctrl kd kh hkd hkh hmd hmh hB
    exact ⟨hle, hlt⟩

theorem rx_refill_bounded_witness :
    free_hdr_slots ring8 = 7 ∧
      (∃ n c tr, rx_refill test_params (fun _ => list_env 0 test_pages) 8 0 ring8 =
        some (n, c, tr) ∧ 1 ≤ n ∧ n ≤ free_hdr_slots ring8 + 1 ∧ n ≤ 2 ^ 3 ∧
        c.c.shp = ring8.c.shp ∧ free_hdr_slots c ≤ free_hdr_slots ring8) ∧
      free_hdr_slots (nfb_xctrl_rx_fill_pp test_params (list_env 0 test_pages) ring8).ctrl = 3 :=
  ⟨by decide,
    (rx_refill_bounded test_params (fun _ => list_env 0 test_pages) ring8 3 3 (by decide)
      (by decide) (by decide) (by decide) (by decide)).1 8 (by decide),
    by decide⟩

theorem map_getD_range (l : List Nat) (d : Nat) :
    (List.range' 0 l.length).map (fun j => l.getD j d) = l := by
  apply List.ext_getElem
  · simp
  · intro i h1 h2
    simp [List.getD_eq_getElem?_getD, List.getElem?_eq_getElem h2]

theorem handle_calls_append (a b : List PollEvent) :
    handle_calls (a ++ b) = handle_calls a ++ handle_calls b := by
  simp [handle_calls]

theorem napi_completions_append (a b : List PollEvent) :
    napi_completions (a ++ b) = napi_completions a ++ napi_completions b := by
  simp [napi_completions]

theorem handle_calls_map_handle (l : List HandleEvent) :
    handle_calls (l.map PollEvent.handle) = [] := by
  induction l with
  | nil => rfl
  | cons a l ih =>
    simp only [List.map_cons, handle_calls, List.filterMap_cons] at ih ⊢
    exact ih

theorem napi_completions_map_handle (l : List HandleEvent) :
    napi_completions (l.map PollEvent.handle) = [] := by
  induction l with
  | nil => rfl
  | cons a l ih =>
    simp only [List.map_cons, napi_completions, List.filterMap_cons] at ih ⊢
    exact ih

theorem handle_calls_map_fill (l : List FillEvent) :
    handle_calls (l.map PollEvent.fill) = [] := by
  induction l with
  | nil => rfl
  | cons a l ih =>
    simp only [List.map_cons, handle_calls, List.filterMap_cons] at ih ⊢
    exact ih

theorem napi_completions_map_fill (l : List FillEvent) :
    napi_completions (l.map PollEvent.fill) = [] := by
  induction l with
  | nil => rfl
  | cons a l ih =>
    simp only [List.map_cons, napi_completions, List.filterMap_cons] at ih ⊢
    exact ih

/-- The handler loop calls the handler once per index, in index order, and
completes nothing. -/
theorem handle_loop_calls (P : Params) (env : PollEnv) (rx : xctrl) (buffs : List Nat)
    (n : Nat) : ∀ (i : Nat) (tx : xctrl),
      handle_calls (handle_loop P env rx buffs n i tx).2 =
        (List.range' i n).map (fun j => (j, buffs.getD j 0)) ∧
      napi_completions (handle_loop P env rx buffs n i tx).2 = [] := by
  induction n with
  | zero =>
    intro i tx
    exact ⟨rfl, rfl⟩
  | succ n ih =>
    intro i tx
    obtain ⟨h1, h2⟩ := ih (i + 1)
      (nfb_xctrl_handle_pp P (env.handle i) env.index (rx.xdp_ring (buffs.getD i 0)) tx).1
    simp only [handle_loop, List.range'_succ, List.map_cons]
    constructor
    · have : ∀ (e : PollEvent) (l : List PollEvent), handle_calls (e :: l) =
          handle_calls [e] ++ handle_calls l := fun e l => handle_calls_append [e] l
      rw [this, handle_calls_append, handle_calls_map_handle, h1]
      rfl
    · have : ∀ (e : PollEvent) (l : List PollEvent), napi_completions (e :: l) =
          napi_completions [e] ++ napi_completions l :=
        fun e l => napi_completions_append [e] l
      rw [this, napi_completions_append, napi_completions_map_handle, h2]
      rfl

/-- The receive function in terms of the refill loop: when the loop returns,
so does the function, with at most `nb_pkts` buffers, as many as it counts. -/
theorem rx_pp_returns (P : Params) (fills : Nat → FillEnv) (hhp_hw nb_pkts : Nat) (ctrl : xctrl)
    (kh : Nat) (hkh : kh ≤ 32) (hmh : ctrl.c.mhp + 1 = 2 ^ kh) (fuel : Nat)
    (n : Nat) (c : xctrl) (tr : List FillEvent)
    (heq : rx_refill P fills fuel 0 ctrl = some (n, c, tr)) :
    ∃ r, nfb_xctrl_rx_pp P fills hhp_hw nb_pkts ctrl fuel = some (r, tr) ∧
      r.nb_rx ≤ nb_pkts ∧ r.buffs.length = r.nb_rx := by
  simp only [nfb_xctrl_rx_pp, heq]
  refine ⟨_, rfl, ?_, ?_⟩
  · simp only
    split_ifs with h
    · exact Nat.le_refl _
    · omega
  · exact (rx_loop_facts _ ctrl.c.mhp kh hmh hkh _ _ _).1

/-- C21: for every budget from 0 to `NAPI_POLL_WEIGHT`, on rings of `2^kd`
descriptors and `2^kh` headers, `nfb_xctrl_napi_poll_pp` returns (given fuel
above the free header slots for its refill loop); it calls the verdict
handler once for each index below the number received, on the buffers the
receive function stored, in that order; it returns the number received, which
does not exceed the budget; when that number equals the budget it returns
without completing NAPI, and otherwise it completes NAPI once, with the
number received, as its last effect. -/
theorem napi_poll_handles_in_order (P : Params) (env : PollEnv) (budget : Int)
    (rx tx : xctrl) (kd kh : Nat) (hkd : kd ≤ 32) (hkh : kh ≤ 32)
    (hmd : rx.c.mdp + 1 = 2 ^ kd) (hmh : rx.c.mhp + 1 = 2 ^ kh)
    (hB : P.NFB_XDP_CTRL_PACKET_BURST < 2 ^ 31)
    (hb0 : 0 ≤ budget) (hbw : budget ≤ (NAPI_POLL_WEIGHT : Int))
    (fuel : Nat) (hfuel : free_hdr_slots rx < fuel) :
    ∃ r ftr res,
      nfb_xctrl_rx_pp P env.fills env.hhp budget.toNat rx fuel = some (r, ftr) ∧
      nfb_xctrl_napi_poll_pp P env budget rx tx fuel = some (PollOutcome.returned res) ∧
      (handle_calls res.trace).map Prod.snd = r.buffs ∧
      (handle_calls res.trace).map Prod.fst = List.range' 0 r.nb_rx ∧
      r.buffs.length = r.nb_rx ∧
      res.ret = (r.nb_rx : Int) ∧ res.ret ≤ budget ∧
      ((r.nb_rx : Int) = budget → napi_completions res.trace = []) ∧
      ((r.nb_rx : Int) ≠ budget →
        napi_completions res.trace = [(r.nb_rx : Int)] ∧
        res.trace.getLast? = some (PollEvent.napi_complete_done (r.nb_rx : Int))) := by
  obtain ⟨n, c, tr, heq, _⟩ :=
    rx_refill_terminates P env.fills kd kh hkd hkh hB fuel 0 rx hmd hmh hfuel
  obtain ⟨r, hr, hle, hlen⟩ :=
    rx_pp_returns P env.fills env.hhp budget.toNat rx kh hkh hmh fuel n c tr heq
  have hW : (NAPI_POLL_WEIGHT : Int) = 64 := rfl
  rw [hW] at hbw
  have hconv : (budget % 2 ^ 16).toNat = budget.toNat := by
    have : budget % 2 ^ 16 = budget := Int.emod_eq_of_lt hb0 (by norm_num; omega)
    rw [this]
  have hnot : ¬ budget > (NAPI_POLL_WEIGHT : Int) := by
    rw [hW]
    omega
  have hrle : (r.nb_rx : Int) ≤ budget := by omega
  have hsmall : r.nb_rx < 2 ^ 31 := by
    have : r.nb_rx ≤ 64 := by omega
    exact lt_of_le_of_lt this (by norm_num)
  have hint : int_of_u32 r.nb_rx = (r.nb_rx : Int) := int_of_u32_small r.nb_rx hsmall
  have hcmp : ((r.nb_rx : Int) % 2 ^ 32 = budget % 2 ^ 32) ↔ (r.nb_rx : Int) = budget := by
    have h1 : (r.nb_rx : Int) % 2 ^ 32 = (r.nb_rx : Int) :=
      Int.emod_eq_of_lt (by omega) (by norm_num; omega)
    have h2 : budget % 2 ^ 32 = budget := Int.emod_eq_of_lt hb0 (by norm_num; omega)
    rw [h1, h2]
  obtain ⟨hc1, hc2⟩ := handle_loop_calls P env r.ctrl r.buffs r.nb_rx 0 tx
  have hcalls : ∀ post : List PollEvent, handle_calls post = [] →
      handle_calls (tr.map PollEvent.fill ++ [PollEvent.sdp_flush] ++
        (handle_loop P env r.ctrl r.buffs r.nb_rx 0 tx).2 ++
        [PollEvent.sp_flush, PollEvent.xdp_do_flush] ++ post) =
        (List.range' 0 r.nb_rx).map (fun j => (j, r.buffs.getD j 0)) := by
    intro post hpost
    simp only [handle_calls_append, handle_calls_map_fill, hc1, hpost]
    simp [handle_calls]
  have hcomp : ∀ post : List PollEvent,
      napi_completions (tr.map PollEvent.fill ++ [PollEvent.sdp_flush] ++
        (handle_loop P env r.ctrl r.buffs r.nb_rx 0 tx).2 ++
        [PollEvent.sp_flush, PollEvent.xdp_do_flush] ++ post) = napi_completions post := by
    intro post
    simp only [napi_completions_append, napi_completions_map_fill, hc2]
    simp [napi_completions]
  have hsnd : ((List.range' 0 r.nb_rx).map (fun j => (j, r.buffs.getD j 0))).map Prod.snd =
      r.buffs := by
    rw [List.map_map, ← hlen]
    exact map_getD_range r.buffs 0
  have hfst : ((List.range' 0 r.nb_rx).map (fun j => (j, r.buffs.getD j 0))).map Prod.fst =
      List.range' 0 r.nb_rx := by
    rw [List.map_map]
    exact List.map_id _
  by_cases hbud : (r.nb_rx : Int) = budget
  · refine ⟨r, tr, PollResult.mk budget r.ctrl (handle_loop P env r.ctrl r.buffs r.nb_rx 0 tx).1
        (tr.map PollEvent.fill ++ [PollEvent.sdp_flush] ++
          (handle_loop P env r.ctrl r.buffs r.nb_rx 0 tx).2 ++
          [PollEvent.sp_flush, PollEvent.xdp_do_flush]), hr, ?_, ?_, ?_, hlen, hbud.symm,
      le_refl _, ?_, ?_⟩
    · simp only [nfb_xctrl_napi_poll_pp, hnot, if_false, hconv, hr, hcmp.2 hbud, if_true]
    · have := hcalls [] rfl
      simp only [List.append_nil] at this
      simp only [this, hsnd]
    · have := hcalls [] rfl
      simp only [List.append_nil] at this
      simp only [this, hfst]
    · intro _
      have := hcomp []
      simp only [List.append_nil] at this
      simp only [this]
      rfl
    · intro h
      exact absurd hbud h
  · have hncmp : ¬ (r.nb_rx : Int) % 2 ^ 32 = budget % 2 ^ 32 := fun h => hbud (hcmp.1 h)
    refine ⟨r, tr, PollResult.mk (int_of_u32 r.nb_rx) r.ctrl
        (handle_loop P env r.ctrl r.buffs r.nb_rx 0 tx).1
        (tr.map PollEvent.fill ++ [PollEvent.sdp_flush] ++
          (handle_loop P env r.ctrl r.buffs r.nb_rx 0 tx).2 ++
          [PollEvent.sp_flush, PollEvent.xdp_do_flush] ++
          [PollEvent.napi_complete_done (int_of_u32 r.nb_rx)]), hr, ?_, ?_, ?_, hlen, hint,
      (by rw [hint]; exact hrle), ?_, ?_⟩
    · simp only [nfb_xctrl_napi_poll_pp, hnot, if_false, hconv, hr, hncmp]
    · rw [hcalls [PollEvent.napi_complete_done (int_of_u32 r.nb_rx)] rfl, hsnd]
    · rw [hcalls [PollEvent.napi_complete_done (int_of_u32 r.nb_rx)] rfl, hfst]
    · intro h
      exact absurd h hbud
    · intro _
      refine ⟨?_, ?_⟩
      · simp only [hcomp, hint]
        rfl
      · simp only [hint]
        rw [List.getLast?_append_of_ne_nil _ (by simp)]
        rfl

theorem napi_poll_handles_in_order_witness :
    poll_summary (nfb_xctrl_napi_poll_pp test_params (poll_env 2) 10 ring8_filled tx8 9) =
        some (2,
          [PollEvent.fill (FillEvent.page_alloc none), PollEvent.sdp_flush,
            PollEvent.handle_call 0 0,
            PollEvent.handle (HandleEvent.skb_build 0 true),
            PollEvent.handle (HandleEvent.netif_receive_skb 0 5),
            PollEvent.handle_call 1 1,
            PollEvent.handle (HandleEvent.skb_build 4096 true),
            PollEvent.handle (HandleEvent.netif_receive_skb 4096 5),
            PollEvent.sp_flush, PollEvent.xdp_do_flush, PollEvent.napi_complete_done 2]) ∧
      ∃ r ftr res,
        nfb_xctrl_rx_pp test_params (poll_env 2).fills (poll_env 2).hhp (10 : Int).toNat
          ring8_filled 9 = some (r, ftr) ∧
        nfb_xctrl_napi_poll_pp test_params (poll_env 2) 10 ring8_filled tx8 9 =
          some (PollOutcome.returned res) ∧
        (handle_calls res.trace).map Prod.snd = r.buffs ∧
        (handle_calls res.trace).map Prod.fst = List.range' 0 r.nb_rx ∧
        r.buffs.length = r.nb_rx ∧
        res.ret = (r.nb_rx : Int) ∧ res.ret ≤ 10 ∧
        ((r.nb_rx : Int) = 10 → napi_completions res.trace = []) ∧
        ((r.nb_rx : Int) ≠ 10 →
          napi_completions res.trace = [(r.nb_rx : Int)] ∧
          res.trace.getLast? = some (PollEvent.napi_complete_done (r.nb_rx : Int))) :=
  ⟨by decide,
    napi_poll_handles_in_order test_params (poll_env 2) 10 ring8_filled tx8 3 3 (by decide)
      (by decide) (by decide) (by decide) (by decide) (by decide) (by decide) 9 (by decide)⟩

/-! ## Queue mapping of the ndp tool: claims -/

theorem eth_qid_loop_none (cap : Nat) (nfb_qid : Int) (e : ethdev) (n q : Nat) :
    eth_qid_loop cap nfb_qid e n q none = none := by
  induction n generalizing q with
  | zero => rfl
  | succ n ih =>
    simp only [eth_qid_loop, store_entry]
    split_ifs <;> exact ih _

/-- The innermost loop stores the matching queue indexes in order, as long as
they fit into the array. -/
theorem eth_qid_loop_eq (cap : Nat) (nfb_qid : Int) (e : ethdev) (n : Nat) :
    ∀ (q : Nat) (arr : List xsk_data),
      arr.length + (((List.range' q n).filter fun (eth_qid : Nat) =>
        decide (nfb_qid = (eth_qid : Int) + e.channel_offset)).map fun (eth_qid : Nat) =>
          ({ eth_qid := (eth_qid : Int), nfb_qid := nfb_qid, ifname := e.ifname } :
            xsk_data)).length ≤ cap →
      eth_qid_loop cap nfb_qid e n q (some arr) =
        some (arr ++ ((List.range' q n).filter fun (eth_qid : Nat) =>
          decide (nfb_qid = (eth_qid : Int) + e.channel_offset)).map fun (eth_qid : Nat) =>
            ({ eth_qid := (eth_qid : Int), nfb_qid := nfb_qid, ifname := e.ifname } :
              xsk_data)) := by
  induction n with
  | zero =>
    intro q arr _
    simp [eth_qid_loop]
  | succ n ih =>
    intro q arr hlen
    by_cases hm : nfb_qid = (q : Int) + e.channel_offset
    · have hd : decide (nfb_qid = (q : Int) + e.channel_offset) = true := by simp [hm]
      simp only [List.range'_succ, List.filter_cons, hd, if_true, List.map_cons,
        List.length_cons] at hlen ⊢
      have hlt : arr.length < cap := by omega
      simp only [eth_qid_loop, store_entry, if_pos hm, if_pos hlt]
      rw [ih (q + 1) _ (by rw [List.length_append, List.length_singleton]; omega)]
      simp
    · have hd : decide (nfb_qid = (q : Int) + e.channel_offset) = false := by simp [hm]
      simp only [List.range'_succ, List.filter_cons, hd, Bool.false_eq_true, if_false]
        at hlen ⊢
      simp only [eth_qid_loop, if_neg hm]
      exact ih (q + 1) arr hlen

/-- The elements the loops over the ethdevs from index `i` on store for one
queue id. -/
theorem eth_idx_loop_eq (cap : Nat) (cfg : SysfsConfig) (nfb_qid : Int) (n : Nat) :
    ∀ (i : Nat) (arr : List xsk_data),
      arr.length + ((List.range' i n).flatMap fun (eth_idx : Nat) =>
        ((List.range' 0 (cfg.eths eth_idx).channel_count.toNat).filter fun (eth_qid : Nat) =>
            decide (nfb_qid = (eth_qid : Int) + (cfg.eths eth_idx).channel_offset)).map
          fun (eth_qid : Nat) =>
            ({ eth_qid := (eth_qid : Int), nfb_qid := nfb_qid,
               ifname := (cfg.eths eth_idx).ifname } : xsk_data)).length ≤ cap →
      eth_idx_loop cap cfg nfb_qid n i (some arr) =
        some (arr ++ (List.range' i n).flatMap fun (eth_idx : Nat) =>
          ((List.range' 0 (cfg.eths eth_idx).channel_count.toNat).filter fun (eth_qid : Nat) =>
              decide (nfb_qid = (eth_qid : Int) + (cfg.eths eth_idx).channel_offset)).map
            fun (eth_qid : Nat) =>
              ({ eth_qid := (eth_qid : Int), nfb_qid := nfb_qid,
                 ifname := (cfg.eths eth_idx).ifname } : xsk_data)) := by
  induction n with
  | zero =>
    intro i arr _
    simp [eth_idx_loop]
  | succ n ih =>
    intro i arr hlen
    simp only [List.range'_succ, List.flatMap_cons, List.length_append] at hlen ⊢
    simp only [eth_idx_loop]
    rw [eth_qid_loop_eq cap nfb_qid (cfg.eths i) _ 0 arr (by omega),
      ih (i + 1) _ (by simp only [List.length_append]; omega), List.append_assoc]

theorem owners_eq_range' (cfg : SysfsConfig) (nfb_qid : Int) :
    owners cfg nfb_qid =
      (List.range' 0 cfg.ethdev_count.toNat).flatMap fun (eth_idx : Nat) =>
        ((List.range' 0 (cfg.eths eth_idx).channel_count.toNat).filter fun (eth_qid : Nat) =>
            decide (nfb_qid = (eth_qid : Int) + (cfg.eths eth_idx).channel_offset)).map
          fun (eth_qid : Nat) =>
            ({ eth_qid := (eth_qid : Int), nfb_qid := nfb_qid,
               ifname := (cfg.eths eth_idx).ifname } : xsk_data) := by
  simp only [owners, List.range_eq_range']

theorem mem_owners (cfg : SysfsConfig) (nfb_qid : Int) (e : xsk_data) :
    e ∈ owners cfg nfb_qid ↔
      ∃ i k : Nat, i < cfg.ethdev_count.toNat ∧ k < (cfg.eths i).channel_count.toNat ∧
        nfb_qid = (k : Int) + (cfg.eths i).channel_offset ∧
        e = { eth_qid := (k : Int), nfb_qid := nfb_qid, ifname := (cfg.eths i).ifname } := by
  simp only [owners, List.mem_flatMap, List.mem_range, List.mem_map, List.mem_filter,
    decide_eq_true_eq]
  constructor
  · rintro ⟨i, hi, k, ⟨hk, hm⟩, rfl⟩
    exact ⟨i, k, hi, hk, hm, rfl⟩
  · rintro ⟨i, k, hi, hk, hm, rfl⟩
    exact ⟨i, hi, k, ⟨hk, hm⟩, rfl⟩

theorem length_le_one_of_all_eq {α : Type} (l : List α) (hn : l.Nodup)
    (h : ∀ a ∈ l, ∀ b ∈ l, a = b) : l.length ≤ 1 := by
  match l, hn, h with
  | [], _, _ => simp
  | [_], _, _ => simp
  | a :: b :: rest, hn, h =>
    exfalso
    have hab : a = b := h a (by simp) b (by simp)
    rw [hab] at hn
    simp at hn

/-- When no queue id belongs to two ethdevs, the inner loops find at most one
owner for a queue id. -/
theorem owners_length_le_one (cfg : SysfsConfig) (hdis : cfg.disjoint) (nfb_qid : Int) :
    (owners cfg nfb_qid).length ≤ 1 := by
  have hmap : owners cfg nfb_qid =
      ((List.range cfg.ethdev_count.toNat).flatMap fun (i : Nat) =>
        ((List.range (cfg.eths i).channel_count.toNat).filter fun (k : Nat) =>
          decide (nfb_qid = (k : Int) + (cfg.eths i).channel_offset)).map fun (k : Nat) => (i, k)).map
        fun (p : Nat × Nat) =>
          ({ eth_qid := (p.2 : Int), nfb_qid := nfb_qid, ifname := (cfg.eths p.1).ifname } :
            xsk_data) := by
    simp only [owners, List.map_flatMap, List.map_map]
    rfl
  rw [hmap, List.length_map]
  apply length_le_one_of_all_eq
  · rw [List.nodup_flatMap]
    refine ⟨?_, ?_⟩
    · intro i _
      refine List.Nodup.map ?_ ((List.nodup_range _).filter _)
      intro a b hab
      exact (Prod.mk.inj hab).2
    · refine List.Pairwise.imp ?_ (List.nodup_range _)
      intro i j hij
      simp only [Function.onFun, List.disjoint_left, List.mem_map, List.mem_filter]
      rintro p ⟨k, _, rfl⟩ ⟨k2, _, hp⟩
      exact hij (Prod.mk.inj hp).1.symm
  · intro a ha b hb
    simp only [List.mem_flatMap, List.mem_range, List.mem_map, List.mem_filter,
      decide_eq_true_eq] at ha hb
    obtain ⟨i, hi, k, ⟨hk, hm⟩, rfl⟩ := ha
    obtain ⟨j, hj, k2, ⟨hk2, hm2⟩, rfl⟩ := hb
    have hij : i = j := hdis i hi j hj k hk k2 hk2 (by rw [← hm, ← hm2])
    subst hij
    have : k = k2 := by omega
    rw [this]

theorem take_append_fit {α : Type} (a b : List α) (k : Nat) (h : a.length ≤ k) :
    (a ++ b).take k = a ++ b.take (k - a.length) := by
  rw [List.take_append_eq_append_take, List.take_of_length_le h]

/-- The outer loop, when every queue id has at most one owner: it stores the
owners of the selected queue ids in ascending order until the array is full. -/
theorem nfb_qid_loop_eq (cap : Nat) (cfg : SysfsConfig) (contains : Int → Bool)
    (hone : ∀ q : Int, (owners cfg q).length ≤ 1) (n : Nat) :
    ∀ (q : Nat) (arr : List xsk_data), arr.length ≤ cap →
      nfb_qid_loop cap cfg contains n q (some arr) =
        some (arr ++ ((List.range' q n).flatMap fun (x : Nat) =>
          if contains (x : Int) then owners cfg (x : Int) else []).take (cap - arr.length)) := by
  induction n with
  | zero =>
    intro q arr _
    simp [nfb_qid_loop]
  | succ n ih =>
    intro q arr hle
    by_cases hlt : arr.length < cap
    · simp only [nfb_qid_loop, hlt, if_true, List.range'_succ, List.flatMap_cons]
      by_cases hc : contains (q : Int) = true
      · have h1 := hone (q : Int)
        have hfit : arr.length + (owners cfg (q : Int)).length ≤ cap := by omega
        have hfit2 := hfit
        rw [owners_eq_range'] at hfit2
        have hle2 : (arr ++ owners cfg (q : Int)).length ≤ cap := by
          rw [List.length_append]; exact hfit
        simp only [hc, Bool.not_true, Bool.false_eq_true, if_false, if_true]
        rw [eth_idx_loop_eq cap cfg (q : Int) _ 0 arr hfit2, ← owners_eq_range',
          ih (q + 1) (arr ++ owners cfg (q : Int)) hle2, List.append_assoc,
          take_append_fit _ _ _ (by omega : (owners cfg (q : Int)).length ≤ cap - arr.length),
          List.length_append, Nat.sub_add_eq]
      · have hcf : contains (q : Int) = false := by simpa using hc
        simp only [hcf, Bool.not_false, if_true, Bool.false_eq_true, if_false, List.nil_append]
        exact ih (q + 1) arr hle
    · have : cap - arr.length = 0 := by omega
      simp only [nfb_qid_loop, hlt, if_false, this, List.take_zero, List.append_nil]

theorem mem_selected_owners (cfg : SysfsConfig) (contains : Int → Bool) (e : xsk_data) :
    e ∈ selected_owners cfg contains ↔
      ∃ q i k : Nat, q < cfg.channel_total.toNat ∧ contains (q : Int) = true ∧
        i < cfg.ethdev_count.toNat ∧ k < (cfg.eths i).channel_count.toNat ∧
        (q : Int) = (k : Int) + (cfg.eths i).channel_offset ∧
        e = { eth_qid := (k : Int), nfb_qid := (q : Int), ifname := (cfg.eths i).ifname } := by
  simp only [selected_owners, List.mem_flatMap, List.mem_range]
  constructor
  · rintro ⟨q, hq, he⟩
    by_cases hc : contains (q : Int) = true
    · rw [if_pos hc, mem_owners] at he
      obtain ⟨i, k, hi, hk, hm, rfl⟩ := he
      exact ⟨q, i, k, hq, hc, hi, hk, hm, rfl⟩
    · rw [if_neg hc] at he
      cases he
  · rintro ⟨q, i, k, hq, hc, hi, hk, hm, rfl⟩
    refine ⟨q, hq, ?_⟩
    rw [if_pos hc, mem_owners]
    exact ⟨i, k, hi, hk, hm, rfl⟩

theorem pairwise_of_length_le_one {α : Type} (R : α → α → Prop) (l : List α)
    (h : l.length ≤ 1) : l.Pairwise R := by
  match l, h with
  | [], _ => exact List.Pairwise.nil
  | [a], _ => exact List.pairwise_singleton R a
  | _ :: _ :: _, h => simp at h

/-- When every queue id has at most one owner, the owners of the selected
queue ids come in strictly ascending order of the queue id. -/
theorem selected_owners_ascending (cfg : SysfsConfig) (contains : Int → Bool)
    (hone : ∀ q : Int, (owners cfg q).length ≤ 1) :
    (selected_owners cfg contains).Pairwise (fun a b => a.nfb_qid < b.nfb_qid) := by
  simp only [selected_owners]
  rw [List.pairwise_flatMap]
  refine ⟨?_, ?_⟩
  · intro q _
    apply pairwise_of_length_le_one
    split_ifs
    · exact hone _
    · simp
  · refine List.Pairwise.imp ?_ (List.pairwise_lt_range _)
    intro q1 q2 hlt x hx y hy
    have hxq : x.nfb_qid = (q1 : Int) := by
      by_cases hc : contains (q1 : Int) = true
      · rw [if_pos hc, mem_owners] at hx
        obtain ⟨_, _, _, _, _, rfl⟩ := hx
        rfl
      · rw [if_neg hc] at hx
        cases hx
    have hyq : y.nfb_qid = (q2 : Int) := by
      by_cases hc : contains (q2 : Int) = true
      · rw [if_pos hc, mem_owners] at hy
        obtain ⟨_, _, _, _, _, rfl⟩ := hy
        rfl
      · rw [if_neg hc] at hy
        cases hy
    rw [hxq, hyq]
    exact_mod_cast hlt

theorem selected_owners_length_le (cfg : SysfsConfig) (contains : Int → Bool)
    (hone : ∀ q : Int, (owners cfg q).length ≤ 1) :
    (selected_owners cfg contains).length ≤ selected_count cfg contains := by
  simp only [selected_owners, selected_count]
  induction List.range cfg.channel_total.toNat with
  | nil => simp
  | cons q l ih =>
    rw [List.flatMap_cons, List.length_append, List.filter_cons]
    by_cases hc : contains (q : Int) = true
    · have h1 := hone (q : Int)
      simp only [hc, if_true, List.length_cons]
      omega
    · have hcf : contains (q : Int) = false := by simpa using hc
      simp only [hcf, Bool.false_eq_true, if_false, List.length_nil]
      omega

/-- The outcome of the mapping when the ethdevs fit into `eths` and no queue
id has two owners. -/
theorem parse_queues_eq (cfg : SysfsConfig) (queue_count : Nat) (contains : Int → Bool)
    (heth : cfg.ethdev_count ≤ (MAX_ETHDEV : Int)) (hdis : cfg.disjoint) :
    xdp_mode_common_parse_queues cfg queue_count contains true =
      if ((selected_owners cfg contains).take queue_count).length = 0 then
        ParseOutcome.exited (-1)
      else
        ParseOutcome.returned 0 (((selected_owners cfg contains).take queue_count).length : Int)
          ((selected_owners cfg contains).take queue_count) := by
  have hloop := nfb_qid_loop_eq queue_count cfg contains (owners_length_le_one cfg hdis)
    cfg.channel_total.toNat 0 [] (Nat.zero_le _)
  rw [← List.range_eq_range'] at hloop
  simp only [List.nil_append, List.length_nil, Nat.sub_zero] at hloop
  simp only [xdp_mode_common_parse_queues, if_neg (not_lt.mpr heth), Bool.not_true,
    Bool.false_eq_true, if_false, hloop, selected_owners]

/-- C30, counterexample: two ethdevs report queue id 0 as theirs, the queue
range holds queue id 0 only, so an array of one element is allocated; the
inner loops store a second element behind it. -/
theorem parse_queues_overlap_overruns :
    (1 : Nat) ≠ 0 ∧ overlapping_sysfs.ethdev_count ≤ (MAX_ETHDEV : Int) ∧
      selected_count overlapping_sysfs (single_queue 0) = 1 ∧
      xdp_mode_common_parse_queues overlapping_sysfs 1 (single_queue 0) true =
        ParseOutcome.out_of_bounds := by
  decide

/-- C30, amended: when at most `MAX_ETHDEV` ethdevs are reported, no queue id
belongs to two of them, the sums `eth_qid + channel_offset` fit into `int`
(where the integer sum of the model is the sum of the code) and the queue
range is not empty,
`xdp_mode_common_parse_queues` leaves with `exit(-1)` when the array cannot be
allocated or no entry was found, and otherwise returns 0 with `socket_cnt`
entries, where `1 ≤ socket_cnt ≤ queue_count`; the entries are the first
`queue_count` owners of selected queue ids, in strictly ascending `nfb_qid`
order, each with a selected `nfb_qid` below `channel_total`,
`nfb_qid = eth_qid + channel_offset` and `0 ≤ eth_qid < channel_count` of the
ethdev whose `ifname` it carries; when the range selects at most `queue_count`
ids below `channel_total`, every selected id of an ethdev has its entry. -/
theorem parse_queues_mapping (cfg : SysfsConfig) (queue_count : Nat) (contains : Int → Bool)
    (_hq : queue_count ≠ 0) (heth : cfg.ethdev_count ≤ (MAX_ETHDEV : Int))
    (hdis : cfg.disjoint) (_hfit : cfg.sums_fit_int) :
    xdp_mode_common_parse_queues cfg queue_count contains false = ParseOutcome.exited (-1) ∧
    (xdp_mode_common_parse_queues cfg queue_count contains true =
      if (selected_owners cfg contains).take queue_count = [] then ParseOutcome.exited (-1)
      else
        ParseOutcome.returned 0 (((selected_owners cfg contains).take queue_count).length : Int)
          ((selected_owners cfg contains).take queue_count)) ∧
    ∀ (ret socket_cnt : Int) (arr : List xsk_data),
      xdp_mode_common_parse_queues cfg queue_count contains true =
        ParseOutcome.returned ret socket_cnt arr →
      ret = 0 ∧ socket_cnt = (arr.length : Int) ∧ 1 ≤ socket_cnt ∧
      arr.length ≤ queue_count ∧
      arr.Pairwise (fun a b => a.nfb_qid < b.nfb_qid) ∧
      (∀ e ∈ arr,
        contains e.nfb_qid = true ∧ 0 ≤ e.nfb_qid ∧ e.nfb_qid < cfg.channel_total ∧
        ∃ i : Nat, i < cfg.ethdev_count.toNat ∧ e.ifname = (cfg.eths i).ifname ∧
          e.nfb_qid = e.eth_qid + (cfg.eths i).channel_offset ∧
          0 ≤ e.eth_qid ∧ e.eth_qid < (cfg.eths i).channel_count) ∧
      (selected_count cfg contains ≤ queue_count →
        ∀ q i k : Nat, q < cfg.channel_total.toNat → contains (q : Int) = true →
          i < cfg.ethdev_count.toNat → k < (cfg.eths i).channel_count.toNat →
          (q : Int) = (k : Int) + (cfg.eths i).channel_offset →
          ({ eth_qid := (k : Int), nfb_qid := (q : Int), ifname := (cfg.eths i).ifname } :
            xsk_data) ∈ arr) := by
  have hone := owners_length_le_one cfg hdis
  have heq := parse_queues_eq cfg queue_count contains heth hdis
  refine ⟨?_, ?_, ?_⟩
  · simp [xdp_mode_common_parse_queues, not_lt.mpr heth]
  · rw [heq]
    by_cases hnil : (selected_owners cfg contains).take queue_count = []
    · rw [if_pos hnil, if_pos (by rw [hnil]; rfl)]
    · rw [if_neg hnil, if_neg (by
        intro h0
        exact hnil (List.length_eq_zero.mp h0))]
  · intro ret socket_cnt arr h
    rw [heq] at h
    by_cases h0 : ((selected_owners cfg contains).take queue_count).length = 0
    · rw [if_pos h0] at h
      cases h
    · rw [if_neg h0] at h
      injection h with hret hcnt harr
      subst harr
      refine ⟨hret.symm, hcnt.symm, ?_, ?_, ?_, ?_, ?_⟩
      · rw [← hcnt]
        have : 1 ≤ ((selected_owners cfg contains).take queue_count).length := by omega
        exact_mod_cast this
      · exact List.length_take_le _ _
      · exact (selected_owners_ascending cfg contains hone).sublist (List.take_sublist _ _)
      · intro e he
        have hmem := (mem_selected_owners cfg contains e).mp (List.mem_of_mem_take he)
        obtain ⟨q, i, k, hq, hc, hi, hk, hm, rfl⟩ := hmem
        refine ⟨hc, Int.natCast_nonneg _, ?_, i, hi, rfl, hm, Int.natCast_nonneg _, ?_⟩
        · show (q : Int) < cfg.channel_total
          omega
        · show (k : Int) < (cfg.eths i).channel_count
          omega
      · intro hcount q i k hq hc hi hk hm
        have hlen := selected_owners_length_le cfg contains hone
        rw [List.take_of_length_le (by omega)]
        exact (mem_selected_owners cfg contains _).mpr ⟨q, i, k, hq, hc, hi, hk, hm, rfl⟩

theorem parse_queues_mapping_witness :
    (2 : Nat) ≠ 0 ∧ test_sysfs.ethdev_count ≤ (MAX_ETHDEV : Int) ∧ test_sysfs.disjoint ∧
    test_sysfs.sums_fit_int ∧ selected_count test_sysfs queues_1_3 ≤ 2 ∧
    xdp_mode_common_parse_queues test_sysfs 2 queues_1_3 true =
      ParseOutcome.returned 0 2
        [{ eth_qid := 1, nfb_qid := 1, ifname := "nfb0p0" },
         { eth_qid := 1, nfb_qid := 3, ifname := "nfb0p1" }] ∧
    xdp_mode_common_parse_queues test_sysfs 2 queues_1_3 false = ParseOutcome.exited (-1) ∧
    ([{ eth_qid := 1, nfb_qid := 1, ifname := "nfb0p0" },
      { eth_qid := 1, nfb_qid := 3, ifname := "nfb0p1" }] : List xsk_data).Pairwise
        (fun a b => a.nfb_qid < b.nfb_qid) ∧
    ({ eth_qid := ((1 : Nat) : Int), nfb_qid := ((3 : Nat) : Int),
       ifname := (test_sysfs.eths 1).ifname } : xsk_data) ∈
      ([{ eth_qid := 1, nfb_qid := 1, ifname := "nfb0p0" },
        { eth_qid := 1, nfb_qid := 3, ifname := "nfb0p1" }] : List xsk_data) := by
  have h1 : (2 : Nat) ≠ 0 := by decide
  have h2 : test_sysfs.ethdev_count ≤ (MAX_ETHDEV : Int) := by decide
  have h3 : test_sysfs.disjoint := by unfold SysfsConfig.disjoint; decide
  have h4 : test_sysfs.sums_fit_int := by unfold SysfsConfig.sums_fit_int; decide
  have h5 : selected_count test_sysfs queues_1_3 ≤ 2 := by decide
  have hret : xdp_mode_common_parse_queues test_sysfs 2 queues_1_3 true =
      ParseOutcome.returned 0 2
        [{ eth_qid := 1, nfb_qid := 1, ifname := "nfb0p0" },
         { eth_qid := 1, nfb_qid := 3, ifname := "nfb0p1" }] := by decide
  have hm := parse_queues_mapping test_sysfs 2 queues_1_3 h1 h2 h3 h4
  have hp := hm.2.2 0 2 _ hret
  exact ⟨h1, h2, h3, h4, h5, hret, hm.1, hp.2.2.2.2.1,
    hp.2.2.2.2.2.2 h5 3 1 1 (by decide) (by decide) (by decide) (by decide) (by decide)⟩

end NfbXdp
